import Mathlib

/-!
Verification of uvm: storage change tracking, contract call proxy, contract import,
arithmetic, conversion of Lua values to CBOR, the token contract, calls and the stack,
error slots, numerals and string helpers.

A shallow embedding of parts of the uvm sources:

* `simplechain/native_contract.cpp`: `set_contract_storage`, `get_contract_storage`,
  `emit_event` and the APIs of `token_native_contract`;
* `uvm/lauxlib.cpp`: `contract_api_wrapper_func`, `luaL_import_contract_module`,
  `luaL_import_contract_module_from_address`, `lua_real_execute_contract_api`,
  `lua_execute_contract_api`, `lua_type_to_storage_value_type_with_nested`,
  `luaL_to_cbor`, `luaL_push_cbor_as_json`;
* `uvm/lapi.cpp`: `luaL_traverse_table_with_nested`, `index2addr`, `lua_rotate`;
* `uvm/lobject.cpp`: `intarith`, `luaO_arith`, `luaO_int2fb`, `luaO_fb2int`, `l_str2int`,
  `luaO_str2num`, `luaO_chunkid`;
* `uvm/ldo.cpp`: `stackerror`, `luaD_call`, `moveresults`, the call depth of
  `luaD_precall` and `luaD_poscall`;
* `uvm/ldebug.cpp`: `lua_set_compile_error`, `lua_set_run_error`;
* `cbor_diff/helper.cpp`: `string_ends_with`, `string_without_ext`.

C++ objects that are mutated in place are passed and returned explicitly.
-/

namespace Uvm

/-! ## `std::map<std::string, V>` -/

/-- Lookup `m.find(k)`; `none` stands for `m.end()`. -/
def map_find {V : Type} : List (String × V) → String → Option V
  | [], _ => none
  | (k1, v) :: m, k => if k1 = k then some v else map_find m k

/-- Assignment `m[k] = v`: the value of an existing key is replaced, a missing key is added. -/
def map_assign {V : Type} : List (String × V) → String → V → List (String × V)
  | [], k, v => [(k, v)]
  | (k1, v1) :: m, k, v => if k1 = k then (k1, v) :: m else (k1, v1) :: map_assign m k v

/-- Subscript `m[k]` used as a reference: a missing key is first added with the
value-initialised element `dflt`; the element and the map as it is afterwards. -/
def map_subscript {V : Type} (m : List (String × V)) (k : String) (dflt : V) :
    V × List (String × V) :=
  match map_find m k with
  | some v => (v, m)
  | none => (dflt, map_assign m k dflt)

/-! ## Storage records (`simplechain`) -/

/-- The `StorageDataType` record: the serialised bytes of one storage value. -/
structure StorageDataType where
  storage_data : List Nat
deriving DecidableEq, Repr

/-- The `StorageDataChangeType` record: diff, pre-image and post-image of one slot. -/
structure StorageDataChangeType where
  storage_diff : StorageDataType
  before : StorageDataType
  after : StorageDataType
deriving DecidableEq, Repr

/-- A default-constructed `StorageDataChangeType`. -/
def StorageDataChangeType.dflt : StorageDataChangeType :=
  ⟨⟨[]⟩, ⟨[]⟩, ⟨[]⟩⟩

/-- The `contract_event_notify_info` record as `emit_event` fills it. -/
structure contract_event_notify_info where
  event_name : String
  event_arg : String
  block_num : Nat
deriving DecidableEq, Repr

/-- The `contract_invoke_result` record of one native contract invocation. -/
structure contract_invoke_result where
  api_result : String
  storage_changes : List (String × List (String × StorageDataChangeType))
  events : List contract_event_notify_info
  invoker : String
deriving DecidableEq, Repr

/-- The cbor_diff library functions that `set_contract_storage` calls; their code is not
among the files embedded here, so they are parameters of the embedding.
`cbor_decode` gives `none` where the C++ function throws on malformed bytes;
`diff a b` is `differ.diff(a, b)->value()`. -/
structure CborLib where
  CborObject : Type
  cbor_decode : List Nat → Option CborObject
  cbor_encode : CborObject → List Nat
  diff : CborObject → CborObject → CborObject

/-- Body of `native_contract_interface::set_contract_storage` (StorageDataType overload).
`get_storage` is `_evaluate->get_storage`; the result is `none` when `cbor_decode`
throws, in which case the exception leaves the function. -/
def set_contract_storage (lib : CborLib) (get_storage : String → String → StorageDataType)
    (res : contract_invoke_result) (contract_address storage_name : String)
    (value : StorageDataType) : Option contract_invoke_result :=
  let all0 :=
    if (map_find res.storage_changes contract_address).isNone then
      map_assign res.storage_changes contract_address []
    else res.storage_changes
  let (storage_changes, all1) := map_subscript all0 contract_address []
  if (map_find storage_changes storage_name).isNone then
    let after := value
    let before := get_storage contract_address storage_name
    match lib.cbor_decode before.storage_data with
    | none => none
    | some before_cbor =>
      match lib.cbor_decode after.storage_data with
      | none => none
      | some after_cbor =>
        let change : StorageDataChangeType :=
          { after := after
            storage_diff := ⟨lib.cbor_encode (lib.diff before_cbor after_cbor)⟩
            before := before }
        some { res with
          storage_changes := map_assign all1 contract_address
            (map_assign storage_changes storage_name change) }
  else
    let (change, inner1) := map_subscript storage_changes storage_name StorageDataChangeType.dflt
    let before := change.before
    let after := value
    match lib.cbor_decode before.storage_data with
    | none => none
    | some before_cbor =>
      match lib.cbor_decode after.storage_data with
      | none => none
      | some after_cbor =>
        let change1 : StorageDataChangeType :=
          { change with
            after := after
            storage_diff := ⟨lib.cbor_encode (lib.diff before_cbor after_cbor)⟩ }
        some { res with
          storage_changes := map_assign all1 contract_address
            (map_assign inner1 storage_name change1) }

/-- Body of `native_contract_interface::get_contract_storage`: the value returned and the
invocation result as the call leaves it (the subscripts `m[k]` are modelled as in C++,
adding a missing key). -/
def get_contract_storage (get_storage : String → String → StorageDataType)
    (res : contract_invoke_result) (contract_address storage_name : String) :
    StorageDataType × contract_invoke_result :=
  if (map_find res.storage_changes contract_address).isNone then
    (get_storage contract_address storage_name, res)
  else
    let (storage_changes, all1) := map_subscript res.storage_changes contract_address []
    if (map_find storage_changes storage_name).isNone then
      (get_storage contract_address storage_name, { res with storage_changes := all1 })
    else
      let (change, inner1) :=
        map_subscript storage_changes storage_name StorageDataChangeType.dflt
      (change.after,
        { res with storage_changes := map_assign all1 contract_address inner1 })

/-- The change recorded for `(contract_address, storage_name)`, if any. -/
def recorded_change (res : contract_invoke_result) (contract_address storage_name : String) :
    Option StorageDataChangeType :=
  (map_find res.storage_changes contract_address).bind (fun m => map_find m storage_name)

/-- One call of `set_contract_storage`, with the host storage view at the time of the call. -/
structure StorageWrite where
  get_storage : String → String → StorageDataType
  contract_address : String
  storage_name : String
  value : StorageDataType

/-- A sequence of `set_contract_storage` calls of one invocation, in program order. -/
def run_writes (lib : CborLib) :
    contract_invoke_result → List StorageWrite → Option contract_invoke_result
  | res, [] => some res
  | res, w :: ws =>
    match set_contract_storage lib w.get_storage res w.contract_address w.storage_name
        w.value with
    | none => none
    | some res1 => run_writes lib res1 ws

/-- The first call of the sequence that writes `(c, s)`. -/
def first_write : List StorageWrite → String → String → Option StorageWrite
  | [], _, _ => none
  | w :: ws, c, s =>
    if w.contract_address = c ∧ w.storage_name = s then some w else first_write ws c s

/-- The last call of the sequence that writes `(c, s)`. -/
def last_write : List StorageWrite → String → String → Option StorageWrite
  | [], _, _ => none
  | w :: ws, c, s =>
    match last_write ws c s with
    | some l => some l
    | none => if w.contract_address = c ∧ w.storage_name = s then some w else none

/-- The record `set_contract_storage` builds from a pre-image and a post-image:
`storage_diff = cbor_encode(diff(cbor_decode(before), cbor_decode(after)))`. -/
def change_of (lib : CborLib) (before after : StorageDataType) : Option StorageDataChangeType :=
  match lib.cbor_decode before.storage_data, lib.cbor_decode after.storage_data with
  | some b, some a =>
    some { storage_diff := ⟨lib.cbor_encode (lib.diff b a)⟩, before := before, after := after }
  | _, _ => none

/-- Modelled from the spec: the part of the cbor_diff library whose code is not embedded
here, as the spec states it: `apply` is the application of a diff to a value, decoding
undoes encoding (`decode(encode(x)) == x`), and applying the diff of a pre-image and a
post-image to the pre-image yields the post-image. -/
structure CborDiffSpec (lib : CborLib) where
  apply : lib.CborObject → lib.CborObject → lib.CborObject
  decode_encode : ∀ x, lib.cbor_decode (lib.cbor_encode x) = some x
  apply_diff : ∀ a b, apply a (lib.diff a b) = b

/-- A small instance of the library: values are their own encoding and a diff is the
new value. -/
def replaceLib : CborLib :=
  { CborObject := List Nat, cbor_decode := some, cbor_encode := id, diff := fun _ b => b }

/-- The instance `replaceLib` meets the laws of `CborDiffSpec`. -/
def replaceSpec : CborDiffSpec replaceLib :=
  { apply := fun _ d => d, decode_encode := fun _ => rfl, apply_diff := fun _ _ => rfl }

/-- An invocation result at the start of an invocation. -/
def emptyResult : contract_invoke_result := ⟨"", [], [], ""⟩

/-- Host storage in which every slot holds the byte 0. -/
def hostZero : String → String → StorageDataType := fun _ _ => ⟨[0]⟩

/-- Host storage in which every slot holds the byte 9. -/
def hostNine : String → String → StorageDataType := fun _ _ => ⟨[9]⟩

/-- Three writes: slot `s`, then slot `t`, then slot `s` again, the host storage having
changed after the first one. -/
def demoWrites : List StorageWrite :=
  [⟨hostZero, "c", "s", ⟨[1]⟩⟩, ⟨hostNine, "c", "t", ⟨[2]⟩⟩, ⟨hostNine, "c", "s", ⟨[3]⟩⟩]

/-- The invocation result after `demoWrites`. -/
def demoResult : contract_invoke_result :=
  ⟨"", [("c", [("s", ⟨⟨[3]⟩, ⟨[0]⟩, ⟨[3]⟩⟩), ("t", ⟨⟨[2]⟩, ⟨[9]⟩, ⟨[2]⟩⟩)])], [], ""⟩

/-! ## Contract API execution (`lauxlib.cpp`, `lapi.cpp`) -/

/-- Values on the Lua stack, as far as the execution entry points look at them. -/
inductive LuaValue where
  | nil
  | boolean (b : Bool)
  | integer (n : Int)
  /-- A `lua_Number`; the payload only tells numbers apart -/
  | number (n : Int)
  | string (s : String)
  | table (addr : Nat)
  | function (addr : Nat)
  | userdata (addr : Nat)
  | lightuserdata (addr : Nat)
  | thread (addr : Nat)
  /-- The C closure `contract_api_wrapper_func` with its three upvalues -/
  | proxy (api_func : LuaValue) (contract_id api_name : String)
deriving DecidableEq, Repr

/-- Basic type tags returned by `lua_type` (`LUA_TNIL`, `LUA_TBOOLEAN`, ...). -/
inductive LuaType where
  | LUA_TNIL | LUA_TBOOLEAN | LUA_TLIGHTUSERDATA | LUA_TNUMBER | LUA_TSTRING | LUA_TTABLE
  | LUA_TFUNCTION | LUA_TUSERDATA | LUA_TTHREAD
deriving DecidableEq, Repr

/-- Type tag `lua_type(L, idx)` of a value (integers and numbers share `LUA_TNUMBER`). -/
def lua_type : LuaValue → LuaType
  | .nil => .LUA_TNIL
  | .boolean _ => .LUA_TBOOLEAN
  | .integer _ => .LUA_TNUMBER
  | .number _ => .LUA_TNUMBER
  | .string _ => .LUA_TSTRING
  | .table _ => .LUA_TTABLE
  | .function _ => .LUA_TFUNCTION
  | .userdata _ => .LUA_TUSERDATA
  | .lightuserdata _ => .LUA_TLIGHTUSERDATA
  | .thread _ => .LUA_TTHREAD
  | .proxy _ _ _ => .LUA_TFUNCTION

/-- The macro `l_isfalse(o)`, whose definition is not in the embedded files: nil and the
boolean false are the two false values of the language. -/
def l_isfalse : LuaValue → Bool
  | .nil => true
  | .boolean false => true
  | _ => false

/-- Body of `lua_toboolean`: `!l_isfalse(o)`. -/
def lua_toboolean (o : LuaValue) : Bool := !l_isfalse o

/-- Test `lua_istable`. -/
def lua_istable (o : LuaValue) : Bool := lua_type o == .LUA_TTABLE

/-- Test `lua_isfunction`. -/
def lua_isfunction (o : LuaValue) : Bool := lua_type o == .LUA_TFUNCTION

/-- Status code `LUA_OK`. -/
def LUA_OK : Int := 0

/-- Status code `LUA_ERRRUN`. -/
def LUA_ERRRUN : Int := 2

/-- Stored argument type tags `UvmTypeInfoEnum`; `LTI_OTHER` stands for every tag that
`isArgTypeMatched` sends to its default case. -/
inductive UvmTypeInfoEnum where
  | LTI_NIL | LTI_STRING | LTI_INT | LTI_NUMBER | LTI_BOOL | LTI_OTHER
deriving DecidableEq, Repr

/-- Body of `isArgTypeMatched`. -/
def isArgTypeMatched (storedType : UvmTypeInfoEnum) (inputType : LuaType) : Bool :=
  match storedType with
  | .LTI_NIL => inputType == .LUA_TNIL
  | .LTI_STRING => inputType == .LUA_TSTRING
  | .LTI_INT => inputType == .LUA_TNUMBER
  | .LTI_NUMBER => inputType == .LUA_TNUMBER
  | .LTI_BOOL => inputType == .LUA_TBOOLEAN
  | .LTI_OTHER => false

/-- What the collaborators of `lua_real_execute_contract_api` answer during one run.
The host interface, the module import and the interpreter are not part of the embedding;
each field is the answer the code reads at the named place. -/
structure ApiRun where
  /-- Argument `contract_name` -/
  contract_name : String
  /-- Result of `starts_with(contract_name, STREAM_CONTRACT_PREFIX) ||
  starts_with(contract_name, ADDRESS_CONTRACT_PREFIX)` -/
  name_is_stream_or_address : Bool
  /-- Result of `check_contract_exist(L, contract_name)` -/
  contract_exists : Bool
  /-- Value of `_LOADED[wrapper_contract_name]` after `luaL_import_contract_module` -/
  loaded : LuaValue
  /-- Argument `api_name` -/
  api_name : String
  /-- Value of the field `api_name` of the contract table, read by `lua_getfield` -/
  api_field : LuaValue
  /-- Argument types by API name, `none` when `get_stored_contract_info_by_address`
  returns false -/
  contract_api_arg_types : Option (List (String × List UvmTypeInfoEnum))
  /-- Values that `luaL_push_cbor_as_json` pushes for the arguments, in order -/
  args : List LuaValue
  /-- Status returned by `lua_pcall` of the API -/
  pcall_status : Int
  /-- Value `lua_pcall` leaves on the stack: the result, or the error object -/
  pcall_value : LuaValue
  /-- Test `L->state & (LVM_STATE_BREAK | LVM_STATE_SUSPEND)` -/
  break_or_suspend : Bool
  /-- Result of `malloc_managed_string` being non-null -/
  malloc_ok : Bool
  /-- Result of `luaL_commit_storage_changes` -/
  commit_ok : Bool

/-- Return value of `lua_real_execute_contract_api` with the Lua stack (bottom first) it
leaves. Calls of `global_uvm_chain_api->throw_exception` record the error in the host and
return to the caller, as every call site relies on (each is followed by its own `return`,
and `lua_docompiledfile` calls it inside a `catch` block before returning `LUA_ERRRUN`). -/
structure RealResult where
  ret : Int
  stack : List LuaValue
deriving DecidableEq, Repr

/-- The loop of `lua_real_execute_contract_api` that pushes the arguments and checks
their types: `none` when all are pushed, else the stack at the `return 0` (the list of
stored types is as long as the argument list whenever types are checked). -/
def push_args (check_arg_type : Bool) :
    List LuaValue → List UvmTypeInfoEnum → List LuaValue → Option (List LuaValue)
  | [], _, _ => none
  | arg :: rest, types, stack =>
    let stack1 := stack ++ [arg]
    if check_arg_type then
      match types with
      | [] => some stack1
      | t :: ts =>
        if !isArgTypeMatched t (lua_type arg) then some stack1
        else push_args check_arg_type rest ts stack1
    else push_args check_arg_type rest [] stack1

/-- Body of `lua_real_execute_contract_api`; `stack0` is the Lua stack at entry. -/
def lua_real_execute_contract_api (env : ApiRun) (stack0 : List LuaValue) : RealResult :=
  if !env.name_is_stream_or_address && !env.contract_exists then
    -- throw_exception; lua_pushinteger(L, LUA_ERRRUN); return 0
    ⟨0, stack0 ++ [.integer LUA_ERRRUN]⟩
  else
    -- lua_pushstring(contract_name); luaL_import_contract_module(L); lua_settop(L, 1)
    let bottom := (stack0 ++ [LuaValue.string env.contract_name]).take 1
    -- lua_getfield(_LOADED); lua_getfield(L, 2, wrapper_contract_name)
    let stack3 := bottom ++ [LuaValue.table 0, env.loaded]
    if !lua_toboolean env.loaded then
      ⟨0, stack3 ++ [.integer LUA_ERRRUN]⟩
    else if !lua_istable env.loaded then
      ⟨0, stack3 ++ [.integer LUA_ERRRUN]⟩
    else
      -- lua_fill_contract_info_for_use, name, id, special API removal: stack unchanged
      let stack4 := stack3 ++ [env.api_field]
      if lua_isfunction env.api_field then
        let stack5 := stack4 ++ [env.loaded]
        match env.contract_api_arg_types with
        | none => ⟨0, stack5⟩
        | some all_types =>
          let check_arg_type := decide (all_types.length > 0)
          if check_arg_type && (map_find all_types env.api_name).isNone then ⟨0, stack5⟩
          else
            let arg_types := if check_arg_type then (map_find all_types env.api_name).getD []
              else []
            let input_args_num := env.args.length
            if check_arg_type && decide (arg_types.length ≠ input_args_num) then ⟨0, stack5⟩
            else if !check_arg_type && (decide (input_args_num ≠ 1) &&
                decide (env.api_name ≠ "init")) then ⟨0, stack5⟩
            else
              match push_args check_arg_type env.args arg_types stack5 with
              | some stack_at_return => ⟨0, stack_at_return⟩
              | none =>
                -- lua_pcall: function, self and arguments are replaced by one value
                let stack6 := stack3 ++ [env.pcall_value]
                if env.pcall_status ≠ LUA_OK then ⟨0, stack6⟩
                else if env.break_or_suspend then ⟨env.pcall_status, stack6⟩
                else
                  -- lua_pop(L, 1); lua_pop(L, 1); lua_pop(L, 1); lua_pushinteger(L, LUA_OK)
                  ⟨1, (stack3.take (stack3.length - 2)) ++ [.integer LUA_OK]⟩
      else
        -- throw_exception; lua_pop(L, 1); return 0
        ⟨0, stack3⟩

/-- Return value of `lua_execute_contract_api` and whether `luaL_commit_storage_changes`
was called. -/
structure ExecResult where
  ret : Int
  commit_attempted : Bool
deriving DecidableEq, Repr

/-- Body of `lua_execute_contract_api` (the `try` block; no C++ exception arises in the
embedded part). -/
def lua_execute_contract_api (env : ApiRun) (stack0 : List LuaValue) : ExecResult :=
  if !env.malloc_ok then ⟨LUA_ERRRUN, false⟩
  else
    let r := lua_real_execute_contract_api env stack0
    let status := r.ret
    if status = LUA_OK && env.break_or_suspend then ⟨status, false⟩
    else if r.stack.length < 1 then ⟨LUA_ERRRUN, false⟩
    else
      let result : Int := if lua_toboolean (r.stack.getLast?.getD .nil) then 1 else 0
      if result ≠ 0 && !env.break_or_suspend then
        let result1 : Int := if env.commit_ok then 1 else 0
        ⟨if result1 > 0 then LUA_OK else LUA_ERRRUN, true⟩
      else ⟨if result > 0 then LUA_OK else LUA_ERRRUN, false⟩

/-- A run whose contract the host does not know. -/
def missingContractRun : ApiRun :=
  { contract_name := "token", name_is_stream_or_address := false, contract_exists := false, loaded := .nil,
    api_name := "transfer", api_field := .nil, contract_api_arg_types := none, args := [],
    pcall_status := 0, pcall_value := .nil, break_or_suspend := false, malloc_ok := true,
    commit_ok := true }

/-- A run in which the contract table has no function under the API name. -/
def missingApiRun : ApiRun :=
  { contract_name := "token", name_is_stream_or_address := false, contract_exists := true, loaded := .table 1,
    api_name := "nosuchapi", api_field := .nil, contract_api_arg_types := some [], args := [],
    pcall_status := 0, pcall_value := .nil, break_or_suspend := false, malloc_ok := true,
    commit_ok := true }

/-- A run in which the API raises a runtime error with a message. -/
def runtimeErrorRun : ApiRun :=
  { contract_name := "token", name_is_stream_or_address := false, contract_exists := true, loaded := .table 1,
    api_name := "transfer", api_field := .function 7, contract_api_arg_types := some [],
    args := [.string "B,300"], pcall_status := 2, pcall_value := .string "integer overflow",
    break_or_suspend := false, malloc_ok := true, commit_ok := true }

/-- A run that finds `_LOADED[name] = true`, the value `update_loaded_func` stores when an
earlier import in the same state was given up; no `throw_exception` call is made. -/
def staleLoadedRun : ApiRun :=
  { contract_name := "token", name_is_stream_or_address := false, contract_exists := true,
    loaded := .boolean true, api_name := "transfer", api_field := .nil,
    contract_api_arg_types := none, args := [], pcall_status := 0, pcall_value := .nil,
    break_or_suspend := false, malloc_ok := true, commit_ok := true }

/-! ## Integer arithmetic (`lobject.cpp`) -/

/-- Arithmetic operation codes `LUA_OPADD` ... `LUA_OPBNOT`. -/
inductive ArithOp where
  | LUA_OPADD | LUA_OPSUB | LUA_OPMUL | LUA_OPMOD | LUA_OPPOW | LUA_OPDIV | LUA_OPIDIV
  | LUA_OPBAND | LUA_OPBOR | LUA_OPBXOR | LUA_OPSHL | LUA_OPSHR | LUA_OPUNM | LUA_OPBNOT
deriving DecidableEq, Repr

/-- The C operator token handed to `intop`. -/
inductive COperator where
  | plus | minus | times | bitand | bitor | bitxor
deriving DecidableEq, Repr

/-- Mathematical value of a C operator on integers. -/
def COperator.eval : COperator → Int → Int → Int
  | .plus, a, b => a + b
  | .minus, a, b => a - b
  | .times, a, b => a * b
  | .bitand, a, b => Int.land a b
  | .bitor, a, b => Int.lor a b
  | .bitxor, a, b => Int.xor a b

/-- Smallest `lua_Integer`. -/
def LUA_MININTEGER : Int := -(2 ^ 63)

/-- Largest `lua_Integer`. -/
def LUA_MAXINTEGER : Int := 2 ^ 63 - 1

/-- Modelled from the spec: the macro `intop(op, v1, v2)`, whose definition is not in the
embedded files. The spec has integer arithmetic trap on overflow (an error, never a
wrapped value), the error being "integer overflow": the result is the mathematical one when
it fits the 64-bit signed range and an error otherwise. -/
def intop (op : COperator) (v1 v2 : Int) : Except String Int :=
  let r := op.eval v1 v2
  if LUA_MININTEGER ≤ r ∧ r ≤ LUA_MAXINTEGER then .ok r else .error "integer overflow"

/-- A `TValue` as `luaO_arith` looks at it: an integer, a number, or a value of another
type. -/
inductive TValue (Num : Type) where
  | integer (i : Int)
  | number (n : Num)
  | other (tag : Nat)

/-- Functions and macros used by `intarith`, `numarith` and `luaO_arith` whose code is not
in the files embedded here (`lvm`, `safe_number`), as parameters. `pow_create a b` is
`safe_number_create(std::pow(a, b))` and `fmod_create a b` is
`safe_number_create(std::to_string(fmod(a, b)))`. -/
structure ArithEnv where
  Num : Type
  tointeger : TValue Num → Option Int
  tonumber : TValue Num → Option Num
  luaV_mod : Int → Int → Except String Int
  luaV_div : Int → Int → Except String Int
  luaV_shiftl : Int → Int → Int
  safe_number_add : Num → Num → Num
  safe_number_minus : Num → Num → Num
  safe_number_multiply : Num → Num → Num
  safe_number_div : Num → Num → Num
  safe_number_idiv : Num → Num → Num
  safe_number_neg : Num → Num
  safe_number_to_int64 : Num → Int
  pow_create : Int → Int → Num
  fmod_create : Int → Int → Num
  safe_number_zero : Num

/-- Body of `intarith`. -/
def intarith (env : ArithEnv) (op : ArithOp) (v1 v2 : Int) : Except String Int :=
  match op with
  | .LUA_OPADD => intop .plus v1 v2
  | .LUA_OPSUB => intop .minus v1 v2
  | .LUA_OPMUL => intop .times v1 v2
  | .LUA_OPMOD => env.luaV_mod v1 v2
  | .LUA_OPIDIV => env.luaV_div v1 v2
  | .LUA_OPBAND => intop .bitand v1 v2
  | .LUA_OPBOR => intop .bitor v1 v2
  | .LUA_OPBXOR => intop .bitxor v1 v2
  | .LUA_OPSHL => .ok (env.luaV_shiftl v1 v2)
  | .LUA_OPSHR => .ok (env.luaV_shiftl v1 (-v2))
  | .LUA_OPUNM => intop .minus 0 v1
  | .LUA_OPBNOT => intop .bitxor (-1) v1
  | _ => .ok 0

/-- Body of `numarith`. -/
def numarith (env : ArithEnv) (op : ArithOp) (v1 v2 : env.Num) : env.Num :=
  match op with
  | .LUA_OPADD => env.safe_number_add v1 v2
  | .LUA_OPSUB => env.safe_number_minus v1 v2
  | .LUA_OPMUL => env.safe_number_multiply v1 v2
  | .LUA_OPDIV => env.safe_number_div v1 v2
  | .LUA_OPPOW =>
    env.pow_create (env.safe_number_to_int64 v1) (env.safe_number_to_int64 v2)
  | .LUA_OPIDIV => env.safe_number_idiv v1 v2
  | .LUA_OPUNM => env.safe_number_neg v1
  | .LUA_OPMOD =>
    env.fmod_create (env.safe_number_to_int64 v1) (env.safe_number_to_int64 v2)
  | _ => env.safe_number_zero

/-- What `luaO_arith` does with `res`: stores an integer, stores a number, leaves by an
error raised inside the operation, or hands over to `luaT_trybinTM`. -/
inductive ArithOutcome (Num : Type) where
  | stored_integer (i : Int)
  | stored_number (n : Num)
  | raised (msg : String)
  | trybinTM (op : ArithOp)

/-- The statement `setivalue(res, intarith(L, op, i1, i2)); return;`. -/
def setivalue_intarith (env : ArithEnv) (op : ArithOp) (i1 i2 : Int) : ArithOutcome env.Num :=
  match intarith env op i1 i2 with
  | .ok r => .stored_integer r
  | .error msg => .raised msg

/-- Body of `luaO_arith`. -/
def luaO_arith (env : ArithEnv) (op : ArithOp) (p1 p2 : TValue env.Num) :
    ArithOutcome env.Num :=
  match op with
  | .LUA_OPBAND | .LUA_OPBOR | .LUA_OPBXOR | .LUA_OPSHL | .LUA_OPSHR | .LUA_OPBNOT =>
    match env.tointeger p1, env.tointeger p2 with
    | some i1, some i2 => setivalue_intarith env op i1 i2
    | _, _ => .trybinTM op
  | .LUA_OPDIV | .LUA_OPPOW =>
    match env.tonumber p1, env.tonumber p2 with
    | some n1, some n2 => .stored_number (numarith env op n1 n2)
    | _, _ => .trybinTM op
  | _ =>
    match p1, p2 with
    | .integer i1, .integer i2 => setivalue_intarith env op i1 i2
    | _, _ =>
      match env.tonumber p1, env.tonumber p2 with
      | some n1, some n2 => .stored_number (numarith env op n1 n2)
      | _, _ => .trybinTM op

/-- The mathematical result of add, sub, mul and unary minus on integers. -/
def exact_result : ArithOp → Int → Int → Int
  | .LUA_OPADD, a, b => a + b
  | .LUA_OPSUB, a, b => a - b
  | .LUA_OPMUL, a, b => a * b
  | .LUA_OPUNM, a, _ => -a
  | _, _, _ => 0

/-- An instance of `ArithEnv` over integers-as-numbers, for evaluation. -/
def intEnv : ArithEnv :=
  { Num := Int
    tointeger := fun v => match v with
      | .integer i => some i
      | .number n => some n
      | .other _ => none
    tonumber := fun v => match v with
      | .integer i => some i
      | .number n => some n
      | .other _ => none
    luaV_mod := fun a b => if b = 0 then .error "attempt to perform 'n%%0'" else .ok (a % b)
    luaV_div := fun a b => if b = 0 then .error "attempt to divide by zero" else .ok (a / b)
    luaV_shiftl := fun a _ => a
    safe_number_add := fun a b => a + b
    safe_number_minus := fun a b => a - b
    safe_number_multiply := fun a b => a * b
    safe_number_div := fun a b => a / b
    safe_number_idiv := fun a b => a / b
    safe_number_neg := fun a => -a
    safe_number_to_int64 := fun a => a
    pow_create := fun a b => a ^ b.toNat
    fmod_create := fun a b => a % b
    safe_number_zero := 0 }

/-! ## Contract call proxy (`lauxlib.cpp`) -/

/-- The `contract_info_stack_entry` record. -/
structure contract_info_stack_entry where
  contract_id : String
  storage_contract_id : String
  api_name : String
  call_type : String
deriving DecidableEq, Repr

/-- The parts of `lua_State` that `contract_api_wrapper_func` reads and writes.
`contract_info_stack` is the stack that `get_using_contract_id_stack(L, true)` returns,
top first, `none` for a null pointer; `break_or_suspend` is the test
`L->state & (LVM_STATE_BREAK | LVM_STATE_SUSPEND)`. -/
structure ProxyState where
  next_delegate_call_flag : Bool
  call_op_msg : Nat
  break_or_suspend : Bool
  contract_info_stack : Option (List contract_info_stack_entry)
deriving DecidableEq, Repr

/-- How `lua_call` of the wrapped API function ends: it returns, or an error is raised
and control leaves the calling C function (`luaD_throw`). -/
inductive CallOutcome where
  | returned (L : ProxyState)
  | raised (L : ProxyState)
deriving DecidableEq, Repr

/-- How `contract_api_wrapper_func` ends: it returns a result count, or the error raised
inside `lua_call` passes through it. -/
inductive WrapperOutcome where
  | returned (nresults : Nat) (L : ProxyState)
  | raised (L : ProxyState)
deriving DecidableEq, Repr

/-- First part of `contract_api_wrapper_func`, up to `contract_info_stack->push`: the
entry pushed and the state with which `lua_call` is entered; `none` when the stack pointer
is null. `UOP_CSTATICCALL` is the opcode constant, whose value is not in the embedded
files. -/
def contract_api_wrapper_enter (UOP_CSTATICCALL : Nat) (contract_id api_name : String)
    (L : ProxyState) : Option (contract_info_stack_entry × ProxyState) :=
  match L.contract_info_stack with
  | none => none
  | some stack =>
    let storage_contract_id :=
      if L.next_delegate_call_flag then
        match stack with
        | top :: _ => top.storage_contract_id
        | [] => contract_id
      else contract_id
    let flag := if L.next_delegate_call_flag then false else L.next_delegate_call_flag
    let call_type := if L.call_op_msg = UOP_CSTATICCALL then "STATIC_CALL" else "CALL"
    let stack_entry : contract_info_stack_entry :=
      { contract_id := contract_id, storage_contract_id := storage_contract_id,
        api_name := api_name, call_type := call_type }
    some (stack_entry,
      { L with next_delegate_call_flag := flag, call_op_msg := 0,
               contract_info_stack := some (stack_entry :: stack) })

/-- Body of `contract_api_wrapper_func`; `api_func` is the wrapped function as `lua_call`
runs it. -/
def contract_api_wrapper_func (UOP_CSTATICCALL : Nat) (contract_id api_name : String)
    (api_func : ProxyState → CallOutcome) (L : ProxyState) : WrapperOutcome :=
  match contract_api_wrapper_enter UOP_CSTATICCALL contract_id api_name L with
  | none => .returned 0 L
  | some (_, L1) =>
    match api_func L1 with
    | .raised L2 => .raised L2
    | .returned L2 =>
      if L2.break_or_suspend then .returned 0 L2
      else
        match L2.contract_info_stack with
        | some (_ :: rest) => .returned 1 { L2 with contract_info_stack := some rest }
        | _ => .returned 1 L2

/-- The state in which a wrapper outcome leaves the VM. -/
def WrapperOutcome.state : WrapperOutcome → ProxyState
  | .returned _ L => L
  | .raised L => L

/-- A state with an empty identity stack, no pending delegate call and call opcode 36. -/
def idleState : ProxyState :=
  { next_delegate_call_flag := false, call_op_msg := 36, break_or_suspend := false,
    contract_info_stack := some [] }

/-- An API function that raises an error at once. -/
def raisingApi : ProxyState → CallOutcome := fun L => .raised L

/-- An API function that returns at once. -/
def returningApi : ProxyState → CallOutcome := fun L => .returned L

/-- An API function during which the VM enters the break state. -/
def breakingApi : ProxyState → CallOutcome :=
  fun L => .returned { L with break_or_suspend := true }

/-- The entry of a caller `A` that runs on the storage of `S`. -/
def callerEntry : contract_info_stack_entry :=
  { contract_id := "A", storage_contract_id := "S", api_name := "run", call_type := "CALL" }

/-- A state in which contract `A` is running and a delegate call is pending. -/
def delegatingState : ProxyState :=
  { next_delegate_call_flag := true, call_op_msg := 36, break_or_suspend := false,
    contract_info_stack := some [callerEntry] }

/-! ## Contract import (`lauxlib.cpp`) -/

/-- The C string that starts at the first character of a text: what stands before the
first NUL. -/
def c_str (s : String) : String :=
  String.mk (s.data.takeWhile (fun c => c != Char.ofNat 0))

/-- Keys of a contract module table: a string, a number (held with the text that
`lua_tostring` converts it to), or a key for which `lua_isstring` is false (boolean,
table, function, userdata). -/
inductive LuaKey where
  | str (s : String)
  | number (text : String)
  | nonstring (id : Nat)
deriving DecidableEq, Repr

/-- What `lua_tostring(L, -2)` does with the key of a traversal: the C string it returns
and the key it leaves on the stack, `none` when it returns NULL (`lua_isstring` is
false). A string stays as it is; a number is converted in place, so that the stack then
holds the string of its text. -/
def lua_tostring_key : LuaKey → Option (String × LuaKey)
  | .str s => some (c_str s, .str s)
  | .number text => some (c_str text, .str text)
  | .nonstring _ => none

/-- Raw read of a table field; `nil` for a missing key. -/
def table_get : List (LuaKey × LuaValue) → LuaKey → LuaValue
  | [], _ => .nil
  | (k1, v) :: t, k => if k1 = k then v else table_get t k

/-- Raw assignment of a non-nil value to a key. -/
def table_assign : List (LuaKey × LuaValue) → LuaKey → LuaValue → List (LuaKey × LuaValue)
  | [], k, v => [(k, v)]
  | (k1, v1) :: t, k, v => if k1 = k then (k1, v) :: t else (k1, v1) :: table_assign t k v

/-- Effect of `lua_setfield(L, idx, k)` (and of `lua_rawset` with a string key) on the
table: assigning nil removes the key. The metamethods of `contract_mt` are not part of the
embedding; during an import `allow_contract_modify` names the table being filled. -/
def lua_setfield (t : List (LuaKey × LuaValue)) (k : String) (v : LuaValue) :
    List (LuaKey × LuaValue) :=
  if v = .nil then t.filter (fun e => decide (e.1 ≠ .str k)) else table_assign t (.str k) v

/-- Effect of `lua_getfield(L, idx, k)`: the value pushed. -/
def lua_getfield (t : List (LuaKey × LuaValue)) (k : String) : LuaValue :=
  table_get t (.str k)

/-- The entries that follow the entry of the key `k` in a table, `none` when the table
does not hold the key. -/
def entries_after : List (LuaKey × LuaValue) → LuaKey → Option (List (LuaKey × LuaValue))
  | [], _ => none
  | e :: rest, k => if e.1 = k then some rest else entries_after rest k

/-- Step `lua_next(L, idx)` of a traversal with `key` on top of the stack (`none` for the
nil that starts the traversal), the entries of the table being visited in the order of
the list: `some none` at the end of the table, else the next entry. The outer `none`
stands for the error "invalid key to 'next'" that `luaH_next` raises, as in Lua 5.3, for
a key that the table does not hold (`ltable.cpp` is not among the embedded files). -/
def lua_next (t : List (LuaKey × LuaValue)) :
    Option LuaKey → Option (Option (LuaKey × LuaValue))
  | none => some t.head?
  | some k => (entries_after t k).map List.head?

/-- A value as the module loader leaves it on the stack and as `_LOADED` holds it: nil, a
table with its fields, or a value of another type. -/
inductive ModuleValue where
  | nil
  | table (addr : Nat) (fields : List (LuaKey × LuaValue))
  | other (v : LuaValue)
deriving DecidableEq, Repr

/-- Test `lua_toboolean` on a module value. -/
def ModuleValue.toboolean : ModuleValue → Bool
  | .nil => false
  | .table _ _ => true
  | .other v => lua_toboolean v

/-- Constants and tables of the import code whose values are not in the embedded
files. -/
structure ImportConsts where
  UVM_CONTRACT_APIS_LIMIT : Nat
  UVM_CONTRACT_API_NAME_MAX_LENGTH : Nat
  contract_special_api_names : List String

/-- What the collaborators of the import functions answer during one call. -/
structure ImportRun where
  /-- Resolved name, the key of the module in `_LOADED` -/
  filename : String
  /-- Result of the contract existence check -/
  contract_exists : Bool
  /-- Value on top of the stack after `lua_pcall` of the module loader -/
  module_value : ModuleValue
  /-- API list of `get_stored_contract_info_by_address`, `none` when it returns false -/
  stored_contract_apis : Option (List String)
  /-- Contract id, `get_contract_id_using_in_lua` or the address argument -/
  contract_id : String
  /-- Result of `get_contract_name_using_in_lua` -/
  contract_name : String
  /-- Result of `get_starting_contract_address` -/
  starting_contract_address : String
  /-- Addresses of the two tables `lua_fill_contract_info_for_use` creates -/
  data_addr : Nat
  storage_addr : Nat
  /-- Test `strlen(L->compile_error) > 0 || strlen(L->runerror) > 0` when the function is
  left (read by `luaL_import_contract_module_from_address` only; on an API mismatch that
  function fills `L->compile_error` itself) -/
  error_recorded : Bool

/-- How a key traversal that fills `contract_apis` ends. -/
inductive Collected where
  /-- The loop is left with these names in `contract_apis` -/
  | apis (contract_apis : List String)
  /-- A name is longer than the maximum: the import is given up and returns 0 -/
  | name_too_long
  /-- Step `lua_next` raises an error -/
  | raised
  /-- The loop does not end -/
  | unfinished
deriving DecidableEq, Repr

/-- Bound on the calls of `lua_next` in a key traversal that ends: between two names
stored in `contract_apis` (at most `limit` of them) no key of the table comes twice. A
traversal that takes more steps comes back to a key with the same `apis_count` and goes
round for ever. -/
def collect_fuel (limit : Nat) (fields : List (LuaKey × LuaValue)) : Nat :=
  (limit + 1) * (fields.length + 1) + 1

/-- The key traversal of `luaL_import_contract_module` that fills `contract_apis`, from
the call of `lua_next` with `key` on the stack. `lua_tostring` is applied to every key
that `lua_isstring` accepts, before the value is tested; `strcmp` and `strlen` read the
C string it returns, and the C string is what is copied into `contract_apis`. -/
def collect_contract_apis (limit maxlen : Nat) (fields : List (LuaKey × LuaValue)) :
    Nat → Option LuaKey → List String → Collected
  | 0, _, _ => .unfinished
  | fuel + 1, key, acc =>
    match lua_next fields key with
    | none => .raised
    | some none => .apis acc
    | some (some (k, v)) =>
      if acc.length ≥ limit then .apis acc
      else
        match lua_tostring_key k with
        | none => collect_contract_apis limit maxlen fields fuel (some k) acc
        | some (name, k1) =>
          if !lua_isfunction v then
            collect_contract_apis limit maxlen fields fuel (some k1) acc
          else if name = "locals" then
            collect_contract_apis limit maxlen fields fuel (some k1) acc
          else if name.utf8ByteSize > maxlen then .name_too_long
          else collect_contract_apis limit maxlen fields fuel (some k1) (acc ++ [name])

/-- The key traversal of `luaL_import_contract_module_from_address`: every key that
`lua_isstring` accepts counts, whatever its value, unless its C string is `locals`. -/
def collect_contract_apis_from_address (limit maxlen : Nat)
    (fields : List (LuaKey × LuaValue)) : Nat → Option LuaKey → List String → Collected
  | 0, _, _ => .unfinished
  | fuel + 1, key, acc =>
    match lua_next fields key with
    | none => .raised
    | some none => .apis acc
    | some (some (k, _)) =>
      if acc.length ≥ limit then .apis acc
      else
        match lua_tostring_key k with
        | none => collect_contract_apis_from_address limit maxlen fields fuel (some k) acc
        | some (name, k1) =>
          if name.utf8ByteSize > maxlen then .name_too_long
          else if name = "locals" then
            collect_contract_apis_from_address limit maxlen fields fuel (some k1) acc
          else
            collect_contract_apis_from_address limit maxlen fields fuel (some k1)
              (acc ++ [name])

/-- The comparison of the stored API list with `contract_apis`: the sizes are equal and,
for each `i < apis_count`, `strcmp` finds `stored[i].c_str()` equal to `contract_apis[j]`
for some `j < stored.size()`. -/
def contract_apis_match (stored contract_apis : List String) : Bool :=
  if stored.length ≠ contract_apis.length then false
  else (List.range contract_apis.length).all fun i =>
    (List.range stored.length).any fun j =>
      contract_apis.getD j "" == c_str (stored.getD i "")

/-- The API validation of `luaL_import_contract_module` for a module table and a stored
API list: true when the import goes on to fill the table. -/
def import_api_validation (c : ImportConsts) (fields : List (LuaKey × LuaValue))
    (stored : List String) : Bool :=
  match collect_contract_apis c.UVM_CONTRACT_APIS_LIMIT c.UVM_CONTRACT_API_NAME_MAX_LENGTH
      fields (collect_fuel c.UVM_CONTRACT_APIS_LIMIT fields) none [] with
  | .apis contract_apis => contract_apis_match stored contract_apis
  | _ => false

/-- Effect of `lua_fill_contract_info_for_use` and of the two `lua_setfield` calls for
`name` and `id` on the module table. -/
def fill_contract_info (env : ImportRun) (t : List (LuaKey × LuaValue)) :
    List (LuaKey × LuaValue) :=
  let t1 := lua_setfield t "_data" (.table env.data_addr)
  let t2 := lua_setfield t1 "storage" (.table env.storage_addr)
  let t3 := lua_setfield t2 "name" (.string env.contract_name)
  lua_setfield t3 "id" (.string env.contract_id)

/-- The loop that assigns nil to every name of `contract_special_api_names`. -/
def remove_special_apis : List String → List (LuaKey × LuaValue) → List (LuaKey × LuaValue)
  | [], t => t
  | name :: rest, t => remove_special_apis rest (lua_setfield t name .nil)

/-- How a traversal that wraps the APIs of a table ends. -/
inductive Traversed where
  /-- The traversal reaches the end of the table, which then holds these entries -/
  | finished (t : List (LuaKey × LuaValue))
  /-- An error is raised -/
  | raised
  /-- The traversal does not end -/
  | unfinished
deriving DecidableEq, Repr

/-- Bound on the calls of `lua_next` in a wrapping traversal of a table that ends: the
traverser adds at most one key for each entry and turns at most each entry into a
function, and between two such changes no key comes twice. -/
def wrap_fuel (t : List (LuaKey × LuaValue)) : Nat :=
  (3 * t.length + 1) * (2 * t.length + 2)

/-- The traversal `luaL_traverse_table(..., contract_table_traverser_to_wrap_api, ...)`
of the table `t`, from the call of `lua_next` with `key` on the stack: the proxy closure
of every function value is stored by `lua_setfield` under the C string that
`lua_tostring` returns for the key, which is also the `api_name` of the proxy; a key
assigned for the first time comes last in the table. `raised` when `luaL_checkstring`
raises inside `contract_api_wrapper`, which happens for a function under a key that is
neither string nor number and for a table whose `id` is no string (the imports set `id`
to a string, which only a proxy can replace), and when `lua_next` raises. -/
def wrap_apis_loop : Nat → List (LuaKey × LuaValue) → Option LuaKey → Traversed
  | 0, _, _ => .unfinished
  | fuel + 1, t, key =>
    match lua_next t key with
    | none => .raised
    | some none => .finished t
    | some (some (k, v)) =>
      if !lua_isfunction v then wrap_apis_loop fuel t (some k)
      else
        match lua_tostring_key k, lua_getfield t "id" with
        | some (name, k1), .string contract_id =>
          wrap_apis_loop fuel (lua_setfield t name (.proxy v (c_str contract_id) name))
            (some k1)
        | _, _ => .raised

/-- The wrapping traversal of a table from its first key. -/
def wrap_apis (t : List (LuaKey × LuaValue)) : Traversed :=
  wrap_apis_loop (wrap_fuel t) t none

/-- The test that sets `is_starting_contract`. -/
def is_starting_contract (env : ImportRun) : Bool :=
  decide (env.starting_contract_address.length > 0) &&
    decide (env.contract_id = env.starting_contract_address)

/-- Return value of an import function and the `_LOADED` table it leaves. The value is
`none` when the function returns nothing: an error is raised out of it (the C++ exception
running the destructor that holds `update_loaded_func`), or a traversal of the module
table does not end. -/
structure ImportResult where
  ret : Option Nat
  loaded : List (String × ModuleValue)
deriving DecidableEq, Repr

/-- The closure `update_loaded_func` of `luaL_import_contract_module`, run when the
function is left: a missing `_LOADED[filename]` becomes `true`. -/
def update_loaded_func (filename : String) (loaded : List (String × ModuleValue)) :
    List (String × ModuleValue) :=
  match map_find loaded filename with
  | none | some .nil => map_assign loaded filename (.other (.boolean true))
  | some _ => loaded

/-- Body of `luaL_import_contract_module`, called with one string argument. -/
def luaL_import_contract_module (c : ImportConsts) (env : ImportRun)
    (loaded : List (String × ModuleValue)) : ImportResult :=
  if ((map_find loaded env.filename).getD .nil).toboolean then ⟨some 1, loaded⟩
  else if !env.contract_exists then ⟨some 0, loaded⟩
  else
    match env.module_value with
    | .nil => ⟨some 0, update_loaded_func env.filename loaded⟩
    | .other _ => ⟨some 0, update_loaded_func env.filename loaded⟩
    | .table addr fields =>
      match collect_contract_apis c.UVM_CONTRACT_APIS_LIMIT
          c.UVM_CONTRACT_API_NAME_MAX_LENGTH fields
          (collect_fuel c.UVM_CONTRACT_APIS_LIMIT fields) none [] with
      | .unfinished => ⟨none, loaded⟩
      | .raised => ⟨none, update_loaded_func env.filename loaded⟩
      | .name_too_long => ⟨some 0, update_loaded_func env.filename loaded⟩
      | .apis contract_apis =>
        match env.stored_contract_apis with
        | none => ⟨some 0, update_loaded_func env.filename loaded⟩
        | some stored =>
          if !contract_apis_match stored contract_apis then
            ⟨some 0, update_loaded_func env.filename loaded⟩
          else
            let t1 := fill_contract_info env fields
            let t2 := if !is_starting_contract env then
                remove_special_apis c.contract_special_api_names t1
              else t1
            match wrap_apis t2 with
            | .unfinished => ⟨none, loaded⟩
            | .raised => ⟨none, update_loaded_func env.filename loaded⟩
            | .finished t3 =>
              ⟨some 1, update_loaded_func env.filename
                (map_assign loaded env.filename (.table addr t3))⟩

/-- The closure `update_loaded_func` of `luaL_import_contract_module_from_address`: it
does nothing once an error is recorded in `L->compile_error` or `L->runerror`. -/
def update_loaded_func_from_address (error_recorded : Bool) (filename : String)
    (loaded : List (String × ModuleValue)) : List (String × ModuleValue) :=
  if error_recorded then loaded else update_loaded_func filename loaded

/-- Body of `luaL_import_contract_module_from_address`, called with one string
argument. -/
def luaL_import_contract_module_from_address (c : ImportConsts) (env : ImportRun)
    (loaded : List (String × ModuleValue)) : ImportResult :=
  if ((map_find loaded env.filename).getD .nil).toboolean then ⟨some 1, loaded⟩
  else if !env.contract_exists then ⟨some 0, loaded⟩
  else
    let leave := update_loaded_func_from_address env.error_recorded env.filename
    match env.module_value with
    | .nil => ⟨some 0, leave loaded⟩
    | .other _ => ⟨some 0, leave loaded⟩
    | .table addr fields =>
      match collect_contract_apis_from_address c.UVM_CONTRACT_APIS_LIMIT
          c.UVM_CONTRACT_API_NAME_MAX_LENGTH fields
          (collect_fuel c.UVM_CONTRACT_APIS_LIMIT fields) none [] with
      | .unfinished => ⟨none, loaded⟩
      | .raised => ⟨none, leave loaded⟩
      | .name_too_long => ⟨some 0, leave loaded⟩
      | .apis contract_apis =>
        match env.stored_contract_apis with
        | none => ⟨some 0, leave loaded⟩
        | some stored =>
          if !contract_apis_match stored contract_apis then
            -- both mismatch branches fill `L->compile_error` before they return
            ⟨some 0, update_loaded_func_from_address true env.filename loaded⟩
          else
            let t1 := fill_contract_info env fields
            match wrap_apis t1 with
            | .unfinished => ⟨none, loaded⟩
            | .raised => ⟨none, leave loaded⟩
            | .finished t2 =>
              let t3 := if !is_starting_contract env then
                  remove_special_apis c.contract_special_api_names t2
                else t2
              ⟨some 1, leave (map_assign loaded env.filename (.table addr t3))⟩

/-- The API names of a module table as the claim describes them: the string keys with
function values, other than `locals`, in table order. -/
def table_api_names : List (LuaKey × LuaValue) → List String
  | [] => []
  | (.str key, v) :: rest =>
    if lua_isfunction v ∧ key ≠ "locals" then key :: table_api_names rest
    else table_api_names rest
  | (.number _, _) :: rest => table_api_names rest
  | (.nonstring _, _) :: rest => table_api_names rest

/-- The keys of a table. -/
def table_keys (t : List (LuaKey × LuaValue)) : List LuaKey := t.map Prod.fst

/-- The state of the special API names in the table that an import leaves in `_LOADED`:
for a contract id other than the starting address no special API name has a value; for a
starting address that is not empty every special API that the module defined as a function
still has one. -/
def special_apis_filtered (c : ImportConsts) (env : ImportRun) (res : ImportResult) : Prop :=
  ∃ addr fields t, env.module_value = .table addr fields ∧
    map_find res.loaded env.filename = some (.table addr t) ∧
    (env.contract_id ≠ env.starting_contract_address →
      ∀ s ∈ c.contract_special_api_names, lua_getfield t s = .nil) ∧
    (env.contract_id = env.starting_contract_address →
      env.starting_contract_address.length > 0 →
      ∀ s ∈ c.contract_special_api_names,
        lua_isfunction (lua_getfield fields s) = true → lua_getfield t s ≠ .nil)

/-- Constants for evaluation: the name limit 1024 of the error message in the source, a
limit of 1000 APIs, and the special API names the spec lists. -/
def demoConsts : ImportConsts :=
  { UVM_CONTRACT_APIS_LIMIT := 1000, UVM_CONTRACT_API_NAME_MAX_LENGTH := 1024,
    contract_special_api_names := ["init", "on_deposit", "on_upgrade"] }

/-- A module table with the APIs `init` and `transfer`. -/
def tokenModule : List (LuaKey × LuaValue) :=
  [(.str "init", .function 1), (.str "transfer", .function 2)]

/-- An import of `tokenModule` while no starting contract address is recorded and the
host resolves no address for the contract, so that both strings are empty. -/
def unresolvedRun : ImportRun :=
  { filename := "token", contract_exists := true, module_value := .table 10 tokenModule,
    stored_contract_apis := some ["init", "transfer"], contract_id := "",
    contract_name := "token", starting_contract_address := "", data_addr := 11,
    storage_addr := 12, error_recorded := false }

/-- An import of `tokenModule` as the starting contract `X`. -/
def entryRun : ImportRun :=
  { filename := "token", contract_exists := true, module_value := .table 10 tokenModule,
    stored_contract_apis := some ["init", "transfer"], contract_id := "X",
    contract_name := "token", starting_contract_address := "X", data_addr := 11,
    storage_addr := 12, error_recorded := false }

/-- A module table with the APIs `a` and `b`. -/
def abModule : List (LuaKey × LuaValue) :=
  [(.str "a", .function 1), (.str "b", .function 2)]

/-- An API name of 1025 bytes. -/
def longName : String := String.mk (List.replicate 1025 'a')

/-- A module table with the APIs `a`, `b` and `c`. -/
def abcModule : List (LuaKey × LuaValue) :=
  [(.str "a", .function 1), (.str "b", .function 2), (.str "c", .function 3)]

/-- An import of `abcModule` for which the host metadata declares `a`, `b` and `d`. -/
def mismatchRun : ImportRun :=
  { filename := "token", contract_exists := true, module_value := .table 10 abcModule,
    stored_contract_apis := some ["a", "b", "d"], contract_id := "X",
    contract_name := "token", starting_contract_address := "X", data_addr := 11,
    storage_addr := 12, error_recorded := false }

/-- A module table with a value under the number key 1 and the API `a`. -/
def numberKeyModule : List (LuaKey × LuaValue) :=
  [(.number "1", .boolean true), (.str "a", .function 1)]

/-- A module table whose one function stands under the key made of `a`, a NUL character
and `x`. -/
def nulNameModule : List (LuaKey × LuaValue) :=
  [(.str "a\x00x", .function 1)]

/-- A module table whose one function stands under the key made of `init`, a NUL
character and `x`. -/
def nulKeyModule : List (LuaKey × LuaValue) :=
  [(.str "init\x00x", .function 1)]

/-- An import of `nulKeyModule` as the contract `X` while the starting contract is
`Y`. -/
def nulKeyRun : ImportRun :=
  { filename := "token", contract_exists := true, module_value := .table 10 nulKeyModule,
    stored_contract_apis := some ["init"], contract_id := "X",
    contract_name := "token", starting_contract_address := "Y", data_addr := 11,
    storage_addr := 12, error_recorded := false }

/-- The value that the module table stored under `filename` in `_LOADED` holds for the
field `k`; nil when no table is stored there. -/
def loaded_field (loaded : List (String × ModuleValue)) (filename k : String) : LuaValue :=
  match map_find loaded filename with
  | some (.table _ t) => lua_getfield t k
  | _ => .nil

/-! ## Conversion of Lua values to storage values and CBOR (`lauxlib.cpp`, `lapi.cpp`) -/

/-- Limit `LUA_MAP_TRAVERSER_MAX_DEPTH` of `lauxlib.h`. -/
def LUA_MAP_TRAVERSER_MAX_DEPTH : Nat := 100

/-- Constant `INT32_MAX`. -/
def INT32_MAX : Nat := 2147483647

/-- A table of the Lua heap without metatable: `len` is the border that `lua_len` answers
for it, `entries` are its key/value pairs in the order of `lua_next` (no value is nil). -/
structure LuaTable where
  len : Nat
  entries : List (LuaValue × LuaValue)
deriving DecidableEq, Repr

/-- Table stored at an address of the heap. -/
def heap_get : List (Nat × LuaTable) → Nat → Option LuaTable
  | [], _ => none
  | (a, t) :: h, addr => if a = addr then some t else heap_get h addr

/-- Raw read `t[key]`: nil for a key that the table does not hold. -/
def raw_get : List (LuaValue × LuaValue) → LuaValue → LuaValue
  | [], _ => .nil
  | (k, v) :: es, key => if k = key then v else raw_get es key

/-- Test `lua_isstring`: a string or a number. -/
def lua_isstring (o : LuaValue) : Bool :=
  lua_type o == .LUA_TSTRING || lua_type o == .LUA_TNUMBER

/-- Test `lua_isinteger`: the value is an integer (`ttisinteger`). -/
def lua_isinteger : LuaValue → Bool
  | .integer _ => true
  | _ => false

/-- The record `UvmStorageValue`: a tag of `StorageValueTypes` with its payload; a table
payload is the `UvmTableMap` from key text to value, an association list whose order is
not part of the value. Of the tags only those that the conversion assigns are listed. -/
inductive UvmStorageValue where
  | storage_value_null
  | storage_value_int (int_value : Int)
  | storage_value_number (number_value : Int)
  | storage_value_bool (bool_value : Bool)
  | storage_value_string (string_value : String)
  | storage_value_stream (userdata_value : Nat)
  | storage_value_unknown_table (table_value : List (String × UvmStorageValue))
  | storage_value_unknown_array (table_value : List (String × UvmStorageValue))
  | storage_value_userdata
  | storage_value_not_support

/-- Objects of the CBOR library by their `CborObjectType`, the types that
`luaL_push_cbor_as_json` tells apart. The library is outside the embedded files:
`create_null`, `from_bool`, `from_int` and `from_string` are taken to build the object of
the type they name. A map is an association list whose order is not part of the value. -/
inductive CborObject where
  | COT_NULL
  | COT_UNDEFINED
  | COT_BOOL (b : Bool)
  | COT_FLOAT (x : Int)
  | COT_INT (i : Int)
  | COT_EXTRA_INT (i : Int)
  | COT_STRING (s : String)
  | COT_BYTES (bytes : List Nat)
  | COT_ARRAY (items : List CborObject)
  | COT_MAP (items : List (String × CborObject))

instance : Inhabited UvmStorageValue := ⟨.storage_value_null⟩

instance : Inhabited CborObject := ⟨.COT_NULL⟩

/-- What the conversion takes from outside the embedded files. The payload of a
`lua_Number` is a code; the two number functions fix what it means. -/
structure ConvEnv where
  /-- The tables of the Lua state -/
  heap : List (Nat × LuaTable)
  /-- The C cast `(lua_Integer) x` of a number -/
  number_to_integer : Int → Int
  /-- Text `std::to_string(x)` of a number -/
  number_to_string : Int → String
  /-- Answer of `is_object_in_pool` for the address of a userdata -/
  is_object_in_pool : Nat → Bool
  /-- Text `fc::to_hex(bytes)`, none when it throws -/
  to_hex : List Nat → Option String

/-- Text `std::to_string(i)` of an integer. -/
def to_string (i : Int) : String := toString i

/-- Value of a run of decimal digits read from the left. -/
def digits_value (digits : List Char) : Nat :=
  digits.foldl (fun a c => 10 * a + (c.toNat - 48)) 0

/-- Conversion `boost::lexical_cast<int>(key)`, none when it throws: an optional sign and
then decimal digits only, with a value in the range of `int`. -/
def lexical_cast_int (key : String) : Option Int :=
  let body : Bool × List Char :=
    match key.data with
    | '-' :: r => (true, r)
    | '+' :: r => (false, r)
    | r => (false, r)
  if body.2.isEmpty || !body.2.all Char.isDigit then none
  else
    let v : Int := if body.1 then -(digits_value body.2 : Int) else (digits_value body.2 : Int)
    if -2147483648 ≤ v ∧ v ≤ 2147483647 then some v else none

/-- Body of `lua_table_to_map_traverser_with_nested` for the key and the value on top of
the stack; `conv` is its call of `lua_type_to_storage_value_type_with_nested` at the
traverser's `recur_depth`. The map as it is afterwards. -/
def lua_table_to_map_traverser_with_nested (env : ConvEnv) (conv : LuaValue → UvmStorageValue)
    (jsons : List Nat) (map : List (String × UvmStorageValue)) (key value : LuaValue) :
    List (String × UvmStorageValue) :=
  if !lua_isstring key && !lua_isinteger value then map
  else
    let key_text : Option String :=
      match key with
      | .boolean b => some (to_string (if b then 1 else 0))
      | .integer i => some (to_string i)
      | .number x => some (env.number_to_string x)
      | .string s => some (c_str s)
      | _ => none
    match key_text with
    | none => map
    | some k =>
      if k = "package" then map
      else
        let json_found : Bool :=
          match value with
          | .table addr => jsons.contains addr
          | _ => false
        if lua_istable value && json_found then
          map_assign map k (.storage_value_string "address")
        else map_assign map k (conv value)

/-- Body of `luaL_traverse_table_with_nested` on a table: the indices `1 .. len` read with
`lua_geti`, then every entry of `lua_next` whose key is not an integer of `1 .. len`;
`traverser` is the callback at `recur_depth + 1`. -/
def luaL_traverse_table_with_nested
    (traverser : List (String × UvmStorageValue) → LuaValue → LuaValue →
      List (String × UvmStorageValue))
    (t : LuaTable) (map : List (String × UvmStorageValue)) : List (String × UvmStorageValue) :=
  let map1 := (List.range t.len).foldl
    (fun m i => traverser m (.integer ((i + 1 : Nat) : Int))
      (raw_get t.entries (.integer ((i + 1 : Nat) : Int)))) map
  t.entries.foldl
    (fun m e =>
      match e.1 with
      | .integer key_int =>
        if key_int.toNat ≤ t.len ∧ key_int > 0 then m else traverser m e.1 e.2
      | _ => traverser m e.1 e.2)
    map1

/-- Body of `lua_type_to_storage_value_type_with_nested` with a bound on the number of
nested calls; a table goes through `lua_table_to_map_with_nested` at `recur_depth + 1`,
whose traverser runs at `recur_depth + 2`. An address without table stands for a
`lua_len` that throws. -/
def lua_type_to_storage_value_type_fuel (env : ConvEnv) (jsons : List Nat) :
    Nat → Nat → LuaValue → UvmStorageValue
  | 0, _, _ => .storage_value_null
  | fuel + 1, recur_depth, v =>
    if recur_depth > LUA_MAP_TRAVERSER_MAX_DEPTH then .storage_value_null
    else
      match v with
      | .nil => .storage_value_null
      | .boolean b => .storage_value_bool b
      | .integer i => .storage_value_int i
      | .number x => .storage_value_number x
      | .string s => .storage_value_string (c_str s)
      | .table addr =>
        match heap_get env.heap addr with
        | none => .storage_value_null
        | some t =>
          if t.len > INT32_MAX then .storage_value_null
          else
            let table_value := luaL_traverse_table_with_nested
              (lua_table_to_map_traverser_with_nested env
                (fun x => lua_type_to_storage_value_type_fuel env jsons fuel (recur_depth + 2) x)
                jsons)
              t []
            if t.len > 0 then .storage_value_unknown_array table_value
            else .storage_value_unknown_table table_value
      | .userdata addr =>
        if env.is_object_in_pool addr then .storage_value_stream addr
        else .storage_value_userdata
      | _ => .storage_value_not_support

/-- Function `lua_type_to_storage_value_type_with_nested`: the depth test stops the
recursion after at most `LUA_MAP_TRAVERSER_MAX_DEPTH + 2` nested calls. -/
def lua_type_to_storage_value_type_with_nested (env : ConvEnv) (jsons : List Nat)
    (recur_depth : Nat) (v : LuaValue) : UvmStorageValue :=
  lua_type_to_storage_value_type_fuel env jsons (LUA_MAP_TRAVERSER_MAX_DEPTH + 2) recur_depth v

/-- Function `lua_type_to_storage_value_type`: empty `jsons`, depth 0. -/
def lua_type_to_storage_value_type (env : ConvEnv) (v : LuaValue) : UvmStorageValue :=
  lua_type_to_storage_value_type_with_nested env [] 0 v

/-- The key loop of `is_uvm_array_table`: the integer of every key, none once a key has
the wrong format. -/
def all_int_keys : List String → Option (List Int)
  | [] => some []
  | key :: rest =>
    if key.length < 1 then none
    else if key = "0" then (all_int_keys rest).map (fun l => 0 :: l)
    else
      match lexical_cast_int key with
      | none => none
      | some int_key =>
        if int_key = 0 then none else (all_int_keys rest).map (fun l => int_key :: l)

/-- Body of `is_uvm_array_table` on the keys of the map, which are all it reads: the
sorted integers of the keys are `1, 2, ..., n`. -/
def is_uvm_array_keys (keys : List String) : Bool :=
  match all_int_keys keys with
  | none => false
  | some int_keys =>
    let sorted := int_keys.insertionSort (fun a b => a ≤ b)
    (List.range sorted.length).all (fun i => sorted.getD i 0 == ((i + 1 : Nat) : Int))

/-- Function `is_uvm_array_table`. -/
def is_uvm_array_table (map : List (String × UvmStorageValue)) : Bool :=
  is_uvm_array_keys (map.map Prod.fst)

/-- The array loop of `uvm_json_item_to_cbor` from index `i` on, for `n` more rounds: it
stops at the first missing key `i + 1`, and a null item ends the conversion. -/
def array_items (table : List (String × Option CborObject)) :
    Nat → Nat → Option (List CborObject)
  | 0, _ => some []
  | n + 1, i =>
    match map_find table (to_string ((i + 1 : Nat) : Int)) with
    | none => some []
    | some none => none
    | some (some item) => (array_items table n (i + 1)).map (fun items => item :: items)

/-- The map loop of `uvm_json_item_to_cbor`: a null item ends the conversion. -/
def map_items : List (String × Option CborObject) → List (String × CborObject) →
    Option (List (String × CborObject))
  | [], items => some items
  | (_, none) :: _, _ => none
  | (key, some item) :: rest, items => map_items rest (map_assign items key item)

mutual
/-- Body of `uvm_json_item_to_cbor`; none is the null pointer. Array and table tags are
the two that the conversion assigns. -/
def uvm_json_item_to_cbor (env : ConvEnv) : UvmStorageValue → Option CborObject
  | .storage_value_null => some .COT_NULL
  | .storage_value_int i => some (.COT_INT i)
  | .storage_value_bool b => some (.COT_BOOL b)
  | .storage_value_number x => some (.COT_INT (env.number_to_integer x))
  | .storage_value_string s => some (.COT_STRING s)
  | .storage_value_unknown_array table =>
    (array_items (uvm_json_items_to_cbor env table) table.length 0).map .COT_ARRAY
  | .storage_value_unknown_table table =>
    (map_items (uvm_json_items_to_cbor env table) []).map .COT_MAP
  | _ => none
/-- The values of a table, each converted by `uvm_json_item_to_cbor`. -/
def uvm_json_items_to_cbor (env : ConvEnv) :
    List (String × UvmStorageValue) → List (String × Option CborObject)
  | [] => []
  | (k, v) :: rest => (k, uvm_json_item_to_cbor env v) :: uvm_json_items_to_cbor env rest
end

/-- Body of `luaL_to_cbor`; none is the null pointer. -/
def luaL_to_cbor (env : ConvEnv) (v : LuaValue) : Option CborObject :=
  match v with
  | .integer i => some (.COT_INT i)
  | .number x => some (.COT_INT (env.number_to_integer x))
  | .string s => some (.COT_STRING (c_str s))
  | .boolean b => some (.COT_BOOL b)
  | .nil => some .COT_NULL
  | .table addr =>
    match heap_get env.heap addr with
    | none => none
    | some t =>
      let map := luaL_traverse_table_with_nested
        (lua_table_to_map_traverser_with_nested env
          (fun x => lua_type_to_storage_value_type_with_nested env [] 1 x) [])
        t []
      if is_uvm_array_table map then uvm_json_item_to_cbor env (.storage_value_unknown_array map)
      else uvm_json_item_to_cbor env (.storage_value_unknown_table map)
  | _ => none

/-- Key of a table that `luaL_push_cbor_as_json` builds: an integer (`lua_seti`) or a
string (`lua_setfield`). -/
inductive TreeKey where
  | int (i : Int)
  | str (s : String)
deriving DecidableEq, Repr

/-- A Lua value with its tables written out: what `luaL_push_cbor_as_json` leaves on the
stack. The fields of a table are an association list whose order is not part of the
value. -/
inductive LuaTree where
  | nil
  | boolean (b : Bool)
  | integer (n : Int)
  | number (x : Int)
  | string (s : String)
  | table (fields : List (TreeKey × LuaTree))

instance : Inhabited LuaTree := ⟨.nil⟩

/-- Assignment of a value that is not nil to a field. -/
def tree_assign : List (TreeKey × LuaTree) → TreeKey → LuaTree → List (TreeKey × LuaTree)
  | [], k, v => [(k, v)]
  | (k1, v1) :: m, k, v => if k1 = k then (k1, v) :: m else (k1, v1) :: tree_assign m k v

/-- Assignments `lua_seti` and `lua_setfield` on a table without metatable: nil removes
the field. -/
def tree_set (fields : List (TreeKey × LuaTree)) (key : TreeKey) :
    LuaTree → List (TreeKey × LuaTree)
  | .nil => fields.filter (fun f => f.1 != key)
  | v => tree_assign fields key v

mutual
/-- Body of `luaL_push_cbor_as_json` on an object; the pushed value, none for the
answer 0. A float object carries the code of its number. -/
def luaL_push_cbor_as_json (env : ConvEnv) : CborObject → Option LuaTree
  | .COT_NULL => some .nil
  | .COT_UNDEFINED => some .nil
  | .COT_BOOL b => some (.boolean b)
  | .COT_FLOAT x => some (.number x)
  | .COT_INT i => some (.integer i)
  | .COT_EXTRA_INT i => some (.integer i)
  | .COT_STRING s => some (.string (c_str s))
  | .COT_BYTES bytes => (env.to_hex bytes).map (fun hex_str => .string (c_str hex_str))
  | .COT_ARRAY items => (push_array_items env items 0 []).map .table
  | .COT_MAP items => (push_map_items env items []).map .table
/-- The array loop of `luaL_push_cbor_as_json` from index `i` on. -/
def push_array_items (env : ConvEnv) :
    List CborObject → Nat → List (TreeKey × LuaTree) → Option (List (TreeKey × LuaTree))
  | [], _, fields => some fields
  | item :: rest, i, fields =>
    match luaL_push_cbor_as_json env item with
    | none => none
    | some v => push_array_items env rest (i + 1) (tree_set fields (.int ((i + 1 : Nat) : Int)) v)
/-- The map loop of `luaL_push_cbor_as_json`. -/
def push_map_items (env : ConvEnv) :
    List (String × CborObject) → List (TreeKey × LuaTree) → Option (List (TreeKey × LuaTree))
  | [], fields => some fields
  | (key, item) :: rest, fields =>
    match luaL_push_cbor_as_json env item with
    | none => none
    | some v => push_map_items env rest (tree_set fields (.str (c_str key)) v)
end

/-- Pushing the answer of `luaL_to_cbor` with `luaL_push_cbor_as_json`, which answers 0
for the null pointer. -/
def push_converted (env : ConvEnv) (v : LuaValue) : Option LuaTree :=
  (luaL_to_cbor env v).bind (luaL_push_cbor_as_json env)

/-! ### Shapes of values for the statements about the conversion -/

/-- The conversion environment of the examples: a number code `x` stands for `x / 2`,
so `3` is the number 1.5; no userdata is a stream of the pool. -/
def demoConv (heap : List (Nat × LuaTable)) : ConvEnv :=
  { heap := heap
    number_to_integer := fun x => Int.tdiv x 2
    number_to_string := fun x =>
      to_string (Int.tdiv x 2) ++ (if x % 2 = 0 then ".000000" else ".500000")
    is_object_in_pool := fun _ => false
    to_hex := fun _ => none }

/-- Text under which the traverser files a string key. -/
def key_text : LuaValue → String
  | .string s => c_str s
  | _ => ""

/-- A table whose keys are integers of `1 .. len`, as a table built like `{a, b, c}` is. -/
def is_sequence (t : LuaTable) : Bool :=
  decide (t.len ≤ INT32_MAX) &&
  t.entries.all (fun e =>
    match e.1 with
    | .integer i => decide (0 < i) && decide (i.toNat ≤ t.len)
    | _ => false)

/-- A table of length 0 whose keys are strings with distinct texts, none of them
`package`. -/
def is_record (t : LuaTable) : Bool :=
  t.len == 0 &&
  t.entries.all (fun e =>
    match e.1 with
    | .string s => c_str s != "package"
    | _ => false) &&
  decide (t.entries.map (fun e => key_text e.1)).Nodup

/-- Values that the conversion keeps as they are, with at most `n` levels of tables:
booleans, integers, strings without NUL, sequences `1 .. len` of such values, and
records of such values under keys without NUL. -/
def encodable (heap : List (Nat × LuaTable)) : Nat → LuaValue → Bool
  | _, .boolean _ => true
  | _, .integer _ => true
  | _, .string s => c_str s == s
  | n + 1, .table addr =>
    match heap_get heap addr with
    | none => false
    | some t =>
      (is_sequence t &&
        (List.range t.len).all (fun i =>
          encodable heap n (raw_get t.entries (.integer ((i + 1 : Nat) : Int))))) ||
      (is_record t &&
        t.entries.all (fun e => e.1 == .string (key_text e.1) && encodable heap n e.2))
  | _, _ => false

/-- A record at top level, not empty, whose key texts `is_uvm_array_table` takes for the
indices of an array. -/
def record_read_as_array (heap : List (Nat × LuaTable)) : LuaValue → Bool
  | .table addr =>
    match heap_get heap addr with
    | none => false
    | some t =>
      is_record t && !t.entries.isEmpty && is_uvm_array_keys (t.entries.map (fun e => key_text e.1))
  | _ => false

/-- The Lua key that a key of a pushed table is. -/
def key_value : TreeKey → LuaValue
  | .int i => .integer i
  | .str s => .string s

mutual
/-- Structural equality of a pushed value and a value of the heap: the same scalar, or
tables with the same keys, of the same key types, under which the values are
structurally equal. -/
def same_value (heap : List (Nat × LuaTable)) : LuaTree → LuaValue → Bool
  | .nil, v => v == .nil
  | .boolean b, v => v == .boolean b
  | .integer i, v => v == .integer i
  | .number x, v => v == .number x
  | .string s, v => v == .string s
  | .table fields, v =>
    match v with
    | .table addr =>
      match heap_get heap addr with
      | none => false
      | some t =>
        decide (fields.map Prod.fst).Nodup &&
        t.entries.all (fun e => fields.any (fun f => key_value f.1 == e.1)) &&
        same_fields heap fields t.entries
    | _ => false
/-- Every field of the pushed table equals what the heap table holds under its key. -/
def same_fields (heap : List (Nat × LuaTable)) :
    List (TreeKey × LuaTree) → List (LuaValue × LuaValue) → Bool
  | [], _ => true
  | (k, tr) :: fs, es => same_value heap tr (raw_get es (key_value k)) && same_fields heap fs es
end

/-- A function, thread or userdata, or a record that holds one within `n` levels of
records. -/
def holds_unsupported (heap : List (Nat × LuaTable)) : Nat → LuaValue → Bool
  | _, .function _ => true
  | _, .proxy _ _ _ => true
  | _, .thread _ => true
  | _, .userdata _ => true
  | _, .lightuserdata _ => true
  | n + 1, .table addr =>
    match heap_get heap addr with
    | none => false
    | some t => is_record t && t.entries.any (fun e => holds_unsupported heap n e.2)
  | _, _ => false

/-- Number of maps nested one in the other through maps of one entry. -/
def map_depth : CborObject → Nat
  | .COT_MAP [(_, c)] => 1 + map_depth c
  | _ => 0

/-- The table `t = {self = t}` at address 1. -/
def selfHeap : List (Nat × LuaTable) := [(1, ⟨0, [(.string "self", .table 1)]⟩)]

/-- The table `{k1 = "v", k2 = {1, 2, 3}, k3 = true}` at address 1. -/
def slotHeap : List (Nat × LuaTable) :=
  [(1, ⟨0, [(.string "k1", .string "v"), (.string "k2", .table 2),
      (.string "k3", .boolean true)]⟩),
   (2, ⟨3, [(.integer 1, .integer 1), (.integer 2, .integer 2), (.integer 3, .integer 3)]⟩)]

/-- What the round trip of one value needs: the storage value `s` of the value `x`
becomes an object, the object is pushed as a value other than nil, and the pushed value
equals `x` structurally. -/
def RoundTrips (env : ConvEnv) (s : UvmStorageValue) (x : LuaValue) : Prop :=
  ∃ c tree, uvm_json_item_to_cbor env s = some c ∧
    luaL_push_cbor_as_json env c = some tree ∧
    same_value env.heap tree x = true ∧ tree ≠ .nil


/-- The table `{[2] = true}` at address 1; its length is 0. -/
def sparseHeap : List (Nat × LuaTable) := [(1, ⟨0, [(.integer 2, .boolean true)]⟩)]

/-- Tables for the kinds of encoding: `{["1"] = "x"}` at address 1,
`{a = {}, b = {1, 2, x = 3}}` at address 2 with its two tables at 3 and 4, and
`{package = 1, x = 2}` at address 5. -/
def kindHeap : List (Nat × LuaTable) :=
  [(1, ⟨0, [(.string "1", .string "x")]⟩),
   (2, ⟨0, [(.string "a", .table 3), (.string "b", .table 4)]⟩),
   (3, ⟨0, []⟩),
   (4, ⟨2, [(.integer 1, .integer 1), (.integer 2, .integer 2), (.string "x", .integer 3)]⟩),
   (5, ⟨0, [(.string "package", .integer 1), (.string "x", .integer 2)]⟩)]

/-- Tables that hold the function at address 9: `{k = {1, x = f}}` at address 1 with its
inner table at 2, `{package = f}` at address 3, `{[true] = f}` at address 4 and
`{k = f}` at address 5. -/
def hiddenHeap : List (Nat × LuaTable) :=
  [(1, ⟨0, [(.string "k", .table 2)]⟩),
   (2, ⟨1, [(.integer 1, .integer 1), (.string "x", .function 9)]⟩),
   (3, ⟨0, [(.string "package", .function 9)]⟩),
   (4, ⟨0, [(.boolean true, .function 9)]⟩),
   (5, ⟨0, [(.string "k", .function 9)]⟩)]

/-! ## The token contract (`native_contract.cpp`) -/

/-- An exception that leaves an API of the contract. -/
inductive ContractError where
  /-- An `FC_ASSERT` that fails; `THROW_CONTRACT_ERROR(msg)` is `FC_ASSERT(false, msg)` -/
  | fc_assert (msg : String)
  /-- An exception thrown inside the CBOR library or by `std::stoll` -/
  | library_error
deriving DecidableEq, Repr

/-- How a call of an API ends, with `_contract_invoke_result` as it is at that time. -/
inductive ApiOutcome where
  | returned (res : contract_invoke_result)
  | raised (err : ContractError) (res : contract_invoke_result)
deriving DecidableEq, Repr

/-- A value of the `jsondiff::JsonObject` that holds the argument of an event. -/
inductive JsonValue where
  | str (s : String)
  | int (i : Int)
deriving DecidableEq, Repr

/-- What the token contract takes from outside the embedded files: the CBOR codec, the
evaluation state `_evaluate`, the contract's own address, `std::strtod` and
`jsondiff::json_dumps`. -/
structure TokenEnv where
  cbor_encode : CborObject → List Nat
  /-- Decoding, none when `cbor_decode` throws -/
  cbor_decode : List Nat → Option CborObject
  /-- Value `differ.diff(a, b)->value()` -/
  diff : CborObject → CborObject → CborObject
  /-- Host storage `_evaluate->get_storage` -/
  get_storage : String → String → StorageDataType
  /-- Caller `_evaluate->caller_address` -/
  caller_address : String
  contract_id : String
  /-- Answer of `_evaluate->get_chain()->head_block_number()` -/
  head_block_number : Nat
  /-- Number of characters of a C string that `std::strtod` converts -/
  strtod_end : String → Nat
  json_dumps : List (String × JsonValue) → String

/-- The codec of the environment as the library that `set_contract_storage` calls. -/
def TokenEnv.lib (env : TokenEnv) : CborLib :=
  { CborObject := CborObject
    cbor_decode := env.cbor_decode
    cbor_encode := env.cbor_encode
    diff := env.diff }

/-- Test `is_string` of the CBOR library. -/
def CborObject.is_string : CborObject → Bool
  | .COT_STRING _ => true
  | _ => false

/-- Accessor `as_string` of the CBOR library: the text of a string object; it throws for
an object of another type. -/
def CborObject.as_string : CborObject → Option String
  | .COT_STRING s => some s
  | _ => none

/-- Value of an `int64_t` expression: the mathematical value reduced into the signed
64-bit range. -/
def int64_t (x : Int) : Int :=
  (x + 9223372036854775808) % 18446744073709551616 - 9223372036854775808

/-- Accessor `force_as_int` of the CBOR library: the value of an integer object as the
`int64_t` that the accessor returns; it throws for an object of another type. -/
def CborObject.force_as_int : CborObject → Option Int
  | .COT_INT i => some (int64_t i)
  | .COT_EXTRA_INT i => some (int64_t i)
  | _ => none

/-- Accessor `as_map` of the CBOR library: the entries of a map object; it throws for an
object of another type. -/
def CborObject.as_map : CborObject → Option (List (String × CborObject))
  | .COT_MAP items => some items
  | _ => none

/-- Removal `m.erase(k)`. -/
def map_erase {V : Type} (m : List (String × V)) (k : String) : List (String × V) :=
  m.filter (fun p => p.1 != k)

/-- The characters that `std::isspace` accepts in the classic locale. -/
def is_space (c : Char) : Bool :=
  c == ' ' || c == '\t' || c == '\n' || c == Char.ofNat 11 || c == Char.ofNat 12 || c == '\r'

/-- Function `boost::trim`: the text without the spaces at its two ends. -/
def boost_trim (s : String) : String :=
  String.mk ((s.data.dropWhile is_space).reverse.dropWhile is_space).reverse

/-- The fields of a text between its commas. -/
def split_on_comma : List Char → List (List Char)
  | [] => [[]]
  | c :: cs =>
    if c = ',' then [] :: split_on_comma cs
    else
      match split_on_comma cs with
      | [] => [[c]]
      | t :: ts => (c :: t) :: ts

/-- Call `boost::split(parsed_args, api_arg, [](char c) {return c == ','; })`: every
comma ends a field, so a text without comma is one field. -/
def boost_split (api_arg : String) : List String :=
  (split_on_comma api_arg.data).map String.mk

/-- Function `std::stoll` in base 10, none when it throws: leading spaces, an optional
sign, then the longest run of digits, which must not be empty and must have a value in
the range of `long long`. -/
def stoll (s : String) : Option Int :=
  let body : Bool × List Char :=
    match (c_str s).data.dropWhile is_space with
    | '-' :: r => (true, r)
    | '+' :: r => (false, r)
    | r => (false, r)
  let digits := body.2.takeWhile Char.isDigit
  if digits.isEmpty then none
  else
    let v : Int := if body.1 then -(digits_value digits : Int) else (digits_value digits : Int)
    if -9223372036854775808 ≤ v ∧ v ≤ 9223372036854775807 then some v else none

/-- Body of `is_numeric`: `std::strtod` converts the C string up to its end. -/
def is_numeric (env : TokenEnv) (number : String) : Bool :=
  env.strtod_end (c_str number) == (c_str number).length

/-- Body of `is_integral`: numeric, and without a point. -/
def is_integral (env : TokenEnv) (number : String) : Bool :=
  is_numeric env number && !(c_str number).data.contains '.'

/-- The invocation result when `set_contract_storage` throws in `cbor_decode`: the entry
of the contract has been added to `storage_changes`, no change has been recorded. -/
def set_contract_storage_thrown (res : contract_invoke_result) (contract_address : String) :
    contract_invoke_result :=
  if (map_find res.storage_changes contract_address).isNone then
    { res with storage_changes := map_assign res.storage_changes contract_address [] }
  else res

/-- Overload `set_contract_storage(contract_address, storage_name, cbor_value)`, which
encodes the object and calls the other overload; an error carries the invocation result
at the time of the exception. -/
def set_contract_storage_cbor (env : TokenEnv) (res : contract_invoke_result)
    (contract_address storage_name : String) (cbor_value : CborObject) :
    Except contract_invoke_result contract_invoke_result :=
  match set_contract_storage env.lib env.get_storage res contract_address storage_name
      ⟨env.cbor_encode cbor_value⟩ with
  | some res1 => .ok res1
  | none => .error (set_contract_storage_thrown res contract_address)

/-- The object `cbor_decode(get_contract_storage(contract_id, storage_name).storage_data)`
that every getter of the token contract starts from; `get_contract_storage` leaves the
invocation result as it was. -/
def get_storage_object (env : TokenEnv) (res : contract_invoke_result) (storage_name : String) :
    Option CborObject :=
  env.cbor_decode
    (get_contract_storage env.get_storage res env.contract_id storage_name).1.storage_data

/-- Body of `native_contract_interface::emit_event`. -/
def emit_event (env : TokenEnv) (res : contract_invoke_result)
    (event_name event_arg : String) : ApiOutcome :=
  if event_name.isEmpty then .raised (.fc_assert "!event_name.empty()") res
  else
    .returned { res with
      events := res.events ++ [⟨event_name, event_arg, 1 + env.head_block_number⟩] }

/-- Body of `token_native_contract::check_admin`. -/
def check_admin (env : TokenEnv) (res : contract_invoke_result) : Except ContractError String :=
  match get_storage_object env res "admin" with
  | none => .error .library_error
  | some admin =>
    match admin with
    | .COT_STRING s =>
      if s = env.caller_address then .ok s
      else .error (.fc_assert "only admin can call this api")
    | _ => .error (.fc_assert "only admin can call this api")

/-- Body of `get_storage_state`, none when it throws. -/
def get_storage_state (env : TokenEnv) (res : contract_invoke_result) : Option String :=
  (get_storage_object env res "state").bind CborObject.as_string

/-- Body of `get_storage_token_name`. -/
def get_storage_token_name (env : TokenEnv) (res : contract_invoke_result) : Option String :=
  (get_storage_object env res "name").bind CborObject.as_string

/-- Body of `get_storage_token_symbol`. -/
def get_storage_token_symbol (env : TokenEnv) (res : contract_invoke_result) : Option String :=
  (get_storage_object env res "symbol").bind CborObject.as_string

/-- Body of `get_storage_supply`. -/
def get_storage_supply (env : TokenEnv) (res : contract_invoke_result) : Option Int :=
  (get_storage_object env res "supply").bind CborObject.force_as_int

/-- Body of `get_storage_precision`. -/
def get_storage_precision (env : TokenEnv) (res : contract_invoke_result) : Option Int :=
  (get_storage_object env res "precision").bind CborObject.force_as_int

/-- Body of `get_storage_users`. -/
def get_storage_users (env : TokenEnv) (res : contract_invoke_result) :
    Option (List (String × CborObject)) :=
  (get_storage_object env res "users").bind CborObject.as_map

/-- Body of `get_storage_allowed`. -/
def get_storage_allowed (env : TokenEnv) (res : contract_invoke_result) :
    Option (List (String × CborObject)) :=
  (get_storage_object env res "allowed").bind CborObject.as_map

/-- Body of `get_balance_of_user`. -/
def get_balance_of_user (env : TokenEnv) (res : contract_invoke_result) (owner_addr : String) :
    Option Int :=
  match get_storage_users env res with
  | none => none
  | some users =>
    match map_find users owner_addr with
    | none => some 0
    | some user_balance_cbor => user_balance_cbor.force_as_int

/-- State text `NOT_INITED`. -/
def not_inited_state_of_token_contract : String := "NOT_INITED"

/-- State text `COMMON`. -/
def common_state_of_token_contract : String := "COMMON"

/-- The vector `allowed_precisions` of `init_token_api`. -/
def allowed_precisions : List Int :=
  [1, 10, 100, 1000, 10000, 100000, 1000000, 10000000, 100000000]

/-- Body of `token_native_contract::init_token_api`. -/
def init_token_api (env : TokenEnv) (res : contract_invoke_result) (api_arg : String) :
    ApiOutcome :=
  match check_admin env res with
  | .error e => .raised e res
  | .ok _ =>
    match get_storage_state env res with
    | none => .raised .library_error res
    | some state =>
      if state != not_inited_state_of_token_contract then
        .raised (.fc_assert "this token contract inited before") res
      else
        let parsed_args := boost_split api_arg
        if parsed_args.length < 4 then
          .raised (.fc_assert
            "argument format error, need format: name,symbol,supply,precision") res
        else
          let name := boost_trim (parsed_args.getD 0 "")
          let symbol := boost_trim (parsed_args.getD 1 "")
          if name.isEmpty || symbol.isEmpty then
            .raised (.fc_assert
              "argument format error, need format: name,symbol,supply,precision") res
          else
            let supply_str := parsed_args.getD 2 ""
            if !is_integral env supply_str then
              .raised (.fc_assert
                "argument format error, need format: name,symbol,supply,precision") res
            else
              match stoll supply_str with
              | none => .raised .library_error res
              | some supply =>
                if supply ≤ 0 then
                  .raised (.fc_assert
                    "argument format error, supply must be positive integer") res
                else
                  let precision_str := parsed_args.getD 3 ""
                  if !is_integral env precision_str then
                    .raised (.fc_assert
                      "argument format error, need format: name,symbol,supply,precision") res
                  else
                    match stoll precision_str with
                    | none => .raised .library_error res
                    | some precision =>
                      if precision ≤ 0 then
                        .raised (.fc_assert
                          "argument format error, precision must be positive integer") res
                      else if !allowed_precisions.contains precision then
                        .raised (.fc_assert ("argument format error, precision must be any " ++
                          "one of [1,10,100,1000,10000,100000,1000000,10000000,100000000]")) res
                      else
                        match set_contract_storage_cbor env res env.contract_id "state"
                            (.COT_STRING common_state_of_token_contract) with
                        | .error r => .raised .library_error r
                        | .ok res1 =>
                        match set_contract_storage_cbor env res1 env.contract_id "precision"
                            (.COT_INT precision) with
                        | .error r => .raised .library_error r
                        | .ok res2 =>
                        match set_contract_storage_cbor env res2 env.contract_id "supply"
                            (.COT_INT supply) with
                        | .error r => .raised .library_error r
                        | .ok res3 =>
                        match set_contract_storage_cbor env res3 env.contract_id "name"
                            (.COT_STRING name) with
                        | .error r => .raised .library_error r
                        | .ok res4 =>
                        match set_contract_storage_cbor env res4 env.contract_id "symbol"
                            (.COT_STRING symbol) with
                        | .error r => .raised .library_error r
                        | .ok res5 =>
                        let users : List (String × CborObject) :=
                          map_assign [] env.caller_address (.COT_INT supply)
                        match set_contract_storage_cbor env res5 env.contract_id "users"
                            (.COT_MAP users) with
                        | .error r => .raised .library_error r
                        | .ok res6 => emit_event env res6 "Inited" supply_str

/-- Body of `token_native_contract::balance_of_api`. -/
def balance_of_api (env : TokenEnv) (res : contract_invoke_result) (api_arg : String) :
    ApiOutcome :=
  match get_storage_state env res with
  | none => .raised .library_error res
  | some state =>
    if state != common_state_of_token_contract then
      .raised (.fc_assert "this token contract state doesn't allow transfer") res
    else
      let owner_addr := api_arg
      match get_balance_of_user env res owner_addr with
      | none => .raised .library_error res
      | some amount => .returned { res with api_result := to_string amount }

/-- Body of `token_native_contract::state_api`. -/
def state_api (env : TokenEnv) (res : contract_invoke_result) : ApiOutcome :=
  match get_storage_state env res with
  | none => .raised .library_error res
  | some state => .returned { res with api_result := state }

/-- Body of `token_native_contract::supply_api`. -/
def supply_api (env : TokenEnv) (res : contract_invoke_result) : ApiOutcome :=
  match get_storage_supply env res with
  | none => .raised .library_error res
  | some supply => .returned { res with api_result := to_string supply }

/-- Body of `token_native_contract::approved_balance_from_api`. -/
def approved_balance_from_api (env : TokenEnv) (res : contract_invoke_result)
    (api_arg : String) : ApiOutcome :=
  match get_storage_state env res with
  | none => .raised .library_error res
  | some state =>
    if state != common_state_of_token_contract then
      .raised (.fc_assert "this token contract state doesn't allow this api") res
    else
      match get_storage_allowed env res with
      | none => .raised .library_error res
      | some allowed =>
        let parsed_args := boost_split api_arg
        if parsed_args.length < 2 then
          .raised (.fc_assert
            "argument format error, need format: spenderAddress, authorizerAddress") res
        else
          let spender_address := boost_trim (parsed_args.getD 0 "")
          let authorizer_address := boost_trim (parsed_args.getD 1 "")
          match map_find allowed authorizer_address with
          | none => .returned { res with api_result := to_string 0 }
          | some authorizer_cbor =>
            match authorizer_cbor.as_map with
            | none => .raised .library_error res
            | some allowed_data =>
              match map_find allowed_data spender_address with
              | none => .returned { res with api_result := to_string 0 }
              | some spender_cbor =>
                match spender_cbor.force_as_int with
                | none => .raised .library_error res
                | some approved_amount =>
                  .returned { res with api_result := to_string approved_amount }

/-- Body of `token_native_contract::transfer_api`. -/
def transfer_api (env : TokenEnv) (res : contract_invoke_result) (api_arg : String) :
    ApiOutcome :=
  match get_storage_state env res with
  | none => .raised .library_error res
  | some state =>
    if state != common_state_of_token_contract then
      .raised (.fc_assert "this token contract state doesn't allow transfer") res
    else
      let parsed_args := boost_split api_arg
      if parsed_args.length < 2 then
        .raised (.fc_assert
          "argument format error, need format: toAddress,amount(with precision, integer)") res
      else
        let to_address := boost_trim (parsed_args.getD 0 "")
        let amount_str := boost_trim (parsed_args.getD 1 "")
        if !is_integral env amount_str then
          .raised (.fc_assert "argument format error, amount must be positive integer") res
        else
          match stoll amount_str with
          | none => .raised .library_error res
          | some amount =>
            if amount ≤ 0 then
              .raised (.fc_assert "argument format error, amount must be positive integer") res
            else
              let from_addr := env.caller_address
              match get_storage_users env res with
              | none => .raised .library_error res
              | some users =>
                match map_find users from_addr with
                | none =>
                  .raised (.fc_assert "you have not enoungh amount to transfer out") res
                | some from_cbor =>
                  match from_cbor.force_as_int with
                  | none => .raised .library_error res
                  | some from_balance =>
                    if from_balance < amount then
                      .raised (.fc_assert "you have not enoungh amount to transfer out") res
                    else
                      let from_addr_remain := int64_t (from_balance - amount)
                      let users1 :=
                        if from_addr_remain > 0 then
                          map_assign users from_addr (.COT_INT from_addr_remain)
                        else map_erase users from_addr
                      let to_found : Option Int :=
                        match map_find users1 to_address with
                        | none => some 0
                        | some to_cbor => to_cbor.force_as_int
                      match to_found with
                      | none => .raised .library_error res
                      | some to_amount =>
                        let users2 :=
                          map_assign users1 to_address (.COT_INT (int64_t (to_amount + amount)))
                        match set_contract_storage_cbor env res env.contract_id "users"
                            (.COT_MAP users2) with
                        | .error r => .raised .library_error r
                        | .ok res1 =>
                          emit_event env res1 "Transfer"
                            (env.json_dumps [("from", .str from_addr), ("to", .str to_address),
                              ("amount", .int amount)])

/-- Body of `token_native_contract::approve_api`. -/
def approve_api (env : TokenEnv) (res : contract_invoke_result) (api_arg : String) :
    ApiOutcome :=
  match get_storage_state env res with
  | none => .raised .library_error res
  | some state =>
    if state != common_state_of_token_contract then
      .raised (.fc_assert "this token contract state doesn't allow approve") res
    else
      let parsed_args := boost_split api_arg
      if parsed_args.length < 2 then
        .raised (.fc_assert ("argument format error, need format: spenderAddress, " ++
          "amount(with precision, integer)")) res
      else
        let spender_address := boost_trim (parsed_args.getD 0 "")
        let amount_str := boost_trim (parsed_args.getD 1 "")
        if !is_integral env amount_str then
          .raised (.fc_assert "argument format error, amount must be positive integer") res
        else
          match stoll amount_str with
          | none => .raised .library_error res
          | some amount =>
            if amount ≤ 0 then
              .raised (.fc_assert "argument format error, amount must be positive integer") res
            else
              match get_storage_allowed env res with
              | none => .raised .library_error res
              | some allowed =>
                let contract_caller := env.caller_address
                let found : Option (List (String × CborObject)) :=
                  match map_find allowed contract_caller with
                  | none => some []
                  | some caller_cbor => caller_cbor.as_map
                match found with
                | none => .raised .library_error res
                | some allowed_data =>
                  let allowed_data1 := map_assign allowed_data spender_address (.COT_INT amount)
                  let allowed1 := map_assign allowed contract_caller (.COT_MAP allowed_data1)
                  match set_contract_storage_cbor env res env.contract_id "allowed"
                      (.COT_MAP allowed1) with
                  | .error r => .raised .library_error r
                  | .ok res1 =>
                    emit_event env res1 "Approved"
                      (env.json_dumps [("from", .str contract_caller),
                        ("spender", .str spender_address), ("amount", .int amount)])

/-- Body of `token_native_contract::transfer_from_api`. -/
def transfer_from_api (env : TokenEnv) (res : contract_invoke_result) (api_arg : String) :
    ApiOutcome :=
  match get_storage_state env res with
  | none => .raised .library_error res
  | some state =>
    if state != common_state_of_token_contract then
      .raised (.fc_assert "this token contract state doesn't allow transferFrom") res
    else
      let parsed_args := boost_split api_arg
      if parsed_args.length < 3 then
        .raised (.fc_assert ("argument format error, need format:fromAddress, toAddress, " ++
          "amount(with precision, integer)")) res
      else
        let from_address := boost_trim (parsed_args.getD 0 "")
        let to_address := boost_trim (parsed_args.getD 1 "")
        let amount_str := boost_trim (parsed_args.getD 2 "")
        if !is_integral env amount_str then
          .raised (.fc_assert "argument format error, amount must be positive integer") res
        else
          match stoll amount_str with
          | none => .raised .library_error res
          | some amount =>
            if amount ≤ 0 then
              .raised (.fc_assert "argument format error, amount must be positive integer") res
            else
              match get_storage_users env res with
              | none => .raised .library_error res
              | some users =>
              match get_storage_allowed env res with
              | none => .raised .library_error res
              | some allowed =>
              match get_balance_of_user env res from_address with
              | none => .raised .library_error res
              | some from_balance =>
                if from_balance < amount then
                  .raised (.fc_assert "fromAddress not have enough token to withdraw") res
                else
                  match map_find allowed from_address with
                  | none => .raised (.fc_assert "not enough approved amount to withdraw") res
                  | some from_cbor =>
                  match from_cbor.as_map with
                  | none => .raised .library_error res
                  | some allowed_data =>
                  let contract_caller := env.caller_address
                  match map_find allowed_data contract_caller with
                  | none => .raised (.fc_assert "not enough approved amount to withdraw") res
                  | some caller_cbor =>
                  match caller_cbor.force_as_int with
                  | none => .raised .library_error res
                  | some approved_amount =>
                    if approved_amount < amount then
                      .raised (.fc_assert "not enough approved amount to withdraw") res
                    else
                      let from_addr_remain := int64_t (from_balance - amount)
                      let users1 :=
                        if from_addr_remain > 0 then
                          map_assign users from_address (.COT_INT from_addr_remain)
                        else map_erase users from_address
                      let to_found : Option Int :=
                        match map_find users1 to_address with
                        | none => some 0
                        | some to_cbor => to_cbor.force_as_int
                      match to_found with
                      | none => .raised .library_error res
                      | some to_amount =>
                        let users2 :=
                          map_assign users1 to_address (.COT_INT (int64_t (to_amount + amount)))
                        match set_contract_storage_cbor env res env.contract_id "users"
                            (.COT_MAP users2) with
                        | .error r => .raised .library_error r
                        | .ok res1 =>
                          let remaining := int64_t (approved_amount - amount)
                          let allowed_data1 :=
                            if remaining = 0 then map_erase allowed_data contract_caller
                            else map_assign allowed_data contract_caller (.COT_INT remaining)
                          let allowed1 := map_assign allowed from_address (.COT_MAP allowed_data1)
                          match set_contract_storage_cbor env res1 env.contract_id "allowed"
                              (.COT_MAP allowed1) with
                          | .error r => .raised .library_error r
                          | .ok res2 =>
                            emit_event env res2 "Transfer"
                              (env.json_dumps [("from", .str from_address),
                                ("to", .str to_address), ("amount", .int amount)])

/-- The allowance that `approved_balance_from_api` looks up in the `allowed` map for a
spender in the entry of an authorizer: 0 where an entry is missing, none where an
accessor throws. -/
def allowance_in (allowed : List (String × CborObject))
    (authorizer_address spender_address : String) : Option Int :=
  match map_find allowed authorizer_address with
  | none => some 0
  | some authorizer_cbor =>
    match authorizer_cbor.as_map with
    | none => none
    | some allowed_data =>
      match map_find allowed_data spender_address with
      | none => some 0
      | some spender_cbor => spender_cbor.force_as_int

/-- The allowance of a spender from an authorizer in the effective storage. -/
def get_allowance (env : TokenEnv) (res : contract_invoke_result)
    (authorizer_address spender_address : String) : Option Int :=
  match get_storage_allowed env res with
  | none => none
  | some allowed => allowance_in allowed authorizer_address spender_address

/-- The pre-image that `set_contract_storage` decodes for a slot: the `before` of the
recorded change when there is one, the host value otherwise. -/
def before_image (get_storage : String → String → StorageDataType)
    (res : contract_invoke_result) (contract_address storage_name : String) : StorageDataType :=
  match recorded_change res contract_address storage_name with
  | some ch => ch.before
  | none => get_storage contract_address storage_name

/-! ### A codec for the examples -/

/-- Code of a text: its length, then its characters. -/
def enc_text (s : String) : List Nat := s.length :: s.data.map Char.toNat

/-- The text at the head of a code. -/
def dec_text : List Nat → Option (String × List Nat)
  | [] => none
  | n :: r =>
    if r.length < n then none
    else some (String.mk ((r.take n).map Char.ofNat), r.drop n)

/-- Code of an integer: its sign, then its absolute value. -/
def enc_int (i : Int) : List Nat := [if i < 0 then 1 else 0, i.natAbs]

/-- The integer at the head of a code. -/
def dec_int : List Nat → Option (Int × List Nat)
  | s :: n :: r => some (if s = 0 then (n : Int) else -(n : Int), r)
  | _ => none

mutual
/-- Code of an object: a tag for its type, then its payload; every item of an array or
a map follows a 1 and a 0 ends the items. -/
def demo_enc : CborObject → List Nat
  | .COT_NULL => [0]
  | .COT_UNDEFINED => [1]
  | .COT_BOOL b => [2, if b then 1 else 0]
  | .COT_FLOAT x => 3 :: enc_int x
  | .COT_INT i => 4 :: enc_int i
  | .COT_EXTRA_INT i => 5 :: enc_int i
  | .COT_STRING s => 6 :: enc_text s
  | .COT_BYTES bytes => 7 :: bytes.length :: bytes
  | .COT_ARRAY items => 8 :: demo_enc_items items
  | .COT_MAP items => 9 :: demo_enc_fields items
/-- Code of the items of an array. -/
def demo_enc_items : List CborObject → List Nat
  | [] => [0]
  | x :: xs => 1 :: (demo_enc x ++ demo_enc_items xs)
/-- Code of the entries of a map. -/
def demo_enc_fields : List (String × CborObject) → List Nat
  | [] => [0]
  | (k, x) :: xs => 1 :: (enc_text k ++ (demo_enc x ++ demo_enc_fields xs))
end

mutual
/-- The object at the head of a code and the rest of the code, read with a bound on the
number of nested calls. -/
def demo_dec : Nat → List Nat → Option (CborObject × List Nat)
  | 0, _ => none
  | _ + 1, [] => none
  | _ + 1, 0 :: r => some (.COT_NULL, r)
  | _ + 1, 1 :: r => some (.COT_UNDEFINED, r)
  | _ + 1, 2 :: r =>
    match r with
    | b :: r1 => some (.COT_BOOL (b != 0), r1)
    | [] => none
  | _ + 1, 3 :: r => (dec_int r).map (fun p => (.COT_FLOAT p.1, p.2))
  | _ + 1, 4 :: r => (dec_int r).map (fun p => (.COT_INT p.1, p.2))
  | _ + 1, 5 :: r => (dec_int r).map (fun p => (.COT_EXTRA_INT p.1, p.2))
  | _ + 1, 6 :: r => (dec_text r).map (fun p => (.COT_STRING p.1, p.2))
  | _ + 1, 7 :: r =>
    match r with
    | n :: r1 => if r1.length < n then none else some (.COT_BYTES (r1.take n), r1.drop n)
    | [] => none
  | f + 1, 8 :: r => (demo_dec_items f r).map (fun p => (.COT_ARRAY p.1, p.2))
  | f + 1, 9 :: r => (demo_dec_fields f r).map (fun p => (.COT_MAP p.1, p.2))
  | _ + 1, _ :: _ => none
/-- The items of an array at the head of a code. -/
def demo_dec_items : Nat → List Nat → Option (List CborObject × List Nat)
  | 0, _ => none
  | _ + 1, [] => none
  | _ + 1, 0 :: r => some ([], r)
  | f + 1, _ :: r =>
    match demo_dec f r with
    | none => none
    | some (x, r1) =>
      match demo_dec_items f r1 with
      | none => none
      | some (xs, r2) => some (x :: xs, r2)
/-- The entries of a map at the head of a code. -/
def demo_dec_fields : Nat → List Nat → Option (List (String × CborObject) × List Nat)
  | 0, _ => none
  | _ + 1, [] => none
  | _ + 1, 0 :: r => some ([], r)
  | f + 1, _ :: r =>
    match dec_text r with
    | none => none
    | some (k, r0) =>
      match demo_dec f r0 with
      | none => none
      | some (x, r1) =>
        match demo_dec_fields f r1 with
        | none => none
        | some (xs, r2) => some ((k, x) :: xs, r2)
end

/-- Decoding of the example codec: the code must hold one object and nothing else. -/
def demo_decode (bytes : List Nat) : Option CborObject :=
  match demo_dec (bytes.length + 1) bytes with
  | some (x, []) => some x
  | _ => none


/-- Conversion `std::strtod` on decimal notation, for the examples: spaces, an optional
sign, digits with an optional point, and an optional exponent; the number of characters
converted, 0 when the text does not start with a number. -/
def decimal_strtod_end (s : String) : Nat :=
  let spaces := s.data.takeWhile is_space
  let r0 := s.data.dropWhile is_space
  let signed : Nat × List Char :=
    match r0 with
    | '-' :: r => (1, r)
    | '+' :: r => (1, r)
    | r => (0, r)
  let int_digits := signed.2.takeWhile Char.isDigit
  let r2 := signed.2.dropWhile Char.isDigit
  let fraction : Nat × Nat × List Char :=
    match r2 with
    | '.' :: r =>
      (1 + (r.takeWhile Char.isDigit).length, (r.takeWhile Char.isDigit).length,
        r.dropWhile Char.isDigit)
    | r => (0, 0, r)
  if int_digits.length + fraction.2.1 = 0 then 0
  else
    let mantissa := spaces.length + signed.1 + int_digits.length + fraction.1
    let exponent_of (r : List Char) : Nat :=
      let exp_signed : Nat × List Char :=
        match r with
        | '-' :: r1 => (1, r1)
        | '+' :: r1 => (1, r1)
        | r1 => (0, r1)
      let exp_digits := exp_signed.2.takeWhile Char.isDigit
      if exp_digits.isEmpty then 0 else 1 + exp_signed.1 + exp_digits.length
    match fraction.2.2 with
    | 'e' :: r => mantissa + exponent_of r
    | 'E' :: r => mantissa + exponent_of r
    | _ => mantissa

/-- A rendering of `jsondiff::json_dumps` for the examples. -/
def demo_json_dumps (fields : List (String × JsonValue)) : String :=
  "\x7b" ++ String.intercalate ","
    (fields.map (fun p =>
      "\"" ++ p.1 ++ "\":" ++
        match p.2 with
        | .str s => "\"" ++ s ++ "\""
        | .int i => to_string i)) ++ "\x7d"

/-- Host storage that holds the given objects in the slots of every contract, and null
in every other slot. -/
def host_of (slots : List (String × CborObject)) : String → String → StorageDataType :=
  fun _ storage_name =>
    match map_find slots storage_name with
    | some x => ⟨demo_enc x⟩
    | none => ⟨demo_enc .COT_NULL⟩

/-- The environment of the examples: the contract `token` called by `caller`, the chain
head at block 7. -/
def tokenEnv (slots : List (String × CborObject)) (caller : String) : TokenEnv :=
  { cbor_encode := demo_enc
    cbor_decode := demo_decode
    diff := fun _ b => b
    get_storage := host_of slots
    caller_address := caller
    contract_id := "token"
    head_block_number := 7
    strtod_end := decimal_strtod_end
    json_dumps := demo_json_dumps }

/-- The slots of the token contract after `init` by the admin `A`. -/
def freshSlots : List (String × CborObject) :=
  [("name", .COT_STRING ""), ("symbol", .COT_STRING ""), ("supply", .COT_INT 0),
   ("precision", .COT_INT 0), ("users", .COT_MAP []), ("allowed", .COT_MAP []),
   ("state", .COT_STRING "NOT_INITED"), ("admin", .COT_STRING "A")]

/-- The slots of the token contract in state `COMMON` with the given balances and
allowances. -/
def commonSlots (users allowed : List (String × CborObject)) : List (String × CborObject) :=
  [("name", .COT_STRING "Demo"), ("symbol", .COT_STRING "DMO"), ("supply", .COT_INT 10000),
   ("precision", .COT_INT 100), ("users", .COT_MAP users), ("allowed", .COT_MAP allowed),
   ("state", .COT_STRING "COMMON"), ("admin", .COT_STRING "A")]

/-- The codec law that the statements about the token contract assume of the CBOR
library: decoding undoes encoding. -/
def CodecLaw (env : TokenEnv) : Prop :=
  ∀ x : CborObject, env.cbor_decode (env.cbor_encode x) = some x


/-- The balance that `transfer_api` and `get_balance_of_user` read for an address in a
users map: 0 for a missing entry, none when `force_as_int` throws. -/
def balance_in (users : List (String × CborObject)) (addr : String) : Option Int :=
  match map_find users addr with
  | none => some 0
  | some user_balance_cbor => user_balance_cbor.force_as_int

/-- The users map after `transfer_api` and `transfer_from_api` have taken `amount` from
the balance of the sender: the entry is erased when nothing remains. -/
def debit (users : List (String × CborObject)) (from_addr : String) (from_balance amount : Int) :
    List (String × CborObject) :=
  if int64_t (from_balance - amount) > 0 then
    map_assign users from_addr (.COT_INT (int64_t (from_balance - amount)))
  else map_erase users from_addr

/-- The users map after `transfer_api` and `transfer_from_api` have added `amount` to the
balance `to_amount` of the recipient. -/
def credit (users : List (String × CborObject)) (to_address : String) (to_amount amount : Int) :
    List (String × CborObject) :=
  map_assign users to_address (.COT_INT (int64_t (to_amount + amount)))

/-- The invocation result that an outcome carries. -/
def ApiOutcome.result : ApiOutcome → contract_invoke_result
  | .returned res => res
  | .raised _ res => res

/-- Scenario S1: the contract in state `COMMON` after `init_token("Demo,DMO,10000,100")`
by `A`, called by `A`. -/
def s1Env : TokenEnv := tokenEnv (commonSlots [("A", .COT_INT 10000)] []) "A"

/-- Scenario S2 before `transferFrom`: `A` has approved 500 to `C`, and `C` calls. -/
def s2Env : TokenEnv :=
  tokenEnv (commonSlots [("A", .COT_INT 10000)] [("A", .COT_MAP [("C", .COT_INT 500)])]) "C"

/-! ## Offline APIs of the token contract (`native_contract.cpp`) -/

/-- The set `token_native_contract::offline_apis()`. -/
def offline_apis : List String :=
  ["balanceOf", "approvedBalanceFrom", "allApprovedFromUser", "state", "supply", "precision",
   "tokenName", "tokenSymbol"]

/-- Body of `token_native_contract::token_name_api`. -/
def token_name_api (env : TokenEnv) (res : contract_invoke_result) : ApiOutcome :=
  match get_storage_token_name env res with
  | none => .raised .library_error res
  | some token_name => .returned { res with api_result := token_name }

/-- Body of `token_native_contract::token_symbol_api`. -/
def token_symbol_api (env : TokenEnv) (res : contract_invoke_result) : ApiOutcome :=
  match get_storage_token_symbol env res with
  | none => .raised .library_error res
  | some token_symbol => .returned { res with api_result := token_symbol }

/-- Body of `token_native_contract::precision_api`. -/
def precision_api (env : TokenEnv) (res : contract_invoke_result) : ApiOutcome :=
  match get_storage_precision env res with
  | none => .raised .library_error res
  | some precision => .returned { res with api_result := to_string precision }

/-- Body of `token_native_contract::all_approved_from_user_api`. The chain
`cbor_to_uvm_storage_value`, `uvm_storage_value_to_json`, `jsondiff::json_dumps`, which
renders the map of allowances on a Lua state of its own, is not in the embedded files: it
is the parameter `allowed_json`, none when it throws. -/
def all_approved_from_user_api (env : TokenEnv) (res : contract_invoke_result)
    (api_arg : String) (allowed_json : List (String × CborObject) → Option String) :
    ApiOutcome :=
  match get_storage_state env res with
  | none => .raised .library_error res
  | some state =>
    if state != common_state_of_token_contract then
      .raised (.fc_assert "this token contract state doesn't allow this api") res
    else
      match get_storage_allowed env res with
      | none => .raised .library_error res
      | some allowed =>
        let from_address := boost_trim api_arg
        let found : Option (List (String × CborObject)) :=
          match map_find allowed from_address with
          | none => some []
          | some from_cbor => from_cbor.as_map
        match found with
        | none => .raised .library_error res
        | some allowed_data =>
          match allowed_json allowed_data with
          | none => .raised .library_error res
          | some allowed_data_str => .returned { res with api_result := allowed_data_str }

/-- The call `apis[api_name](api_name, api_arg)` of `token_native_contract::invoke` for
the names of `offline_apis()`, none for another name. -/
def invoke_offline (env : TokenEnv) (res : contract_invoke_result)
    (allowed_json : List (String × CborObject) → Option String)
    (api_name api_arg : String) : Option ApiOutcome :=
  if api_name = "balanceOf" then some (balance_of_api env res api_arg)
  else if api_name = "approvedBalanceFrom" then some (approved_balance_from_api env res api_arg)
  else if api_name = "allApprovedFromUser" then
    some (all_approved_from_user_api env res api_arg allowed_json)
  else if api_name = "state" then some (state_api env res)
  else if api_name = "supply" then some (supply_api env res)
  else if api_name = "precision" then some (precision_api env res)
  else if api_name = "tokenName" then some (token_name_api env res)
  else if api_name = "tokenSymbol" then some (token_symbol_api env res)
  else none

/-- Scenario S2 after `transferFrom`: `A` holds 9500 and `B` holds 500. -/
def s2Slots : List (String × CborObject) :=
  commonSlots [("A", .COT_INT 9500), ("B", .COT_INT 500)] [("A", .COT_MAP [("C", .COT_INT 0)])]

/-! ## A decimal instance of the arithmetic environment -/

/-- An instance of `ArithEnv` for the examples: numbers with three decimals, held as their
count of thousandths, so that 500 is the number 0.5 and 2000 is the number 2. The
conversion to `int64_t` cuts the decimals off, and a number converts to an integer only
when it has no decimals. -/
def fixedEnv : ArithEnv :=
  { Num := Int
    tointeger := fun v => match v with
      | .integer i => some i
      | .number n => if n % 1000 = 0 then some (n / 1000) else none
      | .other _ => none
    tonumber := fun v => match v with
      | .integer i => some (1000 * i)
      | .number n => some n
      | .other _ => none
    luaV_mod := fun a b => if b = 0 then .error "attempt to perform 'n%%0'" else .ok (a % b)
    luaV_div := fun a b => if b = 0 then .error "attempt to divide by zero" else .ok (a / b)
    luaV_shiftl := fun a _ => a
    safe_number_add := fun a b => a + b
    safe_number_minus := fun a b => a - b
    safe_number_multiply := fun a b => (a * b).tdiv 1000
    safe_number_div := fun a b => (1000 * a).tdiv b
    safe_number_idiv := fun a b => 1000 * (a / b)
    safe_number_neg := fun a => -a
    safe_number_to_int64 := fun a => a.tdiv 1000
    pow_create := fun a b => if 0 ≤ b then 1000 * a ^ b.toNat else (1000 : Int).tdiv (a ^ (-b).toNat)
    fmod_create := fun a b => 1000 * a.tmod b
    safe_number_zero := 0 }

/-! ## Call depth, results and stack rotation (`ldo.cpp`, `lapi.cpp`) -/

/-- Error status `LUA_ERRERR` of `lua.h`. -/
def LUA_ERRERR : Nat := 6

/-- Option `LUA_MULTRET` of `lua.h`: all results are wanted. -/
def LUA_MULTRET : Int := -1

/-- An error that `stackerror` raises: `luaG_runerror(L, msg)` or `luaD_throw(L, errcode)`. -/
inductive Raised where
  | runerror (msg : String)
  | throw (errcode : Nat)
deriving DecidableEq, Repr

/-- Body of `stackerror`; `LUAI_MAXCCALLS`, whose definition is not in the embedded files,
is a parameter. The answer is the error raised, none when the function reports
nothing. -/
def stackerror (LUAI_MAXCCALLS nCcalls : Nat) : Option Raised :=
  if nCcalls = LUAI_MAXCCALLS then some (.runerror "C stack overflow")
  else if nCcalls ≥ LUAI_MAXCCALLS + (LUAI_MAXCCALLS >>> 3) then some (.throw LUA_ERRERR)
  else none

/-- Where `luaD_call` stands when its depth check is over. -/
structure CallEntry where
  /-- Depth `L->nCcalls` after the increment -/
  nCcalls : Nat
  /-- The error that `stackerror` raised -/
  raised : Option Raised
  /-- Whether `luaD_precall` is reached, so that the call is started: always, unless an
  error left through the handler `L->errorJmp`; without handler `luaD_throw` records the
  error, sets `force_stopping` and returns -/
  precall_reached : Bool
deriving DecidableEq, Repr

/-- The statement `if (++L->nCcalls >= LUAI_MAXCCALLS) stackerror(L);` that opens
`luaD_call`, up to the call of `luaD_precall`. -/
def luaD_call_enter (LUAI_MAXCCALLS : Nat) (errorJmp : Bool) (nCcalls : Nat) : CallEntry :=
  let n := nCcalls + 1
  if n ≥ LUAI_MAXCCALLS then
    match stackerror LUAI_MAXCCALLS n with
    | some r => ⟨n, some r, !errorJmp⟩
    | none => ⟨n, none, true⟩
  else ⟨n, none, true⟩

/-- The slots of the Lua stack by address: an address (`StkId`) is an integer that counts
slots. Room on the stack is the obligation of the callers (`luaD_checkstack`), so every
address has a slot here. -/
abbrev LuaStack := Int → LuaValue

/-- Assignment `setobjs2s(L, dst, src)` from a slot of the stack. -/
def setobjs2s (stack : LuaStack) (dst src : Int) : LuaStack :=
  Function.update stack dst (stack src)

/-- Assignment `setnilvalue(dst)`. -/
def setnilvalue (stack : LuaStack) (dst : Int) : LuaStack :=
  Function.update stack dst .nil

/-- The loop `for (; i < n; i++) setobjs2s(L, res + i, firstResult + i)` with `count`
rounds left. -/
def move_loop (firstResult res : Int) : Nat → Nat → LuaStack → LuaStack
  | _, 0, stack => stack
  | i, count + 1, stack =>
    move_loop firstResult res (i + 1) count (setobjs2s stack (res + i) (firstResult + i))

/-- The loop `for (; i < wanted; i++) setnilvalue(res + i)` with `count` rounds left. -/
def nil_loop (res : Int) : Nat → Nat → LuaStack → LuaStack
  | _, 0, stack => stack
  | i, count + 1, stack => nil_loop res (i + 1) count (setnilvalue stack (res + i))

/-- What `moveresults` leaves: the stack, `L->top` and the returned value. -/
structure MovedResults where
  stack : LuaStack
  top : Int
  ret : Int

/-- Body of `moveresults`. -/
def moveresults (stack : LuaStack) (firstResult res : Int) (nres wanted : Int) :
    MovedResults :=
  if wanted = 0 then ⟨stack, res + wanted, 1⟩
  else if wanted = 1 then
    -- with no result, `firstResult = luaO_nilobject`
    ⟨if nres = 0 then setnilvalue stack res else setobjs2s stack res firstResult,
      res + wanted, 1⟩
  else if wanted = LUA_MULTRET then
    ⟨move_loop firstResult res 0 nres.toNat stack, res + nres, 0⟩
  else if wanted ≤ nres then
    ⟨move_loop firstResult res 0 wanted.toNat stack, res + wanted, 1⟩
  else
    ⟨nil_loop res nres.toNat (wanted - nres).toNat
      (move_loop firstResult res 0 nres.toNat stack), res + wanted, 1⟩

/-- The loop of `reverse`: `for (; from < to; from++, to--)` swaps the two slots; `rounds`
bounds the number of rounds. -/
def reverse_loop : Nat → LuaStack → Int → Int → LuaStack
  | 0, stack, _, _ => stack
  | rounds + 1, stack, from_, to_ =>
    if from_ < to_ then
      let temp := stack from_
      reverse_loop rounds (Function.update (setobjs2s stack from_ to_) to_ temp)
        (from_ + 1) (to_ - 1)
    else stack

/-- Body of `reverse`: the distance of the two ends is enough rounds, since every round
shortens it by two. -/
def reverse (stack : LuaStack) (from_ to_ : Int) : LuaStack :=
  reverse_loop (to_ - from_).toNat stack from_ to_

/-- The part of `lua_State` that `index2addr` and `lua_rotate` read. -/
structure StackFrame where
  stack : LuaStack
  /-- Address `L->ci->func` -/
  func : Int
  /-- Address `L->top` -/
  top : Int

/-- Pseudo-index `LUA_REGISTRYINDEX` of `lua.h`. -/
def LUA_REGISTRYINDEX : Int := -1001000

/-- Body of `index2addr` for the indices of the stack: the address of an acceptable
index, none for `NONVALIDVALUE`, for an index that fails `api_check` and for the
pseudo-indices, which are not in the stack. -/
def index2addr (L : StackFrame) (idx : Int) : Option Int :=
  if idx > 0 then
    if L.func + idx ≥ L.top then none else some (L.func + idx)
  else if ¬ idx ≤ LUA_REGISTRYINDEX then
    if idx ≠ 0 ∧ -idx ≤ L.top - (L.func + 1) then some (L.top + idx) else none
  else none

/-- Body of `lua_rotate`, none when `api_checkstackindex` or the check of `n` fails. -/
def lua_rotate (L : StackFrame) (idx n : Int) : Option LuaStack :=
  let t := L.top - 1
  match index2addr L idx with
  | none => none
  | some p =>
    if (if n ≥ 0 then n else -n) ≤ t - p + 1 then
      let m := if n ≥ 0 then t - n else p - n - 1
      some (reverse (reverse (reverse L.stack p m) (m + 1) t) p t)
    else none

/-- The values of `len` slots of the stack from address `p` on. -/
def segment (stack : LuaStack) (p : Int) (len : Nat) : List LuaValue :=
  (List.range len).map (fun (i : Nat) => stack (p + (i : Int)))

/-- A stack that holds the integer `a` at every address `a`. -/
def countingStack : LuaStack := fun a => .integer a

/-! ## Error slots (`ldebug.cpp`) -/

/-- Length `strlen` of the C string that starts a sequence of bytes. -/
def strlen (s : List Nat) : Nat := (s.takeWhile (fun b => b != 0)).length

/-- The C string that a buffer holds: its bytes before the first NUL. -/
def c_string (buf : List Nat) : List Nat := buf.takeWhile (fun b => b != 0)

/-- Call `strncpy(dst, src, n)`: exactly `n` bytes of `dst` are written, the bytes of the
C string `src` cut at `n` and NUL bytes after them. -/
def strncpy (dst src : List Nat) (n : Nat) : List Nat :=
  (c_string src).take n ++ List.replicate (n - strlen src) 0 ++ dst.drop n

/-- Body of `lua_set_compile_error` on the slot `L->compile_error`; the capacity
`LUA_COMPILE_ERROR_MAX_LENGTH`, defined outside the embedded files, is a parameter, and
`msg` is none for `nullptr`. -/
def lua_set_compile_error (LUA_COMPILE_ERROR_MAX_LENGTH : Nat) (compile_error : List Nat)
    (msg : Option (List Nat)) : List Nat :=
  match msg with
  | none => compile_error
  | some msg =>
    if strlen msg > 0 ∧ strlen compile_error < 1 then
      let size :=
        if strlen msg ≥ LUA_COMPILE_ERROR_MAX_LENGTH then LUA_COMPILE_ERROR_MAX_LENGTH - 1
        else strlen msg
      ((strncpy compile_error msg LUA_COMPILE_ERROR_MAX_LENGTH).set size 0).set
        (LUA_COMPILE_ERROR_MAX_LENGTH - 1) 0
    else compile_error

/-- Body of `lua_set_run_error` on the slot `L->runerror`: the slot after the call and the
message handed to `throw_exception`. -/
def lua_set_run_error (LUA_VM_EXCEPTION_STRNG_MAX_LENGTH : Nat) (runerror : List Nat)
    (msg : Option (List Nat)) : List Nat × Option (List Nat) :=
  match msg with
  | none => (runerror, none)
  | some msg =>
    if strlen msg > 0 then
      let size :=
        if strlen msg ≥ LUA_VM_EXCEPTION_STRNG_MAX_LENGTH then
          LUA_VM_EXCEPTION_STRNG_MAX_LENGTH - 1
        else strlen msg
      ((strncpy runerror msg LUA_VM_EXCEPTION_STRNG_MAX_LENGTH).set size 0, some (c_string msg))
    else (runerror, none)

/-- The bytes of a text. -/
def bytes_of (s : String) : List Nat := s.data.map Char.toNat


/-! ## Logical call depth (`ldo.cpp`) -/

/-- The three kinds of function that `luaD_precall` calls. -/
inductive FunctionKind where
  | LUA_TCCL
  | LUA_TLCF
  | LUA_TLCL
deriving DecidableEq, Repr

/-- What `luaD_precall` finds in the slot `func`: a function, or a value that is no
function, with its `__call` metamethod when `luaT_gettmbyobj` finds one that is a
function (`ttisfunction(tm)`), none otherwise. -/
inductive Callee where
  | function (kind : FunctionKind)
  | not_function (tm : Option FunctionKind)
deriving DecidableEq, Repr

/-- The statement `if (L->ci_depth > 0) L->ci_depth--;` of `luaD_poscall`. -/
def luaD_poscall_ci_depth (ci_depth : Nat) : Nat :=
  if ci_depth > 0 then ci_depth - 1 else ci_depth

/-- How `luaD_precall` ends. -/
inductive PrecallEnd where
  /-- A C function has run and `luaD_poscall` has finished the call: answer 1 -/
  | c_function_done
  /-- The C function left the state in `LVM_STATE_BREAK` or `LVM_STATE_SUSPEND`: answer 1
  without `luaD_poscall` -/
  | c_function_break
  /-- The frame of a Lua function is prepared: answer 0, `luaV_execute` and the
  `luaD_poscall` of its return are still to come -/
  | lua_function_prepared
  /-- The value has no `__call` function: `tryfuncTM` raises -/
  | not_callable
deriving DecidableEq, Repr

/-- The C function `(*f)(L)` as the depth sees it: `ci_depth` when it returns and whether
the state is then `LVM_STATE_BREAK` or `LVM_STATE_SUSPEND`. -/
structure CFunctionRun where
  ci_depth_after : Nat → Nat
  break_or_suspend : Bool

/-- The cases `LUA_TCCL`, `LUA_TLCF` and `LUA_TLCL` of the switch of `luaD_precall`, with
`ci_depth` as the statement `L->ci_depth++` before the switch has left it. -/
def luaD_precall_function (f : CFunctionRun) : FunctionKind → Nat → PrecallEnd × Nat
  | .LUA_TLCL, ci_depth => (.lua_function_prepared, ci_depth)
  | _, ci_depth =>
    if f.break_or_suspend then (.c_function_break, f.ci_depth_after ci_depth)
    else (.c_function_done, luaD_poscall_ci_depth (f.ci_depth_after ci_depth))

/-- Body of `luaD_precall` on the logical call depth: how the call ends and `L->ci_depth`
at that time. In the default case `tryfuncTM` puts the metamethod in the slot `func` and
`luaD_precall` calls itself on it, which runs `L->ci_depth++` a second time. -/
def luaD_precall (f : CFunctionRun) : Callee → Nat → PrecallEnd × Nat
  | .function kind, ci_depth => luaD_precall_function f kind (ci_depth + 1)
  | .not_function none, ci_depth => (.not_callable, ci_depth + 1)
  | .not_function (some tm), ci_depth => luaD_precall_function f tm (ci_depth + 1 + 1)

/-- A call from `luaD_precall` to the `luaD_poscall` that finishes it: for a Lua function
`body` is the depth after `luaV_execute` has run the function up to its return; none when
no `luaD_poscall` finishes the call. -/
def finished_call (f : CFunctionRun) (body : Nat → Nat) (callee : Callee) (ci_depth : Nat) :
    Option Nat :=
  match luaD_precall f callee ci_depth with
  | (.c_function_done, d) => some d
  | (.lua_function_prepared, d) => some (luaD_poscall_ci_depth (body d))
  | _ => none

/-- A C function whose own calls are all finished when it returns: the depth is as it
found it. -/
def balancedRun : CFunctionRun := ⟨fun d => d, false⟩

/-! ## String helpers of `cbor_diff` (`helper.cpp`) -/

/-- Value `std::string::npos`, the largest `size_t`. -/
def npos : Nat := 18446744073709551615

/-- Search `str.find(end)` as an option: the first position at which `end` occurs in
`str`, none when it occurs nowhere. -/
def string_find : List Char → List Char → Option Nat
  | [], e => if e.isEmpty then some 0 else none
  | c :: t, e =>
    if e.isPrefixOf (c :: t) then some 0 else (string_find t e).map (fun p => p + 1)

/-- Conversion `int(n)` of a `size_t`: the value reduced into the signed 32-bit range. -/
def int_of_size_t (n : Nat) : Int :=
  ((n : Int) + 2147483648) % 4294967296 - 2147483648

/-- Body of `cbor_diff::utils::string_ends_with`; the characters of the texts stand for
their bytes. In `pos + end.size() == str.size()` the `int` is converted to `size_t`. -/
def string_ends_with (str end_ : String) : Bool :=
  let found : Nat :=
    match string_find str.data end_.data with
    | some p => p
    | none => npos
  let pos : Int := int_of_size_t found
  decide (pos ≥ 0) &&
    decide ((pos + (end_.length : Int)) % 18446744073709551616 = (str.length : Int))

/-- Body of `cbor_diff::utils::string_without_ext`. -/
def string_without_ext (str ext : String) : String :=
  if !string_ends_with str ext then str
  else String.mk (str.data.take (str.length - ext.length))

/-! ## Floating point bytes (`lobject.cpp`) -/

/-- The loop `while (x >= (8 << 4))` of `luaO_int2fb` on the `unsigned int` `x` and the
exponent `e`, with a bound on its rounds. -/
def coarse_steps : Nat → Nat → Nat → Nat × Nat
  | 0, x, e => (x, e)
  | rounds + 1, x, e =>
    if x ≥ 8 <<< 4 then coarse_steps rounds (((x + 15) % 4294967296) >>> 4) (e + 4)
    else (x, e)

/-- The loop `while (x >= (8 << 1))` of `luaO_int2fb`, with a bound on its rounds. -/
def fine_steps : Nat → Nat → Nat → Nat × Nat
  | 0, x, e => (x, e)
  | rounds + 1, x, e =>
    if x ≥ 8 <<< 1 then fine_steps rounds (((x + 1) % 4294967296) >>> 1) (e + 1)
    else (x, e)

/-- Body of `luaO_int2fb` on an `unsigned int` `x`. Every round of a loop at least halves
`x`, so 32 rounds, one for each bit, are enough for each loop. -/
def luaO_int2fb (x : Nat) : Int :=
  if x < 8 then (x : Int)
  else
    let coarse := coarse_steps 32 x 0
    let fine := fine_steps 32 coarse.1 coarse.2
    Int.lor (((fine.2 + 1) <<< 3 : Nat) : Int) ((fine.1 : Int) - 8)

/-- Value of an `int` expression: the mathematical value reduced into the signed 32-bit
range. -/
def int32_t (x : Int) : Int :=
  (x + 2147483648) % 4294967296 - 2147483648

/-- Body of `luaO_fb2int`. -/
def luaO_fb2int (x : Int) : Int :=
  if x < 8 then x
  else int32_t ((((x.toNat &&& 7) + 8) <<< ((x.toNat >>> 3) - 1) : Nat) : Int)

/-! ## Chunk identifiers (`lobject.cpp`) -/

/-- Literal `RETS`. -/
def RETS : List Nat := bytes_of "..."

/-- Literal `PRE`. -/
def PRE : List Nat := bytes_of "[string \""

/-- Literal `POS`. -/
def POS : List Nat := bytes_of "\"]"

/-- Difference of two `size_t` values. -/
def size_t_sub (a b : Nat) : Nat := (a + 18446744073709551616 - b) % 18446744073709551616

/-- Body of `luaO_chunkid`: the bytes it writes to `out`, in order from the start of
`out`. The bytes at `source` are those of the C string and its NUL; `=` is 61, `@` is 64
and the new line is 10. -/
def luaO_chunkid (source : List Nat) (bufflen : Nat) : List Nat :=
  let l := strlen source
  let mem := c_string source ++ [0]
  if (c_string source).head? = some 61 then
    if l ≤ bufflen then (mem.drop 1).take l
    else (mem.drop 1).take (size_t_sub bufflen 1) ++ [0]
  else if (c_string source).head? = some 64 then
    if l ≤ bufflen then (mem.drop 1).take l
    else
      let bufflen1 := size_t_sub bufflen RETS.length
      RETS ++ (mem.drop (1 + l - bufflen1)).take bufflen1
  else
    let nl : Option Nat :=
      if (c_string source).contains 10 then some ((c_string source).indexOf 10) else none
    let bufflen1 := size_t_sub bufflen ((PRE ++ RETS ++ POS).length + 1)
    if l < bufflen1 ∧ nl = none then
      PRE ++ mem.take l ++ (POS ++ [0])
    else
      let l1 := match nl with
        | some i => i
        | none => l
      let l2 := if l1 > bufflen1 then bufflen1 else l1
      PRE ++ mem.take l2 ++ RETS ++ (POS ++ [0])

/-! ## Numerals (`lobject.cpp`) -/

/-- Body of `isneg`: whether the text starts with `-`, and the text after the sign. -/
def isneg : List Char → Bool × List Char
  | '-' :: r => (true, r)
  | '+' :: r => (false, r)
  | r => (false, r)

/-- Test `lisxdigit`. -/
def lisxdigit (c : Char) : Bool :=
  c.isDigit || ('a' ≤ c && c ≤ 'f') || ('A' ≤ c && c ≤ 'F')

/-- Body of `luaO_hexavalue`. -/
def luaO_hexavalue (c : Char) : Nat :=
  if c.isDigit then c.toNat - 48 else (c.toLower.toNat - 97) + 10

/-- The loop `for (; lisdigit(*s); s++)` of `l_str2int` on the `lua_Unsigned` `a`: the
value read, whether no digit was read, and the text left. -/
def read_decimal : List Char → Nat → Bool → Nat × Bool × List Char
  | [], a, empty => (a, empty, [])
  | c :: r, a, empty =>
    if c.isDigit then read_decimal r ((a * 10 + (c.toNat - 48)) % 18446744073709551616) false
    else (a, empty, c :: r)

/-- The loop `for (; lisxdigit(*s); s++)` of `l_str2int`. -/
def read_hexadecimal : List Char → Nat → Bool → Nat × Bool × List Char
  | [], a, empty => (a, empty, [])
  | c :: r, a, empty =>
    if lisxdigit c then
      read_hexadecimal r ((a * 16 + luaO_hexavalue c) % 18446744073709551616) false
    else (a, empty, c :: r)

/-- The test `s[0] == '0' && (s[1] == 'x' || s[1] == 'X')` of `l_str2int`. -/
def is_hex_numeral : List Char → Bool
  | '0' :: 'x' :: _ => true
  | '0' :: 'X' :: _ => true
  | _ => false

/-- Body of `l_str2int`: the integer stored in `result`, none for the null pointer. The
unsigned value is negated modulo `2^64` and `l_castU2S` reads it as a signed integer. -/
def l_str2int (s : String) : Option Int :=
  let s1 := (c_str s).data.dropWhile is_space
  let signed := isneg s1
  let read :=
    if is_hex_numeral signed.2 then read_hexadecimal (signed.2.drop 2) 0 true
    else read_decimal signed.2 0 true
  let s2 := read.2.2.dropWhile is_space
  if read.2.1 || !s2.isEmpty then none
  else
    some (int64_t
      ((if signed.1 then (18446744073709551616 - read.1) % 18446744073709551616 else read.1 : Nat)
        : Int))

/-- Body of `luaO_str2num`: the value stored in `o` and the size returned, none for the
answer 0. The conversion `l_str2d`, which rests on `lua_str2number` and
`safe_number_create`, is a parameter. -/
def luaO_str2num {Num : Type} (l_str2d : String → Option Num) (s : String) :
    Option (TValue Num × Nat) :=
  match l_str2int s with
  | some i => some (.integer i, (c_str s).length + 1)
  | none =>
    match l_str2d s with
    | some n => some (.number n, (c_str s).length + 1)
    | none => none

/-! ## The sum of the balances of the token contract -/

/-- The sum of all user balances of a users map, each read with `force_as_int`. -/
def total_balance (users : List (String × CborObject)) : Int :=
  (users.map (fun p => (p.2.force_as_int).getD 0)).sum

/-- A users map of balances: the addresses are distinct, as the keys of a `std::map` are,
and every entry holds an integer that is not negative. -/
def ValidBalances (users : List (String × CborObject)) : Prop :=
  (users.map Prod.fst).Nodup ∧ ∀ p ∈ users, ∃ b, p.2.force_as_int = some b ∧ 0 ≤ b


/-! ## Theorems: storage change tracking -/

theorem map_find_assign {V : Type} (m : List (String × V)) (k k2 : String) (v : V) :
    map_find (map_assign m k v) k2 = if k = k2 then some v else map_find m k2 := by
  induction m with
  | nil => simp [map_assign, map_find]
  | cons hd tl ih =>
    obtain ⟨k1, v1⟩ := hd
    by_cases h1 : k1 = k
    · subst h1
      by_cases h2 : k1 = k2 <;> simp [map_assign, map_find, h2]
    · by_cases h2 : k1 = k2
      · subst h2
        have h3 : ¬ k = k1 := fun h => h1 h.symm
        simp [map_assign, map_find, h1, h3]
      · simp [map_assign, map_find, h1, h2, ih]

theorem map_assign_of_find {V : Type} (m : List (String × V)) (k : String) (v : V)
    (h : map_find m k = some v) : map_assign m k v = m := by
  induction m with
  | nil => simp [map_find] at h
  | cons hd tl ih =>
    obtain ⟨k1, v1⟩ := hd
    by_cases h1 : k1 = k
    · simp [map_find, h1] at h
      simp [map_assign, h1, h]
    · simp [map_find, h1] at h
      simp [map_assign, h1, ih h]


theorem recorded_change_set (lib : CborLib) (gs : String → String → StorageDataType)
    (res res1 : contract_invoke_result) (c s : String) (v : StorageDataType)
    (h : set_contract_storage lib gs res c s v = some res1) :
    recorded_change res1 c s =
      change_of lib (match recorded_change res c s with
        | some ch => ch.before
        | none => gs c s) v ∧
    (recorded_change res1 c s).isSome ∧
    (∀ c2 s2, ¬ (c2 = c ∧ s2 = s) → recorded_change res1 c2 s2 = recorded_change res c2 s2) ∧
    res1.events = res.events ∧ res1.api_result = res.api_result ∧ res1.invoker = res.invoker := by
  unfold set_contract_storage at h
  cases hc : map_find res.storage_changes c with
  | none =>
    simp only [hc, Option.isNone_none, if_true, map_subscript, map_find_assign, map_find] at h
    simp only [recorded_change, hc, Option.bind, change_of]
    cases hb : lib.cbor_decode (gs c s).storage_data with
    | none => simp [hb] at h
    | some b =>
      cases ha : lib.cbor_decode v.storage_data with
      | none => simp [hb, ha] at h
      | some a =>
        simp [hb, ha] at h
        subst h
        refine ⟨?_, ?_, ?_, rfl, rfl, rfl⟩
        · simp [map_find_assign, map_assign, map_find]
        · simp [map_find_assign, map_assign, map_find]
        · intro c2 s2 hne
          by_cases hcc : c = c2
          · subst hcc
            have hs : ¬ s = s2 := fun e => hne ⟨rfl, e.symm⟩
            simp [map_find_assign, map_assign, map_find, hc, hs]
          · simp [map_find_assign, hcc]
  | some inner =>
    simp only [hc, Option.isNone_some, map_subscript, Bool.false_eq_true, if_false] at h
    simp only [recorded_change, hc, Option.bind, change_of]
    cases hs : map_find inner s with
    | none =>
      simp only [hs, Option.isNone_none, if_true] at h
      cases hb : lib.cbor_decode (gs c s).storage_data with
      | none => simp [hb] at h
      | some b =>
        cases ha : lib.cbor_decode v.storage_data with
        | none => simp [hb, ha] at h
        | some a =>
          simp [hb, ha] at h
          subst h
          refine ⟨?_, ?_, ?_, rfl, rfl, rfl⟩
          · simp [map_find_assign]
          · simp [map_find_assign]
          · intro c2 s2 hne
            by_cases hcc : c = c2
            · subst hcc
              have hs2 : ¬ s = s2 := fun e => hne ⟨rfl, e.symm⟩
              simp [map_find_assign, hc, hs2]
            · simp [map_find_assign, hcc]
    | some ch =>
      simp only [hs, Option.isNone_some] at h
      cases hb : lib.cbor_decode ch.before.storage_data with
      | none => simp [hb] at h
      | some b =>
        cases ha : lib.cbor_decode v.storage_data with
        | none => simp [hb, ha] at h
        | some a =>
          simp [hb, ha] at h
          subst h
          refine ⟨?_, ?_, ?_, rfl, rfl, rfl⟩
          · simp [map_find_assign]
          · simp [map_find_assign]
          · intro c2 s2 hne
            by_cases hcc : c = c2
            · subst hcc
              have hs2 : ¬ s = s2 := fun e => hne ⟨rfl, e.symm⟩
              simp [map_find_assign, hc, hs2]
            · simp [map_find_assign, hcc]

theorem change_of_fields (lib : CborLib) (before after : StorageDataType)
    (ch : StorageDataChangeType) (h : change_of lib before after = some ch) :
    ch.before = before ∧ ch.after = after ∧
    ∃ b a, lib.cbor_decode before.storage_data = some b ∧
      lib.cbor_decode after.storage_data = some a ∧
      ch.storage_diff.storage_data = lib.cbor_encode (lib.diff b a) := by
  unfold change_of at h
  cases hb : lib.cbor_decode before.storage_data with
  | none => simp [hb] at h
  | some b =>
    cases ha : lib.cbor_decode after.storage_data with
    | none => simp [hb, ha] at h
    | some a =>
      simp [hb, ha] at h
      subst h
      exact ⟨rfl, rfl, b, a, rfl, rfl, rfl⟩

theorem run_writes_recorded (lib : CborLib) (c s : String) (calls : List StorageWrite) :
    ∀ res0 res : contract_invoke_result, run_writes lib res0 calls = some res →
      match last_write calls c s with
      | none => recorded_change res c s = recorded_change res0 c s
      | some l => ∃ ch, recorded_change res c s = some ch ∧
          change_of lib (match recorded_change res0 c s with
            | some ch0 => ch0.before
            | none => match first_write calls c s with
              | some f => f.get_storage c s
              | none => ⟨[]⟩) l.value = some ch := by
  induction calls with
  | nil =>
    intro res0 res h
    simp [run_writes] at h
    simp [last_write, h]
  | cons w ws ih =>
    intro res0 res h
    simp only [run_writes] at h
    cases hset : set_contract_storage lib w.get_storage res0 w.contract_address w.storage_name
        w.value with
    | none => simp [hset] at h
    | some res1 =>
      simp only [hset] at h
      have hstep := recorded_change_set lib w.get_storage res0 res1 _ _ _ hset
      have hrec := ih res1 res h
      by_cases hm : w.contract_address = c ∧ w.storage_name = s
      · obtain ⟨hc, hs⟩ := hm
        subst hc; subst hs
        obtain ⟨h1, h2, -⟩ := hstep
        obtain ⟨ch1, hch1⟩ := Option.isSome_iff_exists.mp h2
        rw [hch1] at h1
        have hf := change_of_fields lib _ _ ch1 h1.symm
        simp only [last_write, first_write, and_self, if_true]
        cases hl : last_write ws w.contract_address w.storage_name with
        | none =>
          simp only [hl] at hrec
          refine ⟨ch1, hrec.trans hch1, ?_⟩
          rw [← h1]
        | some l =>
          simp only [hl, hch1] at hrec
          obtain ⟨ch, hch, hco⟩ := hrec
          refine ⟨ch, hch, ?_⟩
          rw [← hco, hf.1]
      · have hfr := hstep.2.2.1 c s (fun e => hm ⟨e.1.symm, e.2.symm⟩)
        simp only [last_write, first_write, hm, if_false]
        cases hl : last_write ws c s with
        | none =>
          simp only [hl] at hrec
          exact hrec.trans hfr
        | some l =>
          simp only [hl, hfr] at hrec
          exact hrec

/-- C1: `get_contract_storage(c, s)` returns the `after` value of the change recorded for
`(c, s)` when there is one and the host value `get_storage(c, s)` otherwise, and it leaves
the invocation result, `storage_changes` included, as it was. -/
theorem get_contract_storage_effective (get_storage : String → String → StorageDataType)
    (res : contract_invoke_result) (c s : String) :
    (get_contract_storage get_storage res c s).1 =
      (match recorded_change res c s with
        | some ch => ch.after
        | none => get_storage c s) ∧
    (get_contract_storage get_storage res c s).2 = res := by
  unfold get_contract_storage recorded_change
  cases hc : map_find res.storage_changes c with
  | none => simp
  | some inner =>
    cases hs : map_find inner s with
    | none => simp [map_subscript, hc, hs]
    | some ch =>
      simp [map_subscript, hc, hs, map_assign_of_find _ _ _ hc]

/-- C2: after a sequence of `set_contract_storage` calls of one invocation that writes
`(c, s)` at least once (no change for `(c, s)` being recorded before it), the recorded
change has `before` equal to the host value read at the first write, `after` equal to the
last value written, and `storage_diff = cbor_encode(diff(cbor_decode(before),
cbor_decode(after)))`. -/
theorem set_contract_storage_sequence (lib : CborLib) (res0 res : contract_invoke_result)
    (calls : List StorageWrite) (c s : String) (first last : StorageWrite)
    (h0 : recorded_change res0 c s = none)
    (hrun : run_writes lib res0 calls = some res)
    (hfirst : first_write calls c s = some first)
    (hlast : last_write calls c s = some last) :
    ∃ ch, recorded_change res c s = some ch ∧
      ch.before = first.get_storage c s ∧ ch.after = last.value ∧
      ∃ b a, lib.cbor_decode ch.before.storage_data = some b ∧
        lib.cbor_decode ch.after.storage_data = some a ∧
        ch.storage_diff.storage_data = lib.cbor_encode (lib.diff b a) := by
  have h := run_writes_recorded lib c s calls res0 res hrun
  simp only [hlast, h0, hfirst] at h
  obtain ⟨ch, hch, hco⟩ := h
  obtain ⟨hb, ha, b, a, hdb, hda, hd⟩ := change_of_fields lib _ _ ch hco
  refine ⟨ch, hch, hb, ha, b, a, ?_, ?_, hd⟩
  · rw [hb]; exact hdb
  · rw [ha]; exact hda

theorem run_demoWrites : run_writes replaceLib emptyResult demoWrites = some demoResult := by
  decide

/-- Witness of C2 on `demoWrites`: the host value changes between the two writes of slot
`s`, and the recorded `before` is the one read at the first write. -/
theorem set_contract_storage_sequence_witness :
    ∃ ch, recorded_change demoResult "c" "s" = some ch ∧
      ch.before = hostZero "c" "s" ∧ ch.after = ⟨[3]⟩ ∧
      ∃ b a, replaceLib.cbor_decode ch.before.storage_data = some b ∧
        replaceLib.cbor_decode ch.after.storage_data = some a ∧
        ch.storage_diff.storage_data = replaceLib.cbor_encode (replaceLib.diff b a) :=
  set_contract_storage_sequence replaceLib emptyResult demoResult demoWrites "c" "s"
    ⟨hostZero, "c", "s", ⟨[1]⟩⟩ ⟨hostNine, "c", "s", ⟨[3]⟩⟩ rfl run_demoWrites rfl rfl

/-- C3: for a diff library with the round trip and the diff law of the spec, every change
that a sequence of `set_contract_storage` calls records, starting from an empty change set,
is such that applying the decoded `storage_diff` to the decoded `before` gives the decoded
`after`. -/
theorem storage_diff_applies (lib : CborLib) (sp : CborDiffSpec lib)
    (res0 res : contract_invoke_result) (calls : List StorageWrite) (c s : String)
    (ch : StorageDataChangeType)
    (h0 : res0.storage_changes = [])
    (hrun : run_writes lib res0 calls = some res)
    (hch : recorded_change res c s = some ch) :
    ∃ b d a, lib.cbor_decode ch.before.storage_data = some b ∧
      lib.cbor_decode ch.storage_diff.storage_data = some d ∧
      lib.cbor_decode ch.after.storage_data = some a ∧ sp.apply b d = a := by
  have hnone : recorded_change res0 c s = none := by
    simp [recorded_change, h0, map_find]
  have h := run_writes_recorded lib c s calls res0 res hrun
  cases hl : last_write calls c s with
  | none =>
    simp only [hl] at h
    rw [h, hnone] at hch
    exact absurd hch (by simp)
  | some l =>
    simp only [hl] at h
    obtain ⟨ch1, hch1, hco⟩ := h
    rw [hch1] at hch
    have e : ch1 = ch := Option.some.inj hch
    rw [← e]
    obtain ⟨hb, ha, b, a, hdb, hda, hd⟩ := change_of_fields lib _ _ ch1 hco
    refine ⟨b, lib.diff b a, a, ?_, ?_, ?_, sp.apply_diff b a⟩
    · rw [hb]; exact hdb
    · rw [hd]; exact sp.decode_encode _
    · rw [ha]; exact hda

/-- Witness of C3 on `demoWrites` with the instance `replaceLib`. -/
theorem storage_diff_applies_witness :
    ∃ b d a, replaceLib.cbor_decode [0] = some b ∧
      replaceLib.cbor_decode [3] = some d ∧
      replaceLib.cbor_decode [3] = some a ∧ replaceSpec.apply b d = a :=
  storage_diff_applies replaceLib replaceSpec emptyResult demoResult demoWrites "c" "s"
    ⟨⟨[3]⟩, ⟨[0]⟩, ⟨[3]⟩⟩ rfl run_demoWrites rfl

/-! ## Theorems: contract API execution -/

/-- C4 (fails on the code): four failing runs of `lua_real_execute_contract_api`, the
contract missing, the API name not found, a runtime error inside the API and a module
entry that is no table, each return 0 with a true value on top of the stack (the integer
`LUA_ERRRUN`, the contract table, the error message); `lua_execute_contract_api` then
calls `luaL_commit_storage_changes` and returns `LUA_OK` when the commit reports
success. -/
theorem lua_execute_contract_api_commits_after_failure :
    (lua_real_execute_contract_api missingContractRun []).ret = 0 ∧
    lua_execute_contract_api missingContractRun [] = ⟨LUA_OK, true⟩ ∧
    (lua_real_execute_contract_api missingApiRun []).ret = 0 ∧
    lua_execute_contract_api missingApiRun [] = ⟨LUA_OK, true⟩ ∧
    (lua_real_execute_contract_api runtimeErrorRun []).ret = 0 ∧
    lua_execute_contract_api runtimeErrorRun [] = ⟨LUA_OK, true⟩ ∧
    lua_real_execute_contract_api staleLoadedRun [] =
      ⟨0, [.string "token", .table 0, .boolean true, .integer LUA_ERRRUN]⟩ ∧
    lua_execute_contract_api staleLoadedRun [] = ⟨LUA_OK, true⟩ := by
  decide

/-! ## Theorems: integer arithmetic -/

/-- C5: for integers `a` and `b` (64-bit signed ones in particular) and `op` among add, sub,
mul and unary minus whose mathematical result is outside `[-2^63, 2^63-1]`, `luaO_arith`
on integer operands leaves by the error "integer overflow": no integer is stored in `res`,
the wrapped one in particular. -/
theorem luaO_arith_integer_overflow (env : ArithEnv) (op : ArithOp) (a b : Int)
    (hop : op = .LUA_OPADD ∨ op = .LUA_OPSUB ∨ op = .LUA_OPMUL ∨ op = .LUA_OPUNM)
    (hov : ¬ (LUA_MININTEGER ≤ exact_result op a b ∧ exact_result op a b ≤ LUA_MAXINTEGER)) :
    luaO_arith env op (.integer a) (.integer b) = .raised "integer overflow" ∧
    ∀ i, luaO_arith env op (.integer a) (.integer b) ≠ .stored_integer i := by
  have key : luaO_arith env op (.integer a) (.integer b) = .raised "integer overflow" := by
    rcases hop with h | h | h | h <;> subst h <;>
      simp only [exact_result] at hov <;>
      simp only [luaO_arith, setivalue_intarith, intarith, intop, COperator.eval]
    · rw [if_neg hov]
    · rw [if_neg hov]
    · rw [if_neg hov]
    · rw [if_neg (by simpa using hov)]
  refine ⟨key, ?_⟩
  intro i h
  rw [key] at h
  cases h

/-- Witness of C5: `9223372036854775807 + 1` raises. -/
theorem luaO_arith_integer_overflow_witness :
    luaO_arith intEnv .LUA_OPADD (.integer 9223372036854775807) (.integer 1)
        = .raised "integer overflow" ∧
    ∀ i, luaO_arith intEnv .LUA_OPADD (.integer 9223372036854775807) (.integer 1)
        ≠ .stored_integer i :=
  luaO_arith_integer_overflow intEnv .LUA_OPADD 9223372036854775807 1 (Or.inl rfl)
    (by decide)

/-! ## Theorems: contract call proxy -/

/-- C6 as stated fails: when the wrapped function raises an error the entry pushed by
`contract_api_wrapper_func` stays on the identity stack, and so it does when the call
comes back with the VM in the break or suspend state. -/
theorem contract_api_wrapper_func_leaves_entry :
    (contract_api_wrapper_func 37 "B" "transfer" raisingApi idleState).state.contract_info_stack
      = some [⟨"B", "B", "transfer", "CALL"⟩] ∧
    idleState.contract_info_stack = some [] ∧
    (contract_api_wrapper_func 37 "B" "transfer" breakingApi idleState).state.contract_info_stack
      = some [⟨"B", "B", "transfer", "CALL"⟩] := by
  decide

/-- C6, amended: when the wrapped function returns normally, leaving the identity stack
as it was when it was called, and the VM is not in the break or suspend state, the
identity stack after `contract_api_wrapper_func` is the one before it. -/
theorem contract_api_wrapper_func_balanced (UOP_CSTATICCALL : Nat)
    (contract_id api_name : String) (api_func : ProxyState → CallOutcome)
    (L L1 L2 : ProxyState) (entry : contract_info_stack_entry)
    (henter : contract_api_wrapper_enter UOP_CSTATICCALL contract_id api_name L
      = some (entry, L1))
    (hcall : api_func L1 = .returned L2)
    (hstack : L2.contract_info_stack = L1.contract_info_stack)
    (hrun : L2.break_or_suspend = false) :
    ∃ L3, contract_api_wrapper_func UOP_CSTATICCALL contract_id api_name api_func L
        = .returned 1 L3 ∧
      L3.contract_info_stack = L.contract_info_stack := by
  unfold contract_api_wrapper_func
  rw [henter]
  simp only [hcall, hrun]
  unfold contract_api_wrapper_enter at henter
  cases hs : L.contract_info_stack with
  | none => simp [hs] at henter
  | some stack =>
    simp only [hs, Option.some.injEq, Prod.mk.injEq] at henter
    obtain ⟨-, h1⟩ := henter
    subst h1
    simp only at hstack
    simp [hstack]

/-- Witness of C6, amended: a wrapped function that returns at once, called on an empty
identity stack. -/
theorem contract_api_wrapper_func_balanced_witness :
    ∃ L3, contract_api_wrapper_func 37 "B" "transfer" returningApi idleState
        = .returned 1 L3 ∧
      L3.contract_info_stack = idleState.contract_info_stack :=
  contract_api_wrapper_func_balanced 37 "B" "transfer" returningApi idleState
    ⟨false, 0, false, some [⟨"B", "B", "transfer", "CALL"⟩]⟩
    ⟨false, 0, false, some [⟨"B", "B", "transfer", "CALL"⟩]⟩
    ⟨"B", "B", "transfer", "CALL"⟩ rfl rfl rfl rfl

theorem contract_api_wrapper_enter_entry (UOP_CSTATICCALL : Nat)
    (contract_id api_name : String) (L L1 : ProxyState) (entry : contract_info_stack_entry)
    (stack : List contract_info_stack_entry)
    (hstack : L.contract_info_stack = some stack)
    (henter : contract_api_wrapper_enter UOP_CSTATICCALL contract_id api_name L
      = some (entry, L1)) :
    entry.contract_id = contract_id ∧ entry.api_name = api_name ∧
    entry.call_type = (if L.call_op_msg = UOP_CSTATICCALL then "STATIC_CALL" else "CALL") ∧
    ((L.next_delegate_call_flag = false → entry.storage_contract_id = contract_id) ∧
      (L.next_delegate_call_flag = true → stack = [] →
        entry.storage_contract_id = contract_id) ∧
      (L.next_delegate_call_flag = true → ∀ top rest, stack = top :: rest →
        entry.storage_contract_id = top.storage_contract_id)) ∧
    L1.next_delegate_call_flag = false ∧ L1.call_op_msg = 0 ∧
    L1.break_or_suspend = L.break_or_suspend ∧
    L1.contract_info_stack = some (entry :: stack) := by
  unfold contract_api_wrapper_enter at henter
  simp only [hstack, Option.some.injEq, Prod.mk.injEq] at henter
  obtain ⟨he, h1⟩ := henter
  subst h1
  subst he
  refine ⟨rfl, rfl, rfl, ⟨?_, ?_, ?_⟩, ?_, rfl, rfl, rfl⟩
  · intro hf
    simp [hf]
  · intro hf hst
    simp [hf, hst]
  · intro hf top rest hst
    simp [hf, hst]
  · cases L.next_delegate_call_flag <;> rfl

/-- C7 as stated fails: a delegate call is announced by `next_delegate_call_flag`, not by
an opcode, and the entry pushed for it has call type "CALL"; no state and no opcode make
`contract_api_wrapper_func` push an entry of call type "DELEGATE_CALL". -/
theorem contract_api_wrapper_no_delegate_call_type :
    (contract_api_wrapper_enter 37 "B" "transfer" delegatingState).map
        (fun p => p.1.call_type) = some "CALL" ∧
    ¬ ∃ (UOP_CSTATICCALL : Nat) (contract_id api_name : String) (L L1 : ProxyState)
        (entry : contract_info_stack_entry),
      contract_api_wrapper_enter UOP_CSTATICCALL contract_id api_name L = some (entry, L1) ∧
      entry.call_type = "DELEGATE_CALL" := by
  refine ⟨by decide, ?_⟩
  rintro ⟨cs, cid, api, L, L1, entry, henter, hty⟩
  cases hs : L.contract_info_stack with
  | none => simp [contract_api_wrapper_enter, hs] at henter
  | some stack =>
    have h := (contract_api_wrapper_enter_entry cs cid api L L1 entry stack hs henter).2.2.1
    rw [hty] at h
    by_cases hop : L.call_op_msg = cs
    · rw [if_pos hop] at h
      exact absurd h (by decide)
    · rw [if_neg hop] at h
      exact absurd h (by decide)

/-- C7, amended: the entry pushed by `contract_api_wrapper_func` has call type
"STATIC_CALL" when the pending call opcode is `UOP_CSTATICCALL` and "CALL" for every
other opcode. -/
theorem contract_api_wrapper_call_type (UOP_CSTATICCALL : Nat)
    (contract_id api_name : String) (L L1 : ProxyState) (entry : contract_info_stack_entry)
    (henter : contract_api_wrapper_enter UOP_CSTATICCALL contract_id api_name L
      = some (entry, L1)) :
    (L.call_op_msg = UOP_CSTATICCALL → entry.call_type = "STATIC_CALL") ∧
    (L.call_op_msg ≠ UOP_CSTATICCALL → entry.call_type = "CALL") := by
  cases hs : L.contract_info_stack with
  | none => simp [contract_api_wrapper_enter, hs] at henter
  | some stack =>
    have h := (contract_api_wrapper_enter_entry UOP_CSTATICCALL contract_id api_name L L1
      entry stack hs henter).2.2.1
    constructor
    · intro hop
      rw [h, if_pos hop]
    · intro hop
      rw [h, if_neg hop]

/-- Witness of C7, amended: a pending static call on an empty identity stack. -/
theorem contract_api_wrapper_call_type_witness :
    ((37 : Nat) = 37 → (⟨"B", "B", "balanceOf", "STATIC_CALL"⟩ :
      contract_info_stack_entry).call_type = "STATIC_CALL") ∧
    ((37 : Nat) ≠ 37 → (⟨"B", "B", "balanceOf", "STATIC_CALL"⟩ :
      contract_info_stack_entry).call_type = "CALL") :=
  contract_api_wrapper_call_type 37 "B" "balanceOf" ⟨false, 37, false, some []⟩
    ⟨false, 0, false, some [⟨"B", "B", "balanceOf", "STATIC_CALL"⟩]⟩
    ⟨"B", "B", "balanceOf", "STATIC_CALL"⟩ rfl

theorem c_str_of_no_nul (s : String) (h : Char.ofNat 0 ∉ s.data) : c_str s = s := by
  unfold c_str
  have h1 : s.data.takeWhile (fun c => c != Char.ofNat 0) = s.data := by
    rw [List.takeWhile_eq_self_iff]
    intro c hc
    simp only [bne_iff_ne, ne_eq]
    intro h0
    exact h (h0 ▸ hc)
  rw [h1]

theorem table_get_assign (t : List (LuaKey × LuaValue)) (k k2 : LuaKey) (v : LuaValue) :
    table_get (table_assign t k v) k2 = if k = k2 then v else table_get t k2 := by
  induction t with
  | nil => simp [table_assign, table_get]
  | cons hd tl ih =>
    obtain ⟨k1, v1⟩ := hd
    by_cases h1 : k1 = k
    · subst h1
      by_cases h2 : k1 = k2 <;> simp [table_assign, table_get, h2]
    · by_cases h2 : k1 = k2
      · subst h2
        have h3 : ¬ k = k1 := fun h => h1 h.symm
        simp [table_assign, table_get, h1, h3]
      · simp [table_assign, table_get, h1, h2, ih]

theorem table_get_of_not_mem (t : List (LuaKey × LuaValue)) (k : LuaKey)
    (h : k ∉ table_keys t) : table_get t k = .nil := by
  induction t with
  | nil => rfl
  | cons hd tl ih =>
    obtain ⟨k1, v1⟩ := hd
    simp only [table_keys, List.map_cons, List.mem_cons, not_or] at h
    have h1 : ¬ k1 = k := fun e => h.1 e.symm
    simp only [table_get, h1, if_false]
    exact ih h.2

theorem table_keys_assign (t : List (LuaKey × LuaValue)) (k k2 : LuaKey) (v : LuaValue) :
    k2 ∈ table_keys (table_assign t k v) ↔ k2 = k ∨ k2 ∈ table_keys t := by
  induction t with
  | nil => simp [table_assign, table_keys]
  | cons hd tl ih =>
    obtain ⟨k1, v1⟩ := hd
    by_cases h1 : k1 = k
    · subst h1
      simp [table_assign, table_keys]
    · simp only [table_assign, h1, if_false, table_keys, List.map_cons, List.mem_cons]
      simp only [table_keys] at ih
      rw [ih]
      tauto

theorem table_keys_setfield_nil (t : List (LuaKey × LuaValue)) (k : String) (k2 : LuaKey) :
    k2 ∈ table_keys (lua_setfield t k .nil) ↔ k2 ≠ .str k ∧ k2 ∈ table_keys t := by
  simp only [lua_setfield, if_true, table_keys, List.mem_map, List.mem_filter,
    decide_eq_true_eq]
  constructor
  · rintro ⟨e, ⟨he, hne⟩, rfl⟩
    exact ⟨hne, e, he, rfl⟩
  · rintro ⟨hne, e, he, rfl⟩
    exact ⟨e, ⟨he, hne⟩, rfl⟩

theorem table_keys_remove_special_apis (names : List String) :
    ∀ (t : List (LuaKey × LuaValue)) (k2 : LuaKey),
      k2 ∈ table_keys (remove_special_apis names t) ↔
        (∀ s ∈ names, k2 ≠ .str s) ∧ k2 ∈ table_keys t := by
  induction names with
  | nil => intro t k2; simp [remove_special_apis]
  | cons name rest ih =>
    intro t k2
    simp only [remove_special_apis, ih, table_keys_setfield_nil, List.mem_cons,
      forall_eq_or_imp]
    tauto

theorem table_get_setfield_of_ne_nil (t : List (LuaKey × LuaValue)) (k : String)
    (v : LuaValue) (k2 : LuaKey) (hv : v ≠ .nil) :
    table_get (lua_setfield t k v) k2 = if LuaKey.str k = k2 then v else table_get t k2 := by
  simp only [lua_setfield, hv, if_false]
  exact table_get_assign t _ _ _

theorem table_keys_setfield_of_ne_nil (t : List (LuaKey × LuaValue)) (k : String)
    (v : LuaValue) (k2 : LuaKey) (hv : v ≠ .nil) :
    k2 ∈ table_keys (lua_setfield t k v) ↔ k2 = .str k ∨ k2 ∈ table_keys t := by
  simp only [lua_setfield, hv, if_false]
  exact table_keys_assign t _ _ _

theorem c_str_c_str (s : String) : c_str (c_str s) = c_str s := by
  apply c_str_of_no_nul
  intro h
  have h1 := List.mem_takeWhile_imp (show Char.ofNat 0 ∈
    s.data.takeWhile (fun c => c != Char.ofNat 0) from h)
  simp at h1

theorem lua_tostring_key_c_str (k k1 : LuaKey) (name : String)
    (h : lua_tostring_key k = some (name, k1)) : c_str name = name := by
  cases k with
  | str s =>
    simp only [lua_tostring_key, Option.some.injEq, Prod.mk.injEq] at h
    rw [← h.1]; exact c_str_c_str s
  | number text =>
    simp only [lua_tostring_key, Option.some.injEq, Prod.mk.injEq] at h
    rw [← h.1]; exact c_str_c_str text
  | nonstring n => simp [lua_tostring_key] at h

theorem entries_after_subset (t : List (LuaKey × LuaValue)) (k : LuaKey) :
    ∀ rest, entries_after t k = some rest → ∀ e ∈ rest, e ∈ t := by
  induction t with
  | nil => intro rest h; simp [entries_after] at h
  | cons hd tl ih =>
    intro rest h e he
    simp only [entries_after] at h
    split_ifs at h with hk
    · simp only [Option.some.injEq] at h
      subst h
      exact List.mem_cons_of_mem _ he
    · exact List.mem_cons_of_mem _ (ih rest h e he)

theorem mem_of_lua_next (t : List (LuaKey × LuaValue)) (key : Option LuaKey)
    (e : LuaKey × LuaValue) (h : lua_next t key = some (some e)) : e ∈ t := by
  cases key with
  | none =>
    simp only [lua_next, Option.some.injEq] at h
    exact List.mem_of_mem_head? h
  | some k =>
    simp only [lua_next, Option.map_eq_some'] at h
    obtain ⟨rest, h1, h2⟩ := h
    exact entries_after_subset t k rest h1 e (List.mem_of_mem_head? h2)

theorem mem_table_assign (t : List (LuaKey × LuaValue)) (k : LuaKey) (v : LuaValue)
    (e : LuaKey × LuaValue) (h : e ∈ table_assign t k v) : e = (k, v) ∨ e ∈ t := by
  induction t with
  | nil =>
    simp only [table_assign, List.mem_singleton] at h
    exact Or.inl h
  | cons hd tl ih =>
    obtain ⟨k1, v1⟩ := hd
    simp only [table_assign] at h
    split_ifs at h with hk
    · rcases List.mem_cons.mp h with h1 | h1
      · left; rw [h1, hk]
      · right; exact List.mem_cons_of_mem _ h1
    · rcases List.mem_cons.mp h with h1 | h1
      · right; rw [h1]; exact List.mem_cons_self _ _
      · rcases ih h1 with h2 | h2
        · left; exact h2
        · right; exact List.mem_cons_of_mem _ h2

theorem mem_lua_setfield (t : List (LuaKey × LuaValue)) (k : String) (v : LuaValue)
    (e : LuaKey × LuaValue) (h : e ∈ lua_setfield t k v) : e = (.str k, v) ∨ e ∈ t := by
  unfold lua_setfield at h
  split_ifs at h with hv
  · right; exact (List.mem_filter.mp h).1
  · exact mem_table_assign t _ v e h

theorem mem_remove_special_apis (names : List String) :
    ∀ (t : List (LuaKey × LuaValue)) (e : LuaKey × LuaValue),
      e ∈ remove_special_apis names t → e ∈ t ∧ ∀ s ∈ names, e.1 ≠ .str s := by
  induction names with
  | nil => intro t e h; exact ⟨h, by simp⟩
  | cons name rest ih =>
    intro t e h
    simp only [remove_special_apis] at h
    obtain ⟨h1, h2⟩ := ih _ e h
    simp only [lua_setfield, if_true, List.mem_filter, decide_eq_true_eq] at h1
    refine ⟨h1.1, ?_⟩
    intro s hs
    rcases List.mem_cons.mp hs with h3 | h3
    · rw [h3]; exact h1.2
    · exact h2 s h3

theorem mem_fill_contract_info (env : ImportRun) (t : List (LuaKey × LuaValue))
    (e : LuaKey × LuaValue) (h : e ∈ fill_contract_info env t)
    (hf : lua_isfunction e.2 = true) : e ∈ t := by
  unfold fill_contract_info at h
  simp only [] at h
  rcases mem_lua_setfield _ _ _ _ h with h1 | h1
  · rw [h1] at hf; simp [lua_isfunction, lua_type] at hf
  rcases mem_lua_setfield _ _ _ _ h1 with h2 | h2
  · rw [h2] at hf; simp [lua_isfunction, lua_type] at hf
  rcases mem_lua_setfield _ _ _ _ h2 with h3 | h3
  · rw [h3] at hf; simp [lua_isfunction, lua_type] at hf
  rcases mem_lua_setfield _ _ _ _ h3 with h4 | h4
  · rw [h4] at hf; simp [lua_isfunction, lua_type] at hf
  exact h4

/-- Every property of a table that each step of the wrapping traversal keeps holds of the
table at its end. -/
theorem wrap_apis_loop_induct (P : List (LuaKey × LuaValue) → Prop)
    (hstep : ∀ t k v name k1 cid, P t → (k, v) ∈ t → lua_isfunction v = true →
      lua_tostring_key k = some (name, k1) →
      P (lua_setfield t name (.proxy v (c_str cid) name))) :
    ∀ (fuel : Nat) (t : List (LuaKey × LuaValue)) (key : Option LuaKey)
      (t1 : List (LuaKey × LuaValue)),
      wrap_apis_loop fuel t key = .finished t1 → P t → P t1 := by
  intro fuel
  induction fuel with
  | zero => intro t key t1 h; simp [wrap_apis_loop] at h
  | succ n ih =>
    intro t key t1 h hP
    simp only [wrap_apis_loop] at h
    cases hn : lua_next t key with
    | none => simp [hn] at h
    | some o =>
      cases o with
      | none =>
        simp only [hn, Traversed.finished.injEq] at h
        subst h
        exact hP
      | some e =>
        obtain ⟨k0, v0⟩ := e
        simp only [hn] at h
        by_cases hf : lua_isfunction v0 = true
        · simp only [hf, Bool.not_true, Bool.false_eq_true, if_false] at h
          cases hts : lua_tostring_key k0 with
          | none => simp [hts] at h
          | some p =>
            obtain ⟨name, k1⟩ := p
            cases hid : lua_getfield t "id" with
            | string cid =>
              simp only [hts, hid] at h
              exact ih _ _ _ h (hstep t k0 v0 name k1 cid hP (mem_of_lua_next t key _ hn) hf hts)
            | _ => simp [hts, hid] at h
        · simp only [hf, Bool.not_false, if_true] at h
          exact ih _ _ _ h hP

theorem wrap_apis_loop_keeps (fuel : Nat) (t : List (LuaKey × LuaValue))
    (key : Option LuaKey) (t1 : List (LuaKey × LuaValue))
    (h : wrap_apis_loop fuel t key = .finished t1) (k : LuaKey)
    (hk : table_get t k ≠ .nil) : table_get t1 k ≠ .nil := by
  refine wrap_apis_loop_induct (fun t => table_get t k ≠ .nil) ?_ fuel t key t1 h hk
  intro t k0 v name k1 cid hP _ _ _
  rw [table_get_setfield_of_ne_nil _ _ _ _ (by simp)]
  split_ifs
  · simp
  · exact hP

/-- The wrapping traversal files no proxy under a name of `names` as long as
`lua_tostring` reads no key of a function as such a name. -/
theorem wrap_apis_loop_special (names : List String) (fuel : Nat)
    (t : List (LuaKey × LuaValue)) (key : Option LuaKey) (t1 : List (LuaKey × LuaValue))
    (h : wrap_apis_loop fuel t key = .finished t1)
    (hnil : ∀ s ∈ names, table_get t (.str s) = .nil)
    (hfun : ∀ e ∈ t, lua_isfunction e.2 = true →
      ∀ name k1, lua_tostring_key e.1 = some (name, k1) → name ∉ names) :
    ∀ s ∈ names, table_get t1 (.str s) = .nil := by
  refine (wrap_apis_loop_induct (fun t => (∀ s ∈ names, table_get t (.str s) = .nil) ∧
    (∀ e ∈ t, lua_isfunction e.2 = true →
      ∀ name k1, lua_tostring_key e.1 = some (name, k1) → name ∉ names)) ?_ fuel t key t1 h
    ⟨hnil, hfun⟩).1
  intro t k v name k1 cid hP hmem hf hts
  have hname : name ∉ names := hP.2 (k, v) hmem hf name k1 hts
  constructor
  · intro s hs
    rw [table_get_setfield_of_ne_nil _ _ _ _ (by simp)]
    have hne : ¬ LuaKey.str name = LuaKey.str s := by
      intro he
      exact hname (LuaKey.str.inj he ▸ hs)
    rw [if_neg hne]
    exact hP.1 s hs
  · intro e he hfe n2 k2 hts2
    rcases mem_lua_setfield _ _ _ _ he with h1 | h1
    · rw [h1] at hts2
      simp only [lua_tostring_key, Option.some.injEq, Prod.mk.injEq] at hts2
      rw [← hts2.1, lua_tostring_key_c_str k k1 name hts]
      exact hname
    · exact hP.2 e h1 hfe n2 k2 hts2

theorem table_get_fill_contract_info (env : ImportRun) (t : List (LuaKey × LuaValue))
    (k : LuaKey) (h : table_get t k ≠ .nil) :
    table_get (fill_contract_info env t) k ≠ .nil := by
  unfold fill_contract_info
  simp only [table_get_setfield_of_ne_nil _ _ _ _ (show LuaValue.table env.data_addr ≠ .nil
      by simp),
    table_get_setfield_of_ne_nil _ _ _ _ (show LuaValue.table env.storage_addr ≠ .nil
      by simp),
    table_get_setfield_of_ne_nil _ _ _ _ (show LuaValue.string env.contract_name ≠ .nil
      by simp),
    table_get_setfield_of_ne_nil _ _ _ _ (show LuaValue.string env.contract_id ≠ .nil
      by simp)]
  split_ifs <;> simp [h]

theorem is_starting_contract_iff (env : ImportRun) :
    is_starting_contract env = true ↔
      env.starting_contract_address.length > 0 ∧
        env.contract_id = env.starting_contract_address := by
  simp [is_starting_contract]

theorem map_find_update_loaded_func (filename : String) (loaded : List (String × ModuleValue))
    (addr : Nat) (t : List (LuaKey × LuaValue)) :
    map_find (update_loaded_func filename (map_assign loaded filename (.table addr t)))
      filename = some (.table addr t) := by
  unfold update_loaded_func
  simp [map_find_assign]

theorem special_apis_kept (env : ImportRun) (fields t3 : List (LuaKey × LuaValue))
    (fuel : Nat) (hw : wrap_apis_loop fuel (fill_contract_info env fields) none = .finished t3)
    (s : String) (hfun : lua_isfunction (lua_getfield fields s) = true) :
    lua_getfield t3 s ≠ .nil := by
  apply wrap_apis_loop_keeps _ _ _ _ hw
  apply table_get_fill_contract_info
  intro hnil
  simp only [lua_getfield] at hfun
  rw [hnil] at hfun
  simp [lua_isfunction, lua_type] at hfun

theorem special_apis_removed (names : List String) (env : ImportRun)
    (fields t3 : List (LuaKey × LuaValue)) (fuel : Nat)
    (hw : wrap_apis_loop fuel (remove_special_apis names (fill_contract_info env fields))
      none = .finished t3)
    (hkeys : ∀ e ∈ fields, lua_isfunction e.2 = true →
      ∀ s ∈ names, ∀ k1, lua_tostring_key e.1 = some (s, k1) → e.1 = .str s)
    (s : String) (hs : s ∈ names) : lua_getfield t3 s = .nil := by
  refine wrap_apis_loop_special names _ _ _ _ hw ?_ ?_ s hs
  · intro s1 hs1
    apply table_get_of_not_mem
    intro hmem
    rw [table_keys_remove_special_apis] at hmem
    exact hmem.1 s1 hs1 rfl
  · intro e he hf name k1 hts hname
    obtain ⟨h1, h2⟩ := mem_remove_special_apis names _ e he
    have h3 := mem_fill_contract_info env fields e h1 hf
    exact h2 name hname (hkeys e h3 hf name hname k1 hts)

theorem luaL_import_contract_module_special (c : ImportConsts) (env : ImportRun)
    (loaded : List (String × ModuleValue))
    (hnew : ((map_find loaded env.filename).getD .nil).toboolean = false)
    (hret : (luaL_import_contract_module c env loaded).ret = some 1) :
    ∃ addr fields t, env.module_value = .table addr fields ∧
      map_find (luaL_import_contract_module c env loaded).loaded env.filename =
        some (.table addr t) ∧
      (env.contract_id ≠ env.starting_contract_address →
        (∀ e ∈ fields, lua_isfunction e.2 = true →
          ∀ s ∈ c.contract_special_api_names,
            ∀ k1, lua_tostring_key e.1 = some (s, k1) → e.1 = .str s) →
        ∀ s ∈ c.contract_special_api_names, lua_getfield t s = .nil) ∧
      (env.contract_id = env.starting_contract_address →
        env.starting_contract_address.length > 0 →
        ∀ s ∈ c.contract_special_api_names,
          lua_isfunction (lua_getfield fields s) = true → lua_getfield t s ≠ .nil) := by
  unfold luaL_import_contract_module at hret ⊢
  simp only [hnew, Bool.false_eq_true, if_false] at hret ⊢
  by_cases hex : env.contract_exists = true
  · simp only [hex, Bool.not_true, Bool.false_eq_true, if_false] at hret ⊢
    cases hm : env.module_value with
    | nil => simp [hm] at hret
    | other v => simp [hm] at hret
    | table addr fields =>
      simp only [hm] at hret ⊢
      cases hcol : collect_contract_apis c.UVM_CONTRACT_APIS_LIMIT
          c.UVM_CONTRACT_API_NAME_MAX_LENGTH fields
          (collect_fuel c.UVM_CONTRACT_APIS_LIMIT fields) none [] with
      | unfinished => simp [hcol] at hret
      | raised => simp [hcol] at hret
      | name_too_long => simp [hcol] at hret
      | apis apis =>
        simp only [hcol] at hret ⊢
        cases hst : env.stored_contract_apis with
        | none => simp [hst] at hret
        | some stored =>
          simp only [hst] at hret ⊢
          by_cases hmatch : contract_apis_match stored apis = true
          · simp only [hmatch, Bool.not_true, Bool.false_eq_true, if_false] at hret ⊢
            by_cases hs : is_starting_contract env = true
            · simp only [hs, Bool.not_true, Bool.false_eq_true, if_false] at hret ⊢
              obtain ⟨-, hid⟩ := (is_starting_contract_iff env).mp hs
              cases hw : wrap_apis (fill_contract_info env fields) with
              | unfinished => simp [hw] at hret
              | raised => simp [hw] at hret
              | finished t3 =>
                simp only [hw]
                exact ⟨addr, fields, t3, rfl, map_find_update_loaded_func _ _ _ _,
                  fun hne => absurd hid hne,
                  fun _ _ s _ hfun => special_apis_kept env fields t3 _ hw s hfun⟩
            · have hs2 : is_starting_contract env = false := by simpa using hs
              simp only [hs2, Bool.not_false, if_true] at hret ⊢
              cases hw : wrap_apis (remove_special_apis c.contract_special_api_names
                  (fill_contract_info env fields)) with
              | unfinished => simp [hw] at hret
              | raised => simp [hw] at hret
              | finished t3 =>
                simp only [hw]
                exact ⟨addr, fields, t3, rfl, map_find_update_loaded_func _ _ _ _,
                  fun _ hk s hs => special_apis_removed _ env fields t3 _ hw hk s hs,
                  fun hid hlen => absurd ((is_starting_contract_iff env).mpr ⟨hlen, hid⟩) hs⟩
          · simp [hmatch] at hret
  · simp [hex] at hret

theorem map_find_update_loaded_func_from_address (b : Bool) (filename : String)
    (loaded : List (String × ModuleValue)) (addr : Nat) (t : List (LuaKey × LuaValue)) :
    map_find (update_loaded_func_from_address b filename
      (map_assign loaded filename (.table addr t))) filename = some (.table addr t) := by
  unfold update_loaded_func_from_address
  cases b
  · simpa using map_find_update_loaded_func filename loaded addr t
  · simp [map_find_assign]

theorem luaL_import_contract_module_from_address_special (c : ImportConsts) (env : ImportRun)
    (loaded : List (String × ModuleValue))
    (hnew : ((map_find loaded env.filename).getD .nil).toboolean = false)
    (hret : (luaL_import_contract_module_from_address c env loaded).ret = some 1) :
    special_apis_filtered c env (luaL_import_contract_module_from_address c env loaded) := by
  unfold luaL_import_contract_module_from_address at hret ⊢
  simp only [hnew, Bool.false_eq_true, if_false] at hret ⊢
  by_cases hex : env.contract_exists = true
  · simp only [hex, Bool.not_true, Bool.false_eq_true, if_false] at hret ⊢
    cases hm : env.module_value with
    | nil => simp [hm] at hret
    | other v => simp [hm] at hret
    | table addr fields =>
      simp only [hm] at hret ⊢
      cases hcol : collect_contract_apis_from_address c.UVM_CONTRACT_APIS_LIMIT
          c.UVM_CONTRACT_API_NAME_MAX_LENGTH fields
          (collect_fuel c.UVM_CONTRACT_APIS_LIMIT fields) none [] with
      | unfinished => simp [hcol] at hret
      | raised => simp [hcol] at hret
      | name_too_long => simp [hcol] at hret
      | apis apis =>
        simp only [hcol] at hret ⊢
        cases hst : env.stored_contract_apis with
        | none => simp [hst] at hret
        | some stored =>
          simp only [hst] at hret ⊢
          by_cases hmatch : contract_apis_match stored apis = true
          · simp only [hmatch, Bool.not_true, Bool.false_eq_true, if_false] at hret ⊢
            cases hw : wrap_apis (fill_contract_info env fields) with
            | unfinished => simp [hw] at hret
            | raised => simp [hw] at hret
            | finished t2 =>
              simp only [hw]
              by_cases hs : is_starting_contract env = true
              · simp only [hs, Bool.not_true, Bool.false_eq_true, if_false]
                obtain ⟨-, hid⟩ := (is_starting_contract_iff env).mp hs
                exact ⟨addr, fields, t2, hm, map_find_update_loaded_func_from_address _ _ _ _ _,
                  fun hne => absurd hid hne,
                  fun _ _ s _ hfun => special_apis_kept env fields t2 _ hw s hfun⟩
              · have hs2 : is_starting_contract env = false := by simpa using hs
                simp only [hs2, Bool.not_false, if_true]
                refine ⟨addr, fields, _, hm, map_find_update_loaded_func_from_address _ _ _ _ _,
                  ?_, fun hid hlen => absurd ((is_starting_contract_iff env).mpr ⟨hlen, hid⟩) hs⟩
                intro _ s hsn
                apply table_get_of_not_mem
                intro hmem
                rw [table_keys_remove_special_apis] at hmem
                exact hmem.1 s hsn rfl
          · simp [hmatch] at hret
  · simp [hex] at hret

/-- C9 as stated fails: with no starting contract address recorded and a contract whose id
the host leaves empty, the id equals the starting address, yet the import removes the
special API `init` that the module defined. And for a contract `X` that is not the
starting contract `Y`, whose module holds a function under the key made of `init`, a NUL
character and `x`, `luaL_import_contract_module` (which removes the special APIs before
it wraps the functions) stores the proxy of that function under `init`, the C string of
the key, while `luaL_import_contract_module_from_address` (which removes them after the
wrapping) leaves `init` without a value. -/
theorem import_removes_special_apis_of_unresolved_contract :
    (unresolvedRun.contract_id = unresolvedRun.starting_contract_address ∧
    lua_isfunction (lua_getfield tokenModule "init") = true ∧
    (luaL_import_contract_module demoConsts unresolvedRun []).ret = some 1 ∧
    map_find (luaL_import_contract_module demoConsts unresolvedRun []).loaded "token" =
      some (.table 10
        [(.str "transfer", .proxy (.function 2) "" "transfer"), (.str "_data", .table 11),
          (.str "storage", .table 12), (.str "name", .string "token"),
          (.str "id", .string "")]) ∧
    (luaL_import_contract_module_from_address demoConsts unresolvedRun []).ret = some 1 ∧
    map_find (luaL_import_contract_module_from_address demoConsts unresolvedRun []).loaded
      "token" =
      some (.table 10
        [(.str "transfer", .proxy (.function 2) "" "transfer"), (.str "_data", .table 11),
          (.str "storage", .table 12), (.str "name", .string "token"),
          (.str "id", .string "")])) ∧
    (nulKeyRun.contract_id ≠ nulKeyRun.starting_contract_address ∧
    "init" ∈ demoConsts.contract_special_api_names ∧
    (luaL_import_contract_module demoConsts nulKeyRun []).ret = some 1 ∧
    lua_isfunction (loaded_field (luaL_import_contract_module demoConsts nulKeyRun []).loaded
      "token" "init") = true ∧
    (luaL_import_contract_module_from_address demoConsts nulKeyRun []).ret = some 1 ∧
    loaded_field (luaL_import_contract_module_from_address demoConsts nulKeyRun []).loaded
      "token" "init" = .nil) := by
  decide

/-- C9, amended: after `luaL_import_contract_module` or
`luaL_import_contract_module_from_address` loads a contract (return value 1, the module
not being in `_LOADED` before), the table stored in `_LOADED` has no value for any name of
`contract_special_api_names` when the contract id differs from the starting contract
address, provided, for `luaL_import_contract_module`, that `lua_tostring` reads the key
of no function of the module as a special API name unless the key is that name; and when
the id equals a starting contract address that is not empty every special API that the
module defined is still present. -/
theorem import_special_apis (c : ImportConsts) (env : ImportRun)
    (loaded : List (String × ModuleValue)) (res : ImportResult)
    (hnew : ((map_find loaded env.filename).getD .nil).toboolean = false)
    (hres : res = luaL_import_contract_module c env loaded ∨
      res = luaL_import_contract_module_from_address c env loaded)
    (hret : res.ret = some 1) :
    ∃ addr fields t, env.module_value = .table addr fields ∧
      map_find res.loaded env.filename = some (.table addr t) ∧
      (env.contract_id ≠ env.starting_contract_address →
        (res = luaL_import_contract_module_from_address c env loaded ∨
          ∀ e ∈ fields, lua_isfunction e.2 = true →
            ∀ s ∈ c.contract_special_api_names,
              ∀ k1, lua_tostring_key e.1 = some (s, k1) → e.1 = .str s) →
        ∀ s ∈ c.contract_special_api_names, lua_getfield t s = .nil) ∧
      (env.contract_id = env.starting_contract_address →
        env.starting_contract_address.length > 0 →
        ∀ s ∈ c.contract_special_api_names,
          lua_isfunction (lua_getfield fields s) = true → lua_getfield t s ≠ .nil) := by
  have hfrom : ∀ r, r = luaL_import_contract_module_from_address c env loaded →
      r.ret = some 1 →
      ∃ addr fields t, env.module_value = .table addr fields ∧
        map_find r.loaded env.filename = some (.table addr t) ∧
        (env.contract_id ≠ env.starting_contract_address →
          ∀ s ∈ c.contract_special_api_names, lua_getfield t s = .nil) ∧
        (env.contract_id = env.starting_contract_address →
          env.starting_contract_address.length > 0 →
          ∀ s ∈ c.contract_special_api_names,
            lua_isfunction (lua_getfield fields s) = true → lua_getfield t s ≠ .nil) := by
    intro r hr hr1
    subst hr
    exact luaL_import_contract_module_from_address_special c env loaded hnew hr1
  rcases hres with h | h
  · by_cases h2 : res = luaL_import_contract_module_from_address c env loaded
    · obtain ⟨addr, fields, t, h3, h4, h5, h6⟩ := hfrom res h2 hret
      exact ⟨addr, fields, t, h3, h4, fun hne _ => h5 hne, h6⟩
    · subst h
      obtain ⟨addr, fields, t, h3, h4, h5, h6⟩ :=
        luaL_import_contract_module_special c env loaded hnew hret
      refine ⟨addr, fields, t, h3, h4, fun hne hk => h5 hne ?_, h6⟩
      rcases hk with hk | hk
      · exact absurd hk h2
      · exact hk
  · obtain ⟨addr, fields, t, h3, h4, h5, h6⟩ := hfrom res h hret
    exact ⟨addr, fields, t, h3, h4, fun hne _ => h5 hne, h6⟩

/-- Witness of C9, amended: the import of `tokenModule` as the starting contract `X`. -/
theorem import_special_apis_witness :
    ∃ addr fields t, entryRun.module_value = .table addr fields ∧
      map_find (luaL_import_contract_module demoConsts entryRun []).loaded entryRun.filename
        = some (.table addr t) ∧
      (entryRun.contract_id ≠ entryRun.starting_contract_address →
        (luaL_import_contract_module demoConsts entryRun [] =
            luaL_import_contract_module_from_address demoConsts entryRun [] ∨
          ∀ e ∈ fields, lua_isfunction e.2 = true →
            ∀ s ∈ demoConsts.contract_special_api_names,
              ∀ k1, lua_tostring_key e.1 = some (s, k1) → e.1 = .str s) →
        ∀ s ∈ demoConsts.contract_special_api_names, lua_getfield t s = .nil) ∧
      (entryRun.contract_id = entryRun.starting_contract_address →
        entryRun.starting_contract_address.length > 0 →
        ∀ s ∈ demoConsts.contract_special_api_names,
          lua_isfunction (lua_getfield fields s) = true → lua_getfield t s ≠ .nil) :=
  import_special_apis demoConsts entryRun [] _ (by decide) (Or.inl rfl) (by decide)

theorem contract_apis_match_iff (stored contract_apis : List String) :
    contract_apis_match stored contract_apis = true ↔
      stored.length = contract_apis.length ∧ ∀ a ∈ stored, c_str a ∈ contract_apis := by
  unfold contract_apis_match
  by_cases hlen : stored.length = contract_apis.length
  · simp only [hlen, ne_eq, not_true_eq_false, if_false, List.all_eq_true, List.mem_range,
      List.any_eq_true, beq_iff_eq, true_and]
    constructor
    · intro h a ha
      obtain ⟨i, hi, rfl⟩ := List.mem_iff_getElem.mp ha
      obtain ⟨j, hj, hij⟩ := h i (hlen ▸ hi)
      rw [List.getD_eq_getElem _ _ hj, List.getD_eq_getElem _ _ hi] at hij
      rw [← hij]
      exact List.getElem_mem hj
    · intro h i hi
      have hi2 : i < stored.length := hlen ▸ hi
      obtain ⟨j, hj, hij⟩ := List.mem_iff_getElem.mp (h _ (List.getElem_mem hi2))
      refine ⟨j, hj, ?_⟩
      rw [List.getD_eq_getElem _ _ hj, List.getD_eq_getElem _ _ hi2]
      exact hij
  · simp [hlen]

theorem entries_after_append (pre rest : List (LuaKey × LuaValue)) (k : LuaKey)
    (v : LuaValue) (h : k ∉ table_keys pre) :
    entries_after (pre ++ (k, v) :: rest) k = some rest := by
  induction pre with
  | nil => simp [entries_after]
  | cons hd tl ih =>
    simp only [table_keys, List.map_cons, List.mem_cons, not_or] at h
    have h1 : ¬ hd.1 = k := fun e => h.1 e.symm
    simp only [List.cons_append, entries_after, h1, if_false]
    exact ih h.2

/-- On a table that holds each key once and no number key, the key traversal of
`luaL_import_contract_module` visits the entries in order and ends with the API names of
the table, when these are C strings within the two limits. -/
theorem collect_contract_apis_eq (limit maxlen : Nat) (rest : List (LuaKey × LuaValue)) :
    ∀ (pre : List (LuaKey × LuaValue)) (key : Option LuaKey) (acc : List String)
      (fuel : Nat),
      (table_keys (pre ++ rest)).Nodup →
      lua_next (pre ++ rest) key = some rest.head? →
      (∀ e ∈ rest, ∀ text, e.1 ≠ .number text) →
      (∀ n ∈ table_api_names rest, c_str n = n ∧ n.utf8ByteSize ≤ maxlen) →
      acc.length + (table_api_names rest).length ≤ limit →
      rest.length < fuel →
      collect_contract_apis limit maxlen (pre ++ rest) fuel key acc =
        .apis (acc ++ table_api_names rest) := by
  induction rest with
  | nil =>
    intro pre key acc fuel _ hnext _ _ _ hfuel
    obtain ⟨f, rfl⟩ : ∃ f, fuel = f + 1 := ⟨fuel - 1, by simp at hfuel; omega⟩
    simp only [List.head?_nil, List.append_nil] at hnext
    simp only [collect_contract_apis, List.append_nil, hnext, table_api_names]
  | cons hd tl ih =>
    obtain ⟨k, v⟩ := hd
    intro pre key acc fuel hnd hnext hnum hnames hlim hfuel
    obtain ⟨f, rfl⟩ : ∃ f, fuel = f + 1 := ⟨fuel - 1, by simp at hfuel; omega⟩
    have happ : pre ++ (k, v) :: tl = (pre ++ [(k, v)]) ++ tl := by simp
    have hk : k ∉ table_keys pre := by
      intro hmem
      simp only [table_keys, List.map_append, List.map_cons] at hnd hmem
      exact (List.nodup_append.mp hnd).2.2 hmem (List.mem_cons_self _ _)
    have hstep : lua_next (pre ++ (k, v) :: tl) (some k) = some tl.head? := by
      simp [lua_next, entries_after_append pre tl k v hk]
    have hrec : ∀ acc2 : List String,
        (∀ n ∈ table_api_names tl, c_str n = n ∧ n.utf8ByteSize ≤ maxlen) →
        acc2.length + (table_api_names tl).length ≤ limit →
        collect_contract_apis limit maxlen (pre ++ (k, v) :: tl) f (some k) acc2 =
          .apis (acc2 ++ table_api_names tl) := by
      intro acc2 hn2 hl2
      have h1 := ih (pre ++ [(k, v)]) (some k) acc2 f (happ ▸ hnd)
        (by rw [← happ]; exact hstep) (fun e he => hnum e (List.mem_cons_of_mem _ he))
        hn2 hl2 (by simp at hfuel; omega)
      rwa [← happ] at h1
    simp only [List.head?_cons] at hnext
    simp only [collect_contract_apis, hnext]
    by_cases hfull : acc.length ≥ limit
    · have h0 : (table_api_names ((k, v) :: tl)).length = 0 := by omega
      simp [hfull, List.length_eq_zero.mp h0]
    · simp only [hfull, if_false]
      cases k with
      | nonstring n =>
        simp only [table_api_names] at hnames hlim ⊢
        simp only [lua_tostring_key]
        exact hrec acc hnames hlim
      | number text => exact absurd rfl (hnum _ (List.mem_cons_self _ _) text)
      | str key =>
        simp only [lua_tostring_key]
        by_cases hf : lua_isfunction v = true
        · by_cases hl : key = "locals"
          · have hc : c_str key = "locals" := by rw [hl]; decide
            simp only [table_api_names, hf, hl, ne_eq, not_true_eq_false, and_false,
              if_false] at hnames hlim ⊢
            simp only [← hl, hc, Bool.not_true, Bool.false_eq_true, if_false, if_true]
            exact hrec acc hnames hlim
          · simp only [table_api_names, hf, hl, ne_eq, not_false_eq_true, and_self, if_true,
              List.mem_cons, forall_eq_or_imp, List.length_cons] at hnames hlim ⊢
            have hc : c_str key = key := hnames.1.1
            have hk2 : ¬ key.utf8ByteSize > maxlen := by have := hnames.1.2; omega
            simp only [hc, hl, hk2, Bool.not_true, Bool.false_eq_true, if_false]
            rw [hrec (acc ++ [key]) hnames.2 (by simp; omega)]
            simp
        · simp only [table_api_names, hf, Bool.false_eq_true, false_and, if_false,
            Bool.not_false, if_true] at hnames hlim ⊢
          exact hrec acc hnames hlim

theorem table_api_names_subset_keys (fields : List (LuaKey × LuaValue)) (n : String)
    (h : n ∈ table_api_names fields) : LuaKey.str n ∈ table_keys fields := by
  induction fields with
  | nil => simp [table_api_names] at h
  | cons hd tl ih =>
    obtain ⟨k, v⟩ := hd
    cases k with
    | nonstring m =>
      simp only [table_api_names] at h
      simp only [table_keys, List.map_cons, List.mem_cons]
      right; exact ih h
    | number text =>
      simp only [table_api_names] at h
      simp only [table_keys, List.map_cons, List.mem_cons]
      right; exact ih h
    | str key =>
      simp only [table_api_names] at h
      simp only [table_keys, List.map_cons, List.mem_cons]
      split_ifs at h with hc
      · rcases List.mem_cons.mp h with h1 | h1
        · left; rw [h1]
        · right; exact ih h1
      · right; exact ih h

theorem table_api_names_nodup (fields : List (LuaKey × LuaValue))
    (h : (table_keys fields).Nodup) : (table_api_names fields).Nodup := by
  induction fields with
  | nil => simp [table_api_names]
  | cons hd tl ih =>
    obtain ⟨k, v⟩ := hd
    simp only [table_keys, List.map_cons, List.nodup_cons] at h
    cases k with
    | nonstring m =>
      simp only [table_api_names]
      exact ih h.2
    | number text =>
      simp only [table_api_names]
      exact ih h.2
    | str key =>
      simp only [table_api_names]
      split_ifs with hc
      · refine List.nodup_cons.mpr ⟨fun hm => h.1 ?_, ih h.2⟩
        exact table_api_names_subset_keys tl key hm
      · exact ih h.2

theorem update_loaded_func_no_table (filename : String)
    (loaded : List (String × ModuleValue))
    (hnew : ((map_find loaded filename).getD .nil).toboolean = false) (a : Nat)
    (t : List (LuaKey × LuaValue)) :
    map_find (update_loaded_func filename loaded) filename ≠ some (.table a t) := by
  unfold update_loaded_func
  cases hf : map_find loaded filename with
  | none => simp [map_find_assign]
  | some m =>
    cases m with
    | nil => simp [map_find_assign]
    | table a1 t1 => simp [hf, ModuleValue.toboolean] at hnew
    | other v => simp [hf]

set_option maxRecDepth 20000 in
/-- C10 as stated fails in both directions: with the stored list `a, a` and a module table
whose APIs are `a` and `b`, the validation of `luaL_import_contract_module` passes
although the two sets of API names differ; a table whose only API has a name of 1025
bytes fails it against the stored list holding just that name; a table with the API `a`
and a value under the number key 1 fails it against the stored list `a`, the key
traversal raising an error after `lua_tostring` has converted the number key; and a
table whose only API has the name `a`, a NUL character, `x` passes it against the stored
list `a`, the names being compared as C strings. -/
theorem import_api_validation_differs_from_set_equality :
    (import_api_validation demoConsts abModule ["a", "a"] = true ∧
      table_api_names abModule = ["a", "b"] ∧ "b" ∉ ["a", "a"] ∧
      (luaL_import_contract_module demoConsts
        { filename := "ab", contract_exists := true, module_value := .table 10 abModule,
          stored_contract_apis := some ["a", "a"], contract_id := "X", contract_name := "ab",
          starting_contract_address := "X", data_addr := 11, storage_addr := 12,
          error_recorded := false } []).ret = some 1) ∧
    (import_api_validation demoConsts [(.str longName, .function 1)] [longName] = false ∧
      table_api_names [(.str longName, .function 1)] = [longName]) ∧
    (import_api_validation demoConsts numberKeyModule ["a"] = false ∧
      table_api_names numberKeyModule = ["a"] ∧
      luaL_import_contract_module demoConsts
        { filename := "ab", contract_exists := true,
          module_value := .table 10 numberKeyModule,
          stored_contract_apis := some ["a"], contract_id := "X", contract_name := "ab",
          starting_contract_address := "X", data_addr := 11, storage_addr := 12,
          error_recorded := false } [] = ⟨none, [("ab", .other (.boolean true))]⟩) ∧
    (import_api_validation demoConsts nulNameModule ["a"] = true ∧
      table_api_names nulNameModule = ["a\x00x"] ∧ "a" ∉ table_api_names nulNameModule ∧
      (luaL_import_contract_module demoConsts
        { filename := "ab", contract_exists := true, module_value := .table 10 nulNameModule,
          stored_contract_apis := some ["a"], contract_id := "X", contract_name := "ab",
          starting_contract_address := "X", data_addr := 11, storage_addr := 12,
          error_recorded := false } []).ret = some 1) := by
  decide

/-- C10, amended: for a module table (each key held once) without number keys, with at
most `UVM_CONTRACT_APIS_LIMIT` API names (string keys with function values, other than
`locals`), none of them holding a NUL character or longer than
`UVM_CONTRACT_API_NAME_MAX_LENGTH`, and a stored API list without a repeated name and
without a NUL character in a name, the validation of `luaL_import_contract_module` passes
if and only if the API names of the table and the stored names are the same set. When it
passes the function does not return 0; when it fails the function returns 0 and stores no
table under the name of the module in `_LOADED`. -/
theorem import_api_validation_iff (c : ImportConsts) (env : ImportRun)
    (loaded : List (String × ModuleValue)) (addr : Nat)
    (fields : List (LuaKey × LuaValue)) (stored : List String)
    (hnew : ((map_find loaded env.filename).getD .nil).toboolean = false)
    (hexists : env.contract_exists = true)
    (hmodule : env.module_value = .table addr fields)
    (hinfo : env.stored_contract_apis = some stored)
    (hkeys : (table_keys fields).Nodup)
    (hnumber : ∀ e ∈ fields, ∀ text, e.1 ≠ .number text)
    (hcount : (table_api_names fields).length ≤ c.UVM_CONTRACT_APIS_LIMIT)
    (hnames : ∀ n ∈ table_api_names fields,
      Char.ofNat 0 ∉ n.data ∧ n.utf8ByteSize ≤ c.UVM_CONTRACT_API_NAME_MAX_LENGTH)
    (hstored : stored.Nodup ∧ ∀ n ∈ stored, Char.ofNat 0 ∉ n.data) :
    (import_api_validation c fields stored = true ↔
      ∀ n, n ∈ table_api_names fields ↔ n ∈ stored) ∧
    (import_api_validation c fields stored = true →
      (luaL_import_contract_module c env loaded).ret ≠ some 0) ∧
    (import_api_validation c fields stored = false →
      (luaL_import_contract_module c env loaded).ret = some 0 ∧
      ∀ a t, map_find (luaL_import_contract_module c env loaded).loaded env.filename ≠
        some (.table a t)) := by
  have hfuel : fields.length < collect_fuel c.UVM_CONTRACT_APIS_LIMIT fields := by
    unfold collect_fuel
    have h1 : fields.length + 1 ≤ (c.UVM_CONTRACT_APIS_LIMIT + 1) * (fields.length + 1) :=
      Nat.le_mul_of_pos_left _ (Nat.succ_pos _)
    omega
  have hcol : collect_contract_apis c.UVM_CONTRACT_APIS_LIMIT
      c.UVM_CONTRACT_API_NAME_MAX_LENGTH fields
      (collect_fuel c.UVM_CONTRACT_APIS_LIMIT fields) none [] =
      .apis (table_api_names fields) := by
    have h1 := collect_contract_apis_eq c.UVM_CONTRACT_APIS_LIMIT
      c.UVM_CONTRACT_API_NAME_MAX_LENGTH fields [] none []
      (collect_fuel c.UVM_CONTRACT_APIS_LIMIT fields) (by simpa using hkeys)
      (by simp [lua_next]) hnumber
      (fun n hn => ⟨c_str_of_no_nul n (hnames n hn).1, (hnames n hn).2⟩)
      (by simpa using hcount) hfuel
    simpa using h1
  have hval : import_api_validation c fields stored =
      contract_apis_match stored (table_api_names fields) := by
    unfold import_api_validation
    rw [hcol]
  have hnd := table_api_names_nodup fields hkeys
  refine ⟨?_, ?_, ?_⟩
  · rw [hval, contract_apis_match_iff]
    constructor
    · rintro ⟨hl, hsub⟩ n
      have hsub2 : ∀ a ∈ stored, a ∈ table_api_names fields := by
        intro a ha
        have h2 := hsub a ha
        rwa [c_str_of_no_nul a (hstored.2 a ha)] at h2
      have hp : stored.Perm (table_api_names fields) :=
        (List.subperm_of_subset hstored.1 hsub2).perm_of_length_le (by omega)
      exact (hp.mem_iff).symm
    · intro h
      have hp : stored.Perm (table_api_names fields) :=
        (List.perm_ext_iff_of_nodup hstored.1 hnd).mpr (fun a => (h a).symm)
      refine ⟨hp.length_eq, fun a ha => ?_⟩
      rw [c_str_of_no_nul a (hstored.2 a ha)]
      exact (h a).mpr ha
  · intro hv
    rw [hval] at hv
    unfold luaL_import_contract_module
    simp only [hnew, hexists, hmodule, hcol, hinfo, hv, Bool.false_eq_true, if_false,
      Bool.not_true]
    split <;> simp
  · intro hv
    rw [hval] at hv
    unfold luaL_import_contract_module
    simp only [hnew, hexists, hmodule, hcol, hinfo, hv, Bool.false_eq_true, if_false,
      Bool.not_true, Bool.not_false, if_true]
    exact ⟨trivial, fun a t => update_loaded_func_no_table _ _ hnew a t⟩

/-- Witness of C10, amended: the import of the table with APIs `a` and `b` against the
stored list `b, a`. -/
theorem import_api_validation_iff_witness :
    (import_api_validation demoConsts abModule ["b", "a"] = true ↔
      ∀ n, n ∈ table_api_names abModule ↔ n ∈ ["b", "a"]) ∧
    (import_api_validation demoConsts abModule ["b", "a"] = true →
      (luaL_import_contract_module demoConsts
        { mismatchRun with module_value := .table 10 abModule,
                           stored_contract_apis := some ["b", "a"] } []).ret ≠ some 0) ∧
    (import_api_validation demoConsts abModule ["b", "a"] = false →
      (luaL_import_contract_module demoConsts
        { mismatchRun with module_value := .table 10 abModule,
                           stored_contract_apis := some ["b", "a"] } []).ret = some 0 ∧
      ∀ a t, map_find (luaL_import_contract_module demoConsts
        { mismatchRun with module_value := .table 10 abModule,
                           stored_contract_apis := some ["b", "a"] } []).loaded
          mismatchRun.filename ≠ some (.table a t)) :=
  import_api_validation_iff demoConsts
    { mismatchRun with module_value := .table 10 abModule,
                       stored_contract_apis := some ["b", "a"] } [] 10 abModule ["b", "a"]
    (by decide) rfl rfl rfl (by decide)
    (by
      intro e he text
      simp only [abModule, List.mem_cons, List.mem_singleton, List.not_mem_nil,
        or_false] at he
      rcases he with rfl | rfl <;> simp)
    (by decide) (by decide) (by decide)

/-- C11 (fails on the code): when `luaL_import_contract_module` gives up because the table
APIs `a, b, c` disagree with the declared `a, b, d`, its `update_loaded_func` stores
`true` under the contract name in `_LOADED`; the same closure of
`luaL_import_contract_module_from_address` sees the recorded error and leaves `_LOADED`
as it was. -/
theorem luaL_import_contract_module_marks_loaded_on_mismatch :
    import_api_validation demoConsts abcModule ["a", "b", "d"] = false ∧
    luaL_import_contract_module demoConsts mismatchRun [] =
      ⟨some 0, [("token", .other (.boolean true))]⟩ ∧
    luaL_import_contract_module_from_address demoConsts mismatchRun [] = ⟨some 0, []⟩ := by
  decide

/-! ## Theorems: conversion of Lua values to CBOR -/

/-- C14 (counterexample): `luaL_to_cbor` turns the number 1.5 (code 3) into the integer
object 1, not into a float object, and the string `a NUL b` into the string `a`. -/
theorem luaL_to_cbor_number_becomes_integer :
    luaL_to_cbor (demoConv []) (.number 3) = some (.COT_INT 1) ∧
    luaL_to_cbor (demoConv []) (.string "a\x00b") = some (.COT_STRING "a") := by
  constructor <;> rfl

/-- C14 (amended): `luaL_to_cbor` maps nil to null, a boolean to the same boolean, an
integer to the same integer, a string without NUL to the same string, and a number that
is not an integer to the integer object of its C cast to `lua_Integer`. -/
theorem luaL_to_cbor_scalars (env : ConvEnv) (b : Bool) (i x : Int) (s : String)
    (h : Char.ofNat 0 ∉ s.data) :
    luaL_to_cbor env .nil = some .COT_NULL ∧
    luaL_to_cbor env (.boolean b) = some (.COT_BOOL b) ∧
    luaL_to_cbor env (.integer i) = some (.COT_INT i) ∧
    luaL_to_cbor env (.string s) = some (.COT_STRING s) ∧
    luaL_to_cbor env (.number x) = some (.COT_INT (env.number_to_integer x)) := by
  refine ⟨rfl, rfl, rfl, ?_, rfl⟩
  simp only [luaL_to_cbor, c_str_of_no_nul s h]

theorem luaL_to_cbor_scalars_witness :
    Char.ofNat 0 ∉ "abc".data ∧
    luaL_to_cbor (demoConv []) (.string "abc") = some (.COT_STRING "abc") ∧
    luaL_to_cbor (demoConv []) (.number 3) = some (.COT_INT 1) :=
  ⟨by decide,
    (luaL_to_cbor_scalars (demoConv []) true 7 3 "abc" (by decide)).2.2.2.1,
    (luaL_to_cbor_scalars (demoConv []) true 7 3 "abc" (by decide)).2.2.2.2⟩

/-- C16 (counterexample): the table `t = {self = t}` is not rejected. `luaL_to_cbor`
answers a map object that holds the table unfolded 51 times, and
`lua_type_to_storage_value_type` answers a table value. -/
theorem self_containing_table_is_converted :
    (luaL_to_cbor (demoConv selfHeap) (.table 1)).map map_depth = some 51 ∧
    (∃ m, lua_type_to_storage_value_type (demoConv selfHeap) (.table 1) =
      .storage_value_unknown_table m) := by
  refine ⟨by decide, ⟨_, rfl⟩⟩

theorem storage_fuel_deep (env : ConvEnv) (jsons : List Nat) (fuel d : Nat) (v : LuaValue)
    (hd : d > LUA_MAP_TRAVERSER_MAX_DEPTH) :
    lua_type_to_storage_value_type_fuel env jsons fuel d v = .storage_value_null := by
  cases fuel with
  | zero => rfl
  | succ f => cases v <;> simp only [lua_type_to_storage_value_type_fuel, if_pos hd]

theorem storage_fuel_table (env : ConvEnv) (jsons : List Nat) (fuel d addr : Nat)
    (t : LuaTable) (hd : d ≤ LUA_MAP_TRAVERSER_MAX_DEPTH)
    (hget : heap_get env.heap addr = some t) (hlen : t.len ≤ INT32_MAX) :
    lua_type_to_storage_value_type_fuel env jsons (fuel + 1) d (.table addr) =
      if t.len > 0 then
        .storage_value_unknown_array (luaL_traverse_table_with_nested
          (lua_table_to_map_traverser_with_nested env
            (fun x => lua_type_to_storage_value_type_fuel env jsons fuel (d + 2) x) jsons) t [])
      else
        .storage_value_unknown_table (luaL_traverse_table_with_nested
          (lua_table_to_map_traverser_with_nested env
            (fun x => lua_type_to_storage_value_type_fuel env jsons fuel (d + 2) x) jsons) t []) := by
  simp only [lua_type_to_storage_value_type_fuel, hget]
  rw [if_neg (by omega), if_neg (by omega)]

/-- C16 (amended): `lua_type_to_storage_value_type` answers a table or array value for
every table of at most `INT32_MAX` entries, whatever the table holds, itself included;
what ends the unfolding of a table in itself is the depth test, which answers null for
every value once `recur_depth` exceeds `LUA_MAP_TRAVERSER_MAX_DEPTH`. -/
theorem lua_type_to_storage_value_type_of_table (env : ConvEnv) (addr : Nat) (t : LuaTable)
    (hget : heap_get env.heap addr = some t) (hlen : t.len ≤ INT32_MAX) :
    (∃ m, lua_type_to_storage_value_type env (.table addr) = .storage_value_unknown_table m ∨
      lua_type_to_storage_value_type env (.table addr) = .storage_value_unknown_array m) ∧
    (∀ jsons recur_depth v, recur_depth > LUA_MAP_TRAVERSER_MAX_DEPTH →
      lua_type_to_storage_value_type_with_nested env jsons recur_depth v =
        .storage_value_null) := by
  constructor
  · have h := storage_fuel_table env [] (LUA_MAP_TRAVERSER_MAX_DEPTH + 1) 0 addr t
      (Nat.zero_le _) hget hlen
    simp only [lua_type_to_storage_value_type, lua_type_to_storage_value_type_with_nested]
    rw [h]
    by_cases h0 : t.len > 0
    · rw [if_pos h0]; exact ⟨_, Or.inr rfl⟩
    · rw [if_neg h0]; exact ⟨_, Or.inl rfl⟩
  · intro jsons recur_depth v hd
    exact storage_fuel_deep env jsons _ recur_depth v hd

theorem lua_type_to_storage_value_type_of_table_witness :
    heap_get (demoConv selfHeap).heap 1 = some ⟨0, [(.string "self", .table 1)]⟩ ∧
    (∃ m, lua_type_to_storage_value_type (demoConv selfHeap) (.table 1) =
        .storage_value_unknown_table m ∨
      lua_type_to_storage_value_type (demoConv selfHeap) (.table 1) =
        .storage_value_unknown_array m) :=
  ⟨rfl, (lua_type_to_storage_value_type_of_table (demoConv selfHeap) 1
    ⟨0, [(.string "self", .table 1)]⟩ rfl (by decide)).1⟩
theorem digitChar_value (k : Nat) (h : k < 10) : (Nat.digitChar k).toNat - 48 = k := by
  interval_cases k <;> rfl

theorem digitChar_isDigit (k : Nat) (h : k < 10) : (Nat.digitChar k).isDigit = true := by
  interval_cases k <;> rfl

theorem toDigitsCore_value (fuel : Nat) : ∀ (n : Nat) (ds : List Char), n < fuel →
    (Nat.toDigitsCore 10 fuel n ds).foldl (fun a c => 10 * a + (c.toNat - 48)) 0 =
      ds.foldl (fun a c => 10 * a + (c.toNat - 48)) n := by
  induction fuel with
  | zero => intro n ds h; omega
  | succ f ih =>
    intro n ds h
    simp only [Nat.toDigitsCore]
    split
    · rename_i h0
      simp only [List.foldl_cons, Nat.mul_zero, Nat.zero_add]
      rw [digitChar_value _ (Nat.mod_lt _ (by decide))]
      have : n % 10 = n := by omega
      rw [this]
    · rename_i h0
      rw [ih (n / 10) _ (by omega)]
      simp only [List.foldl_cons]
      rw [digitChar_value _ (Nat.mod_lt _ (by decide))]
      have : 10 * (n / 10) + n % 10 = n := by omega
      rw [this]

theorem toDigitsCore_isDigit (fuel : Nat) : ∀ (n : Nat) (ds : List Char),
    (∀ c ∈ ds, c.isDigit = true) → ∀ c ∈ Nat.toDigitsCore 10 fuel n ds, c.isDigit = true := by
  induction fuel with
  | zero => intro n ds h; simpa only [Nat.toDigitsCore] using h
  | succ f ih =>
    intro n ds h
    simp only [Nat.toDigitsCore]
    have hd : ∀ c ∈ Nat.digitChar (n % 10) :: ds, c.isDigit = true := by
      intro c hc
      rcases List.mem_cons.1 hc with h1 | h1
      · rw [h1]; exact digitChar_isDigit _ (Nat.mod_lt _ (by decide))
      · exact h c h1
    split
    · exact hd
    · exact ih _ _ hd

theorem toDigitsCore_ne_nil (fuel : Nat) : ∀ (n : Nat) (ds : List Char),
    Nat.toDigitsCore 10 (fuel + 1) n ds ≠ [] := by
  induction fuel with
  | zero => intro n ds; simp [Nat.toDigitsCore]
  | succ f ih =>
    intro n ds
    rw [Nat.toDigitsCore]
    split
    · simp
    · exact ih _ _

theorem to_string_data (n : Nat) : (to_string (n : Int)).data = Nat.toDigits 10 n := by
  rfl

theorem lexical_cast_int_to_string (n : Nat) (h : n ≤ INT32_MAX) :
    lexical_cast_int (to_string (n : Int)) = some (n : Int) := by
  have hdig : ∀ c ∈ Nat.toDigits 10 n, c.isDigit = true :=
    toDigitsCore_isDigit _ _ _ (by simp)
  have hval : digits_value (Nat.toDigits 10 n) = n := by
    unfold digits_value Nat.toDigits
    rw [toDigitsCore_value _ _ _ (by omega)]
    rfl
  have hne : Nat.toDigits 10 n ≠ [] := toDigitsCore_ne_nil _ _ _
  unfold lexical_cast_int
  rw [to_string_data]
  cases hl : Nat.toDigits 10 n with
  | nil => exact absurd hl hne
  | cons c r =>
    have hc : c.isDigit = true := hdig c (by rw [hl]; exact List.mem_cons_self _ _)
    have h1 : c ≠ '-' := by intro e; rw [e] at hc; exact absurd hc (by decide)
    have h2 : c ≠ '+' := by intro e; rw [e] at hc; exact absurd hc (by decide)
    have hall : (c :: r).all Char.isDigit = true := by
      rw [List.all_eq_true]; intro x hx; exact hdig x (by rw [hl]; exact hx)
    have hv : digits_value (c :: r) = n := by rw [← hl]; exact hval
    have hbody : (match c :: r with
        | '-' :: r => (true, r)
        | '+' :: r => (false, r)
        | r => (false, r)) = (false, c :: r) := by
      split
      · rename_i heq; exact absurd (List.cons.inj heq).1 h1
      · rename_i heq; exact absurd (List.cons.inj heq).1 h2
      · rfl
    simp only [hbody, hall, hv, List.isEmpty_cons, Bool.not_true, Bool.or_self,
      Bool.false_eq_true, if_false]
    have : (-2147483648 : Int) ≤ (n : Int) ∧ (n : Int) ≤ 2147483647 := by
      unfold INT32_MAX at h; omega
    rw [if_pos this]
theorem digits_value_to_string (n : Nat) : digits_value (to_string (n : Int)).data = n := by
  rw [to_string_data]
  unfold digits_value Nat.toDigits
  rw [toDigitsCore_value _ _ _ (by omega)]
  rfl

theorem to_string_inj (a b : Nat) (h : to_string (a : Int) = to_string (b : Int)) : a = b := by
  rw [← digits_value_to_string a, ← digits_value_to_string b, h]

theorem to_string_ne_package (n : Nat) : to_string (n : Int) ≠ "package" := by
  intro h
  have hdig : ∀ c ∈ (to_string (n : Int)).data, c.isDigit = true := by
    rw [to_string_data]; exact toDigitsCore_isDigit _ _ _ (by simp)
  rw [h] at hdig
  exact absurd (hdig 'p' (by decide)) (by decide)

theorem map_assign_append {V : Type} (m : List (String × V)) (k : String) (v : V)
    (h : map_find m k = none) : map_assign m k v = m ++ [(k, v)] := by
  induction m with
  | nil => rfl
  | cons hd tl ih =>
    obtain ⟨k1, v1⟩ := hd
    simp only [map_find] at h
    by_cases hk : k1 = k
    · rw [if_pos hk] at h; exact absurd h (by simp)
    · rw [if_neg hk] at h
      simp only [map_assign, if_neg hk, ih h, List.cons_append]

theorem map_find_append {V : Type} (m : List (String × V)) (k k2 : String) (v : V)
    (h : map_find m k2 = none) (hk : k ≠ k2) : map_find (m ++ [(k, v)]) k2 = none := by
  induction m with
  | nil => simp only [List.nil_append, map_find, if_neg hk]
  | cons hd tl ih =>
    obtain ⟨k1, v1⟩ := hd
    simp only [map_find] at h
    by_cases h1 : k1 = k2
    · rw [if_pos h1] at h; exact absurd h (by simp)
    · rw [if_neg h1] at h
      show map_find ((k1, v1) :: (tl ++ [(k, v)])) k2 = none
      simp only [map_find, if_neg h1, ih h]

theorem foldl_assign {α V : Type} (key : α → String) (val : α → V)
    (f : List (String × V) → α → List (String × V)) :
    ∀ (xs : List α) (init : List (String × V)),
      (∀ m, ∀ x ∈ xs, f m x = map_assign m (key x) (val x)) →
      (xs.map key).Nodup →
      (∀ x ∈ xs, map_find init (key x) = none) →
      xs.foldl f init = init ++ xs.map (fun x => (key x, val x)) := by
  intro xs
  induction xs with
  | nil => intro init _ _ _; simp
  | cons x rest ih =>
    intro init hf hnd hinit
    rw [List.map_cons, List.nodup_cons] at hnd
    rw [List.foldl_cons, hf init x (List.mem_cons_self _ _),
      map_assign_append _ _ _ (hinit x (List.mem_cons_self _ _))]
    rw [ih (init ++ [(key x, val x)]) (fun m y hy => hf m y (List.mem_cons_of_mem _ hy)) hnd.2]
    · simp
    · intro y hy
      apply map_find_append _ _ _ _ (hinit y (List.mem_cons_of_mem _ hy))
      intro e
      exact hnd.1 (e ▸ List.mem_map_of_mem key hy)

theorem foldl_skip {α β : Type} (f : β → α → β) :
    ∀ (xs : List α) (init : β), (∀ m, ∀ x ∈ xs, f m x = m) → xs.foldl f init = init := by
  intro xs
  induction xs with
  | nil => intro init _; rfl
  | cons x rest ih =>
    intro init hf
    rw [List.foldl_cons, hf init x (List.mem_cons_self _ _)]
    exact ih init (fun m y hy => hf m y (List.mem_cons_of_mem _ hy))

theorem traverser_string_key (env : ConvEnv) (conv : LuaValue → UvmStorageValue)
    (map : List (String × UvmStorageValue)) (s : String) (value : LuaValue)
    (hk : c_str s ≠ "package") :
    lua_table_to_map_traverser_with_nested env conv [] map (.string s) value =
      map_assign map (c_str s) (conv value) := by
  unfold lua_table_to_map_traverser_with_nested
  cases value <;> simp [lua_isstring, lua_type, hk, lua_istable]

theorem traverser_integer_key (env : ConvEnv) (conv : LuaValue → UvmStorageValue)
    (map : List (String × UvmStorageValue)) (i : Int) (value : LuaValue)
    (hk : to_string i ≠ "package") :
    lua_table_to_map_traverser_with_nested env conv [] map (.integer i) value =
      map_assign map (to_string i) (conv value) := by
  unfold lua_table_to_map_traverser_with_nested
  cases value <;> simp [lua_isstring, lua_type, hk, lua_istable]

theorem is_record_key (t : LuaTable) (h : is_record t = true) (e : LuaValue × LuaValue)
    (he : e ∈ t.entries) : ∃ s, e.1 = .string s ∧ c_str s ≠ "package" := by
  simp only [is_record, Bool.and_eq_true, List.all_eq_true] at h
  have h1 := h.1.2 e he
  cases hk : e.1 <;> rw [hk] at h1 <;> simp at h1
  exact ⟨_, rfl, h1⟩

theorem traverse_record (env : ConvEnv) (conv : LuaValue → UvmStorageValue) (t : LuaTable)
    (h : is_record t = true) :
    luaL_traverse_table_with_nested (lua_table_to_map_traverser_with_nested env conv []) t [] =
      t.entries.map (fun e => (key_text e.1, conv e.2)) := by
  have hlen : t.len = 0 := by
    simp only [is_record, Bool.and_eq_true, beq_iff_eq] at h
    exact h.1.1
  have hnd : (t.entries.map (fun e => key_text e.1)).Nodup := by
    simp only [is_record, Bool.and_eq_true, decide_eq_true_eq] at h
    exact h.2
  unfold luaL_traverse_table_with_nested
  simp only [hlen, List.range_zero, List.foldl_nil]
  rw [foldl_assign (fun e => key_text e.1) (fun e => conv e.2) _ t.entries [] _ hnd
    (fun _ _ => rfl)]
  · rfl
  · intro m e he
    obtain ⟨s, hs, hp⟩ := is_record_key t h e he
    simp only [hs, key_text]
    exact traverser_string_key env conv m s e.2 hp

theorem is_sequence_key (t : LuaTable) (h : is_sequence t = true) (e : LuaValue × LuaValue)
    (he : e ∈ t.entries) : ∃ i : Int, e.1 = .integer i ∧ 0 < i ∧ i.toNat ≤ t.len := by
  simp only [is_sequence, Bool.and_eq_true, List.all_eq_true] at h
  have h1 := h.2 e he
  cases hk : e.1 <;> rw [hk] at h1 <;> simp at h1
  exact ⟨_, rfl, h1.1, by omega⟩

theorem traverse_sequence (env : ConvEnv) (conv : LuaValue → UvmStorageValue) (t : LuaTable)
    (h : is_sequence t = true) :
    luaL_traverse_table_with_nested (lua_table_to_map_traverser_with_nested env conv []) t [] =
      (List.range t.len).map (fun i => (to_string ((i + 1 : Nat) : Int),
        conv (raw_get t.entries (.integer ((i + 1 : Nat) : Int))))) := by
  unfold luaL_traverse_table_with_nested
  simp only []
  rw [foldl_skip]
  · rw [foldl_assign (fun i : Nat => to_string ((i + 1 : Nat) : Int))
      (fun i : Nat => conv (raw_get t.entries (.integer ((i + 1 : Nat) : Int)))) _
      (List.range t.len) [] _ _ (fun _ _ => rfl)]
    · rfl
    · intro m i _
      exact traverser_integer_key env conv m _ _ (to_string_ne_package _)
    · rw [List.nodup_map_iff_inj_on (List.nodup_range _)]
      intro a _ b _ hab
      have := to_string_inj _ _ hab
      omega
  · intro m e he
    obtain ⟨i, hi, h0, h1⟩ := is_sequence_key t h e he
    simp only [hi]
    rw [if_pos ⟨h1, h0⟩]
theorem uvm_json_items_to_cbor_eq_map (env : ConvEnv) (m : List (String × UvmStorageValue)) :
    uvm_json_items_to_cbor env m = m.map (fun p => (p.1, uvm_json_item_to_cbor env p.2)) := by
  induction m with
  | nil => simp only [uvm_json_items_to_cbor, List.map_nil]
  | cons hd tl ih =>
    obtain ⟨k, v⟩ := hd
    simp only [uvm_json_items_to_cbor, List.map_cons, ih]

theorem map_find_map {α V : Type} (key : α → String) (val : α → V) :
    ∀ (xs : List α) (a : α), a ∈ xs → (∀ x ∈ xs, key x = key a → x = a) →
      map_find (xs.map (fun x => (key x, val x))) (key a) = some (val a) := by
  intro xs
  induction xs with
  | nil => intro a ha; simp at ha
  | cons x rest ih =>
    intro a ha hinj
    simp only [List.map_cons, map_find]
    by_cases hk : key x = key a
    · rw [if_pos hk, hinj x (List.mem_cons_self _ _) hk]
    · rw [if_neg hk]
      rcases List.mem_cons.1 ha with h1 | h1
      · exact absurd (by rw [h1]) hk
      · exact ih a h1 (fun y hy => hinj y (List.mem_cons_of_mem _ hy))

theorem array_items_range (N : Nat) (o : Nat → Option CborObject) (c : Nat → CborObject)
    (ho : ∀ j, j < N → o j = some (c j)) :
    ∀ (n i : Nat), i + n ≤ N →
      array_items ((List.range N).map (fun j => (to_string ((j + 1 : Nat) : Int), o j))) n i =
        some ((List.range' i n).map c) := by
  intro n
  induction n with
  | zero => intro i _; rfl
  | succ n ih =>
    intro i hi
    have hfind := map_find_map (fun j : Nat => to_string ((j + 1 : Nat) : Int)) o
      (List.range N) i (List.mem_range.2 (by omega))
      (fun x _ hx => by have := to_string_inj _ _ hx; omega)
    simp only [array_items]
    simp only [] at hfind
    rw [hfind, ho i (by omega)]
    simp only [ih (i + 1) (by omega), Option.map_some', List.range'_succ, List.map_cons]

theorem map_items_all {α : Type} (key : α → String) (c : α → CborObject) :
    ∀ (xs : List α) (items : List (String × CborObject)),
      (xs.map key).Nodup → (∀ x ∈ xs, map_find items (key x) = none) →
      map_items (xs.map (fun x => (key x, some (c x)))) items =
        some (items ++ xs.map (fun x => (key x, c x))) := by
  intro xs
  induction xs with
  | nil => intro items _ _; simp [map_items]
  | cons x rest ih =>
    intro items hnd hfresh
    rw [List.map_cons, List.nodup_cons] at hnd
    simp only [List.map_cons, map_items]
    rw [map_assign_append _ _ _ (hfresh x (List.mem_cons_self _ _)), ih _ hnd.2]
    · simp
    · intro y hy
      apply map_find_append _ _ _ _ (hfresh y (List.mem_cons_of_mem _ hy))
      intro e
      exact hnd.1 (e ▸ List.mem_map_of_mem key hy)

theorem map_items_none (table : List (String × Option CborObject)) :
    ∀ (items : List (String × CborObject)), (∃ p ∈ table, p.2 = none) →
      map_items table items = none := by
  induction table with
  | nil => intro items h; obtain ⟨p, hp, _⟩ := h; simp at hp
  | cons hd tl ih =>
    intro items h
    obtain ⟨k, o⟩ := hd
    cases o with
    | none => simp only [map_items]
    | some c =>
      simp only [map_items]
      apply ih
      obtain ⟨p, hp, hn⟩ := h
      rcases List.mem_cons.1 hp with h1 | h1
      · rw [h1] at hn; simp at hn
      · exact ⟨p, h1, hn⟩

theorem tree_assign_append (fields : List (TreeKey × LuaTree)) (k : TreeKey) (v : LuaTree)
    (h : ∀ p ∈ fields, p.1 ≠ k) : tree_assign fields k v = fields ++ [(k, v)] := by
  induction fields with
  | nil => rfl
  | cons hd tl ih =>
    obtain ⟨k1, v1⟩ := hd
    have hk : k1 ≠ k := h (k1, v1) (List.mem_cons_self _ _)
    simp only [tree_assign, if_neg hk, List.cons_append,
      ih (fun p hp => h p (List.mem_cons_of_mem _ hp))]

theorem tree_set_append (fields : List (TreeKey × LuaTree)) (k : TreeKey) (v : LuaTree)
    (hv : v ≠ .nil) (h : ∀ p ∈ fields, p.1 ≠ k) : tree_set fields k v = fields ++ [(k, v)] := by
  cases v with
  | nil => exact absurd rfl hv
  | _ => exact tree_assign_append fields k _ h

theorem push_array_items_range (env : ConvEnv) (c : Nat → CborObject) (tr : Nat → LuaTree) :
    ∀ (n i : Nat) (fields : List (TreeKey × LuaTree)),
      (∀ j, i ≤ j → j < i + n → luaL_push_cbor_as_json env (c j) = some (tr j) ∧ tr j ≠ .nil) →
      (∀ p ∈ fields, ∀ j, i ≤ j → p.1 ≠ .int ((j + 1 : Nat) : Int)) →
      push_array_items env ((List.range' i n).map c) i fields =
        some (fields ++ (List.range' i n).map
          (fun j => (TreeKey.int ((j + 1 : Nat) : Int), tr j))) := by
  intro n
  induction n with
  | zero => intro i fields _ _; simp [push_array_items]
  | succ n ih =>
    intro i fields hc hfresh
    have h1 := hc i (Nat.le_refl _) (by omega)
    simp only [List.range'_succ, List.map_cons, push_array_items, h1.1]
    rw [tree_set_append _ _ _ h1.2 (fun p hp => hfresh p hp i (Nat.le_refl _))]
    rw [ih (i + 1) _ (fun j hj1 hj2 => hc j (by omega) (by omega))]
    · simp
    · intro p hp j hj
      rcases List.mem_append.1 hp with h2 | h2
      · exact hfresh p h2 j (by omega)
      · simp only [List.mem_singleton] at h2
        rw [h2]
        intro e
        have := TreeKey.int.inj e
        omega

theorem push_map_items_all {α : Type} (env : ConvEnv) (key : α → String) (c : α → CborObject)
    (tr : α → LuaTree) :
    ∀ (xs : List α) (fields : List (TreeKey × LuaTree)),
      (∀ x ∈ xs, luaL_push_cbor_as_json env (c x) = some (tr x) ∧ tr x ≠ .nil) →
      (xs.map key).Nodup → (∀ x ∈ xs, c_str (key x) = key x) →
      (∀ p ∈ fields, ∀ x ∈ xs, p.1 ≠ .str (key x)) →
      push_map_items env (xs.map (fun x => (key x, c x))) fields =
        some (fields ++ xs.map (fun x => (TreeKey.str (key x), tr x))) := by
  intro xs
  induction xs with
  | nil => intro fields _ _ _ _; simp [push_map_items]
  | cons x rest ih =>
    intro fields hc hnd hstr hfresh
    rw [List.map_cons, List.nodup_cons] at hnd
    have h1 := hc x (List.mem_cons_self _ _)
    simp only [List.map_cons, push_map_items, h1.1, hstr x (List.mem_cons_self _ _)]
    rw [tree_set_append _ _ _ h1.2 (fun p hp => hfresh p hp x (List.mem_cons_self _ _))]
    rw [ih _ (fun y hy => hc y (List.mem_cons_of_mem _ hy)) hnd.2
      (fun y hy => hstr y (List.mem_cons_of_mem _ hy))]
    · simp
    · intro p hp y hy
      rcases List.mem_append.1 hp with h2 | h2
      · exact hfresh p h2 y (List.mem_cons_of_mem _ hy)
      · simp only [List.mem_singleton] at h2
        rw [h2]
        intro e
        exact hnd.1 ((TreeKey.str.inj e) ▸ List.mem_map_of_mem key hy)

theorem same_fields_map {α : Type} (heap : List (Nat × LuaTable)) (k : α → TreeKey)
    (tr : α → LuaTree) (es : List (LuaValue × LuaValue)) :
    ∀ (xs : List α), (∀ x ∈ xs, same_value heap (tr x) (raw_get es (key_value (k x))) = true) →
      same_fields heap (xs.map (fun x => (k x, tr x))) es = true := by
  intro xs
  induction xs with
  | nil => intro _; simp only [List.map_nil, same_fields]
  | cons x rest ih =>
    intro h
    simp only [List.map_cons, same_fields, Bool.and_eq_true]
    exact ⟨h x (List.mem_cons_self _ _), ih (fun y hy => h y (List.mem_cons_of_mem _ hy))⟩

theorem raw_get_of_mem : ∀ (es : List (LuaValue × LuaValue)) (e : LuaValue × LuaValue),
    (es.map Prod.fst).Nodup → e ∈ es → raw_get es e.1 = e.2 := by
  intro es
  induction es with
  | nil => intro e _ he; simp at he
  | cons hd tl ih =>
    intro e hnd he
    obtain ⟨k, v⟩ := hd
    rw [List.map_cons, List.nodup_cons] at hnd
    simp only [raw_get]
    rcases List.mem_cons.1 he with h1 | h1
    · rw [h1]; simp
    · have hk : k ≠ e.1 := by
        intro e1
        apply hnd.1
        rw [e1]
        exact List.mem_map.2 ⟨e, h1, rfl⟩
      rw [if_neg hk]
      exact ih e hnd.2 h1

theorem sequence_fields_same (env : ConvEnv) (addr : Nat) (t : LuaTable)
    (hget : heap_get env.heap addr = some t) (hseq : is_sequence t = true)
    (tr : Nat → LuaTree)
    (h : ∀ i, i < t.len →
      same_value env.heap (tr i) (raw_get t.entries (.integer ((i + 1 : Nat) : Int))) = true) :
    same_value env.heap
      (.table ((List.range t.len).map (fun j => (TreeKey.int ((j + 1 : Nat) : Int), tr j))))
      (.table addr) = true := by
  simp only [same_value, hget, Bool.and_eq_true, decide_eq_true_eq, List.all_eq_true,
    List.any_eq_true]
  refine ⟨⟨?_, ?_⟩, ?_⟩
  · rw [List.map_map, List.nodup_map_iff_inj_on (List.nodup_range _)]
    intro a _ b _ hab
    simp only [Function.comp] at hab
    have := TreeKey.int.inj hab
    omega
  · intro e he
    obtain ⟨i, hi, h0, h1⟩ := is_sequence_key t hseq e he
    refine ⟨(TreeKey.int ((i.toNat - 1 + 1 : Nat) : Int), tr (i.toNat - 1)), ?_, ?_⟩
    · exact List.mem_map.2 ⟨i.toNat - 1, List.mem_range.2 (by omega), rfl⟩
    · simp only [key_value, hi, beq_iff_eq, LuaValue.integer.injEq]
      omega
  · apply same_fields_map
    intro j hj
    exact h j (List.mem_range.1 hj)

theorem sequence_round_trip (env : ConvEnv) (conv : LuaValue → UvmStorageValue) (addr : Nat)
    (t : LuaTable) (hget : heap_get env.heap addr = some t) (hseq : is_sequence t = true)
    (hgood : ∀ i, i < t.len →
      RoundTrips env (conv (raw_get t.entries (.integer ((i + 1 : Nat) : Int))))
        (raw_get t.entries (.integer ((i + 1 : Nat) : Int)))) :
    RoundTrips env (.storage_value_unknown_array (luaL_traverse_table_with_nested
      (lua_table_to_map_traverser_with_nested env conv []) t [])) (.table addr) := by
  unfold RoundTrips at hgood
  choose! cI tI h using hgood
  refine ⟨.COT_ARRAY ((List.range' 0 t.len).map cI),
    .table ((List.range t.len).map (fun j => (TreeKey.int ((j + 1 : Nat) : Int), tI j))),
    ?_, ?_, ?_, ?_⟩
  · rw [traverse_sequence env conv t hseq]
    simp only [uvm_json_item_to_cbor, uvm_json_items_to_cbor_eq_map, List.map_map,
      List.length_map, List.length_range]
    have := array_items_range t.len
      (fun j => uvm_json_item_to_cbor env
        (conv (raw_get t.entries (.integer ((j + 1 : Nat) : Int))))) cI
      (fun j hj => (h j hj).1) t.len 0 (by omega)
    simp only [Function.comp_def]
    rw [this]
    rfl
  · simp only [luaL_push_cbor_as_json]
    rw [push_array_items_range env cI tI t.len 0 []
      (fun j _ hj => ⟨(h j (by omega)).2.1, (h j (by omega)).2.2.2⟩)
      (fun p hp => by simp at hp)]
    simp only [List.nil_append, Option.map_some', List.range_eq_range']
  · exact sequence_fields_same env addr t hget hseq tI (fun i hi => (h i hi).2.2.1)
  · intro e; cases e
theorem is_record_keys_nodup (t : LuaTable) (h : is_record t = true) :
    (t.entries.map (fun e => key_text e.1)).Nodup := by
  simp only [is_record, Bool.and_eq_true, decide_eq_true_eq] at h
  exact h.2

theorem is_record_len (t : LuaTable) (h : is_record t = true) : t.len = 0 := by
  simp only [is_record, Bool.and_eq_true, beq_iff_eq] at h
  exact h.1.1

theorem record_fields_same (env : ConvEnv) (addr : Nat) (t : LuaTable)
    (hget : heap_get env.heap addr = some t) (hrec : is_record t = true)
    (hkeys : ∀ e ∈ t.entries, e.1 = .string (key_text e.1))
    (tr : LuaValue × LuaValue → LuaTree)
    (h : ∀ e ∈ t.entries, same_value env.heap (tr e) e.2 = true) :
    same_value env.heap
      (.table (t.entries.map (fun e => (TreeKey.str (key_text e.1), tr e))))
      (.table addr) = true := by
  have hnd := is_record_keys_nodup t hrec
  simp only [same_value, hget, Bool.and_eq_true, decide_eq_true_eq, List.all_eq_true,
    List.any_eq_true]
  refine ⟨⟨?_, ?_⟩, ?_⟩
  · rw [List.map_map]
    have : (Prod.fst ∘ fun e : LuaValue × LuaValue => (TreeKey.str (key_text e.1), tr e)) =
        TreeKey.str ∘ (fun e => key_text e.1) := rfl
    rw [this, ← List.map_map]
    exact List.Nodup.map (fun a b hab => TreeKey.str.inj hab) hnd
  · intro e he
    refine ⟨(TreeKey.str (key_text e.1), tr e), List.mem_map.2 ⟨e, he, rfl⟩, ?_⟩
    simp only [key_value, beq_iff_eq]
    exact (hkeys e he).symm
  · apply same_fields_map
    intro e he
    simp only [key_value]
    rw [← hkeys e he, raw_get_of_mem t.entries e _ he]
    · exact h e he
    · have h2 : (t.entries.map (fun e => key_text e.1)) =
          (t.entries.map Prod.fst).map key_text := by rw [List.map_map]; rfl
      rw [h2] at hnd
      exact List.Nodup.of_map _ hnd

theorem record_round_trip (env : ConvEnv) (conv : LuaValue → UvmStorageValue) (addr : Nat)
    (t : LuaTable) (hget : heap_get env.heap addr = some t) (hrec : is_record t = true)
    (hkeys : ∀ e ∈ t.entries, e.1 = .string (key_text e.1))
    (hgood : ∀ e, e ∈ t.entries → RoundTrips env (conv e.2) e.2) :
    RoundTrips env (.storage_value_unknown_table (luaL_traverse_table_with_nested
      (lua_table_to_map_traverser_with_nested env conv []) t [])) (.table addr) := by
  unfold RoundTrips at hgood
  choose! cE tE h using hgood
  have hnd := is_record_keys_nodup t hrec
  refine ⟨.COT_MAP (t.entries.map (fun e => (key_text e.1, cE e))),
    .table (t.entries.map (fun e => (TreeKey.str (key_text e.1), tE e))),
    ?_, ?_, ?_, ?_⟩
  · rw [traverse_record env conv t hrec]
    simp only [uvm_json_item_to_cbor, uvm_json_items_to_cbor_eq_map, List.map_map]
    have h1 : t.entries.map ((fun p : String × UvmStorageValue =>
          (p.1, uvm_json_item_to_cbor env p.2)) ∘ fun e => (key_text e.1, conv e.2)) =
        t.entries.map (fun e => (key_text e.1, some (cE e))) := by
      apply List.map_congr_left
      intro e he
      simp only [Function.comp, (h e he).1]
    rw [h1, map_items_all (fun e : LuaValue × LuaValue => key_text e.1) cE t.entries [] hnd
      (fun _ _ => rfl)]
    rfl
  · simp only [luaL_push_cbor_as_json]
    rw [push_map_items_all env (fun e : LuaValue × LuaValue => key_text e.1) cE tE t.entries []
      (fun e he => ⟨(h e he).2.1, (h e he).2.2.2⟩) hnd _ (fun p hp => by simp at hp)]
    · rfl
    · intro e he
      have hk := hkeys e he
      obtain ⟨s, hs, _⟩ := is_record_key t hrec e he
      rw [hs] at hk
      simp only [key_text] at hk
      have hk2 : s = c_str s := LuaValue.string.inj hk
      simp only [hs, key_text]
      rw [← hk2, ← hk2]
  · exact record_fields_same env addr t hget hrec hkeys tE (fun e he => (h e he).2.2.1)
  · intro e; cases e
theorem to_string_length (n : Nat) : ¬ (to_string (n : Int)).length < 1 := by
  have hne : (to_string (n : Int)).data ≠ [] := by
    rw [to_string_data]; exact toDigitsCore_ne_nil _ _ _
  have : (to_string (n : Int)).length = (to_string (n : Int)).data.length := rfl
  rw [this]
  cases h : (to_string (n : Int)).data with
  | nil => exact absurd h hne
  | cons c r => simp

theorem to_string_succ_ne_zero (j : Nat) : to_string ((j + 1 : Nat) : Int) ≠ "0" := by
  intro h
  have h1 := digits_value_to_string (j + 1)
  rw [h] at h1
  have h2 : digits_value "0".data = 0 := by decide
  omega

theorem all_int_keys_indices : ∀ (xs : List Nat), (∀ j ∈ xs, j + 1 ≤ INT32_MAX) →
    all_int_keys (xs.map (fun j => to_string ((j + 1 : Nat) : Int))) =
      some (xs.map (fun j => ((j + 1 : Nat) : Int))) := by
  intro xs
  induction xs with
  | nil => intro _; rfl
  | cons x rest ih =>
    intro h
    simp only [List.map_cons, all_int_keys]
    rw [if_neg (to_string_length _), if_neg (to_string_succ_ne_zero _),
      lexical_cast_int_to_string _ (h x (List.mem_cons_self _ _))]
    simp only []
    rw [if_neg (by omega), ih (fun j hj => h j (List.mem_cons_of_mem _ hj))]
    rfl

theorem is_uvm_array_keys_indices (N : Nat) (hN : N ≤ INT32_MAX) :
    is_uvm_array_keys ((List.range N).map (fun j => to_string ((j + 1 : Nat) : Int))) = true := by
  unfold is_uvm_array_keys
  rw [all_int_keys_indices _ (fun j hj => by have := List.mem_range.1 hj; omega)]
  have hsorted : List.Sorted (fun a b : Int => a ≤ b)
      ((List.range N).map (fun j => ((j + 1 : Nat) : Int))) := by
    unfold List.Sorted
    rw [List.pairwise_map]
    exact (List.pairwise_lt_range N).imp (fun {a b} hab => by omega)
  simp only [List.Sorted.insertionSort_eq hsorted, List.length_map, List.length_range,
    List.all_eq_true, List.mem_range, beq_iff_eq]
  intro i hi
  rw [List.getD_eq_getElem?_getD, List.getElem?_map, List.getElem?_range hi]
  rfl
theorem is_sequence_len (t : LuaTable) (h : is_sequence t = true) : t.len ≤ INT32_MAX := by
  simp only [is_sequence, Bool.and_eq_true, decide_eq_true_eq] at h
  exact h.1

theorem empty_table_round_trips (env : ConvEnv) (addr : Nat) (t : LuaTable)
    (hget : heap_get env.heap addr = some t) (hent : t.entries = []) :
    RoundTrips env (.storage_value_unknown_table []) (.table addr) ∧
    RoundTrips env (.storage_value_unknown_array []) (.table addr) := by
  have hsame : same_value env.heap (.table []) (.table addr) = true := by
    simp [same_value, hget, hent, same_fields]
  constructor
  · exact ⟨.COT_MAP [], .table [], rfl, rfl, hsame, fun e => by cases e⟩
  · exact ⟨.COT_ARRAY [], .table [], rfl, rfl, hsame, fun e => by cases e⟩

theorem is_sequence_empty (t : LuaTable) (h : is_sequence t = true) (h0 : t.len = 0) :
    t.entries = [] := by
  cases he : t.entries with
  | nil => rfl
  | cons e rest =>
    obtain ⟨i, _, h1, h2⟩ := is_sequence_key t h e (by rw [he]; exact List.mem_cons_self _ _)
    omega

theorem storage_round_trips (env : ConvEnv) : ∀ (n f d : Nat) (v : LuaValue),
    encodable env.heap n v = true → d + 2 * n ≤ LUA_MAP_TRAVERSER_MAX_DEPTH → n < f →
    RoundTrips env (lua_type_to_storage_value_type_fuel env [] f d v) v := by
  intro n
  induction n with
  | zero =>
    intro f d v henc hd hf
    obtain ⟨f, rfl⟩ : ∃ g, f = g + 1 := ⟨f - 1, by omega⟩
    have hd2 : ¬ d > LUA_MAP_TRAVERSER_MAX_DEPTH := by omega
    cases v <;> simp only [encodable, Bool.false_eq_true] at henc
    · rename_i b
      exact ⟨.COT_BOOL b, .boolean b,
        by simp only [lua_type_to_storage_value_type_fuel, if_neg hd2, uvm_json_item_to_cbor],
        rfl, by simp [same_value], fun e => by cases e⟩
    · rename_i i
      exact ⟨.COT_INT i, .integer i,
        by simp only [lua_type_to_storage_value_type_fuel, if_neg hd2, uvm_json_item_to_cbor],
        rfl, by simp [same_value], fun e => by cases e⟩
    · rename_i s
      have hs : c_str s = s := by simpa using henc
      exact ⟨.COT_STRING s, .string s,
        by simp only [lua_type_to_storage_value_type_fuel, if_neg hd2, uvm_json_item_to_cbor, hs],
        by simp only [luaL_push_cbor_as_json, hs], by simp [same_value], fun e => by cases e⟩
  | succ m ih =>
    intro f d v henc hd hf
    obtain ⟨f, rfl⟩ : ∃ g, f = g + 1 := ⟨f - 1, by omega⟩
    have hd2 : ¬ d > LUA_MAP_TRAVERSER_MAX_DEPTH := by omega
    cases v <;> simp only [encodable, Bool.false_eq_true] at henc
    · rename_i b
      exact ⟨.COT_BOOL b, .boolean b,
        by simp only [lua_type_to_storage_value_type_fuel, if_neg hd2, uvm_json_item_to_cbor],
        rfl, by simp [same_value], fun e => by cases e⟩
    · rename_i i
      exact ⟨.COT_INT i, .integer i,
        by simp only [lua_type_to_storage_value_type_fuel, if_neg hd2, uvm_json_item_to_cbor],
        rfl, by simp [same_value], fun e => by cases e⟩
    · rename_i s
      have hs : c_str s = s := by simpa using henc
      exact ⟨.COT_STRING s, .string s,
        by simp only [lua_type_to_storage_value_type_fuel, if_neg hd2, uvm_json_item_to_cbor, hs],
        by simp only [luaL_push_cbor_as_json, hs], by simp [same_value], fun e => by cases e⟩
    · rename_i addr
      cases hget : heap_get env.heap addr with
      | none => rw [hget] at henc; simp at henc
      | some t =>
        rw [hget] at henc
        simp only [Bool.or_eq_true, Bool.and_eq_true, List.all_eq_true, List.mem_range] at henc
        rcases henc with ⟨hseq, hch⟩ | ⟨hrec, hch⟩
        · rw [storage_fuel_table env [] f d addr t (by omega) hget (is_sequence_len t hseq)]
          by_cases h0 : t.len > 0
          · rw [if_pos h0]
            exact sequence_round_trip env _ addr t hget hseq
              (fun i hi => ih f (d + 2) _ (hch i hi) (by omega) (by omega))
          · rw [if_neg h0, traverse_sequence env _ t hseq]
            have h00 : t.len = 0 := by omega
            rw [h00]
            exact (empty_table_round_trips env addr t hget (is_sequence_empty t hseq h00)).1
        · have h00 := is_record_len t hrec
          rw [storage_fuel_table env [] f d addr t (by omega) hget (by omega),
            if_neg (by omega)]
          exact record_round_trip env _ addr t hget hrec
            (fun e he => by simpa using (hch e he).1)
            (fun e he => ih f (d + 2) _ (hch e he).2 (by omega) (by omega))

/-- C12 (amended): for every value built from booleans, integers, strings without NUL,
sequences `1 .. len` and records with string keys without NUL other than `package`, with
at most 50 levels of tables and with a top-level record whose keys do not read as the
indices of an array, pushing the answer of `luaL_to_cbor` with `luaL_push_cbor_as_json`
gives a value structurally equal to it. -/
theorem push_converted_round_trip (env : ConvEnv) (n : Nat) (v : LuaValue) (hn : n ≤ 50)
    (henc : encodable env.heap n v = true)
    (htop : record_read_as_array env.heap v = false) :
    ∃ tree, push_converted env v = some tree ∧ same_value env.heap tree v = true := by
  have key : ∀ s, RoundTrips env s v → ∃ tree,
      (uvm_json_item_to_cbor env s).bind (luaL_push_cbor_as_json env) = some tree ∧
        same_value env.heap tree v = true := by
    intro s hs
    obtain ⟨c, tree, h1, h2, h3, _⟩ := hs
    exact ⟨tree, by rw [h1]; exact h2, h3⟩
  cases v with
  | boolean b => exact ⟨.boolean b, rfl, by simp [same_value]⟩
  | integer i => exact ⟨.integer i, rfl, by simp [same_value]⟩
  | string s =>
    have hs : c_str s = s := by
      cases n <;> simpa [encodable] using henc
    exact ⟨.string s, by simp [push_converted, luaL_to_cbor, luaL_push_cbor_as_json, hs],
      by simp [same_value]⟩
  | table addr =>
    cases n with
    | zero => simp [encodable] at henc
    | succ m =>
      simp only [encodable] at henc
      cases hget : heap_get env.heap addr with
      | none => rw [hget] at henc; simp at henc
      | some t =>
        rw [hget] at henc
        simp only [Bool.or_eq_true, Bool.and_eq_true, List.all_eq_true, List.mem_range] at henc
        simp only [record_read_as_array, hget] at htop
        simp only [push_converted, luaL_to_cbor, hget]
        have hchild : ∀ x, encodable env.heap m x = true →
            RoundTrips env (lua_type_to_storage_value_type_with_nested env [] 1 x) x :=
          fun x hx => storage_round_trips env m _ 1 x hx
            (by unfold LUA_MAP_TRAVERSER_MAX_DEPTH; omega)
            (by unfold LUA_MAP_TRAVERSER_MAX_DEPTH; omega)
        rcases henc with ⟨hseq, hch⟩ | ⟨hrec, hch⟩
        · have harr : is_uvm_array_table (luaL_traverse_table_with_nested
              (lua_table_to_map_traverser_with_nested env
                (fun x => lua_type_to_storage_value_type_with_nested env [] 1 x) []) t []) =
              true := by
            rw [traverse_sequence env _ t hseq]
            unfold is_uvm_array_table
            rw [List.map_map]
            exact is_uvm_array_keys_indices t.len (is_sequence_len t hseq)
          rw [if_pos harr]
          exact key _ (sequence_round_trip env _ addr t hget hseq
            (fun i hi => hchild _ (hch i hi)))
        · by_cases hent : t.entries = []
          · rw [traverse_record env _ t hrec, hent]
            rw [if_pos (by rfl)]
            exact key _ (empty_table_round_trips env addr t hget hent).2
          · have harr : is_uvm_array_table (luaL_traverse_table_with_nested
                (lua_table_to_map_traverser_with_nested env
                  (fun x => lua_type_to_storage_value_type_with_nested env [] 1 x) []) t []) =
                false := by
              rw [traverse_record env _ t hrec]
              unfold is_uvm_array_table
              rw [List.map_map]
              have hne : t.entries.isEmpty = false := by
                cases h : t.entries with
                | nil => exact absurd h hent
                | cons _ _ => rfl
              simpa [hrec, hne] using htop
            rw [harr]
            simp only [Bool.false_eq_true, if_false]
            exact key _ (record_round_trip env _ addr t hget hrec
              (fun e he => by simpa using (hch e he).1)
              (fun e he => hchild _ (hch e he).2))
  | _ => cases n <;> simp [encodable] at henc
theorem push_converted_round_trip_witness :
    encodable (demoConv slotHeap).heap 2 (.table 1) = true ∧
    record_read_as_array (demoConv slotHeap).heap (.table 1) = false ∧
    ∃ tree, push_converted (demoConv slotHeap) (.table 1) = some tree ∧
      same_value (demoConv slotHeap).heap tree (.table 1) = true :=
  ⟨by decide, by decide,
    push_converted_round_trip (demoConv slotHeap) 2 (.table 1) (by decide) (by decide)
      (by decide)⟩

/-- C12 (counterexample): the table `{[2] = true}` comes back from `luaL_to_cbor` and
`luaL_push_cbor_as_json` as `{["2"] = true}`: the integer key has become a string, and
the pushed table is not structurally equal to the table. -/
theorem push_converted_changes_key_type :
    push_converted (demoConv sparseHeap) (.table 1) =
      some (.table [(.str "2", .boolean true)]) ∧
    (push_converted (demoConv sparseHeap) (.table 1)).map
      (fun tree => same_value sparseHeap tree (.table 1)) = some false := by
  constructor
  · rfl
  · decide

/-- C13 (counterexample): at top level `{["1"] = "x"}`, whose only key is a string,
becomes an array; inside `{a = {}, b = {1, 2, x = 3}}` the empty table becomes a map and
the table with the keys `1, 2, x` becomes the array of its first two values; and the map
of `{package = 1, x = 2}` has no entry for the key `package`. -/
theorem luaL_to_cbor_kind_differs :
    luaL_to_cbor (demoConv kindHeap) (.table 1) = some (.COT_ARRAY [.COT_STRING "x"]) ∧
    luaL_to_cbor (demoConv kindHeap) (.table 2) =
      some (.COT_MAP [("a", .COT_MAP []), ("b", .COT_ARRAY [.COT_INT 1, .COT_INT 2])]) ∧
    luaL_to_cbor (demoConv kindHeap) (.table 5) = some (.COT_MAP [("x", .COT_INT 2)]) := by
  refine ⟨rfl, rfl, rfl⟩

/-- C15 (counterexample): `luaL_to_cbor` answers an object for tables that hold a
function: `{k = {1, x = f}}` becomes a map with the array of 1, and `{package = f}` and
`{[true] = f}` become the empty array. -/
theorem luaL_to_cbor_encodes_table_with_function :
    luaL_to_cbor (demoConv hiddenHeap) (.table 1) =
      some (.COT_MAP [("k", .COT_ARRAY [.COT_INT 1])]) ∧
    luaL_to_cbor (demoConv hiddenHeap) (.table 3) = some (.COT_ARRAY []) ∧
    luaL_to_cbor (demoConv hiddenHeap) (.table 4) = some (.COT_ARRAY []) := by
  refine ⟨rfl, rfl, rfl⟩
theorem array_items_length (N : Nat) (o : Nat → Option CborObject) :
    ∀ (n i : Nat) (items : List CborObject), i + n ≤ N →
      array_items ((List.range N).map (fun j => (to_string ((j + 1 : Nat) : Int), o j))) n i =
        some items → items.length = n := by
  intro n
  induction n with
  | zero => intro i items _ h; simp only [array_items, Option.some.injEq] at h; rw [← h]; rfl
  | succ n ih =>
    intro i items hi h
    have hfind := map_find_map (fun j : Nat => to_string ((j + 1 : Nat) : Int)) o
      (List.range N) i (List.mem_range.2 (by omega))
      (fun x _ hx => by have := to_string_inj _ _ hx; omega)
    simp only [array_items] at h
    simp only [] at hfind
    rw [hfind] at h
    cases ho : o i with
    | none => rw [ho] at h; simp at h
    | some c =>
      rw [ho] at h
      simp only [Option.map_eq_some'] at h
      obtain ⟨rest, hrest, hitems⟩ := h
      rw [← hitems, List.length_cons, ih (i + 1) rest (by omega) hrest]

theorem map_items_keys : ∀ (table : List (String × Option CborObject))
    (items m : List (String × CborObject)),
    (table.map Prod.fst).Nodup → (∀ p ∈ table, map_find items p.1 = none) →
    map_items table items = some m → m.map Prod.fst = items.map Prod.fst ++ table.map Prod.fst := by
  intro table
  induction table with
  | nil => intro items m _ _ h; simp only [map_items, Option.some.injEq] at h; simp [h]
  | cons hd tl ih =>
    intro items m hnd hfresh h
    obtain ⟨k, o⟩ := hd
    rw [List.map_cons, List.nodup_cons] at hnd
    cases o with
    | none => simp [map_items] at h
    | some c =>
      simp only [map_items] at h
      rw [map_assign_append _ _ _ (hfresh (k, some c) (List.mem_cons_self _ _))] at h
      rw [ih _ m hnd.2 _ h]
      · simp
      · intro p hp
        apply map_find_append _ _ _ _ (hfresh p (List.mem_cons_of_mem _ hp))
        intro e
        exact hnd.1 (List.mem_map.2 ⟨p, hp, e.symm⟩)

/-- C13 (amended): at top level `luaL_to_cbor` encodes a table whose keys are integers of
`1 .. len` as an array of `len` items, and a record whose key texts
`is_uvm_array_table` does not take for array indices as a map with exactly the keys of
the record; a nested table is encoded as an array when its length is positive and as a
map when its length is 0, whatever its keys are. -/
theorem luaL_to_cbor_table_kind (env : ConvEnv) (addr : Nat) (t : LuaTable) (c : CborObject)
    (hget : heap_get env.heap addr = some t)
    (hc : luaL_to_cbor env (.table addr) = some c) :
    (is_sequence t = true → ∃ items, c = .COT_ARRAY items ∧ items.length = t.len) ∧
    (is_record t = true → is_uvm_array_keys (t.entries.map (fun e => key_text e.1)) = false →
      ∃ m, c = .COT_MAP m ∧ m.map Prod.fst = t.entries.map (fun e => key_text e.1)) ∧
    (∀ (d addr2 : Nat) (t2 : LuaTable) (c2 : CborObject),
      d ≤ LUA_MAP_TRAVERSER_MAX_DEPTH → heap_get env.heap addr2 = some t2 →
      t2.len ≤ INT32_MAX →
      uvm_json_item_to_cbor env
        (lua_type_to_storage_value_type_with_nested env [] d (.table addr2)) = some c2 →
      (0 < t2.len → ∃ items, c2 = .COT_ARRAY items) ∧
      (t2.len = 0 → ∃ m, c2 = .COT_MAP m)) := by
  simp only [luaL_to_cbor, hget] at hc
  refine ⟨?_, ?_, ?_⟩
  · intro hseq
    have harr : is_uvm_array_table (luaL_traverse_table_with_nested
        (lua_table_to_map_traverser_with_nested env
          (fun x => lua_type_to_storage_value_type_with_nested env [] 1 x) []) t []) = true := by
      rw [traverse_sequence env _ t hseq]
      unfold is_uvm_array_table
      rw [List.map_map]
      exact is_uvm_array_keys_indices t.len (is_sequence_len t hseq)
    rw [if_pos harr, traverse_sequence env _ t hseq] at hc
    simp only [uvm_json_item_to_cbor, uvm_json_items_to_cbor_eq_map, List.map_map,
      List.length_map, List.length_range, Option.map_eq_some', Function.comp_def] at hc
    obtain ⟨items, hitems, hci⟩ := hc
    exact ⟨items, hci.symm, array_items_length t.len _ t.len 0 items (by omega) hitems⟩
  · intro hrec hkeys
    have harr : is_uvm_array_table (luaL_traverse_table_with_nested
        (lua_table_to_map_traverser_with_nested env
          (fun x => lua_type_to_storage_value_type_with_nested env [] 1 x) []) t []) = false := by
      rw [traverse_record env _ t hrec]
      unfold is_uvm_array_table
      rw [List.map_map]
      exact hkeys
    rw [harr, traverse_record env _ t hrec] at hc
    simp only [Bool.false_eq_true, if_false, uvm_json_item_to_cbor,
      uvm_json_items_to_cbor_eq_map, List.map_map, Option.map_eq_some'] at hc
    obtain ⟨m, hm, hcm⟩ := hc
    refine ⟨m, hcm.symm, ?_⟩
    have hk := map_items_keys _ [] m (by
      rw [List.map_map]
      exact is_record_keys_nodup t hrec) (fun _ _ => rfl) hm
    rw [hk, List.map_map]
    rfl
  · intro d addr2 t2 c2 hd hget2 hlen hc2
    have hst := storage_fuel_table env [] (LUA_MAP_TRAVERSER_MAX_DEPTH + 1) d addr2 t2 hd hget2 hlen
    unfold lua_type_to_storage_value_type_with_nested at hc2
    rw [hst] at hc2
    constructor
    · intro h0
      rw [if_pos h0] at hc2
      simp only [uvm_json_item_to_cbor, Option.map_eq_some'] at hc2
      obtain ⟨items, _, h⟩ := hc2
      exact ⟨items, h.symm⟩
    · intro h0
      rw [if_neg (by omega)] at hc2
      simp only [uvm_json_item_to_cbor, Option.map_eq_some'] at hc2
      obtain ⟨m, _, h⟩ := hc2
      exact ⟨m, h.symm⟩

theorem luaL_to_cbor_table_kind_witness :
    heap_get (demoConv slotHeap).heap 2 =
      some ⟨3, [(.integer 1, .integer 1), (.integer 2, .integer 2), (.integer 3, .integer 3)]⟩ ∧
    luaL_to_cbor (demoConv slotHeap) (.table 2) =
      some (.COT_ARRAY [.COT_INT 1, .COT_INT 2, .COT_INT 3]) ∧
    ∃ items, CborObject.COT_ARRAY [.COT_INT 1, .COT_INT 2, .COT_INT 3] = .COT_ARRAY items ∧
      items.length = 3 :=
  ⟨rfl, rfl, (luaL_to_cbor_table_kind (demoConv slotHeap) 2
    ⟨3, [(.integer 1, .integer 1), (.integer 2, .integer 2), (.integer 3, .integer 3)]⟩
    (.COT_ARRAY [.COT_INT 1, .COT_INT 2, .COT_INT 3]) rfl rfl).1 (by decide)⟩
theorem record_with_unsupported (env : ConvEnv) (conv : LuaValue → UvmStorageValue)
    (t : LuaTable) (hrec : is_record t = true)
    (h : ∃ e ∈ t.entries, uvm_json_item_to_cbor env (conv e.2) = none) :
    uvm_json_item_to_cbor env (.storage_value_unknown_table (luaL_traverse_table_with_nested
      (lua_table_to_map_traverser_with_nested env conv []) t [])) = none := by
  rw [traverse_record env conv t hrec]
  simp only [uvm_json_item_to_cbor, uvm_json_items_to_cbor_eq_map, List.map_map]
  rw [map_items_none]
  · rfl
  · obtain ⟨e, he, hn⟩ := h
    exact ⟨_, List.mem_map.2 ⟨e, he, rfl⟩, hn⟩

theorem storage_unsupported (env : ConvEnv) : ∀ (n f d : Nat) (v : LuaValue),
    holds_unsupported env.heap n v = true → d + 2 * n ≤ LUA_MAP_TRAVERSER_MAX_DEPTH → n < f →
    uvm_json_item_to_cbor env (lua_type_to_storage_value_type_fuel env [] f d v) = none := by
  intro n
  induction n with
  | zero =>
    intro f d v h hd hf
    obtain ⟨f, rfl⟩ : ∃ g, f = g + 1 := ⟨f - 1, by omega⟩
    have hd2 : ¬ d > LUA_MAP_TRAVERSER_MAX_DEPTH := by omega
    cases v <;> simp only [holds_unsupported, Bool.false_eq_true] at h <;>
      simp only [lua_type_to_storage_value_type_fuel, if_neg hd2, uvm_json_item_to_cbor]
    split <;> rfl
  | succ m ih =>
    intro f d v h hd hf
    obtain ⟨f, rfl⟩ : ∃ g, f = g + 1 := ⟨f - 1, by omega⟩
    have hd2 : ¬ d > LUA_MAP_TRAVERSER_MAX_DEPTH := by omega
    cases v with
    | table addr =>
      simp only [holds_unsupported] at h
      cases hget : heap_get env.heap addr with
      | none => rw [hget] at h; simp at h
      | some t =>
        rw [hget] at h
        simp only [Bool.and_eq_true, List.any_eq_true] at h
        obtain ⟨hrec, e, he, hun⟩ := h
        have h00 := is_record_len t hrec
        rw [storage_fuel_table env [] f d addr t (by omega) hget (by omega), if_neg (by omega)]
        exact record_with_unsupported env _ t hrec
          ⟨e, he, ih f (d + 2) e.2 hun (by omega) (by omega)⟩
    | userdata a =>
      simp only [lua_type_to_storage_value_type_fuel, if_neg hd2]
      split <;> rfl
    | nil => simp [holds_unsupported] at h
    | boolean b => simp [holds_unsupported] at h
    | integer i => simp [holds_unsupported] at h
    | number x => simp [holds_unsupported] at h
    | string s => simp [holds_unsupported] at h
    | _ => simp only [lua_type_to_storage_value_type_fuel, if_neg hd2, uvm_json_item_to_cbor]

/-- C15 (amended): `luaL_to_cbor` answers no object for a function, a thread or a
userdata, and for a record that holds one within 50 levels of records, the keys of the
top-level record not reading as the indices of an array; a record is a table of length
0 whose keys are strings with distinct texts other than `package`. -/
theorem luaL_to_cbor_unsupported (env : ConvEnv) (n : Nat) (v : LuaValue) (hn : n ≤ 50)
    (h : holds_unsupported env.heap n v = true)
    (htop : record_read_as_array env.heap v = false) :
    luaL_to_cbor env v = none := by
  cases v with
  | table addr =>
    cases n with
    | zero => simp [holds_unsupported] at h
    | succ m =>
      simp only [holds_unsupported] at h
      cases hget : heap_get env.heap addr with
      | none => rw [hget] at h; simp at h
      | some t =>
        rw [hget] at h
        simp only [Bool.and_eq_true, List.any_eq_true] at h
        obtain ⟨hrec, e, he, hun⟩ := h
        simp only [record_read_as_array, hget] at htop
        simp only [luaL_to_cbor, hget]
        have hne : t.entries.isEmpty = false := by
          cases h : t.entries with
          | nil => rw [h] at he; simp at he
          | cons _ _ => rfl
        have harr : is_uvm_array_table (luaL_traverse_table_with_nested
            (lua_table_to_map_traverser_with_nested env
              (fun x => lua_type_to_storage_value_type_with_nested env [] 1 x) []) t []) =
            false := by
          rw [traverse_record env _ t hrec]
          unfold is_uvm_array_table
          rw [List.map_map]
          simpa [hrec, hne] using htop
        rw [harr]
        simp only [Bool.false_eq_true, if_false]
        exact record_with_unsupported env _ t hrec
          ⟨e, he, storage_unsupported env m _ 1 e.2 hun
            (by unfold LUA_MAP_TRAVERSER_MAX_DEPTH; omega)
            (by unfold LUA_MAP_TRAVERSER_MAX_DEPTH; omega)⟩
  | nil => cases n <;> simp [holds_unsupported] at h
  | boolean b => cases n <;> simp [holds_unsupported] at h
  | integer i => cases n <;> simp [holds_unsupported] at h
  | number x => cases n <;> simp [holds_unsupported] at h
  | string s => cases n <;> simp [holds_unsupported] at h
  | _ => rfl

theorem luaL_to_cbor_unsupported_witness :
    holds_unsupported (demoConv hiddenHeap).heap 1 (.table 5) = true ∧
    record_read_as_array (demoConv hiddenHeap).heap (.table 5) = false ∧
    luaL_to_cbor (demoConv hiddenHeap) (.table 5) = none :=
  ⟨by decide, by decide,
    luaL_to_cbor_unsupported (demoConv hiddenHeap) 1 (.table 5) (by decide) (by decide)
      (by decide)⟩

/-! ## Theorems: the token contract -/

theorem dec_text_enc_text (s : String) (rest : List Nat) :
    dec_text (enc_text s ++ rest) = some (s, rest) := by
  have hlen : (s.data.map Char.toNat).length = s.length := by
    rw [List.length_map]; rfl
  have hmap : (s.data.map Char.toNat).map Char.ofNat = s.data := by
    rw [List.map_map]
    conv_rhs => rw [← List.map_id s.data]
    apply List.map_congr_left
    intro c _
    simp only [Function.comp, Char.ofNat_toNat, id]
  simp only [enc_text, List.cons_append, dec_text]
  rw [if_neg (by rw [List.length_append, hlen]; omega)]
  rw [← hlen, List.take_left, List.drop_left, hmap]

theorem dec_int_enc_int (i : Int) (rest : List Nat) :
    dec_int (enc_int i ++ rest) = some (i, rest) := by
  simp only [enc_int, List.cons_append, List.nil_append, dec_int]
  by_cases h : i < 0
  · simp only [h, if_true, Nat.one_ne_zero, if_false]
    congr 2
    omega
  · simp only [h, if_false, if_true]
    congr 2
    omega

mutual
theorem demo_dec_enc : ∀ (x : CborObject) (f : Nat) (rest : List Nat),
    (demo_enc x).length ≤ f → demo_dec f (demo_enc x ++ rest) = some (x, rest)
  | .COT_NULL, f + 1, rest, _ => by
    simp only [demo_enc, List.cons_append, List.nil_append, demo_dec]
  | .COT_UNDEFINED, f + 1, rest, _ => by
    simp only [demo_enc, List.cons_append, List.nil_append, demo_dec]
  | .COT_BOOL b, f + 1, rest, _ => by
    cases b <;> simp [demo_enc, demo_dec]
  | .COT_FLOAT x, f + 1, rest, _ => by
    simp only [demo_enc, List.cons_append, demo_dec, dec_int_enc_int, Option.map_some']
  | .COT_INT x, f + 1, rest, _ => by
    simp only [demo_enc, List.cons_append, demo_dec, dec_int_enc_int, Option.map_some']
  | .COT_EXTRA_INT x, f + 1, rest, _ => by
    simp only [demo_enc, List.cons_append, demo_dec, dec_int_enc_int, Option.map_some']
  | .COT_STRING s, f + 1, rest, _ => by
    simp only [demo_enc, List.cons_append, demo_dec, dec_text_enc_text, Option.map_some']
  | .COT_BYTES b, f + 1, rest, _ => by
    simp [demo_enc, demo_dec]
  | .COT_ARRAY items, f + 1, rest, h => by
    have := demo_dec_enc_items items f rest (by simp [demo_enc] at h; omega)
    simp only [demo_enc, List.cons_append, demo_dec, this, Option.map_some']
  | .COT_MAP items, f + 1, rest, h => by
    have := demo_dec_enc_fields items f rest (by simp [demo_enc] at h; omega)
    simp only [demo_enc, List.cons_append, demo_dec, this, Option.map_some']
  | x, 0, rest, h => by cases x <;> simp [demo_enc] at h
theorem demo_dec_enc_items : ∀ (xs : List CborObject) (f : Nat) (rest : List Nat),
    (demo_enc_items xs).length ≤ f →
    demo_dec_items f (demo_enc_items xs ++ rest) = some (xs, rest)
  | [], f + 1, rest, _ => by
    simp only [demo_enc_items, List.cons_append, demo_dec_items]; rfl
  | x :: xs, f + 1, rest, h => by
    have h1 := demo_dec_enc x f (demo_enc_items xs ++ rest)
      (by simp [demo_enc_items] at h; omega)
    have h2 := demo_dec_enc_items xs f rest (by simp [demo_enc_items] at h; omega)
    simp [demo_enc_items, demo_dec_items, h1, h2]
  | xs, 0, rest, h => by cases xs <;> simp [demo_enc_items] at h
theorem demo_dec_enc_fields : ∀ (xs : List (String × CborObject)) (f : Nat) (rest : List Nat),
    (demo_enc_fields xs).length ≤ f →
    demo_dec_fields f (demo_enc_fields xs ++ rest) = some (xs, rest)
  | [], f + 1, rest, _ => by
    simp only [demo_enc_fields, List.cons_append, demo_dec_fields]; rfl
  | (k, x) :: xs, f + 1, rest, h => by
    have h1 := demo_dec_enc x f (demo_enc_fields xs ++ rest)
      (by simp [demo_enc_fields] at h; omega)
    have h2 := demo_dec_enc_fields xs f rest (by simp [demo_enc_fields] at h; omega)
    simp [demo_enc_fields, demo_dec_fields, dec_text_enc_text, h1, h2]
  | xs, 0, rest, h => by
    cases xs with
    | nil => simp [demo_enc_fields] at h
    | cons p _ => obtain ⟨k, x⟩ := p; simp [demo_enc_fields] at h
end

theorem demo_decode_encode (x : CborObject) : demo_decode (demo_enc x) = some x := by
  unfold demo_decode
  have h := demo_dec_enc x ((demo_enc x).length + 1) [] (by omega)
  rw [List.append_nil] at h
  rw [h]

theorem get_contract_storage_value (gs : String → String → StorageDataType)
    (res : contract_invoke_result) (c s : String) :
    (get_contract_storage gs res c s).1 =
      (match recorded_change res c s with
        | some ch => ch.after
        | none => gs c s) := by
  unfold get_contract_storage recorded_change
  cases hc : map_find res.storage_changes c with
  | none => simp
  | some inner =>
    cases hs : map_find inner s with
    | none => simp [map_subscript, hc, hs]
    | some ch => simp [map_subscript, hc, hs]

theorem set_contract_storage_some (lib : CborLib) (gs : String → String → StorageDataType)
    (res : contract_invoke_result) (c s : String) (v : StorageDataType)
    (hb : (lib.cbor_decode (before_image gs res c s).storage_data).isSome = true)
    (ha : (lib.cbor_decode v.storage_data).isSome = true) :
    ∃ res1, set_contract_storage lib gs res c s v = some res1 := by
  obtain ⟨a, ha⟩ := Option.isSome_iff_exists.1 ha
  obtain ⟨b, hb⟩ := Option.isSome_iff_exists.1 hb
  unfold before_image recorded_change at hb
  unfold set_contract_storage
  cases hc : map_find res.storage_changes c with
  | none =>
    simp only [hc, Option.bind] at hb
    simp [hc, map_subscript, map_find_assign, map_find, hb, ha]
  | some inner =>
    simp only [hc, Option.bind] at hb
    cases hs : map_find inner s with
    | none =>
      simp only [hs] at hb
      simp [hc, map_subscript, hs, hb, ha]
    | some ch =>
      simp only [hs] at hb
      simp [hc, map_subscript, hs, hb, ha]

theorem before_image_set (lib : CborLib) (gs : String → String → StorageDataType)
    (res res1 : contract_invoke_result) (c s : String) (v : StorageDataType)
    (h : set_contract_storage lib gs res c s v = some res1) (c2 s2 : String) :
    before_image gs res1 c2 s2 = before_image gs res c2 s2 := by
  obtain ⟨h1, h2, h3, _⟩ := recorded_change_set lib gs res res1 c s v h
  unfold before_image
  by_cases hcs : c2 = c ∧ s2 = s
  · obtain ⟨rfl, rfl⟩ := hcs
    obtain ⟨ch, hch⟩ := Option.isSome_iff_exists.1 h2
    rw [hch] at h1
    have := (change_of_fields lib _ v ch h1.symm).1
    rw [hch]
    exact this
  · rw [h3 c2 s2 hcs]

theorem store_ok (env : TokenEnv) (hcodec : CodecLaw env) (res res1 : contract_invoke_result)
    (name : String) (v : CborObject)
    (h : set_contract_storage_cbor env res env.contract_id name v = .ok res1) :
    get_storage_object env res1 name = some v ∧
    (∀ n2, n2 ≠ name → get_storage_object env res1 n2 = get_storage_object env res n2) ∧
    res1.events = res.events ∧ res1.api_result = res.api_result ∧
    (∀ c2 s2, before_image env.get_storage res1 c2 s2 = before_image env.get_storage res c2 s2) := by
  unfold set_contract_storage_cbor at h
  cases hs : set_contract_storage env.lib env.get_storage res env.contract_id name
      ⟨env.cbor_encode v⟩ with
  | none => rw [hs] at h; cases h
  | some r =>
    rw [hs] at h
    have hr : r = res1 := by injection h
    subst hr
    obtain ⟨h1, h2, h3, h4, h5, _⟩ := recorded_change_set env.lib env.get_storage res r
      env.contract_id name _ hs
    refine ⟨?_, ?_, h4, h5, before_image_set env.lib env.get_storage res r _ _ _ hs⟩
    · unfold get_storage_object
      rw [get_contract_storage_value]
      obtain ⟨ch, hch⟩ := Option.isSome_iff_exists.1 h2
      rw [hch] at h1
      have := (change_of_fields env.lib _ _ ch h1.symm).2.1
      rw [hch]
      simp only [this]
      exact hcodec v
    · intro n2 hn
      unfold get_storage_object
      rw [get_contract_storage_value, get_contract_storage_value,
        h3 env.contract_id n2 (fun e => hn e.2)]

theorem store_succeeds (env : TokenEnv) (hcodec : CodecLaw env) (res : contract_invoke_result)
    (name : String) (v : CborObject)
    (hb : (env.cbor_decode (before_image env.get_storage res env.contract_id name).storage_data).isSome
      = true) :
    ∃ res1, set_contract_storage_cbor env res env.contract_id name v = .ok res1 := by
  obtain ⟨r, hr⟩ := set_contract_storage_some env.lib env.get_storage res env.contract_id name
    ⟨env.cbor_encode v⟩ hb (by
      show (env.cbor_decode (env.cbor_encode v)).isSome = true
      rw [hcodec v]; rfl)
  exact ⟨r, by unfold set_contract_storage_cbor; rw [hr]⟩
theorem int64_t_of_range (x : Int) (h1 : -9223372036854775808 ≤ x)
    (h2 : x ≤ 9223372036854775807) : int64_t x = x := by
  unfold int64_t; omega

theorem some_of_guarded {c p : Prop} [Decidable c] [Decidable p] {v0 v : Int}
    (h : (if c then none else if p then some v0 else none) = some v) : p ∧ v0 = v := by
  by_cases hc : c
  · rw [if_pos hc] at h; cases h
  · rw [if_neg hc] at h
    by_cases hp : p
    · rw [if_pos hp] at h; exact ⟨hp, Option.some.inj h⟩
    · rw [if_neg hp] at h; cases h

theorem stoll_range (s : String) (v : Int) (h : stoll s = some v) :
    -9223372036854775808 ≤ v ∧ v ≤ 9223372036854775807 := by
  unfold stoll at h
  simp only at h
  have h1 := some_of_guarded h
  rw [← h1.2]
  exact h1.1

theorem get_storage_object_events (env : TokenEnv) (res : contract_invoke_result)
    (ev : List contract_event_notify_info) (name : String) :
    get_storage_object env { res with events := ev } name = get_storage_object env res name := by
  unfold get_storage_object
  rw [get_contract_storage_value, get_contract_storage_value]
  rfl

theorem get_storage_object_api_result (env : TokenEnv) (res : contract_invoke_result)
    (r : String) (name : String) :
    get_storage_object env { res with api_result := r } name = get_storage_object env res name := by
  unfold get_storage_object
  rw [get_contract_storage_value, get_contract_storage_value]
  rfl

/-- C17: for an argument whose first four fields are a name and a symbol that are not
empty after trimming, a supply text that passes `is_integral` and reads as a positive
`supply`, and such a precision text for one of the allowed precisions, `init_token_api`
called by the admin in state `NOT_INITED` returns; afterwards the effective storage has
state `COMMON`, that supply and precision, the trimmed name and symbol and the users
`{caller: supply}`, exactly one event `Inited` with the supply text has been appended,
and `state`, `supply` and `balanceOf(caller)` answer `COMMON` and the supply in decimal. -/
theorem init_token_api_initialises (env : TokenEnv) (res : contract_invoke_result)
    (api_arg name symbol supply_str precision_str : String) (rest : List String)
    (supply precision : Int)
    (hcodec : CodecLaw env)
    (hbefore : ∀ s, (env.cbor_decode
      (before_image env.get_storage res env.contract_id s).storage_data).isSome = true)
    (hadmin : get_storage_object env res "admin" = some (.COT_STRING env.caller_address))
    (hstate : get_storage_state env res = some "NOT_INITED")
    (hargs : boost_split api_arg = name :: symbol :: supply_str :: precision_str :: rest)
    (hname : (boost_trim name).isEmpty = false)
    (hsymbol : (boost_trim symbol).isEmpty = false)
    (hsupply : is_integral env supply_str = true ∧ stoll supply_str = some supply ∧ 0 < supply)
    (hprecision : is_integral env precision_str = true ∧
      stoll precision_str = some precision ∧ precision ∈ allowed_precisions) :
    ∃ res1, init_token_api env res api_arg = .returned res1 ∧
      get_storage_state env res1 = some "COMMON" ∧
      get_storage_supply env res1 = some supply ∧
      get_storage_precision env res1 = some precision ∧
      get_storage_token_name env res1 = some (boost_trim name) ∧
      get_storage_token_symbol env res1 = some (boost_trim symbol) ∧
      get_storage_users env res1 = some [(env.caller_address, .COT_INT supply)] ∧
      res1.events = res.events ++ [⟨"Inited", supply_str, 1 + env.head_block_number⟩] ∧
      state_api env res1 = .returned { res1 with api_result := "COMMON" } ∧
      supply_api env res1 = .returned { res1 with api_result := to_string supply } ∧
      balance_of_api env res1 env.caller_address =
        .returned { res1 with api_result := to_string supply } := by
  obtain ⟨hsi, hsv, hsp⟩ := hsupply
  obtain ⟨hpi, hpv, hpm⟩ := hprecision
  have hsr := stoll_range _ _ hsv
  have hpr := stoll_range _ _ hpv
  have hpp : ¬ precision ≤ 0 := by
    simp only [allowed_precisions, List.mem_cons, List.mem_singleton, List.not_mem_nil,
      or_false] at hpm
    omega
  have hadm : check_admin env res = .ok env.caller_address := by
    simp only [check_admin, hadmin, if_true]
  obtain ⟨r1, h1⟩ := store_succeeds env hcodec res "state"
    (.COT_STRING common_state_of_token_contract) (hbefore _)
  have k1 := store_ok env hcodec res r1 _ _ h1
  obtain ⟨r2, h2⟩ := store_succeeds env hcodec r1 "precision" (.COT_INT precision)
    (by rw [k1.2.2.2.2]; exact hbefore _)
  have k2 := store_ok env hcodec r1 r2 _ _ h2
  obtain ⟨r3, h3⟩ := store_succeeds env hcodec r2 "supply" (.COT_INT supply)
    (by rw [k2.2.2.2.2, k1.2.2.2.2]; exact hbefore _)
  have k3 := store_ok env hcodec r2 r3 _ _ h3
  obtain ⟨r4, h4⟩ := store_succeeds env hcodec r3 "name" (.COT_STRING (boost_trim name))
    (by rw [k3.2.2.2.2, k2.2.2.2.2, k1.2.2.2.2]; exact hbefore _)
  have k4 := store_ok env hcodec r3 r4 _ _ h4
  obtain ⟨r5, h5⟩ := store_succeeds env hcodec r4 "symbol" (.COT_STRING (boost_trim symbol))
    (by rw [k4.2.2.2.2, k3.2.2.2.2, k2.2.2.2.2, k1.2.2.2.2]; exact hbefore _)
  have k5 := store_ok env hcodec r4 r5 _ _ h5
  obtain ⟨r6, h6⟩ := store_succeeds env hcodec r5 "users"
    (.COT_MAP (map_assign [] env.caller_address (.COT_INT supply)))
    (by rw [k5.2.2.2.2, k4.2.2.2.2, k3.2.2.2.2, k2.2.2.2.2, k1.2.2.2.2]; exact hbefore _)
  have k6 := store_ok env hcodec r5 r6 _ _ h6
  have gstate : get_storage_object env r6 "state" = some (.COT_STRING "COMMON") := by
    rw [k6.2.1 _ (by decide), k5.2.1 _ (by decide), k4.2.1 _ (by decide),
      k3.2.1 _ (by decide), k2.2.1 _ (by decide), k1.1]
    rfl
  have gprecision : get_storage_object env r6 "precision" = some (.COT_INT precision) := by
    rw [k6.2.1 _ (by decide), k5.2.1 _ (by decide), k4.2.1 _ (by decide),
      k3.2.1 _ (by decide), k2.1]
  have gsupply : get_storage_object env r6 "supply" = some (.COT_INT supply) := by
    rw [k6.2.1 _ (by decide), k5.2.1 _ (by decide), k4.2.1 _ (by decide), k3.1]
  have gname : get_storage_object env r6 "name" = some (.COT_STRING (boost_trim name)) := by
    rw [k6.2.1 _ (by decide), k5.2.1 _ (by decide), k4.1]
  have gsymbol : get_storage_object env r6 "symbol" = some (.COT_STRING (boost_trim symbol)) := by
    rw [k6.2.1 _ (by decide), k5.1]
  have gusers : get_storage_object env r6 "users" =
      some (.COT_MAP [(env.caller_address, .COT_INT supply)]) := k6.1
  have hev : r6.events = res.events := by
    rw [k6.2.2.1, k5.2.2.1, k4.2.2.1, k3.2.2.1, k2.2.2.1, k1.2.2.1]
  refine ⟨{ r6 with events := r6.events ++ [⟨"Inited", supply_str, 1 + env.head_block_number⟩] },
    ?_, ?_, ?_, ?_, ?_, ?_, ?_, ?_, ?_, ?_, ?_⟩
  · unfold init_token_api
    have hni : ("NOT_INITED" != not_inited_state_of_token_contract) = false := by decide
    have hcontains : allowed_precisions.contains precision = true :=
      List.elem_eq_true_of_mem hpm
    have hs0 : ¬ supply ≤ 0 := by omega
    simp only [hadm, hstate, hni, hargs, List.length_cons, List.getD_cons_zero,
      List.getD_cons_succ, hname, hsymbol, hsi, hsv, hs0, hpi, hpv, hpp, hcontains, h1, h2, h3,
      h4, h5, h6, Bool.false_eq_true, if_false, Bool.or_self, Bool.not_true]
    rw [if_neg (by omega)]
    simp only [emit_event]
    rw [if_neg (by decide)]
  · simp only [get_storage_state, get_storage_object_events, gstate, Option.bind,
      CborObject.as_string]
  · simp only [get_storage_supply, get_storage_object_events, gsupply, Option.bind,
      CborObject.force_as_int, int64_t_of_range _ hsr.1 hsr.2]
  · simp only [get_storage_precision, get_storage_object_events, gprecision, Option.bind,
      CborObject.force_as_int, int64_t_of_range _ hpr.1 hpr.2]
  · simp only [get_storage_token_name, get_storage_object_events, gname, Option.bind,
      CborObject.as_string]
  · simp only [get_storage_token_symbol, get_storage_object_events, gsymbol, Option.bind,
      CborObject.as_string]
  · simp only [get_storage_users, get_storage_object_events, gusers, Option.bind,
      CborObject.as_map]
  · simp only [hev]
  · simp only [state_api, get_storage_state, get_storage_object_events, gstate, Option.bind,
      CborObject.as_string]
  · simp only [supply_api, get_storage_supply, get_storage_object_events, gsupply, Option.bind,
      CborObject.force_as_int, int64_t_of_range _ hsr.1 hsr.2]
  · have hc : ("COMMON" != common_state_of_token_contract) = false := by decide
    simp only [balance_of_api, get_storage_state, get_balance_of_user, get_storage_users,
      get_storage_object_events, gstate, gusers, Option.bind, CborObject.as_string,
      CborObject.as_map, hc, map_find, if_true, CborObject.force_as_int,
      int64_t_of_range _ hsr.1 hsr.2, Bool.false_eq_true, if_false]
theorem host_of_decodes (slots : List (String × CborObject)) (c s : String) :
    (demo_decode (before_image (host_of slots) emptyResult c s).storage_data).isSome = true := by
  have : before_image (host_of slots) emptyResult c s = host_of slots c s := rfl
  rw [this]
  unfold host_of
  split <;> simp only [demo_decode_encode, Option.isSome_some]

theorem init_token_api_initialises_witness :
    get_storage_state (tokenEnv freshSlots "A") emptyResult = some "NOT_INITED" ∧
    boost_split "Demo,DMO,10000,100" = ["Demo", "DMO", "10000", "100"] ∧
    ∃ res1, init_token_api (tokenEnv freshSlots "A") emptyResult "Demo,DMO,10000,100" =
        .returned res1 ∧
      get_storage_state (tokenEnv freshSlots "A") res1 = some "COMMON" ∧
      get_storage_supply (tokenEnv freshSlots "A") res1 = some 10000 ∧
      res1.events = [⟨"Inited", "10000", 8⟩] :=
  ⟨by decide, by decide,
    (init_token_api_initialises (tokenEnv freshSlots "A") emptyResult "Demo,DMO,10000,100"
      "Demo" "DMO" "10000" "100" [] 10000 100 (fun x => demo_decode_encode x)
      (fun s => host_of_decodes freshSlots "token" s) rfl (by decide) (by decide)
      (by decide) (by decide) (by decide) (by decide)).imp
      (fun _ h => ⟨h.1, h.2.1, h.2.2.1, h.2.2.2.2.2.2.2.1⟩)⟩


theorem transfer_api_returned (env : TokenEnv) (res res1 : contract_invoke_result)
    (api_arg : String) (hok : transfer_api env res api_arg = .returned res1) :
    ∃ (amount : Int) (users : List (String × CborObject)) (from_cbor : CborObject)
      (from_balance to_amount : Int) (res0 : contract_invoke_result),
      get_storage_state env res = some "COMMON" ∧
      ¬ (boost_split api_arg).length < 2 ∧
      is_integral env (boost_trim ((boost_split api_arg).getD 1 "")) = true ∧
      stoll (boost_trim ((boost_split api_arg).getD 1 "")) = some amount ∧
      0 < amount ∧
      get_storage_users env res = some users ∧
      map_find users env.caller_address = some from_cbor ∧
      from_cbor.force_as_int = some from_balance ∧
      amount ≤ from_balance ∧
      balance_in (debit users env.caller_address from_balance amount)
        (boost_trim ((boost_split api_arg).getD 0 "")) = some to_amount ∧
      set_contract_storage_cbor env res env.contract_id "users"
        (.COT_MAP (credit (debit users env.caller_address from_balance amount)
          (boost_trim ((boost_split api_arg).getD 0 "")) to_amount amount)) = .ok res0 ∧
      res1 = { res0 with events := res0.events ++
        [⟨"Transfer", env.json_dumps [("from", .str env.caller_address),
          ("to", .str (boost_trim ((boost_split api_arg).getD 0 ""))),
          ("amount", .int amount)], 1 + env.head_block_number⟩] } := by
  unfold transfer_api at hok
  simp only at hok
  split at hok
  · cases hok
  rename_i state hstate
  split at hok
  · cases hok
  rename_i hcommon
  split at hok
  · cases hok
  rename_i hlen
  split at hok
  · cases hok
  rename_i hint
  split at hok
  · cases hok
  rename_i amount hamount
  split at hok
  · cases hok
  rename_i hpos
  split at hok
  · cases hok
  rename_i users husers
  split at hok
  · cases hok
  rename_i from_cbor hfrom
  split at hok
  · cases hok
  rename_i from_balance hfb
  split at hok
  · cases hok
  rename_i hge
  split at hok
  · cases hok
  rename_i to_amount hto
  split at hok
  · cases hok
  rename_i res0 hstore
  have hst : state = "COMMON" := by
    have h1 : (state != common_state_of_token_contract) = false := by simpa using hcommon
    simpa [common_state_of_token_contract] using h1
  subst hst
  unfold emit_event at hok
  rw [if_neg (by decide)] at hok
  have hev := ApiOutcome.returned.inj hok
  exact ⟨amount, users, from_cbor, from_balance, to_amount, res0, hstate, hlen,
    by simpa using hint, hamount, by omega, husers, hfrom, hfb, by omega, hto, hstore, hev.symm⟩

theorem get_balance_of_user_eq (env : TokenEnv) (res : contract_invoke_result)
    (users : List (String × CborObject)) (a : String)
    (h : get_storage_users env res = some users) :
    get_balance_of_user env res a = balance_in users a := by
  unfold get_balance_of_user balance_in
  rw [h]

theorem state_of_not_bne (state : String)
    (h : ¬ (state != common_state_of_token_contract) = true) : state = "COMMON" := by
  have h1 : (state != common_state_of_token_contract) = false := by simpa using h
  simpa [common_state_of_token_contract] using h1

theorem transfer_from_api_returned (env : TokenEnv) (res res1 : contract_invoke_result)
    (api_arg : String) (hok : transfer_from_api env res api_arg = .returned res1) :
    ∃ (amount : Int) (users allowed : List (String × CborObject)) (from_balance : Int)
      (from_cbor : CborObject) (allowed_data : List (String × CborObject))
      (caller_cbor : CborObject) (approved_amount to_amount : Int)
      (res0 res2 : contract_invoke_result),
      get_storage_state env res = some "COMMON" ∧
      ¬ (boost_split api_arg).length < 3 ∧
      is_integral env (boost_trim ((boost_split api_arg).getD 2 "")) = true ∧
      stoll (boost_trim ((boost_split api_arg).getD 2 "")) = some amount ∧
      0 < amount ∧
      get_storage_users env res = some users ∧
      get_storage_allowed env res = some allowed ∧
      get_balance_of_user env res (boost_trim ((boost_split api_arg).getD 0 "")) =
        some from_balance ∧
      amount ≤ from_balance ∧
      map_find allowed (boost_trim ((boost_split api_arg).getD 0 "")) = some from_cbor ∧
      from_cbor.as_map = some allowed_data ∧
      map_find allowed_data env.caller_address = some caller_cbor ∧
      caller_cbor.force_as_int = some approved_amount ∧
      amount ≤ approved_amount ∧
      balance_in (debit users (boost_trim ((boost_split api_arg).getD 0 "")) from_balance amount)
        (boost_trim ((boost_split api_arg).getD 1 "")) = some to_amount ∧
      set_contract_storage_cbor env res env.contract_id "users"
        (.COT_MAP (credit
          (debit users (boost_trim ((boost_split api_arg).getD 0 "")) from_balance amount)
          (boost_trim ((boost_split api_arg).getD 1 "")) to_amount amount)) = .ok res0 ∧
      set_contract_storage_cbor env res0 env.contract_id "allowed"
        (.COT_MAP (map_assign allowed (boost_trim ((boost_split api_arg).getD 0 ""))
          (.COT_MAP
            (if int64_t (approved_amount - amount) = 0 then
              map_erase allowed_data env.caller_address
            else map_assign allowed_data env.caller_address
              (.COT_INT (int64_t (approved_amount - amount))))))) = .ok res2 ∧
      res1 = { res2 with events := res2.events ++
        [⟨"Transfer", env.json_dumps
          [("from", .str (boost_trim ((boost_split api_arg).getD 0 ""))),
          ("to", .str (boost_trim ((boost_split api_arg).getD 1 ""))),
          ("amount", .int amount)], 1 + env.head_block_number⟩] } := by
  unfold transfer_from_api at hok
  simp only at hok
  split at hok
  · cases hok
  rename_i state hstate
  split at hok
  · cases hok
  rename_i hcommon
  split at hok
  · cases hok
  rename_i hlen
  split at hok
  · cases hok
  rename_i hint
  split at hok
  · cases hok
  rename_i amount hamount
  split at hok
  · cases hok
  rename_i hpos
  split at hok
  · cases hok
  rename_i users husers
  split at hok
  · cases hok
  rename_i allowed hallowed
  split at hok
  · cases hok
  rename_i from_balance hfb
  split at hok
  · cases hok
  rename_i hge
  split at hok
  · cases hok
  rename_i from_cbor hfc
  split at hok
  · cases hok
  rename_i allowed_data hdata
  split at hok
  · cases hok
  rename_i caller_cbor hcc
  split at hok
  · cases hok
  rename_i approved_amount hap
  split at hok
  · cases hok
  rename_i hage
  split at hok
  · cases hok
  rename_i to_amount hto
  split at hok
  · cases hok
  rename_i res0 hstore
  split at hok
  · cases hok
  rename_i res2 hstore2
  have hst := state_of_not_bne state hcommon
  subst hst
  unfold emit_event at hok
  rw [if_neg (by decide)] at hok
  have hev := ApiOutcome.returned.inj hok
  exact ⟨amount, users, allowed, from_balance, from_cbor, allowed_data, caller_cbor,
    approved_amount, to_amount, res0, res2, hstate, hlen, by simpa using hint, hamount,
    by omega, husers, hallowed, hfb, by omega, hfc, hdata, hcc, hap, by omega, hto, hstore,
    hstore2, hev.symm⟩
theorem invoke_offline_frame (env : TokenEnv) (res : contract_invoke_result)
    (allowed_json : List (String × CborObject) → Option String) (api_name api_arg : String)
    (o : ApiOutcome) (h : invoke_offline env res allowed_json api_name api_arg = some o) :
    o.result.storage_changes = res.storage_changes ∧ o.result.events = res.events := by
  unfold invoke_offline at h
  split at h
  · cases h
    unfold balance_of_api
    try simp only []
    repeat' split
    all_goals exact ⟨rfl, rfl⟩
  split at h
  · cases h
    unfold approved_balance_from_api
    try simp only []
    repeat' split
    all_goals exact ⟨rfl, rfl⟩
  split at h
  · cases h
    unfold all_approved_from_user_api
    try simp only []
    repeat' split
    all_goals exact ⟨rfl, rfl⟩
  split at h
  · cases h
    unfold state_api
    try simp only []
    repeat' split
    all_goals exact ⟨rfl, rfl⟩
  split at h
  · cases h
    unfold supply_api
    try simp only []
    repeat' split
    all_goals exact ⟨rfl, rfl⟩
  split at h
  · cases h
    unfold precision_api
    try simp only []
    repeat' split
    all_goals exact ⟨rfl, rfl⟩
  split at h
  · cases h
    unfold token_name_api
    try simp only []
    repeat' split
    all_goals exact ⟨rfl, rfl⟩
  split at h
  · cases h
    unfold token_symbol_api
    try simp only []
    repeat' split
    all_goals exact ⟨rfl, rfl⟩
  cases h

theorem string_isEmpty_iff (s : String) : s.isEmpty = true ↔ s = "" := by
  constructor
  · intro h
    have h1 : s.endPos = 0 := by
      simpa [String.isEmpty] using h
    have h2 : s.utf8ByteSize = 0 := by
      have := congrArg String.Pos.byteIdx h1
      simpa [String.endPos] using this
    cases s with
    | mk data =>
      cases data with
      | nil => rfl
      | cons c cs =>
        exfalso
        have hc : 0 < c.utf8Size := Char.utf8Size_pos c
        have hs : (String.mk (c :: cs)).utf8ByteSize = (String.mk cs).utf8ByteSize + c.utf8Size := by
          simp [String.utf8ByteSize, String.utf8ByteSize.go]
        omega
  · intro h
    subst h
    rfl

/-- C21: each API named in `offline_apis()` is dispatched, and however it ends, by return
or by exception, `storage_changes` and `events` are what they were before the call;
when `balance_of_api` returns it has changed `api_result` only, to the decimal text of the
balance that `get_balance_of_user` reads for the owner through the recorded changes. In
scenario S2, `balanceOf("A")` gives `"9500"` with no change and no event. -/
theorem offline_apis_keep_changes_and_events (env : TokenEnv) (res : contract_invoke_result)
    (allowed_json : List (String × CborObject) → Option String) (api_arg : String) :
    (∀ api_name, api_name ∈ offline_apis →
      ∃ o, invoke_offline env res allowed_json api_name api_arg = some o ∧
        o.result.storage_changes = res.storage_changes ∧ o.result.events = res.events) ∧
    (∀ r, balance_of_api env res api_arg = .returned r →
      ∃ amount, get_balance_of_user env res api_arg = some amount ∧
        r = { res with api_result := to_string amount }) ∧
    balance_of_api (tokenEnv s2Slots "C") emptyResult "A" =
      .returned { emptyResult with api_result := "9500" } := by
  refine ⟨?_, ?_, by decide⟩
  · intro api_name hmem
    have hsome : ∃ o, invoke_offline env res allowed_json api_name api_arg = some o := by
      simp only [offline_apis, List.mem_cons, List.mem_singleton, List.mem_nil_iff,
        or_false] at hmem
      rcases hmem with h | h | h | h | h | h | h | h <;> subst h <;>
        exact ⟨_, rfl⟩
    obtain ⟨o, ho⟩ := hsome
    exact ⟨o, ho, invoke_offline_frame env res allowed_json api_name api_arg o ho⟩
  · intro r hr
    unfold balance_of_api at hr
    simp only [] at hr
    split at hr
    · cases hr
    split at hr
    · cases hr
    split at hr
    · cases hr
    rename_i amount hamount
    cases hr
    exact ⟨amount, hamount, rfl⟩

/-- C22: with a non-empty name `emit_event` returns, and the event list is the earlier
list followed by the one record of that name, that argument and block number head + 1, so
the earlier events keep their places; nothing else of the invocation result changes. With
the empty name it raises and the invocation result, its event list included, is as
before. -/
theorem emit_event_appends (env : TokenEnv) (res : contract_invoke_result)
    (event_name event_arg : String) :
    (event_name ≠ "" →
      ∃ r, emit_event env res event_name event_arg = .returned r ∧
        r.events = res.events ++ [⟨event_name, event_arg, env.head_block_number + 1⟩] ∧
        r.events.length = res.events.length + 1 ∧
        r.events.take res.events.length = res.events ∧
        (∀ i, i < res.events.length → r.events[i]? = res.events[i]?) ∧
        r.storage_changes = res.storage_changes ∧ r.api_result = res.api_result ∧
        r.invoker = res.invoker) ∧
    (event_name = "" →
      ∃ e, emit_event env res event_name event_arg = .raised e res) := by
  constructor
  · intro hne
    have hfalse : event_name.isEmpty = false := by
      cases hb : event_name.isEmpty
      · rfl
      · exact absurd ((string_isEmpty_iff event_name).1 hb) hne
    refine ⟨{ res with
      events := res.events ++ [⟨event_name, event_arg, 1 + env.head_block_number⟩] }, ?_, ?_, ?_,
      ?_, ?_, rfl, rfl, rfl⟩
    · unfold emit_event
      rw [hfalse]
      rfl
    · show res.events ++ _ = res.events ++ _
      rw [Nat.add_comm]
    · simp
    · simp
    · intro i hi
      show (res.events ++ _)[i]? = _
      rw [List.getElem?_append_left hi]
  · intro he
    subst he
    exact ⟨_, rfl⟩

/-- The rejections of `transfer_api`: a state other than `COMMON`, fewer than two fields,
an amount text that fails `is_integral`, an amount that `std::stoll` reads as zero or
less, a caller without balance entry or with a balance below the amount. Each one raises
with the invocation result as it was before the call. -/
theorem transfer_api_rejections (env : TokenEnv) (res : contract_invoke_result)
    (api_arg : String)
    (h : get_storage_state env res ≠ some common_state_of_token_contract ∨
      (boost_split api_arg).length < 2 ∨
      is_integral env (boost_trim ((boost_split api_arg).getD 1 "")) = false ∨
      (∀ a, stoll (boost_trim ((boost_split api_arg).getD 1 "")) = some a → a ≤ 0) ∨
      (∃ a users, stoll (boost_trim ((boost_split api_arg).getD 1 "")) = some a ∧
        get_storage_users env res = some users ∧
        (map_find users env.caller_address = none ∨
          ∃ c b, map_find users env.caller_address = some c ∧ c.force_as_int = some b ∧
            b < a))) :
    ∃ e, transfer_api env res api_arg = .raised e res := by
  unfold transfer_api
  simp only []
  split
  · exact ⟨_, rfl⟩
  rename_i state hstate
  split
  · exact ⟨_, rfl⟩
  rename_i hcommon
  split
  · exact ⟨_, rfl⟩
  rename_i hlen
  split
  · exact ⟨_, rfl⟩
  rename_i hint
  split
  · exact ⟨_, rfl⟩
  rename_i amount hamount
  split
  · exact ⟨_, rfl⟩
  rename_i hpos
  split
  · exact ⟨_, rfl⟩
  rename_i users husers
  split
  · exact ⟨_, rfl⟩
  rename_i from_cbor hfrom
  split
  · exact ⟨_, rfl⟩
  rename_i from_balance hbal
  split
  · exact ⟨_, rfl⟩
  rename_i hge
  exfalso
  rcases h with h | h | h | h | ⟨a, users1, ha, hu, hb⟩
  · apply h
    rw [hstate]
    have : state = common_state_of_token_contract := by
      by_contra hne
      apply hcommon
      simp [bne_iff_ne, hne]
    rw [this]
  · exact hlen h
  · rw [h] at hint
    exact hint rfl
  · exact hpos (h amount hamount)
  · rw [hamount] at ha
    cases ha
    rw [husers] at hu
    cases hu
    rcases hb with hb | ⟨c, b, hc, hb, hlt⟩
    · rw [hfrom] at hb
      cases hb
    · rw [hfrom] at hc
      cases hc
      rw [hbal] at hb
      cases hb
      exact hge hlt

/-- C29 (fails on the code): the amount text `5e-1` writes the number 0.5, which is no
positive integer, yet `is_integral` accepts it, `std::stoll` reads 5 from it, and
`transfer_api` called by `A` (balance 10000) with `B,5e-1` returns instead of raising: it
records the change of `users` that moves 5 from `A` to `B` and one `Transfer` event. -/
theorem transfer_api_accepts_exponent_amount :
    is_integral s1Env "5e-1" = true ∧ stoll "5e-1" = some 5 ∧
    transfer_api s1Env emptyResult "B,5e-1" =
      .returned (transfer_api s1Env emptyResult "B,5e-1").result ∧
    get_balance_of_user s1Env (transfer_api s1Env emptyResult "B,5e-1").result "A" =
      some 9995 ∧
    get_balance_of_user s1Env (transfer_api s1Env emptyResult "B,5e-1").result "B" = some 5 ∧
    (transfer_api s1Env emptyResult "B,5e-1").result.storage_changes ≠ [] ∧
    (transfer_api s1Env emptyResult "B,5e-1").result.events.map
      (fun e => e.event_name) = ["Transfer"] := by
  refine ⟨by decide, by decide, by decide, by decide, by decide, by decide, by decide⟩

theorem check_admin_ok (env : TokenEnv) (res : contract_invoke_result) (s : String)
    (h : check_admin env res = .ok s) :
    get_storage_object env res "admin" = some (.COT_STRING env.caller_address) := by
  unfold check_admin at h
  split at h
  · cases h
  rename_i admin hadmin
  split at h
  · rename_i s1
    split at h
    · rename_i heq
      rw [hadmin, heq]
    · cases h
  · cases h

/-- The rejections of `init_token_api`: a caller that is not the stored admin, a state
other than `NOT_INITED`, fewer than four fields, a name or symbol that is empty after
trimming, a supply or precision text that fails `is_integral`, a supply that `std::stoll`
reads as zero or less, a precision that it reads outside `allowed_precisions`. Each one
raises with the invocation result as it was before the call. -/
theorem init_token_api_rejections (env : TokenEnv) (res : contract_invoke_result)
    (api_arg : String)
    (h : get_storage_object env res "admin" ≠ some (.COT_STRING env.caller_address) ∨
      get_storage_state env res ≠ some not_inited_state_of_token_contract ∨
      (boost_split api_arg).length < 4 ∨
      (boost_trim ((boost_split api_arg).getD 0 "")).isEmpty = true ∨
      (boost_trim ((boost_split api_arg).getD 1 "")).isEmpty = true ∨
      is_integral env ((boost_split api_arg).getD 2 "") = false ∨
      (∀ a, stoll ((boost_split api_arg).getD 2 "") = some a → a ≤ 0) ∨
      is_integral env ((boost_split api_arg).getD 3 "") = false ∨
      (∀ p, stoll ((boost_split api_arg).getD 3 "") = some p → p ∉ allowed_precisions)) :
    ∃ e, init_token_api env res api_arg = .raised e res := by
  unfold init_token_api
  simp only []
  split
  · exact ⟨_, rfl⟩
  rename_i admin hadmin
  split
  · exact ⟨_, rfl⟩
  rename_i state hstate
  split
  · exact ⟨_, rfl⟩
  rename_i hinit
  split
  · exact ⟨_, rfl⟩
  rename_i hlen
  split
  · exact ⟨_, rfl⟩
  rename_i hnames
  split
  · exact ⟨_, rfl⟩
  rename_i hsupply
  split
  · exact ⟨_, rfl⟩
  rename_i supply hsupplyv
  split
  · exact ⟨_, rfl⟩
  rename_i hpos
  split
  · exact ⟨_, rfl⟩
  rename_i hprec
  split
  · exact ⟨_, rfl⟩
  rename_i precision hprecv
  split
  · exact ⟨_, rfl⟩
  rename_i hppos
  split
  · exact ⟨_, rfl⟩
  rename_i hallowed
  exfalso
  rcases h with h | h | h | h | h | h | h | h | h
  · exact h (check_admin_ok env res admin hadmin)
  · apply h
    rw [hstate]
    have : state = not_inited_state_of_token_contract := by
      by_contra hne
      apply hinit
      simp [bne_iff_ne, hne]
    rw [this]
  · exact hlen h
  · apply hnames
    rw [h]
    rfl
  · apply hnames
    rw [h]
    simp
  · rw [h] at hsupply
    exact hsupply rfl
  · exact hpos (h supply hsupplyv)
  · rw [h] at hprec
    exact hprec rfl
  · apply hallowed
    have hnot := h precision hprecv
    have : allowed_precisions.contains precision = false := by
      cases hc : allowed_precisions.contains precision
      · rfl
      · exact absurd (List.mem_of_elem_eq_true hc) hnot
    rw [this]
    rfl

/-- C30 (fails on the code): the supply text `5e-1` writes the number 0.5, which is no
positive integer, yet `is_integral` accepts it, `std::stoll` reads 5 from it, and
`init_token_api` called by the admin `A` with `Demo,DMO,5e-1,100` returns instead of
raising: the token is in state `COMMON` with supply 5, all of it held by `A`, and one
`Inited` event is recorded. -/
theorem init_token_api_accepts_exponent_supply :
    is_integral (tokenEnv freshSlots "A") "5e-1" = true ∧ stoll "5e-1" = some 5 ∧
    init_token_api (tokenEnv freshSlots "A") emptyResult "Demo,DMO,5e-1,100" =
      .returned (init_token_api (tokenEnv freshSlots "A") emptyResult
        "Demo,DMO,5e-1,100").result ∧
    get_storage_state (tokenEnv freshSlots "A")
      (init_token_api (tokenEnv freshSlots "A") emptyResult "Demo,DMO,5e-1,100").result =
        some "COMMON" ∧
    get_storage_supply (tokenEnv freshSlots "A")
      (init_token_api (tokenEnv freshSlots "A") emptyResult "Demo,DMO,5e-1,100").result =
        some 5 ∧
    get_balance_of_user (tokenEnv freshSlots "A")
      (init_token_api (tokenEnv freshSlots "A") emptyResult "Demo,DMO,5e-1,100").result "A" =
        some 5 ∧
    (init_token_api (tokenEnv freshSlots "A") emptyResult
      "Demo,DMO,5e-1,100").result.events.map (fun e => e.event_name) = ["Inited"] := by
  refine ⟨by decide, by decide, by decide, by decide, by decide, by decide, by decide⟩

/-! ## Theorems: power and division in `luaO_arith` -/

/-- C25 (as amended): on two operands that convert to numbers, `LUA_OPPOW` raises
nothing: `numarith` converts both numbers with `safe_number_to_int64` and `luaO_arith`
stores the number created from the power of the two integers, whether the exponent is
integer-valued or not. -/
theorem luaO_arith_pow_converts (env : ArithEnv) (p1 p2 : TValue env.Num) (n1 n2 : env.Num)
    (h1 : env.tonumber p1 = some n1) (h2 : env.tonumber p2 = some n2) :
    numarith env .LUA_OPPOW n1 n2 =
      env.pow_create (env.safe_number_to_int64 n1) (env.safe_number_to_int64 n2) ∧
    luaO_arith env .LUA_OPPOW p1 p2 =
      .stored_number
        (env.pow_create (env.safe_number_to_int64 n1) (env.safe_number_to_int64 n2)) ∧
    ∀ msg, luaO_arith env .LUA_OPPOW p1 p2 ≠ .raised msg := by
  have key : luaO_arith env .LUA_OPPOW p1 p2 =
      .stored_number
        (env.pow_create (env.safe_number_to_int64 n1) (env.safe_number_to_int64 n2)) := by
    simp only [luaO_arith, h1, h2, numarith]
  refine ⟨rfl, key, ?_⟩
  intro msg h
  rw [key] at h
  cases h

/-- Witness of C25 as amended: 2 to the power 0.5 stores 1, the value of 2 to the
power 0. -/
theorem luaO_arith_pow_converts_witness :
    numarith fixedEnv .LUA_OPPOW (2000 : Int) (500 : Int) = (1000 : Int) ∧
    luaO_arith fixedEnv .LUA_OPPOW (.number (2000 : Int)) (.number (500 : Int)) =
      .stored_number (1000 : Int) ∧
    ∀ msg, luaO_arith fixedEnv .LUA_OPPOW (.number (2000 : Int)) (.number (500 : Int)) ≠
      .raised msg :=
  luaO_arith_pow_converts fixedEnv (.number (2000 : Int)) (.number (500 : Int)) (2000 : Int)
    (500 : Int) rfl rfl

/-- Counterexample to C25 as stated: the exponent 0.5 is not integer-valued (it converts
to no integer), and the power of 2 and 0.5 returns the number 1 instead of raising. -/
theorem luaO_arith_pow_returns_for_fraction :
    fixedEnv.tointeger (.number (500 : Int)) = none ∧
    luaO_arith fixedEnv .LUA_OPPOW (.number (2000 : Int)) (.number (500 : Int)) =
      .stored_number (1000 : Int) ∧
    luaO_arith fixedEnv .LUA_OPPOW (.number (2000 : Int)) (.number (500 : Int)) =
      luaO_arith fixedEnv .LUA_OPPOW (.number (2000 : Int)) (.number (0 : Int)) :=
  ⟨rfl, rfl, rfl⟩

/-- C26 (as amended): on two integer operands `luaO_arith` stores no number for any
operation other than `LUA_OPDIV` and `LUA_OPPOW`: add, sub, mul, mod, floor division and
unary minus take the two integers unconverted into `intarith`, and the bitwise operations
take what `tointeger` gives. `LUA_OPDIV` and `LUA_OPPOW` operate only on numbers: they
convert both integers with `tonumber` and never store an integer. -/
theorem luaO_arith_integer_operands (env : ArithEnv) (op : ArithOp) (i1 i2 : Int) :
    ((op = .LUA_OPDIV ∨ op = .LUA_OPPOW) →
      (∀ r, luaO_arith env op (.integer i1) (.integer i2) ≠ .stored_integer r) ∧
      (∀ n1 n2, env.tonumber (.integer i1) = some n1 → env.tonumber (.integer i2) = some n2 →
        luaO_arith env op (.integer i1) (.integer i2) =
          .stored_number (numarith env op n1 n2))) ∧
    ((op ≠ .LUA_OPDIV ∧ op ≠ .LUA_OPPOW) →
      ∀ n, luaO_arith env op (.integer i1) (.integer i2) ≠ .stored_number n) ∧
    ((op = .LUA_OPADD ∨ op = .LUA_OPSUB ∨ op = .LUA_OPMUL ∨ op = .LUA_OPMOD ∨
        op = .LUA_OPIDIV ∨ op = .LUA_OPUNM) →
      luaO_arith env op (.integer i1) (.integer i2) = setivalue_intarith env op i1 i2) := by
  refine ⟨?_, ?_, ?_⟩
  · intro hop
    constructor
    · intro r h
      rcases hop with hop | hop <;> subst hop <;> simp only [luaO_arith] at h <;>
        split at h <;> cases h
    · intro n1 n2 h1 h2
      rcases hop with hop | hop <;> subst hop <;> simp only [luaO_arith, h1, h2]
  · intro hop n h
    cases op <;> simp only [luaO_arith, setivalue_intarith] at h
    all_goals first
      | exact absurd rfl hop.1
      | exact absurd rfl hop.2
      | (split at h <;> first | cases h | (split at h <;> cases h))
  · intro hop
    rcases hop with hop | hop | hop | hop | hop | hop <;> subst hop <;> rfl

/-- Counterexample to C26 as stated: both operands are integers, and the raw results of
7 / 2 and of 2 ^ 3 are the numbers 3.5 and 8, not integers. -/
theorem luaO_arith_div_of_integers_is_number :
    luaO_arith fixedEnv .LUA_OPDIV (.integer 7) (.integer 2) = .stored_number (3500 : Int) ∧
    luaO_arith fixedEnv .LUA_OPPOW (.integer 2) (.integer 3) = .stored_number (8000 : Int) ∧
    luaO_arith fixedEnv .LUA_OPADD (.integer 7) (.integer 2) = .stored_integer 9 :=
  ⟨rfl, rfl, rfl⟩

/-! ## Theorems: call depth, results and stack rotation -/

/-- C23 (as amended): the depth check of `luaD_call` raises exactly when the incremented
depth equals `LUAI_MAXCCALLS` ("C stack overflow") or is at least `LUAI_MAXCCALLS` plus its
eighth (`LUA_ERRERR`). At a depth strictly between the two it raises nothing and the call
is started, and a call is kept from starting only by an error that leaves through the
handler. -/
theorem luaD_call_enter_raises_iff (LUAI_MAXCCALLS nCcalls : Nat) (errorJmp : Bool) :
    (luaD_call_enter LUAI_MAXCCALLS errorJmp nCcalls).nCcalls = nCcalls + 1 ∧
    ((luaD_call_enter LUAI_MAXCCALLS errorJmp nCcalls).raised =
        some (.runerror "C stack overflow") ↔ nCcalls + 1 = LUAI_MAXCCALLS) ∧
    ((luaD_call_enter LUAI_MAXCCALLS errorJmp nCcalls).raised = some (.throw LUA_ERRERR) ↔
      nCcalls + 1 ≠ LUAI_MAXCCALLS ∧
        LUAI_MAXCCALLS + LUAI_MAXCCALLS / 8 ≤ nCcalls + 1) ∧
    ((luaD_call_enter LUAI_MAXCCALLS errorJmp nCcalls).raised = none ↔
      nCcalls + 1 < LUAI_MAXCCALLS ∨
        (LUAI_MAXCCALLS < nCcalls + 1 ∧
          nCcalls + 1 < LUAI_MAXCCALLS + LUAI_MAXCCALLS / 8)) ∧
    ((luaD_call_enter LUAI_MAXCCALLS errorJmp nCcalls).precall_reached = false ↔
      (luaD_call_enter LUAI_MAXCCALLS errorJmp nCcalls).raised ≠ none ∧ errorJmp = true) := by
  have hshift : LUAI_MAXCCALLS >>> 3 = LUAI_MAXCCALLS / 8 := by
    rw [Nat.shiftRight_eq_div_pow]
  unfold luaD_call_enter stackerror
  simp only [hshift]
  by_cases h1 : nCcalls + 1 = LUAI_MAXCCALLS
  · have hge : nCcalls + 1 ≥ LUAI_MAXCCALLS := by omega
    simp only [hge, h1, if_true]
    cases errorJmp <;> simp
  · by_cases h2 : nCcalls + 1 ≥ LUAI_MAXCCALLS
    · by_cases h3 : nCcalls + 1 ≥ LUAI_MAXCCALLS + LUAI_MAXCCALLS / 8
      · simp only [h2, h1, h3, if_true, if_false]
        cases errorJmp <;> simp [h1, LUA_ERRERR]
        all_goals omega
      · simp only [h2, h1, h3, if_true, if_false]
        simp [h1]
        omega
    · simp only [h2, if_false]
      simp [h1]
      omega

/-- Counterexample to C23 as stated: with `LUAI_MAXCCALLS = 200`, a call made at depth 200
has the incremented depth 201, which is at least the maximum, and `luaD_call` raises
nothing and starts the call. -/
theorem luaD_call_enter_silent_beyond_maximum :
    200 ≤ (luaD_call_enter 200 true 200).nCcalls ∧
    luaD_call_enter 200 true 200 = ⟨201, none, true⟩ ∧
    luaD_call_enter 200 true 223 = ⟨224, none, true⟩ ∧
    luaD_call_enter 200 true 199 = ⟨200, some (.runerror "C stack overflow"), false⟩ ∧
    luaD_call_enter 200 true 224 = ⟨225, some (.throw LUA_ERRERR), false⟩ := by
  decide

theorem move_loop_spec (firstResult res : Int) (hres : res ≤ firstResult) :
    ∀ (count i : Nat) (stack : LuaStack) (j : Int),
      move_loop firstResult res i count stack j =
        if res + i ≤ j ∧ j < res + i + count then stack (firstResult + (j - res))
        else stack j := by
  intro count
  induction count with
  | zero =>
    intro i stack j
    have : ¬ (res + (i : Int) ≤ j ∧ j < res + i + ((0 : Nat) : Int)) := by
      intro h
      omega
    rw [if_neg this]
    rfl
  | succ count ih =>
    intro i stack j
    show move_loop firstResult res (i + 1) count
      (setobjs2s stack (res + i) (firstResult + i)) j = _
    rw [ih]
    unfold setobjs2s
    by_cases hj : j = res + i
    · subst hj
      have h1 : ¬ (res + ((i + 1 : Nat) : Int) ≤ res + (i : Int) ∧
          res + (i : Int) < res + ((i + 1 : Nat) : Int) + (count : Int)) := by
        intro h
        omega
      have h2 : res + (i : Int) ≤ res + (i : Int) ∧
          res + (i : Int) < res + (i : Int) + ((count + 1 : Nat) : Int) := by
        constructor <;> omega
      rw [if_neg h1, if_pos h2, Function.update_same]
      congr 1
      omega
    · by_cases hin : res + ((i + 1 : Nat) : Int) ≤ j ∧ j < res + ((i + 1 : Nat) : Int) + count
      · have h2 : res + (i : Int) ≤ j ∧ j < res + (i : Int) + ((count + 1 : Nat) : Int) := by
          constructor <;> omega
        rw [if_pos hin, if_pos h2]
        apply Function.update_noteq
        omega
      · have h2 : ¬ (res + (i : Int) ≤ j ∧ j < res + (i : Int) + ((count + 1 : Nat) : Int)) := by
          intro h
          apply hin
          constructor <;> omega
        rw [if_neg hin, if_neg h2]
        exact Function.update_noteq hj _ _

theorem nil_loop_spec (res : Int) :
    ∀ (count i : Nat) (stack : LuaStack) (j : Int),
      nil_loop res i count stack j =
        if res + i ≤ j ∧ j < res + i + count then .nil else stack j := by
  intro count
  induction count with
  | zero =>
    intro i stack j
    have : ¬ (res + (i : Int) ≤ j ∧ j < res + i + ((0 : Nat) : Int)) := by
      intro h
      omega
    rw [if_neg this]
    rfl
  | succ count ih =>
    intro i stack j
    show nil_loop res (i + 1) count (setnilvalue stack (res + i)) j = _
    rw [ih]
    unfold setnilvalue
    by_cases hj : j = res + i
    · subst hj
      have h1 : ¬ (res + ((i + 1 : Nat) : Int) ≤ res + (i : Int) ∧
          res + (i : Int) < res + ((i + 1 : Nat) : Int) + (count : Int)) := by
        intro h
        omega
      have h2 : res + (i : Int) ≤ res + (i : Int) ∧
          res + (i : Int) < res + (i : Int) + ((count + 1 : Nat) : Int) := by
        constructor <;> omega
      rw [if_neg h1, if_pos h2, Function.update_same]
    · by_cases hin : res + ((i + 1 : Nat) : Int) ≤ j ∧ j < res + ((i + 1 : Nat) : Int) + count
      · have h2 : res + (i : Int) ≤ j ∧ j < res + (i : Int) + ((count + 1 : Nat) : Int) := by
          constructor <;> omega
        rw [if_pos hin, if_pos h2]
      · have h2 : ¬ (res + (i : Int) ≤ j ∧ j < res + (i : Int) + ((count + 1 : Nat) : Int)) := by
          intro h
          apply hin
          constructor <;> omega
        rw [if_neg hin, if_neg h2]
        exact Function.update_noteq hj _ _

/-- C24: for `nres ≥ 0` results that lie at `firstResult`, at or above the place `res`
they move to (in `luaD_poscall` the place is the function slot below them), and every
`wanted ≥ 0`, `moveresults` leaves the `i`-th result in `res[i]` for `i < min(nres, wanted)`
and nil for `min(nres, wanted) ≤ i < wanted`, sets `top` to `res + wanted` and returns 1;
for `wanted = LUA_MULTRET` it moves all `nres` results, sets `top` to `res + nres` and
returns 0. The slots below `res` keep their values. -/
theorem moveresults_places_results (stack : LuaStack) (firstResult res nres wanted : Int)
    (hres : res ≤ firstResult) (hnres : 0 ≤ nres) :
    (0 ≤ wanted →
      (∀ i, 0 ≤ i → i < min nres wanted →
        (moveresults stack firstResult res nres wanted).stack (res + i) =
          stack (firstResult + i)) ∧
      (∀ i, min nres wanted ≤ i → i < wanted →
        (moveresults stack firstResult res nres wanted).stack (res + i) = .nil) ∧
      (moveresults stack firstResult res nres wanted).top = res + wanted ∧
      (moveresults stack firstResult res nres wanted).ret = 1) ∧
    (wanted = LUA_MULTRET →
      (∀ i, 0 ≤ i → i < nres →
        (moveresults stack firstResult res nres wanted).stack (res + i) =
          stack (firstResult + i)) ∧
      (moveresults stack firstResult res nres wanted).top = res + nres ∧
      (moveresults stack firstResult res nres wanted).ret = 0) ∧
    (∀ j, j < res → (moveresults stack firstResult res nres wanted).stack j = stack j) := by
  have hmove := move_loop_spec firstResult res hres
  have hnil := nil_loop_spec res
  by_cases h0 : wanted = 0
  · subst h0
    refine ⟨fun _ => ⟨?_, ?_, rfl, rfl⟩, ?_, ?_⟩
    · intro i hi1 hi2
      exfalso
      have := min_le_right nres 0
      omega
    · intro i hi1 hi2
      exfalso
      have : min nres 0 = 0 := min_eq_right hnres
      omega
    · intro h
      exact absurd h (by decide)
    · intro j _
      rfl
  by_cases h1 : wanted = 1
  · subst h1
    have hstack : (moveresults stack firstResult res nres 1).stack =
        if nres = 0 then setnilvalue stack res else setobjs2s stack res firstResult := rfl
    refine ⟨fun _ => ⟨?_, ?_, rfl, rfl⟩, ?_, ?_⟩
    · intro i hi1 hi2
      have hn : nres ≠ 0 := by
        intro hz
        rw [hz] at hi2
        have : min (0 : Int) 1 = 0 := by decide
        omega
      have hi : i = 0 := by
        have := min_le_right nres 1
        omega
      subst hi
      rw [hstack, if_neg hn]
      unfold setobjs2s
      rw [Int.add_zero, Function.update_same, Int.add_zero]
    · intro i hi1 hi2
      have hn : nres = 0 := by
        by_contra hne
        have : min nres 1 = 1 := min_eq_right (by omega)
        omega
      have hi : i = 0 := by
        rw [hn] at hi1
        have : min (0 : Int) 1 = 0 := by decide
        omega
      subst hi
      rw [hstack, if_pos hn]
      unfold setnilvalue
      rw [Int.add_zero, Function.update_same]
    · intro h
      exact absurd h (by decide)
    · intro j hj
      rw [hstack]
      split
      · exact Function.update_noteq (by omega) _ _
      · exact Function.update_noteq (by omega) _ _
  by_cases hm : wanted = LUA_MULTRET
  · subst hm
    have hstack : (moveresults stack firstResult res nres LUA_MULTRET).stack =
        move_loop firstResult res 0 nres.toNat stack := rfl
    refine ⟨fun h => absurd h (by decide), fun _ => ⟨?_, rfl, rfl⟩, ?_⟩
    · intro i hi1 hi2
      rw [hstack, hmove]
      have hin : res + ((0 : Nat) : Int) ≤ res + i ∧
          res + i < res + ((0 : Nat) : Int) + (nres.toNat : Int) := by
        constructor <;> omega
      rw [if_pos hin]
      congr 1
      omega
    · intro j hj
      rw [hstack, hmove]
      have hout : ¬ (res + ((0 : Nat) : Int) ≤ j ∧
          j < res + ((0 : Nat) : Int) + (nres.toNat : Int)) := by
        intro h
        omega
      rw [if_neg hout]
  by_cases hle : wanted ≤ nres
  · have hstack : (moveresults stack firstResult res nres wanted).stack =
        move_loop firstResult res 0 wanted.toNat stack := by
      unfold moveresults
      rw [if_neg h0, if_neg h1, if_neg hm, if_pos hle]
    have htop : (moveresults stack firstResult res nres wanted).top = res + wanted := by
      unfold moveresults
      rw [if_neg h0, if_neg h1, if_neg hm, if_pos hle]
    have hret : (moveresults stack firstResult res nres wanted).ret = 1 := by
      unfold moveresults
      rw [if_neg h0, if_neg h1, if_neg hm, if_pos hle]
    refine ⟨fun hw => ⟨?_, ?_, htop, hret⟩, fun h => absurd h hm, ?_⟩
    · intro i hi1 hi2
      have : min nres wanted = wanted := min_eq_right hle
      rw [hstack, hmove]
      have hin : res + ((0 : Nat) : Int) ≤ res + i ∧
          res + i < res + ((0 : Nat) : Int) + (wanted.toNat : Int) := by
        constructor <;> omega
      rw [if_pos hin]
      congr 1
      omega
    · intro i hi1 hi2
      have : min nres wanted = wanted := min_eq_right hle
      omega
    · intro j hj
      rw [hstack, hmove]
      have hout : ¬ (res + ((0 : Nat) : Int) ≤ j ∧
          j < res + ((0 : Nat) : Int) + (wanted.toNat : Int)) := by
        intro h
        omega
      rw [if_neg hout]
  · have hstack : (moveresults stack firstResult res nres wanted).stack =
        nil_loop res nres.toNat (wanted - nres).toNat
          (move_loop firstResult res 0 nres.toNat stack) := by
      unfold moveresults
      rw [if_neg h0, if_neg h1, if_neg hm, if_neg hle]
    have htop : (moveresults stack firstResult res nres wanted).top = res + wanted := by
      unfold moveresults
      rw [if_neg h0, if_neg h1, if_neg hm, if_neg hle]
    have hret : (moveresults stack firstResult res nres wanted).ret = 1 := by
      unfold moveresults
      rw [if_neg h0, if_neg h1, if_neg hm, if_neg hle]
    have hmin : min nres wanted = nres := min_eq_left (by omega)
    refine ⟨fun hw => ⟨?_, ?_, htop, hret⟩, fun h => absurd h hm, ?_⟩
    · intro i hi1 hi2
      rw [hstack, hnil, hmove]
      have hout : ¬ (res + (nres.toNat : Int) ≤ res + i ∧
          res + i < res + (nres.toNat : Int) + ((wanted - nres).toNat : Int)) := by
        intro h
        omega
      have hin : res + ((0 : Nat) : Int) ≤ res + i ∧
          res + i < res + ((0 : Nat) : Int) + (nres.toNat : Int) := by
        constructor <;> omega
      rw [if_neg hout, if_pos hin]
      congr 1
      omega
    · intro i hi1 hi2
      rw [hstack, hnil]
      have hin : res + (nres.toNat : Int) ≤ res + i ∧
          res + i < res + (nres.toNat : Int) + ((wanted - nres).toNat : Int) := by
        constructor <;> omega
      rw [if_pos hin]
    · intro j hj
      rw [hstack, hnil, hmove]
      have hout : ¬ (res + (nres.toNat : Int) ≤ j ∧
          j < res + (nres.toNat : Int) + ((wanted - nres).toNat : Int)) := by
        intro h
        omega
      have hout2 : ¬ (res + ((0 : Nat) : Int) ≤ j ∧
          j < res + ((0 : Nat) : Int) + (nres.toNat : Int)) := by
        intro h
        omega
      rw [if_neg hout, if_neg hout2]

/-- Witness of C24: two results at address 5 moved to address 3 with four wanted, and the
slots that result: the two results, then two nils. -/
theorem moveresults_places_results_witness :
    ((3 : Int) ≤ 5 ∧ (0 : Int) ≤ 2) ∧
    segment (moveresults countingStack 5 3 2 4).stack 3 4 =
      [.integer 5, .integer 6, .nil, .nil] ∧
    ((0 ≤ (4 : Int) →
      (∀ i, 0 ≤ i → i < min (2 : Int) 4 →
        (moveresults countingStack 5 3 2 4).stack (3 + i) = countingStack (5 + i)) ∧
      (∀ i, min (2 : Int) 4 ≤ i → i < 4 →
        (moveresults countingStack 5 3 2 4).stack (3 + i) = .nil) ∧
      (moveresults countingStack 5 3 2 4).top = 3 + 4 ∧
      (moveresults countingStack 5 3 2 4).ret = 1) ∧
    ((4 : Int) = LUA_MULTRET →
      (∀ i, 0 ≤ i → i < (2 : Int) →
        (moveresults countingStack 5 3 2 4).stack (3 + i) = countingStack (5 + i)) ∧
      (moveresults countingStack 5 3 2 4).top = 3 + 2 ∧
      (moveresults countingStack 5 3 2 4).ret = 0) ∧
    (∀ j, j < (3 : Int) → (moveresults countingStack 5 3 2 4).stack j = countingStack j)) :=
  ⟨⟨by decide, by decide⟩, by decide,
    moveresults_places_results countingStack 5 3 2 4 (by decide) (by decide)⟩

theorem reverse_loop_spec :
    ∀ (rounds : Nat) (stack : LuaStack) (a b j : Int), (b - a).toNat ≤ rounds →
      reverse_loop rounds stack a b j =
        if a ≤ j ∧ j ≤ b then stack (a + b - j) else stack j := by
  intro rounds
  induction rounds with
  | zero =>
    intro stack a b j hr
    show stack j = _
    split
    · rename_i h
      congr 1
      omega
    · rfl
  | succ rounds ih =>
    intro stack a b j hr
    by_cases hab : a < b
    · have hstep : reverse_loop (rounds + 1) stack a b j =
          reverse_loop rounds (Function.update (setobjs2s stack a b) b (stack a))
            (a + 1) (b - 1) j := by
        show (if a < b then _ else _ : LuaStack) j = _
        rw [if_pos hab]
      rw [hstep, ih _ _ _ _ (by omega)]
      unfold setobjs2s
      by_cases hj1 : j = a
      · subst hj1
        have h1 : ¬ (j + 1 ≤ j ∧ j ≤ b - 1) := by
          intro h
          omega
        have h2 : j ≤ j ∧ j ≤ b := by
          constructor <;> omega
        rw [if_neg h1, if_pos h2, Function.update_noteq (by omega), Function.update_same]
        congr 1
        omega
      · by_cases hj2 : j = b
        · subst hj2
          have h1 : ¬ (a + 1 ≤ j ∧ j ≤ j - 1) := by
            intro h
            omega
          have h2 : a ≤ j ∧ j ≤ j := by
            constructor <;> omega
          rw [if_neg h1, if_pos h2, Function.update_same]
          congr 1
          omega
        · by_cases hin : a + 1 ≤ j ∧ j ≤ b - 1
          · have h2 : a ≤ j ∧ j ≤ b := by
              constructor <;> omega
            rw [if_pos hin, if_pos h2, Function.update_noteq (by omega),
              Function.update_noteq (by omega)]
            congr 1
            omega
          · have h2 : ¬ (a ≤ j ∧ j ≤ b) := by
              intro h
              apply hin
              constructor <;> omega
            rw [if_neg hin, if_neg h2, Function.update_noteq hj2, Function.update_noteq hj1]
    · have hstep : reverse_loop (rounds + 1) stack a b j = stack j := by
        show (if a < b then _ else _ : LuaStack) j = _
        rw [if_neg hab]
      rw [hstep]
      split
      · congr 1
        omega
      · rfl

theorem reverse_spec (stack : LuaStack) (a b j : Int) :
    reverse stack a b j = if a ≤ j ∧ j ≤ b then stack (a + b - j) else stack j :=
  reverse_loop_spec _ stack a b j (Nat.le_refl _)

/-- The slots after the three reversals of `lua_rotate` with the prefix end `m`, for a
segment from `p` to `t`. -/
theorem rotate_spec (stack : LuaStack) (p m t j : Int) (h1 : p - 1 ≤ m) (h2 : m ≤ t) :
    reverse (reverse (reverse stack p m) (m + 1) t) p t j =
      if p ≤ j ∧ j ≤ t then
        if j < p + (t - m) then stack (j + (m + 1 - p)) else stack (j - (t - m))
      else stack j := by
  rw [reverse_spec]
  by_cases hj : p ≤ j ∧ j ≤ t
  · rw [if_pos hj, if_pos hj, reverse_spec]
    by_cases hlt : j < p + (t - m)
    · have hin : m + 1 ≤ p + t - j ∧ p + t - j ≤ t := by
        constructor <;> omega
      have hout : ¬ (p ≤ m + 1 + t - (p + t - j) ∧ m + 1 + t - (p + t - j) ≤ m) := by
        intro h
        omega
      rw [if_pos hin, if_pos hlt, reverse_spec, if_neg hout]
      congr 1
      omega
    · have hout : ¬ (m + 1 ≤ p + t - j ∧ p + t - j ≤ t) := by
        intro h
        omega
      have hin : p ≤ p + t - j ∧ p + t - j ≤ m := by
        constructor <;> omega
      rw [if_neg hout, if_neg hlt, reverse_spec, if_pos hin]
      congr 1
      omega
  · rw [if_neg hj, if_neg hj, reverse_spec]
    have hout : ¬ (m + 1 ≤ j ∧ j ≤ t) := by
      intro h
      apply hj
      constructor <;> omega
    have hout2 : ¬ (p ≤ j ∧ j ≤ m) := by
      intro h
      apply hj
      constructor <;> omega
    rw [if_neg hout, reverse_spec, if_neg hout2]

theorem segment_length (stack : LuaStack) (p : Int) (len : Nat) :
    (segment stack p len).length = len := by
  simp [segment]

theorem segment_getElem? (stack : LuaStack) (p : Int) (len i : Nat) :
    (segment stack p len)[i]? = if i < len then some (stack (p + i)) else none := by
  unfold segment
  rw [List.getElem?_map]
  by_cases h : i < len
  · rw [if_pos h, List.getElem?_range h]
    rfl
  · rw [if_neg h, List.getElem?_eq_none (by simpa using h)]
    rfl

theorem rotated_getElem? {α : Type} (seg : List α) (d i : Nat) (hd : d ≤ seg.length) :
    (seg.drop d ++ seg.take d)[i]? =
      if i < seg.length - d then seg[i + d]?
      else if i < seg.length then seg[i - (seg.length - d)]? else none := by
  by_cases h1 : i < seg.length - d
  · rw [if_pos h1, List.getElem?_append_left (by simpa using h1), List.getElem?_drop,
      Nat.add_comm]
  · rw [if_neg h1, List.getElem?_append_right (by simpa using h1)]
    simp only [List.length_drop]
    by_cases h2 : i < seg.length
    · rw [if_pos h2, List.getElem?_take_of_lt (by omega)]
    · rw [if_neg h2]
      apply List.getElem?_eq_none
      simp only [List.length_take]
      omega

theorem index2addr_below_top (L : StackFrame) (idx p : Int)
    (hp : index2addr L idx = some p) : p < L.top := by
  unfold index2addr at hp
  split at hp
  · split at hp
    · cases hp
    · cases hp
      omega
  · split at hp
    · split at hp
      · cases hp
        omega
      · cases hp
    · cases hp

/-- C28: for the segment of `len` slots from the address of `idx` to the top and every
`n` with `0 ≤ n ≤ len`, `lua_rotate(idx, n)` leaves in the segment the last `n` values
followed by the first `len - n`; for `-len ≤ n < 0` it leaves the values after the first
`-n` followed by those first `-n`. Every slot outside the segment, the slots below `idx`
in particular, keeps its value. -/
theorem lua_rotate_rotates (L : StackFrame) (idx n p : Int) (len : Nat)
    (hp : index2addr L idx = some p) (hlen : (len : Int) = L.top - p) :
    (0 ≤ n → n ≤ len →
      ∃ s, lua_rotate L idx n = some s ∧
        segment s p len =
          (segment L.stack p len).drop (len - n.toNat) ++
            (segment L.stack p len).take (len - n.toNat) ∧
        ∀ j, j < p ∨ L.top ≤ j → s j = L.stack j) ∧
    (n < 0 → -(len : Int) ≤ n →
      ∃ s, lua_rotate L idx n = some s ∧
        segment s p len =
          (segment L.stack p len).drop (-n).toNat ++
            (segment L.stack p len).take (-n).toNat ∧
        ∀ j, j < p ∨ L.top ≤ j → s j = L.stack j) := by
  have hlt := index2addr_below_top L idx p hp
  constructor
  · intro h0 hn
    have hrot : lua_rotate L idx n =
        some (reverse (reverse (reverse L.stack p (L.top - 1 - n)) (L.top - 1 - n + 1)
          (L.top - 1)) p (L.top - 1)) := by
      unfold lua_rotate
      simp only [hp]
      have hc : n ≥ 0 := h0
      rw [if_pos hc, if_pos (by omega), if_pos hc]
    refine ⟨_, hrot, ?_, ?_⟩
    · apply List.ext_getElem?
      intro i
      rw [rotated_getElem? _ _ _ (by rw [segment_length]; omega), segment_length,
        segment_getElem?, segment_getElem?, segment_getElem?]
      rw [rotate_spec _ _ _ _ _ (by omega) (by omega)]
      by_cases hi : i < len
      · have hin : p ≤ p + (i : Int) ∧ p + (i : Int) ≤ L.top - 1 := by
          constructor <;> omega
        rw [if_pos hi, if_pos hin]
        by_cases hi2 : i < len - (len - n.toNat)
        · have hc : p + (i : Int) < p + (L.top - 1 - (L.top - 1 - n)) := by omega
          rw [if_pos hi2, if_pos hc, if_pos (by omega)]
          congr 2
          omega
        · have hc : ¬ (p + (i : Int) < p + (L.top - 1 - (L.top - 1 - n))) := by omega
          rw [if_neg hi2, if_neg hc, if_pos hi, if_pos (by omega)]
          congr 2
          omega
      · rw [if_neg hi, if_neg (by omega), if_neg hi]
    · intro j hj
      rw [rotate_spec _ _ _ _ _ (by omega) (by omega)]
      have hout : ¬ (p ≤ j ∧ j ≤ L.top - 1) := by
        intro h
        omega
      rw [if_neg hout]
  · intro h0 hn
    have hrot : lua_rotate L idx n =
        some (reverse (reverse (reverse L.stack p (p - n - 1)) (p - n - 1 + 1)
          (L.top - 1)) p (L.top - 1)) := by
      unfold lua_rotate
      simp only [hp]
      have hc : ¬ n ≥ 0 := by omega
      rw [if_neg hc, if_pos (by omega), if_neg hc]
    refine ⟨_, hrot, ?_, ?_⟩
    · apply List.ext_getElem?
      intro i
      rw [rotated_getElem? _ _ _ (by rw [segment_length]; omega), segment_length,
        segment_getElem?, segment_getElem?, segment_getElem?]
      rw [rotate_spec _ _ _ _ _ (by omega) (by omega)]
      by_cases hi : i < len
      · have hin : p ≤ p + (i : Int) ∧ p + (i : Int) ≤ L.top - 1 := by
          constructor <;> omega
        rw [if_pos hi, if_pos hin]
        by_cases hi2 : i < len - (-n).toNat
        · have hc : p + (i : Int) < p + (L.top - 1 - (p - n - 1)) := by omega
          rw [if_pos hi2, if_pos hc, if_pos (by omega)]
          congr 2
          omega
        · have hc : ¬ (p + (i : Int) < p + (L.top - 1 - (p - n - 1))) := by omega
          rw [if_neg hi2, if_neg hc, if_pos hi, if_pos (by omega)]
          congr 2
          omega
      · rw [if_neg hi, if_neg (by omega), if_neg hi]
    · intro j hj
      rw [rotate_spec _ _ _ _ _ (by omega) (by omega)]
      have hout : ¬ (p ≤ j ∧ j ≤ L.top - 1) := by
        intro h
        omega
      rw [if_neg hout]

theorem c_string_length (s : List Nat) : (c_string s).length = strlen s := rfl

theorem c_string_ne_zero (s : List Nat) : ∀ x ∈ c_string s, x ≠ 0 := by
  intro x hx
  have := List.mem_takeWhile_imp hx
  simpa using this

theorem c_string_of_terminated (m rest : List Nat) (hm : ∀ x ∈ m, x ≠ 0) :
    c_string (m ++ 0 :: rest) = m := by
  unfold c_string
  rw [List.takeWhile_append_of_pos]
  · simp
  · intro a ha
    simpa using hm a ha

theorem error_slot_written (cap : Nat) (slot msg : List Nat) (hcap : slot.length = cap)
    (hpos : 0 < cap) :
    (strncpy slot msg cap).set (if strlen msg ≥ cap then cap - 1 else strlen msg) 0 =
      (c_string msg).take (cap - 1) ++ List.replicate (cap - min (strlen msg) (cap - 1)) 0 := by
  unfold strncpy
  rw [List.drop_of_length_le (by omega), List.append_nil]
  have hl : (c_string msg).length = strlen msg := rfl
  generalize c_string msg = m at hl
  generalize strlen msg = l at hl
  subst hl
  apply List.ext_getElem?
  intro i
  simp only [List.getElem?_set, List.getElem?_append, List.getElem?_take,
    List.getElem?_replicate, List.length_append, List.length_take, List.length_replicate]
  by_cases hge : m.length ≥ cap
  · simp only [hge, if_true]
    have h1 : min cap m.length = cap := by omega
    have h2 : min (cap - 1) m.length = cap - 1 := by omega
    have h3 : min m.length (cap - 1) = cap - 1 := by omega
    simp only [h1, h2, h3]
    by_cases hi : cap - 1 = i
    · subst hi
      simp [h1, h2, h3]
      rw [if_pos (by omega), if_pos hpos]
    · simp only [hi, if_false]
      by_cases hi2 : i < cap - 1
      · have hi3 : i < cap := by omega
        simp [hi2, hi3]
      · have hi3 : ¬ i < cap := by omega
        simp [hi2, hi3, h1, h2, h3]
        rw [if_neg (by omega), if_neg (by omega)]
  · simp only [hge, if_false]
    have h1 : min cap m.length = m.length := by omega
    have h2 : min (cap - 1) m.length = m.length := by omega
    have h3 : min m.length (cap - 1) = m.length := by omega
    simp only [h1, h2, h3]
    by_cases hi : m.length = i
    · subst hi
      simp
    · simp only [hi, if_false]
      by_cases hi2 : i < m.length
      · have hi3 : i < cap := by omega
        have hi4 : i < cap - 1 := by omega
        simp [hi2, hi3, hi4]
      · simp [hi2]

theorem set_zero_in_padding (a : List Nat) (k n : Nat) (hn : a.length ≤ n) :
    (a ++ List.replicate k 0).set n 0 = a ++ List.replicate k 0 := by
  apply List.ext_getElem?
  intro j
  rw [List.getElem?_set]
  by_cases hj : n = j
  · subst hj
    rw [if_pos rfl, List.getElem?_append, List.getElem?_replicate,
      if_neg (by omega : ¬ n < a.length), List.length_append, List.length_replicate]
    by_cases hk : n < a.length + k
    · rw [if_pos hk, if_pos (by omega : n - a.length < k)]
    · rw [if_neg hk, if_neg (by omega : ¬ n - a.length < k)]
  · rw [if_neg hj]

theorem error_slot_c_string (cap : Nat) (msg : List Nat) (hpos : 0 < cap) :
    c_string ((c_string msg).take (cap - 1) ++
        List.replicate (cap - min (strlen msg) (cap - 1)) 0) = (c_string msg).take (cap - 1) ∧
      ((c_string msg).take (cap - 1) ++
        List.replicate (cap - min (strlen msg) (cap - 1)) 0).length = cap := by
  have hk : cap - min (strlen msg) (cap - 1) =
      (cap - min (strlen msg) (cap - 1) - 1) + 1 := by omega
  constructor
  · rw [hk, List.replicate_succ]
    apply c_string_of_terminated
    intro x hx
    exact c_string_ne_zero msg x (List.mem_of_mem_take hx)
  · rw [List.length_append, List.length_take, List.length_replicate, c_string_length]
    omega

/-- C27 (as amended): with a non-empty `msg`, `lua_set_run_error` leaves in the run-error
slot `msg` cut to the capacity minus one and NUL-terminated, whatever the slot held
before. `lua_set_compile_error` does the same only when the compile-error slot holds the
empty string; a slot that holds an error keeps it, so the compile-error slot shows the
first error reported since it was cleared. -/
theorem error_slots_after_set (ccap rcap : Nat) (compile_error runerror msg : List Nat)
    (hccap : compile_error.length = ccap) (hrcap : runerror.length = rcap)
    (hcpos : 0 < ccap) (hrpos : 0 < rcap) (hmsg : 0 < strlen msg) :
    (strlen compile_error = 0 →
      c_string (lua_set_compile_error ccap compile_error (some msg)) =
          (c_string msg).take (ccap - 1) ∧
        (lua_set_compile_error ccap compile_error (some msg)).length = ccap) ∧
    (0 < strlen compile_error →
      lua_set_compile_error ccap compile_error (some msg) = compile_error) ∧
    c_string (lua_set_run_error rcap runerror (some msg)).1 = (c_string msg).take (rcap - 1) ∧
    (lua_set_run_error rcap runerror (some msg)).1.length = rcap ∧
    (lua_set_run_error rcap runerror (some msg)).2 = some (c_string msg) := by
  refine ⟨?_, ?_, ?_⟩
  · intro hempty
    have hcond : strlen msg > 0 ∧ strlen compile_error < 1 := ⟨hmsg, by omega⟩
    have hval : lua_set_compile_error ccap compile_error (some msg) =
        (c_string msg).take (ccap - 1) ++
          List.replicate (ccap - min (strlen msg) (ccap - 1)) 0 := by
      unfold lua_set_compile_error
      simp only [hcond, and_self, if_true]
      rw [error_slot_written ccap compile_error msg hccap hcpos]
      apply set_zero_in_padding
      rw [List.length_take]
      omega
    rw [hval]
    exact error_slot_c_string ccap msg hcpos
  · intro hheld
    have hcond : ¬ (strlen msg > 0 ∧ strlen compile_error < 1) := by
      intro h
      omega
    unfold lua_set_compile_error
    simp only [hcond, if_false]
  · have hval : lua_set_run_error rcap runerror (some msg) =
        ((c_string msg).take (rcap - 1) ++
          List.replicate (rcap - min (strlen msg) (rcap - 1)) 0, some (c_string msg)) := by
      unfold lua_set_run_error
      have hgt : strlen msg > 0 := hmsg
      simp only [hgt, if_true]
      rw [error_slot_written rcap runerror msg hrcap hrpos]
    rw [hval]
    exact ⟨(error_slot_c_string rcap msg hrpos).1, (error_slot_c_string rcap msg hrpos).2, rfl⟩

/-- Witness of C27 as amended: slots of four bytes and the message `hello`: the empty
compile-error slot and the run-error slot that held `abc` both come to hold `hel`. -/
theorem error_slots_after_set_witness :
    (([0, 0, 0, 0] : List Nat).length = 4 ∧ ([97, 98, 99, 0] : List Nat).length = 4 ∧
      0 < 4 ∧ 0 < strlen (bytes_of "hello")) ∧
    lua_set_compile_error 4 [0, 0, 0, 0] (some (bytes_of "hello")) = [104, 101, 108, 0] ∧
    (lua_set_run_error 4 [97, 98, 99, 0] (some (bytes_of "hello"))).1 = [104, 101, 108, 0] ∧
    c_string (lua_set_run_error 4 [97, 98, 99, 0] (some (bytes_of "hello"))).1 =
      (c_string (bytes_of "hello")).take (4 - 1) :=
  ⟨⟨by decide, by decide, by decide, by decide⟩, by decide, by decide,
    (error_slots_after_set 4 4 [0, 0, 0, 0] [97, 98, 99, 0] (bytes_of "hello") (by decide)
      (by decide) (by decide) (by decide) (by decide)).2.2.1⟩

/-- Counterexample to C27 as stated: the compile-error slot holds `a`, and after
`lua_set_compile_error` with the message `b` it still holds `a`, not the last error
reported. -/
theorem lua_set_compile_error_keeps_first :
    0 < strlen (bytes_of "b") ∧
    lua_set_compile_error 4 [97, 0, 0, 0] (some (bytes_of "b")) = [97, 0, 0, 0] ∧
    c_string (lua_set_compile_error 4 [97, 0, 0, 0] (some (bytes_of "b"))) = bytes_of "a" ∧
    c_string (lua_set_compile_error 4 [97, 0, 0, 0] (some (bytes_of "b"))) ≠
      (c_string (bytes_of "b")).take (4 - 1) := by
  decide

/-- Witness of C28: slots 1 to 5 hold 1 to 5; rotating the segment from index 2 by 1
gives 5, 2, 3, 4 and leaves slot 1 as it was, and rotating it by -1 gives 3, 4, 5, 2. -/
theorem lua_rotate_rotates_witness :
    (index2addr ⟨countingStack, 0, 6⟩ 2 = some 2 ∧ ((4 : Nat) : Int) = 6 - 2) ∧
    (lua_rotate ⟨countingStack, 0, 6⟩ 2 1).map (fun s => segment s 1 5) =
      some [.integer 1, .integer 5, .integer 2, .integer 3, .integer 4] ∧
    (lua_rotate ⟨countingStack, 0, 6⟩ 2 (-1)).map (fun s => segment s 1 5) =
      some [.integer 1, .integer 3, .integer 4, .integer 5, .integer 2] ∧
    (∃ s, lua_rotate ⟨countingStack, 0, 6⟩ 2 1 = some s ∧
      segment s 2 4 =
        (segment countingStack 2 4).drop (4 - (1 : Int).toNat) ++
          (segment countingStack 2 4).take (4 - (1 : Int).toNat) ∧
      ∀ j, j < 2 ∨ 6 ≤ j → s j = countingStack j) :=
  ⟨⟨by decide, by decide⟩, by decide, by decide,
    (lua_rotate_rotates ⟨countingStack, 0, 6⟩ 2 1 2 4 (by decide) (by decide)).1
      (by decide) (by decide)⟩


/-! ## Theorems: amount texts, storage frame and bounded conversion -/

/-- C31 (fails on the code): the amount text `1e5` is in exponent form, not a plain
decimal literal, yet `is_integral` accepts it and `std::stoll` reads 1 from it:
`transfer_api`, `approve_api` and `transfer_from_api` return on it instead of raising,
and the amount they apply is 1, not the value 100000 of the text. -/
theorem token_apis_accept_exponent_amount :
    is_integral s1Env "1e5" = true ∧ stoll "1e5" = some 1 ∧
    transfer_api s1Env emptyResult "B,1e5" =
      .returned (transfer_api s1Env emptyResult "B,1e5").result ∧
    get_balance_of_user s1Env (transfer_api s1Env emptyResult "B,1e5").result "B" = some 1 ∧
    get_balance_of_user s1Env (transfer_api s1Env emptyResult "B,1e5").result "A" =
      some 9999 ∧
    approve_api s1Env emptyResult "C,1e5" =
      .returned (approve_api s1Env emptyResult "C,1e5").result ∧
    get_allowance s1Env (approve_api s1Env emptyResult "C,1e5").result "A" "C" = some 1 ∧
    transfer_from_api s2Env emptyResult "A,B,1e5" =
      .returned (transfer_from_api s2Env emptyResult "A,B,1e5").result ∧
    get_balance_of_user s2Env (transfer_from_api s2Env emptyResult "A,B,1e5").result "B" =
      some 1 := by
  refine ⟨by decide, by decide, by decide, by decide, by decide, by decide, by decide,
    by decide, by decide⟩

/-- C33: a call `set_contract_storage(c, s, v)` that returns leaves every recorded change
of another contract or another slot, the whole entry of every other contract, the event
list, the API result and the invoker as they were before the call. -/
theorem set_contract_storage_frame (lib : CborLib) (gs : String → String → StorageDataType)
    (res res1 : contract_invoke_result) (c s : String) (v : StorageDataType)
    (h : set_contract_storage lib gs res c s v = some res1) :
    (∀ c2 s2, (c2 ≠ c ∨ s2 ≠ s) →
      recorded_change res1 c2 s2 = recorded_change res c2 s2) ∧
    res1.events = res.events ∧ res1.api_result = res.api_result ∧
    res1.invoker = res.invoker := by
  obtain ⟨_, _, h3, h4, h5, h6⟩ := recorded_change_set lib gs res res1 c s v h
  refine ⟨?_, h4, h5, h6⟩
  intro c2 s2 hne
  apply h3
  intro hboth
  rcases hne with hne | hne
  · exact hne hboth.1
  · exact hne hboth.2

/-- Witness of C33: after two recorded writes and one event, a third write to slot `s` of
contract `c` leaves the change of slot `t`, the event and the API result as they were. -/
theorem set_contract_storage_frame_witness :
    set_contract_storage replaceLib hostNine
        ⟨"r", [("c", [("s", ⟨⟨[1]⟩, ⟨[0]⟩, ⟨[1]⟩⟩), ("t", ⟨⟨[2]⟩, ⟨[9]⟩, ⟨[2]⟩⟩)])],
          [⟨"E", "x", 8⟩], "A"⟩ "c" "s" ⟨[3]⟩ = some ⟨"r", demoResult.storage_changes,
          [⟨"E", "x", 8⟩], "A"⟩ ∧
    ((∀ c2 s2, (c2 ≠ "c" ∨ s2 ≠ "s") →
      recorded_change ⟨"r", demoResult.storage_changes, [⟨"E", "x", 8⟩], "A"⟩ c2 s2 =
        recorded_change
          ⟨"r", [("c", [("s", ⟨⟨[1]⟩, ⟨[0]⟩, ⟨[1]⟩⟩), ("t", ⟨⟨[2]⟩, ⟨[9]⟩, ⟨[2]⟩⟩)])],
            [⟨"E", "x", 8⟩], "A"⟩ c2 s2) ∧
    (⟨"r", demoResult.storage_changes, [⟨"E", "x", 8⟩], "A"⟩ : contract_invoke_result).events =
      [⟨"E", "x", 8⟩] ∧
    (⟨"r", demoResult.storage_changes, [⟨"E", "x", 8⟩], "A"⟩ : contract_invoke_result).api_result
      = "r" ∧
    (⟨"r", demoResult.storage_changes, [⟨"E", "x", 8⟩], "A"⟩ : contract_invoke_result).invoker
      = "A") :=
  ⟨by decide,
    set_contract_storage_frame replaceLib hostNine
      ⟨"r", [("c", [("s", ⟨⟨[1]⟩, ⟨[0]⟩, ⟨[1]⟩⟩), ("t", ⟨⟨[2]⟩, ⟨[9]⟩, ⟨[2]⟩⟩)])],
        [⟨"E", "x", 8⟩], "A"⟩
      ⟨"r", demoResult.storage_changes, [⟨"E", "x", 8⟩], "A"⟩ "c" "s" ⟨[3]⟩ (by decide)⟩

theorem storage_fuel_enough (env : ConvEnv) (jsons : List Nat) :
    ∀ (f1 f2 d : Nat) (v : LuaValue),
      LUA_MAP_TRAVERSER_MAX_DEPTH + 2 ≤ f1 + d → LUA_MAP_TRAVERSER_MAX_DEPTH + 2 ≤ f2 + d →
      lua_type_to_storage_value_type_fuel env jsons f1 d v =
        lua_type_to_storage_value_type_fuel env jsons f2 d v := by
  intro f1
  induction f1 with
  | zero =>
    intro f2 d v h1 _
    rw [storage_fuel_deep env jsons 0 d v (by omega),
      storage_fuel_deep env jsons f2 d v (by omega)]
  | succ n ih =>
    intro f2 d v h1 h2
    by_cases hd : d > LUA_MAP_TRAVERSER_MAX_DEPTH
    · rw [storage_fuel_deep env jsons _ d v hd, storage_fuel_deep env jsons f2 d v hd]
    · cases f2 with
      | zero => exact absurd h2 (by omega)
      | succ m =>
        have hrec : (fun x => lua_type_to_storage_value_type_fuel env jsons n (d + 2) x) =
            (fun x => lua_type_to_storage_value_type_fuel env jsons m (d + 2) x) := by
          funext x
          exact ih m (d + 2) x (by omega) (by omega)
        cases v <;> simp only [lua_type_to_storage_value_type_fuel, hrec]

/-- C34: the nested calls of `lua_type_to_storage_value_type_with_nested` are bounded by
the depth test alone: with any larger bound on their number the function gives the same
value, on every value and every heap, a table that contains itself included, so the
recursion always ends; every value met at a `recur_depth` above
`LUA_MAP_TRAVERSER_MAX_DEPTH` becomes null. `luaL_to_cbor` unfolds the table
`t = {self = t}` 51 times and ends. -/
theorem lua_type_to_storage_value_type_terminates (env : ConvEnv) (jsons : List Nat)
    (extra recur_depth : Nat) (v : LuaValue) :
    lua_type_to_storage_value_type_fuel env jsons (LUA_MAP_TRAVERSER_MAX_DEPTH + 2 + extra)
        recur_depth v =
      lua_type_to_storage_value_type_with_nested env jsons recur_depth v ∧
    (recur_depth > LUA_MAP_TRAVERSER_MAX_DEPTH →
      lua_type_to_storage_value_type_with_nested env jsons recur_depth v =
        .storage_value_null) ∧
    (luaL_to_cbor (demoConv selfHeap) (.table 1)).map map_depth = some 51 := by
  refine ⟨?_, ?_, by decide⟩
  · unfold lua_type_to_storage_value_type_with_nested
    exact storage_fuel_enough env jsons _ _ _ _ (by omega) (by omega)
  · intro hd
    exact storage_fuel_deep env jsons _ recur_depth v hd

/-! ## Theorems: logical call depth -/

/-- The depth after a finished call whose body leaves the depth as it found it: restored
for a function called directly, one more than before for a value called through its
`__call` metamethod. -/
theorem finished_call_depth (f : CFunctionRun) (body : Nat → Nat) (ci_depth : Nat)
    (kind : FunctionKind)
    (hf : ∀ d, f.ci_depth_after d = d) (hnb : f.break_or_suspend = false)
    (hbody : ∀ d, body d = d) :
    finished_call f body (.function kind) ci_depth = some ci_depth ∧
    finished_call f body (.not_function (some kind)) ci_depth = some (ci_depth + 1) := by
  have hc : ∀ d, luaD_poscall_ci_depth (d + 1) = d := by
    intro d
    unfold luaD_poscall_ci_depth
    rw [if_pos (by omega)]
    rfl
  cases kind <;>
    simp only [finished_call, luaD_precall, luaD_precall_function, hnb, hf, hbody, hc,
      Bool.false_eq_true, if_false, and_self]

/-- C35 (fails on the code): a table whose `__call` metamethod is a C function is called
at depth 3. `luaD_precall` counts the call twice, once before `tryfuncTM` and once more
when it calls itself on the metamethod, and `luaD_poscall` takes one off: the finished
call leaves `ci_depth` at 4, while a direct call of the same C function, or of a Lua
function, leaves it at 3. -/
theorem luaD_precall_counts_metamethod_call_twice :
    finished_call balancedRun (fun d => d) (.not_function (some .LUA_TCCL)) 3 = some 4 ∧
    finished_call balancedRun (fun d => d) (.not_function (some .LUA_TLCL)) 3 = some 4 ∧
    finished_call balancedRun (fun d => d) (.function .LUA_TCCL) 3 = some 3 ∧
    finished_call balancedRun (fun d => d) (.function .LUA_TLCL) 3 = some 3 := by
  decide

/-! ## Theorems: string helpers and floating point bytes -/

theorem string_find_spec : ∀ (s e : List Char) (p : Nat), string_find s e = some p →
    p + e.length ≤ s.length ∧ e.isPrefixOf (s.drop p) = true := by
  intro s
  induction s with
  | nil =>
    intro e p h
    unfold string_find at h
    split at h
    · rename_i he
      cases h
      have : e = [] := by simpa using he
      subst this
      exact ⟨by simp, rfl⟩
    · cases h
  | cons c t ih =>
    intro e p h
    unfold string_find at h
    split at h
    · rename_i hpre
      cases h
      refine ⟨?_, hpre⟩
      have := (List.isPrefixOf_iff_prefix.1 hpre).length_le
      simpa using this
    · cases hq : string_find t e with
      | none => rw [hq] at h; cases h
      | some q =>
        rw [hq] at h
        cases h
        obtain ⟨h1, h2⟩ := ih e q hq
        refine ⟨?_, ?_⟩
        · simp only [List.length_cons]
          omega
        · simpa using h2

/-- Whenever `string_ends_with` answers true, `end` is a suffix of `str` (for texts
shorter than `2^64` bytes). -/
theorem string_ends_with_sound (str end_ : String) (hsize : str.length < 18446744073709551616)
    (h : string_ends_with str end_ = true) : end_.data <:+ str.data := by
  unfold string_ends_with at h
  simp only [Bool.and_eq_true, decide_eq_true_eq] at h
  obtain ⟨hpos, heq⟩ := h
  cases hf : string_find str.data end_.data with
  | none =>
    rw [hf] at hpos
    exact absurd hpos (by decide)
  | some p =>
    rw [hf] at hpos heq
    obtain ⟨hle, hpre⟩ := string_find_spec _ _ _ hf
    have hl1 : str.length = str.data.length := rfl
    have hl2 : end_.length = end_.data.length := rfl
    simp only [int_of_size_t] at hpos heq
    have hp : p + end_.data.length = str.data.length := by omega
    have hpref := List.isPrefixOf_iff_prefix.1 hpre
    have hlen : (str.data.drop p).length = end_.data.length := by
      rw [List.length_drop]
      omega
    have hdrop : str.data.drop p = end_.data := (hpref.eq_of_length hlen.symm).symm
    rw [← hdrop]
    exact List.drop_suffix p str.data

/-- C37 (fails on the code): `ab` is a suffix of `abab`, and the empty text is a suffix of
`abc`, yet `string_ends_with` answers false for both: `str.find(end)` gives the first
place where `end` occurs, here 0, and the test compares that place with the place of a
suffix. `string_without_ext` then leaves `a.lua.lua` with its extension `.lua`. -/
theorem string_ends_with_misses_repeated_suffix :
    ("ab".data.isSuffixOf "abab".data = true ∧ string_ends_with "abab" "ab" = false) ∧
    ("".data.isSuffixOf "abc".data = true ∧ string_ends_with "abc" "" = false) ∧
    string_without_ext "a.lua.lua" ".lua" = "a.lua.lua" ∧
    string_ends_with "a.lua" ".lua" = true ∧ string_without_ext "a.lua" ".lua" = "a" := by
  decide

theorem coarse_steps_spec : ∀ (rounds x e k : Nat), 8 ≤ x → x ≤ 15 * 2 ^ k → k ≤ 27 →
    k ≤ rounds →
    ∃ k1 m, 8 ≤ (coarse_steps rounds x e).1 ∧ (coarse_steps rounds x e).1 < 128 ∧
      (coarse_steps rounds x e).1 ≤ 15 * 2 ^ k1 ∧ (coarse_steps rounds x e).2 + k1 = e + k ∧
      x ≤ (coarse_steps rounds x e).1 * m ∧ m * 2 ^ e = 2 ^ (coarse_steps rounds x e).2 := by
  intro rounds
  induction rounds with
  | zero =>
    intro x e k h8 hx hk hr
    have hk0 : k = 0 := by omega
    subst hk0
    refine ⟨0, 1, h8, ?_, hx, rfl, ?_, ?_⟩
    · show x < 128
      simp at hx
      omega
    · show x ≤ x * 1
      omega
    · show 1 * 2 ^ e = 2 ^ e
      omega
  | succ rounds ih =>
    intro x e k h8 hx hk hr
    by_cases hbig : x ≥ 8 <<< 4
    · have hbig1 : x ≥ 128 := hbig
      have hk4 : 4 ≤ k := by
        by_contra hlt
        have hk3 : k ≤ 3 := by omega
        interval_cases k <;> simp at hx <;> omega
      obtain ⟨j, rfl⟩ : ∃ j, k = j + 4 := ⟨k - 4, by omega⟩
      have hpow : 2 ^ (j + 4) = 16 * 2 ^ j := by
        rw [pow_add]
        omega
      have hj27 : 2 ^ j ≤ 2 ^ 23 := Nat.pow_le_pow_right (by decide) (by omega)
      have hstep : coarse_steps (rounds + 1) x e =
          coarse_steps rounds (((x + 15) % 4294967296) >>> 4) (e + 4) := by
        show (if x ≥ 8 <<< 4 then _ else _) = _
        rw [if_pos hbig]
      have hx1 : ((x + 15) % 4294967296) >>> 4 = (x + 15) / 16 := by
        rw [Nat.shiftRight_eq_div_pow, Nat.mod_eq_of_lt (by omega)]
      rw [hstep, hx1]
      obtain ⟨k1, m, a1, a2, a3, a4, a5, a6⟩ :=
        ih ((x + 15) / 16) (e + 4) j (by omega) (by omega) (by omega) (by omega)
      refine ⟨k1, 16 * m, a1, a2, a3, by omega, ?_, ?_⟩
      · have : x ≤ 16 * ((x + 15) / 16) := by omega
        calc x ≤ 16 * ((x + 15) / 16) := this
          _ ≤ 16 * ((coarse_steps rounds ((x + 15) / 16) (e + 4)).1 * m) :=
            Nat.mul_le_mul_left 16 a5
          _ = (coarse_steps rounds ((x + 15) / 16) (e + 4)).1 * (16 * m) := by ring
      · rw [← a6, pow_add]
        ring
    · have hstep : coarse_steps (rounds + 1) x e = (x, e) := by
        show (if x ≥ 8 <<< 4 then _ else _) = _
        rw [if_neg hbig]
      rw [hstep]
      have hsmall : x < 128 := by
        have : ¬ x ≥ 128 := hbig
        omega
      exact ⟨k, 1, h8, hsmall, hx, rfl, by show x ≤ x * 1; omega, by show 1 * 2 ^ e = 2 ^ e; omega⟩

theorem fine_steps_spec : ∀ (rounds x e k : Nat), 8 ≤ x → x ≤ 15 * 2 ^ k → k ≤ 27 →
    k ≤ rounds →
    ∃ k1 m, 8 ≤ (fine_steps rounds x e).1 ∧ (fine_steps rounds x e).1 < 16 ∧
      (fine_steps rounds x e).1 ≤ 15 * 2 ^ k1 ∧ (fine_steps rounds x e).2 + k1 = e + k ∧
      x ≤ (fine_steps rounds x e).1 * m ∧ m * 2 ^ e = 2 ^ (fine_steps rounds x e).2 := by
  intro rounds
  induction rounds with
  | zero =>
    intro x e k h8 hx hk hr
    have hk0 : k = 0 := by omega
    subst hk0
    refine ⟨0, 1, h8, ?_, hx, rfl, ?_, ?_⟩
    · show x < 16
      simp at hx
      omega
    · show x ≤ x * 1
      omega
    · show 1 * 2 ^ e = 2 ^ e
      omega
  | succ rounds ih =>
    intro x e k h8 hx hk hr
    by_cases hbig : x ≥ 8 <<< 1
    · have hbig1 : x ≥ 16 := hbig
      have hk1 : 1 ≤ k := by
        by_contra hlt
        have hk0 : k = 0 := by omega
        subst hk0
        simp at hx
        omega
      obtain ⟨j, rfl⟩ : ∃ j, k = j + 1 := ⟨k - 1, by omega⟩
      have hpow : 2 ^ (j + 1) = 2 * 2 ^ j := by
        rw [pow_succ]
        omega
      have hj27 : 2 ^ j ≤ 2 ^ 26 := Nat.pow_le_pow_right (by decide) (by omega)
      have hstep : fine_steps (rounds + 1) x e =
          fine_steps rounds (((x + 1) % 4294967296) >>> 1) (e + 1) := by
        show (if x ≥ 8 <<< 1 then _ else _) = _
        rw [if_pos hbig]
      have hx1 : ((x + 1) % 4294967296) >>> 1 = (x + 1) / 2 := by
        rw [Nat.shiftRight_eq_div_pow, Nat.mod_eq_of_lt (by omega)]
      rw [hstep, hx1]
      obtain ⟨k1, m, a1, a2, a3, a4, a5, a6⟩ :=
        ih ((x + 1) / 2) (e + 1) j (by omega) (by omega) (by omega) (by omega)
      refine ⟨k1, 2 * m, a1, a2, a3, by omega, ?_, ?_⟩
      · have : x ≤ 2 * ((x + 1) / 2) := by omega
        calc x ≤ 2 * ((x + 1) / 2) := this
          _ ≤ 2 * ((fine_steps rounds ((x + 1) / 2) (e + 1)).1 * m) :=
            Nat.mul_le_mul_left 2 a5
          _ = (fine_steps rounds ((x + 1) / 2) (e + 1)).1 * (2 * m) := by ring
      · rw [← a6, pow_succ]
        ring
    · have hstep : fine_steps (rounds + 1) x e = (x, e) := by
        show (if x ≥ 8 <<< 1 then _ else _) = _
        rw [if_neg hbig]
      rw [hstep]
      have hsmall : x < 16 := by
        have : ¬ x ≥ 16 := hbig
        omega
      exact ⟨k, 1, h8, hsmall, hx, rfl, by show x ≤ x * 1; omega, by show 1 * 2 ^ e = 2 ^ e; omega⟩

theorem floating_byte_bits : ∀ a, a < 29 → ∀ r, r < 8 →
    (a <<< 3) ||| r = a * 8 + r ∧ (a * 8 + r) &&& 7 = r ∧ (a * 8 + r) >>> 3 = a := by
  decide

theorem floating_byte_decoded (x2 e2 : Nat) (h8 : 8 ≤ x2) (h16 : x2 < 16) (he : e2 ≤ 27) :
    luaO_fb2int (Int.lor (((e2 + 1) <<< 3 : Nat) : Int) ((x2 : Int) - 8)) =
        ((x2 * 2 ^ e2 : Nat) : Int) ∧
      0 ≤ Int.lor (((e2 + 1) <<< 3 : Nat) : Int) ((x2 : Int) - 8) ∧
      Int.lor (((e2 + 1) <<< 3 : Nat) : Int) ((x2 : Int) - 8) < 256 := by
  have hsub : (x2 : Int) - 8 = ((x2 - 8 : Nat) : Int) := by omega
  obtain ⟨b1, b2, b3⟩ := floating_byte_bits (e2 + 1) (by omega) (x2 - 8) (by omega)
  have hlor : Int.lor (((e2 + 1) <<< 3 : Nat) : Int) ((x2 : Int) - 8) =
      (((e2 + 1) * 8 + (x2 - 8) : Nat) : Int) := by
    rw [hsub, ← b1]
    rfl
  rw [hlor]
  refine ⟨?_, by omega, by omega⟩
  unfold luaO_fb2int
  rw [if_neg (by omega)]
  simp only [Int.toNat_ofNat, b2, b3]
  have hx : x2 - 8 + 8 = x2 := by omega
  have he1 : e2 + 1 - 1 = e2 := by omega
  rw [hx, he1, Nat.shiftLeft_eq]
  have hpow : 2 ^ e2 ≤ 2 ^ 27 := Nat.pow_le_pow_right (by decide) he
  have hle : x2 * 2 ^ e2 ≤ 15 * 2 ^ 27 := Nat.mul_le_mul (by omega) hpow
  unfold int32_t
  have hle2 : ((x2 * 2 ^ e2 : Nat) : Int) ≤ 2013265920 := by
    have : x2 * 2 ^ e2 ≤ 2013265920 := hle
    exact_mod_cast this
  omega

/-- C38: for every `unsigned int` `x` up to `15 * 2^27`, the two loops of `luaO_int2fb`
end, the floating point byte it produces is between 0 and 255, and `luaO_fb2int` decodes
it to a value that is at least `x`, and exactly `x` when `x < 16`. -/
theorem luaO_fb2int_int2fb (x : Nat) (hx : x ≤ 15 * 2 ^ 27) :
    (x : Int) ≤ luaO_fb2int (luaO_int2fb x) ∧
    (x < 16 → luaO_fb2int (luaO_int2fb x) = (x : Int)) ∧
    0 ≤ luaO_int2fb x ∧ luaO_int2fb x < 256 ∧
    (8 ≤ x → (fine_steps 32 (coarse_steps 32 x 0).1 (coarse_steps 32 x 0).2).1 < 8 <<< 1 ∧
      (coarse_steps 32 x 0).1 < 8 <<< 4) := by
  by_cases h8 : x < 8
  · have h1 : luaO_int2fb x = (x : Int) := by
      unfold luaO_int2fb
      rw [if_pos h8]
    have h2 : luaO_fb2int (x : Int) = (x : Int) := by
      unfold luaO_fb2int
      rw [if_pos (by omega)]
    rw [h1, h2]
    exact ⟨le_refl _, fun _ => rfl, by omega, by omega, fun h => absurd h (by omega)⟩
  · have hx8 : 8 ≤ x := by omega
    obtain ⟨k1, m1, a1, a2, a3, a4, a5, a6⟩ :=
      coarse_steps_spec 32 x 0 27 hx8 hx (by omega) (by omega)
    obtain ⟨k2, m2, b1, b2, b3, b4, b5, b6⟩ :=
      fine_steps_spec 32 (coarse_steps 32 x 0).1 (coarse_steps 32 x 0).2 k1 a1 a3 (by omega)
        (by omega)
    have hval : luaO_int2fb x =
        Int.lor
          ((((fine_steps 32 (coarse_steps 32 x 0).1 (coarse_steps 32 x 0).2).2 + 1) <<< 3 : Nat)
            : Int)
          (((fine_steps 32 (coarse_steps 32 x 0).1 (coarse_steps 32 x 0).2).1 : Int) - 8) := by
      unfold luaO_int2fb
      rw [if_neg h8]
    generalize hc : coarse_steps 32 x 0 = c at *
    generalize hf : fine_steps 32 c.1 c.2 = f at *
    obtain ⟨d1, d2, d3⟩ := floating_byte_decoded f.1 f.2 b1 b2 (by omega)
    have hbound : x ≤ f.1 * 2 ^ f.2 := by
      have hm1 : m1 = 2 ^ c.2 := by
        rw [← a6]
        simp
      calc x ≤ c.1 * m1 := a5
        _ ≤ (f.1 * m2) * m1 := Nat.mul_le_mul_right m1 b5
        _ = f.1 * (m2 * 2 ^ c.2) := by rw [hm1]; ring
        _ = f.1 * 2 ^ f.2 := by rw [b6]
    rw [hval, d1]
    refine ⟨by exact_mod_cast hbound, ?_, d2, d3, fun _ => ⟨b2, a2⟩⟩
    intro h16
    have hc1 : c = (x, 0) := by
      rw [← hc]
      show (if x ≥ 8 <<< 4 then _ else _) = _
      rw [if_neg (by show ¬ x ≥ 128; omega)]
    have hf1 : f = (x, 0) := by
      rw [← hf, hc1]
      show (if x ≥ 8 <<< 1 then _ else _) = _
      rw [if_neg (by show ¬ x ≥ 16; omega)]
    rw [hf1]
    simp

/-- Witness of C38: 1000 is encoded as the byte 64, which decodes to 1024, and 15 is
encoded and decoded exactly. -/
theorem luaO_fb2int_int2fb_witness :
    ((1000 : Nat) ≤ 15 * 2 ^ 27 ∧ luaO_int2fb 1000 = 64 ∧ luaO_fb2int 64 = 1024 ∧
      luaO_fb2int (luaO_int2fb 15) = 15) ∧
    ((1000 : Nat) : Int) ≤ luaO_fb2int (luaO_int2fb 1000) :=
  ⟨by decide, (luaO_fb2int_int2fb 1000 (by decide)).1⟩

/-! ## Theorems: chunk identifiers -/

theorem size_t_sub_of_le (a b : Nat) (hb : b ≤ a) (ha : a < 18446744073709551616) :
    size_t_sub a b = a - b := by
  unfold size_t_sub
  omega

theorem literal_bytes_ne_zero :
    (∀ b ∈ PRE, b ≠ 0) ∧ (∀ b ∈ RETS, b ≠ 0) ∧ (∀ b ∈ POS, b ≠ 0) ∧
      PRE.length = 9 ∧ RETS.length = 3 ∧ POS.length = 2 := by
  decide

theorem chunkid_after_mark (c : Nat) (t : List Nat) (bufflen : Nat)
    (ht : ∀ b ∈ t, b ≠ 0) (h1 : 1 ≤ bufflen) :
    ((((c :: t) ++ [0]).drop 1).take (t.length + 1) = t ++ [0]) ∧
    (bufflen < t.length + 1 →
      ((((c :: t) ++ [0]).drop 1).take (bufflen - 1) ++ [0]).length = bufflen ∧
      ∀ b ∈ (((c :: t) ++ [0]).drop 1).take (bufflen - 1), b ≠ 0) := by
  constructor
  · simp
  · intro hlt
    have hdrop : ((c :: t) ++ [0]).drop 1 = t ++ [0] := by simp
    rw [hdrop, List.take_append_of_le_length (by omega)]
    constructor
    · rw [List.length_append, List.length_take]
      simp
      omega
    · intro b hb
      exact ht b (List.mem_of_mem_take hb)

/-- C39: for every source and every `bufflen` from 16 up, what `luaO_chunkid` writes to
`out` is at most `bufflen` bytes long and is a string with its terminator: bytes other
than NUL followed by one NUL. This holds in each of the three formats, the literal after
`=`, the file name after `@` and the `[string "..."]` form. -/
theorem luaO_chunkid_terminated (source : List Nat) (bufflen : Nat) (h16 : 16 ≤ bufflen)
    (hsize : bufflen < 18446744073709551616) :
    (luaO_chunkid source bufflen).length ≤ bufflen ∧
    ∃ body, luaO_chunkid source bufflen = body ++ [0] ∧ ∀ b ∈ body, b ≠ 0 := by
  obtain ⟨hpre, hrets, hpos, lpre, lrets, lpos⟩ := literal_bytes_ne_zero
  have hs := c_string_ne_zero source
  have hl : strlen source = (c_string source).length := rfl
  unfold luaO_chunkid
  simp only [hl]
  generalize c_string source = s at hs
  have hsub1 : size_t_sub bufflen 1 = bufflen - 1 := size_t_sub_of_le _ _ (by omega) hsize
  have hsub3 : size_t_sub bufflen RETS.length = bufflen - 3 := by
    rw [lrets]
    exact size_t_sub_of_le _ _ (by omega) hsize
  have hsub15 : size_t_sub bufflen ((PRE ++ RETS ++ POS).length + 1) = bufflen - 15 := by
    rw [List.length_append, List.length_append, lpre, lrets, lpos]
    exact size_t_sub_of_le _ _ (by omega) hsize
  rw [hsub1, hsub3, hsub15]
  by_cases he : s.head? = some 61
  · rw [if_pos he]
    cases s with
    | nil => cases he
    | cons c t =>
      have ht : ∀ b ∈ t, b ≠ 0 := fun b hb => hs b (List.mem_cons_of_mem _ hb)
      obtain ⟨k1, k2⟩ := chunkid_after_mark c t bufflen ht (by omega)
      by_cases hfit : (c :: t).length ≤ bufflen
      · rw [if_pos hfit]
        simp only [List.length_cons] at hfit ⊢
        rw [k1]
        exact ⟨by simp; omega, t, rfl, ht⟩
      · rw [if_neg hfit]
        simp only [List.length_cons] at hfit
        obtain ⟨k3, k4⟩ := k2 (by omega)
        exact ⟨by omega, _, rfl, k4⟩
  · rw [if_neg he]
    by_cases ha : s.head? = some 64
    · rw [if_pos ha]
      cases s with
      | nil => cases ha
      | cons c t =>
        have ht : ∀ b ∈ t, b ≠ 0 := fun b hb => hs b (List.mem_cons_of_mem _ hb)
        obtain ⟨k1, _⟩ := chunkid_after_mark c t bufflen ht (by omega)
        by_cases hfit : (c :: t).length ≤ bufflen
        · rw [if_pos hfit]
          simp only [List.length_cons] at hfit ⊢
          rw [k1]
          exact ⟨by simp; omega, t, rfl, ht⟩
        · rw [if_neg hfit]
          simp only [List.length_cons] at hfit ⊢
          have hidx : 1 + (t.length + 1) - (bufflen - 3) =
              (t.length + 1 - (bufflen - 3)) + 1 := by omega
          have hdrop : ((c :: t) ++ [0]).drop (1 + (t.length + 1) - (bufflen - 3)) =
              t.drop (t.length + 1 - (bufflen - 3)) ++ [0] := by
            rw [hidx]
            show (t ++ [0]).drop (t.length + 1 - (bufflen - 3)) = _
            rw [List.drop_append_of_le_length (by omega)]
          rw [hdrop, List.take_of_length_le (by
            rw [List.length_append, List.length_drop]
            simp
            omega)]
          refine ⟨?_, RETS ++ t.drop (t.length + 1 - (bufflen - 3)), ?_, ?_⟩
          · rw [List.length_append, List.length_append, List.length_drop, lrets]
            simp
            omega
          · rw [List.append_assoc]
          · intro b hb
            rcases List.mem_append.1 hb with hb | hb
            · exact hrets b hb
            · exact ht b (List.mem_of_mem_drop hb)
    · rw [if_neg ha]
      by_cases hsmall : s.length < bufflen - 15 ∧
          (if s.contains 10 then some (s.indexOf 10) else none) = none
      · rw [if_pos hsmall]
        have htake : (s ++ [0]).take s.length = s := by simp
        rw [htake]
        refine ⟨?_, PRE ++ s ++ POS, ?_, ?_⟩
        · simp only [List.length_append, lpre, lpos, List.length_singleton]
          omega
        · simp only [List.append_assoc]
        · intro b hb
          rcases List.mem_append.1 hb with hb | hb
          · rcases List.mem_append.1 hb with hb | hb
            · exact hpre b hb
            · exact hs b hb
          · exact hpos b hb
      · rw [if_neg hsmall]
        have hl1 : (match (if s.contains 10 then some (s.indexOf 10) else none) with
            | some i => i
            | none => s.length) ≤ s.length := by
          by_cases hc : s.contains 10 = true
          · simp only [hc, if_true]
            exact List.indexOf_le_length
          · simp only [hc, Bool.false_eq_true, if_false]
            exact le_refl _
        generalize (match (if s.contains 10 then some (s.indexOf 10) else none) with
            | some i => i
            | none => s.length) = l1 at hl1
        have hl2a : (if l1 > bufflen - 15 then bufflen - 15 else l1) ≤ bufflen - 15 := by
          split <;> omega
        have hl2b : (if l1 > bufflen - 15 then bufflen - 15 else l1) ≤ s.length := by
          split <;> omega
        generalize (if l1 > bufflen - 15 then bufflen - 15 else l1) = l2 at hl2a hl2b
        have htake : (s ++ [0]).take l2 = s.take l2 :=
          List.take_append_of_le_length hl2b
        rw [htake]
        refine ⟨?_, PRE ++ s.take l2 ++ RETS ++ POS, ?_, ?_⟩
        · simp only [List.length_append, lpre, lpos, lrets, List.length_singleton,
            List.length_take]
          omega
        · simp only [List.append_assoc]
        · intro b hb
          rcases List.mem_append.1 hb with hb | hb
          · rcases List.mem_append.1 hb with hb | hb
            · rcases List.mem_append.1 hb with hb | hb
              · exact hpre b hb
              · exact hs b (List.mem_of_mem_take hb)
            · exact hrets b hb
          · exact hpos b hb

/-- Witness of C39: with room for 16 bytes, the file name of 26 letters is cut to `...`
and its last 12 letters, the literal to its first 15 letters, and the one-line source
`return 1` to `r...`; each is written with its terminator in 16 bytes. -/
theorem luaO_chunkid_terminated_witness :
    ((16 : Nat) ≤ 16 ∧ (16 : Nat) < 18446744073709551616) ∧
    luaO_chunkid (bytes_of "@abcdefghijklmnopqrstuvwxyz") 16 =
      bytes_of "...opqrstuvwxyz" ++ [0] ∧
    luaO_chunkid (bytes_of "=abcdefghijklmnopqrstuvwxyz") 16 =
      bytes_of "abcdefghijklmno" ++ [0] ∧
    luaO_chunkid (bytes_of "return 1") 16 = bytes_of "[string \"r...\"]" ++ [0] ∧
    (luaO_chunkid (bytes_of "@abcdefghijklmnopqrstuvwxyz") 16).length ≤ 16 :=
  ⟨by decide, by decide, by decide, by decide,
    (luaO_chunkid_terminated (bytes_of "@abcdefghijklmnopqrstuvwxyz") 16 (by decide)
      (by decide)).1⟩

/-! ## Theorems: numerals -/

theorem dropWhile_append_of_all {α : Type} (p : α → Bool) (ws rest : List α)
    (h : ∀ c ∈ ws, p c = true) : (ws ++ rest).dropWhile p = rest.dropWhile p := by
  induction ws with
  | nil => rfl
  | cons c t ih =>
    have hc : p c = true := h c (List.mem_cons_self _ _)
    simp only [List.cons_append, List.dropWhile_cons, hc, if_true]
    exact ih (fun x hx => h x (List.mem_cons_of_mem _ hx))

theorem dropWhile_of_all {α : Type} (p : α → Bool) (ws : List α)
    (h : ∀ c ∈ ws, p c = true) : ws.dropWhile p = [] := by
  have := dropWhile_append_of_all p ws [] h
  simpa using this

theorem digits_fold_affine (ds : List Char) : ∀ x : Nat,
    ds.foldl (fun a c => 10 * a + (c.toNat - 48)) x =
      x * 10 ^ ds.length + ds.foldl (fun a c => 10 * a + (c.toNat - 48)) 0 := by
  induction ds with
  | nil => intro x; simp
  | cons c t ih =>
    intro x
    simp only [List.foldl_cons, List.length_cons]
    rw [ih (10 * x + (c.toNat - 48)), ih (10 * 0 + (c.toNat - 48))]
    ring

theorem read_decimal_digits (ds rest : List Char) (hds : ∀ c ∈ ds, c.isDigit = true)
    (hrest : ∀ c r, rest = c :: r → c.isDigit = false) :
    ∀ (a : Nat) (empty : Bool), a < 18446744073709551616 →
      read_decimal (ds ++ rest) a empty =
        ((ds.foldl (fun a c => 10 * a + (c.toNat - 48)) a) % 18446744073709551616,
          (if ds = [] then empty else false), rest) := by
  induction ds with
  | nil =>
    intro a empty ha
    simp only [List.nil_append, List.foldl_nil, if_true, Nat.mod_eq_of_lt ha]
    cases rest with
    | nil => rfl
    | cons c r =>
      have hc := hrest c r rfl
      simp only [read_decimal, hc, Bool.false_eq_true, if_false]
  | cons c t ih =>
    intro a empty ha
    have hc : c.isDigit = true := hds c (List.mem_cons_self _ _)
    have hstep : read_decimal (c :: t ++ rest) a empty =
        read_decimal (t ++ rest) ((a * 10 + (c.toNat - 48)) % 18446744073709551616) false := by
      show read_decimal (c :: (t ++ rest)) a empty = _
      simp only [read_decimal, hc, if_true]
    rw [hstep, ih (fun x hx => hds x (List.mem_cons_of_mem _ hx)) _ _
      (Nat.mod_lt _ (by decide))]
    have hne : ¬ (c :: t = []) := by simp
    rw [if_neg hne]
    simp only [List.foldl_cons]
    have h2 : 10 * a + (c.toNat - 48) = a * 10 + (c.toNat - 48) := by ring
    rw [h2, digits_fold_affine t ((a * 10 + (c.toNat - 48)) % 18446744073709551616),
      digits_fold_affine t (a * 10 + (c.toNat - 48))]
    have hmod : ((a * 10 + (c.toNat - 48)) % 18446744073709551616 * 10 ^ t.length +
        List.foldl (fun a c => 10 * a + (c.toNat - 48)) 0 t) % 18446744073709551616 =
        ((a * 10 + (c.toNat - 48)) * 10 ^ t.length +
        List.foldl (fun a c => 10 * a + (c.toNat - 48)) 0 t) % 18446744073709551616 := by
      rw [Nat.add_mod, Nat.mul_mod, Nat.mod_mod, ← Nat.mul_mod, ← Nat.add_mod]
    rw [hmod]
    by_cases ht : t = []
    · rw [if_pos ht]
    · rw [if_neg ht]

theorem read_decimal_left (l : List Char) : ∀ (a : Nat) (empty : Bool),
    (read_decimal l a empty).2.1 = (empty && (l.takeWhile Char.isDigit).isEmpty) ∧
      (read_decimal l a empty).2.2 = l.dropWhile Char.isDigit := by
  induction l with
  | nil =>
    intro a empty
    simp [read_decimal]
  | cons c t ih =>
    intro a empty
    by_cases hc : c.isDigit = true
    · simp only [read_decimal, hc, if_true, List.takeWhile_cons, List.dropWhile_cons]
      obtain ⟨i1, i2⟩ := ih ((a * 10 + (c.toNat - 48)) % 18446744073709551616) false
      rw [i1, i2]
      simp
    · simp only [read_decimal, hc, if_false, List.takeWhile_cons, List.dropWhile_cons]
      simp

theorem is_space_not_digit (c : Char) (h : is_space c = true) :
    c.isDigit = false ∧ c ≠ '-' ∧ c ≠ '+' ∧ c ≠ 'x' ∧ c ≠ 'X' ∧ c ≠ Char.ofNat 0 := by
  unfold is_space at h
  simp only [Bool.or_eq_true, beq_iff_eq] at h
  rcases h with ((((h | h) | h) | h) | h) | h <;> subst h <;> decide

theorem digit_not_special (c : Char) (h : c.isDigit = true) :
    is_space c = false ∧ c ≠ '-' ∧ c ≠ '+' ∧ c ≠ 'x' ∧ c ≠ 'X' ∧ c ≠ Char.ofNat 0 := by
  refine ⟨?_, ?_, ?_, ?_, ?_, ?_⟩
  · cases hs : is_space c
    · rfl
    · rw [(is_space_not_digit c hs).1] at h
      cases h
  all_goals
    intro hc
    subst hc
    revert h
    decide

theorem is_hex_numeral_of_digits (digits ws2 : List Char)
    (hdigits : ∀ c ∈ digits, c.isDigit = true) (hws2 : ∀ c ∈ ws2, is_space c = true) :
    is_hex_numeral (digits ++ ws2) = false := by
  have hx : ∀ c ∈ digits ++ ws2, c ≠ 'x' ∧ c ≠ 'X' := by
    intro c hc
    rcases List.mem_append.1 hc with hc | hc
    · exact ⟨(digit_not_special c (hdigits c hc)).2.2.2.1,
        (digit_not_special c (hdigits c hc)).2.2.2.2.1⟩
    · exact ⟨(is_space_not_digit c (hws2 c hc)).2.2.2.1,
        (is_space_not_digit c (hws2 c hc)).2.2.2.2.1⟩
  generalize digits ++ ws2 = l at hx
  unfold is_hex_numeral
  split
  · exact absurd rfl (hx 'x' (by simp)).1
  · exact absurd rfl (hx 'X' (by simp)).2
  · rfl

theorem int64_t_of_unsigned (n : Nat) :
    int64_t (((18446744073709551616 - n % 18446744073709551616) % 18446744073709551616 : Nat)
      : Int) = int64_t (-(n : Int)) ∧
    int64_t ((n % 18446744073709551616 : Nat) : Int) = int64_t (n : Int) := by
  unfold int64_t
  constructor <;> omega

theorem l_str2int_of_body (s : String) (neg : Bool) (digits ws2 : List Char)
    (hbody : isneg ((c_str s).data.dropWhile is_space) = (neg, digits ++ ws2))
    (hne : digits ≠ []) (hdigits : ∀ c ∈ digits, c.isDigit = true)
    (hws2 : ∀ c ∈ ws2, is_space c = true) :
    l_str2int s =
      some (int64_t (if neg then -(digits_value digits : Int) else (digits_value digits : Int))) := by
  have hrest : ∀ c r, ws2 = c :: r → c.isDigit = false := by
    intro c r hc
    exact (is_space_not_digit c (hws2 c (by rw [hc]; exact List.mem_cons_self _ _))).1
  have hread := read_decimal_digits digits ws2 hdigits hrest 0 true (by decide)
  rw [if_neg hne] at hread
  unfold l_str2int
  simp only [hbody, is_hex_numeral_of_digits digits ws2 hdigits hws2, Bool.false_eq_true,
    if_false, hread, dropWhile_of_all is_space ws2 hws2, List.isEmpty_nil, Bool.not_true,
    Bool.or_self]
  have hv : List.foldl (fun a c => 10 * a + (c.toNat - 48)) 0 digits = digits_value digits :=
    rfl
  rw [hv]
  cases neg
  · simp only [Bool.false_eq_true, if_false]
    rw [(int64_t_of_unsigned _).2]
  · simp only [if_true]
    rw [(int64_t_of_unsigned _).1]

theorem isneg_of_numeral (ws1 sign digits ws2 : List Char)
    (hws1 : ∀ c ∈ ws1, is_space c = true)
    (hsign : sign = [] ∨ sign = ['-'] ∨ sign = ['+'])
    (hne : digits ≠ []) (hdigits : ∀ c ∈ digits, c.isDigit = true)
    (hws2 : ∀ c ∈ ws2, is_space c = true) :
    c_str (String.mk (ws1 ++ sign ++ digits ++ ws2)) = String.mk (ws1 ++ sign ++ digits ++ ws2) ∧
    isneg ((ws1 ++ sign ++ digits ++ ws2).dropWhile is_space) =
      (decide (sign = ['-']), digits ++ ws2) := by
  obtain ⟨d, ds, rfl⟩ : ∃ d ds, digits = d :: ds := by
    cases digits with
    | nil => exact absurd rfl hne
    | cons d ds => exact ⟨d, ds, rfl⟩
  have hd := digit_not_special d (hdigits d (List.mem_cons_self _ _))
  constructor
  · apply c_str_of_no_nul
    intro hmem
    simp only [List.mem_append] at hmem
    rcases hmem with ((hmem | hmem) | hmem) | hmem
    · exact (is_space_not_digit _ (hws1 _ hmem)).2.2.2.2.2 rfl
    · rcases hsign with h | h | h <;> subst h <;> revert hmem <;> decide
    · exact (digit_not_special _ (hdigits _ hmem)).2.2.2.2.2 rfl
    · exact (is_space_not_digit _ (hws2 _ hmem)).2.2.2.2.2 rfl
  · have hassoc : ws1 ++ sign ++ (d :: ds) ++ ws2 = ws1 ++ (sign ++ (d :: ds) ++ ws2) := by
      simp only [List.append_assoc]
    rw [hassoc, dropWhile_append_of_all is_space ws1 _ hws1]
    rcases hsign with h | h | h <;> subst h
    · have hdrop : ([] ++ (d :: ds) ++ ws2).dropWhile is_space = d :: (ds ++ ws2) := by
        simp only [List.nil_append, List.cons_append, List.dropWhile_cons, hd.1,
          Bool.false_eq_true, if_false]
      rw [hdrop]
      unfold isneg
      split
      · rename_i heq
        injection heq with h1 _
        exact absurd h1 hd.2.1
      · rename_i heq
        injection heq with h1 _
        exact absurd h1 hd.2.2.1
      · simp
    · have hdrop : (['-'] ++ (d :: ds) ++ ws2).dropWhile is_space = '-' :: (d :: ds ++ ws2) := by
        have : is_space '-' = false := by decide
        simp only [List.cons_append, List.nil_append, List.dropWhile_cons, this,
          Bool.false_eq_true, if_false]
      rw [hdrop]
      simp [isneg]
    · have hdrop : (['+'] ++ (d :: ds) ++ ws2).dropWhile is_space = '+' :: (d :: ds ++ ws2) := by
        have : is_space '+' = false := by decide
        simp only [List.cons_append, List.nil_append, List.dropWhile_cons, this,
          Bool.false_eq_true, if_false]
      rw [hdrop]
      simp [isneg]

/-- C36 (as amended): for every text made of optional spaces, an optional sign, at least
one decimal digit and optional spaces, `l_str2int` succeeds, and so does `luaO_str2num`,
with the value of the numeral reduced modulo `2^64` into the signed 64-bit range, which
is the value itself whenever that fits. For a text whose digits do not begin a hexadecimal
numeral `0x`, it fails when no digit stands after the spaces and the sign, and when
something other than spaces follows the digits. -/
theorem l_str2int_decimal (ws1 sign digits ws2 : List Char)
    (hws1 : ∀ c ∈ ws1, is_space c = true)
    (hsign : sign = [] ∨ sign = ['-'] ∨ sign = ['+'])
    (hne : digits ≠ []) (hdigits : ∀ c ∈ digits, c.isDigit = true)
    (hws2 : ∀ c ∈ ws2, is_space c = true) :
    l_str2int (String.mk (ws1 ++ sign ++ digits ++ ws2)) =
      some (int64_t (if sign = ['-'] then -(digits_value digits : Int)
        else (digits_value digits : Int))) ∧
    ((-9223372036854775808 ≤
        (if sign = ['-'] then -(digits_value digits : Int) else (digits_value digits : Int)) ∧
      (if sign = ['-'] then -(digits_value digits : Int) else (digits_value digits : Int)) ≤
        9223372036854775807) →
      l_str2int (String.mk (ws1 ++ sign ++ digits ++ ws2)) =
        some (if sign = ['-'] then -(digits_value digits : Int)
          else (digits_value digits : Int))) ∧
    (∀ l_str2d : String → Option Int,
      luaO_str2num l_str2d (String.mk (ws1 ++ sign ++ digits ++ ws2)) =
        some (.integer (int64_t (if sign = ['-'] then -(digits_value digits : Int)
          else (digits_value digits : Int))), (ws1 ++ sign ++ digits ++ ws2).length + 1)) ∧
    (∀ s : String,
      is_hex_numeral (isneg ((c_str s).data.dropWhile is_space)).2 = false →
      ((isneg ((c_str s).data.dropWhile is_space)).2.takeWhile Char.isDigit = [] ∨
        (((isneg ((c_str s).data.dropWhile is_space)).2.dropWhile Char.isDigit).dropWhile
          is_space) ≠ []) →
      l_str2int s = none) := by
  obtain ⟨hc, hneg⟩ := isneg_of_numeral ws1 sign digits ws2 hws1 hsign hne hdigits hws2
  have hmain : l_str2int (String.mk (ws1 ++ sign ++ digits ++ ws2)) =
      some (int64_t (if sign = ['-'] then -(digits_value digits : Int)
        else (digits_value digits : Int))) := by
    have hbody : isneg ((c_str (String.mk (ws1 ++ sign ++ digits ++ ws2))).data.dropWhile
        is_space) = (decide (sign = ['-']), digits ++ ws2) := by
      rw [hc]
      exact hneg
    rw [l_str2int_of_body _ _ digits ws2 hbody hne hdigits hws2]
    by_cases hs : sign = ['-']
    · simp [hs]
    · simp [hs]
  refine ⟨hmain, ?_, ?_, ?_⟩
  · intro hfit
    rw [hmain, int64_t_of_range _ hfit.1 hfit.2]
  · intro l_str2d
    unfold luaO_str2num
    rw [hmain, hc]
    rfl
  · intro s hhex hbad
    unfold l_str2int
    simp only [hhex, Bool.false_eq_true, if_false]
    obtain ⟨r1, r2⟩ := read_decimal_left (isneg ((c_str s).data.dropWhile is_space)).2 0 true
    rw [r1, r2]
    rcases hbad with hbad | hbad
    · rw [hbad]
      rfl
    · have : ((List.dropWhile Char.isDigit
          (isneg ((c_str s).data.dropWhile is_space)).2).dropWhile is_space).isEmpty = false := by
        cases hl : (List.dropWhile Char.isDigit
          (isneg ((c_str s).data.dropWhile is_space)).2).dropWhile is_space with
        | nil => exact absurd hl hbad
        | cons a b => rfl
      rw [this]
      simp

/-- Witness of C36 as amended: the text ` -12 ` is read as -12. -/
theorem l_str2int_decimal_witness :
    ((∀ c ∈ [' '], is_space c = true) ∧ ['1', '2'] ≠ [] ∧
      (∀ c ∈ ['1', '2'], c.isDigit = true)) ∧
    l_str2int " -12 " = some (-12) ∧ l_str2int "12a" = none ∧ l_str2int " - " = none ∧
    l_str2int (String.mk ([' '] ++ ['-'] ++ ['1', '2'] ++ [' '])) =
      some (int64_t (if ['-'] = ['-'] then -(digits_value ['1', '2'] : Int)
        else (digits_value ['1', '2'] : Int))) :=
  ⟨by decide, by decide, by decide, by decide,
    (l_str2int_decimal [' '] ['-'] ['1', '2'] [' '] (by decide) (by decide) (by decide)
      (by decide) (by decide)).1⟩

/-- Counterexample to C36 as stated: in `0x10` the character `x` follows the digit 0 and
is no space, yet `l_str2int` succeeds, reading the text as the hexadecimal numeral 16;
`0xfF` gives 255. -/
theorem l_str2int_reads_hexadecimal :
    (("0x10".data.dropWhile Char.isDigit).dropWhile is_space ≠ [] ∧
      l_str2int "0x10" = some 16) ∧
    l_str2int "0xfF" = some 255 ∧ l_str2int "0x" = none ∧ l_str2int "12a" = none := by
  decide

/-! ## Theorems: the sum of the balances -/

theorem total_balance_cons (k : String) (v : CborObject) (t : List (String × CborObject)) :
    total_balance ((k, v) :: t) = (v.force_as_int).getD 0 + total_balance t := by
  simp [total_balance]

theorem balance_in_cons (k1 k : String) (v1 : CborObject) (t : List (String × CborObject)) :
    balance_in ((k1, v1) :: t) k = if k1 = k then v1.force_as_int else balance_in t k := by
  unfold balance_in
  simp only [map_find]
  by_cases h : k1 = k
  · rw [if_pos h, if_pos h]
  · rw [if_neg h, if_neg h]

theorem total_balance_assign (m : List (String × CborObject)) (k : String) (v : CborObject) :
    total_balance (map_assign m k v) =
      total_balance m - (balance_in m k).getD 0 + (v.force_as_int).getD 0 := by
  induction m with
  | nil =>
    simp [map_assign, total_balance, balance_in, map_find]
  | cons hd tl ih =>
    obtain ⟨k1, v1⟩ := hd
    have ih1 := ih
    rw [balance_in_cons]
    by_cases h : k1 = k
    · simp only [map_assign, h, if_true, total_balance_cons]
      omega
    · simp only [map_assign, h, if_false, total_balance_cons, ih1]
      omega

theorem map_erase_of_not_mem (m : List (String × CborObject)) (k : String)
    (h : k ∉ m.map Prod.fst) : map_erase m k = m := by
  unfold map_erase
  rw [List.filter_eq_self]
  intro p hp
  simp only [bne_iff_ne, ne_eq]
  intro he
  exact h (List.mem_map.2 ⟨p, hp, he⟩)

theorem balance_in_of_not_mem (m : List (String × CborObject)) (k : String)
    (h : k ∉ m.map Prod.fst) : balance_in m k = some 0 := by
  induction m with
  | nil => rfl
  | cons hd tl ih =>
    obtain ⟨k1, v1⟩ := hd
    rw [balance_in_cons]
    have h1 : k1 ≠ k := by
      intro he
      apply h
      simp [he]
    rw [if_neg h1]
    apply ih
    intro hm
    apply h
    simp only [List.map_cons, List.mem_cons]
    exact Or.inr hm

theorem total_balance_erase (m : List (String × CborObject)) (k : String)
    (hnd : (m.map Prod.fst).Nodup) :
    total_balance (map_erase m k) = total_balance m - (balance_in m k).getD 0 := by
  induction m with
  | nil => simp [map_erase, total_balance, balance_in, map_find]
  | cons hd tl ih =>
    obtain ⟨k1, v1⟩ := hd
    simp only [List.map_cons, List.nodup_cons] at hnd
    rw [balance_in_cons]
    by_cases h : k1 = k
    · subst h
      have hfilter : map_erase ((k1, v1) :: tl) k1 = map_erase tl k1 := by
        unfold map_erase
        simp
      rw [hfilter, map_erase_of_not_mem tl k1 hnd.1, if_pos rfl, total_balance_cons]
      omega
    · have hfilter : map_erase ((k1, v1) :: tl) k = (k1, v1) :: map_erase tl k := by
        unfold map_erase
        have hb : (k1 != k) = true := by simpa using h
        simp [List.filter_cons, hb]
      rw [hfilter, if_neg h, total_balance_cons, total_balance_cons, ih hnd.2]
      omega

theorem balance_in_le_total (m : List (String × CborObject)) (k : String)
    (hpos : ∀ p ∈ m, ∃ b, p.2.force_as_int = some b ∧ 0 ≤ b) :
    0 ≤ (balance_in m k).getD 0 ∧ (balance_in m k).getD 0 ≤ total_balance m ∧
      0 ≤ total_balance m := by
  induction m with
  | nil => simp [balance_in, map_find, total_balance]
  | cons hd tl ih =>
    obtain ⟨k1, v1⟩ := hd
    obtain ⟨i1, i2, i3⟩ := ih (fun p hp => hpos p (List.mem_cons_of_mem _ hp))
    obtain ⟨b, hb, hb0⟩ := hpos (k1, v1) (List.mem_cons_self _ _)
    have hb1 : v1.force_as_int = some b := hb
    rw [balance_in_cons, total_balance_cons, hb1]
    by_cases h : k1 = k
    · rw [if_pos h]
      simp only [Option.getD_some]
      omega
    · rw [if_neg h]
      simp only [Option.getD_some]
      omega

theorem mem_map_assign (m : List (String × CborObject)) (k : String) (v : CborObject) :
    ∀ p ∈ map_assign m k v, p ∈ m ∨ p.2 = v := by
  induction m with
  | nil =>
    intro p hp
    simp only [map_assign, List.mem_singleton] at hp
    exact Or.inr (by rw [hp])
  | cons hd tl ih =>
    obtain ⟨k1, v1⟩ := hd
    intro p hp
    by_cases h : k1 = k
    · simp only [map_assign, h, if_true, List.mem_cons] at hp
      rcases hp with hp | hp
      · exact Or.inr (by rw [hp])
      · exact Or.inl (List.mem_cons_of_mem _ hp)
    · simp only [map_assign, h, if_false, List.mem_cons] at hp
      rcases hp with hp | hp
      · exact Or.inl (by rw [hp]; exact List.mem_cons_self _ _)
      · rcases ih p hp with h1 | h1
        · exact Or.inl (List.mem_cons_of_mem _ h1)
        · exact Or.inr h1

/-- The sum of the balances after `amount` has gone from the balance `fb` of `from_addr`
to the balance of `to_addr`, in a users map of non-negative balances whose sum fits in
`int64_t`. -/
theorem total_balance_moved (users : List (String × CborObject)) (from_addr to_addr : String)
    (fb amount ta : Int) (hvalid : ValidBalances users)
    (hfit : total_balance users ≤ 9223372036854775807)
    (hfb : balance_in users from_addr = some fb) (h0 : 0 < amount) (hle : amount ≤ fb)
    (hta : balance_in (debit users from_addr fb amount) to_addr = some ta) :
    total_balance (credit (debit users from_addr fb amount) to_addr ta amount) =
      total_balance users := by
  obtain ⟨hnd, hpos⟩ := hvalid
  obtain ⟨f1, f2, f3⟩ := balance_in_le_total users from_addr hpos
  rw [hfb] at f1 f2
  simp only [Option.getD_some] at f1 f2
  have hr : int64_t (fb - amount) = fb - amount := int64_t_of_range _ (by omega) (by omega)
  have hdebit_total : total_balance (debit users from_addr fb amount) =
      total_balance users - amount := by
    unfold debit
    rw [hr]
    by_cases hp : fb - amount > 0
    · rw [if_pos hp, total_balance_assign, hfb]
      simp only [Option.getD_some, CborObject.force_as_int, hr]
      omega
    · rw [if_neg hp, total_balance_erase _ _ hnd, hfb]
      simp only [Option.getD_some]
      omega
  have hdebit_pos : ∀ p ∈ debit users from_addr fb amount,
      ∃ b, p.2.force_as_int = some b ∧ 0 ≤ b := by
    intro p hp
    unfold debit at hp
    rw [hr] at hp
    by_cases hpz : fb - amount > 0
    · rw [if_pos hpz] at hp
      rcases mem_map_assign _ _ _ p hp with h1 | h1
      · exact hpos p h1
      · refine ⟨fb - amount, ?_, by omega⟩
        rw [h1]
        simp only [CborObject.force_as_int, hr]
    · rw [if_neg hpz] at hp
      unfold map_erase at hp
      exact hpos p (List.mem_of_mem_filter hp)
  obtain ⟨t1, t2, t3⟩ := balance_in_le_total (debit users from_addr fb amount) to_addr hdebit_pos
  rw [hta] at t1 t2
  simp only [Option.getD_some] at t1 t2
  have hsum : int64_t (int64_t (ta + amount)) = ta + amount := by
    rw [int64_t_of_range (ta + amount) (by omega) (by omega)]
    exact int64_t_of_range (ta + amount) (by omega) (by omega)
  unfold credit
  rw [total_balance_assign, hta, hdebit_total]
  simp only [Option.getD_some, CborObject.force_as_int, hsum]
  omega

/-- C32: in a state whose users map holds distinct addresses with non-negative balances
that sum to a total within `int64_t`, every `transfer_api` call and every
`transfer_from_api` call that returns, sender and recipient being the same address or
not, leaves a users map whose balances sum to the same total. -/
theorem transfers_keep_total_balance (env : TokenEnv) (res res1 : contract_invoke_result)
    (api_arg : String) (users : List (String × CborObject))
    (hcodec : CodecLaw env)
    (husers : get_storage_users env res = some users)
    (hvalid : ValidBalances users)
    (hfit : total_balance users ≤ 9223372036854775807) :
    (transfer_api env res api_arg = .returned res1 →
      ∃ users1, get_storage_users env res1 = some users1 ∧
        total_balance users1 = total_balance users) ∧
    (transfer_from_api env res api_arg = .returned res1 →
      ∃ users1, get_storage_users env res1 = some users1 ∧
        total_balance users1 = total_balance users) := by
  constructor
  · intro hok
    obtain ⟨amount, users0, from_cbor, fb, ta, res0, _, _, _, _, hpos, husers0, hfc, hfbal, hge,
      hta, hstore, hres1⟩ := transfer_api_returned env res res1 api_arg hok
    rw [husers] at husers0
    have e : users = users0 := Option.some.inj husers0
    subst e
    have hfb : balance_in users env.caller_address = some fb := by
      unfold balance_in
      rw [hfc]
      exact hfbal
    have k := store_ok env hcodec res res0 _ _ hstore
    refine ⟨_, ?_, total_balance_moved users _ _ fb amount ta hvalid hfit hfb hpos hge hta⟩
    rw [hres1]
    simp only [get_storage_users, get_storage_object_events, k.1, Option.bind,
      CborObject.as_map]
  · intro hok
    obtain ⟨amount, users0, allowed, fb, c, data, x, al, ta, r0, r2, _, _, _, _, hpos,
      husers0, _, hfb, hle1, _, _, _, _, _, hta, hs1, hs2, hres1⟩ :=
      transfer_from_api_returned env res res1 api_arg hok
    rw [husers] at husers0
    have e : users = users0 := Option.some.inj husers0
    subst e
    rw [get_balance_of_user_eq env res users _ husers] at hfb
    have k1 := store_ok env hcodec res r0 _ _ hs1
    have k2 := store_ok env hcodec r0 r2 _ _ hs2
    refine ⟨_, ?_, total_balance_moved users _ _ fb amount ta hvalid hfit hfb hpos hle1 hta⟩
    rw [hres1]
    simp only [get_storage_users, get_storage_object_events]
    rw [k2.2.1 "users" (by decide), k1.1]
    rfl

theorem valid_single_balance (a : String) (b : Int) (h0 : 0 ≤ b)
    (h1 : b ≤ 9223372036854775807) : ValidBalances [(a, .COT_INT b)] := by
  refine ⟨by simp, ?_⟩
  intro p hp
  simp only [List.mem_singleton] at hp
  subst hp
  exact ⟨b, by simp only [CborObject.force_as_int,
    int64_t_of_range b (by omega) h1], h0⟩

/-- Witness of C32: in scenario S1 the balances sum to 10000 before and after
`transfer("B,300")` by `A`; in scenario S2 they do before and after
`transferFrom("A,A,200")` by `C`, whose sender and recipient are the same address. -/
theorem transfers_keep_total_balance_witness :
    (total_balance [("A", .COT_INT 10000)] = 10000 ∧
      transfer_api s1Env emptyResult "B,300" =
        .returned (transfer_api s1Env emptyResult "B,300").result ∧
      transfer_from_api s2Env emptyResult "A,A,200" =
        .returned (transfer_from_api s2Env emptyResult "A,A,200").result) ∧
    (∃ users1, get_storage_users s1Env (transfer_api s1Env emptyResult "B,300").result =
        some users1 ∧ total_balance users1 = total_balance [("A", .COT_INT 10000)]) ∧
    (∃ users1,
      get_storage_users s2Env (transfer_from_api s2Env emptyResult "A,A,200").result =
        some users1 ∧ total_balance users1 = total_balance [("A", .COT_INT 10000)]) :=
  ⟨⟨by decide, by decide, by decide⟩,
    (transfers_keep_total_balance s1Env emptyResult
      (transfer_api s1Env emptyResult "B,300").result "B,300" [("A", .COT_INT 10000)]
      (fun x => demo_decode_encode x) rfl (valid_single_balance "A" 10000 (by decide) (by decide))
      (by decide)).1 (by decide),
    (transfers_keep_total_balance s2Env emptyResult
      (transfer_from_api s2Env emptyResult "A,A,200").result "A,A,200" [("A", .COT_INT 10000)]
      (fun x => demo_decode_encode x) rfl (valid_single_balance "A" 10000 (by decide) (by decide))
      (by decide)).2 (by decide)⟩

end Uvm
